import Mathlib

/-!
# myvector: a std::vector imitation (src/024/myvector.hpp)

A shallow embedding of the class template `myvector<T>` and of the part of the C++
abstract machine it relies on (malloc/realloc, placement new, explicit destructor
calls, exceptions), followed by theorems about its member functions.

* `size_type` values are natural numbers; every arithmetic operation of the source that
  can wrap is reduced modulo `2 ^ bits` explicitly.
* A heap block is a list of slots; a slot is `none` while it is raw storage and `some x`
  while it holds a live element `x`.  A pointer to a block is `some block`, the null
  pointer is `none` (the container owns its block exclusively).
* A member function is a state transformer with three kinds of results: normal return,
  a thrown exception (the state at the throw point is kept), or undefined behaviour
  (a slot outside of the block is touched, a raw slot is read or destroyed).
-/

namespace MyVector

/-! ## Compile-time parameters of an instantiation -/

/-- The three tag types that `realloc_switcher` chooses from. -/
inductive realloc_tag where
  | trivially_copyable_tag
  | move_constructible_tag
  | copy_constructible_tag
deriving DecidableEq, Repr

/-- What an instantiation `myvector<T>` on a given platform fixes at compile time:
the width of `size_type`, `sizeof(value_type)` and the tag `realloc_switcher`. -/
structure Target where
  bits : Nat
  sizeof_value : Nat
  realloc_switcher : realloc_tag
deriving DecidableEq, Repr

/-- Reduction of an arithmetic result to the range of `size_type`. -/
def wrap (T : Target) (n : Nat) : Nat := n % 2 ^ T.bits

/-- The enumerator `MAX_SIZE_BYTES = std::numeric_limits<size_type>::max()`. -/
def MAX_SIZE_BYTES (T : Target) : Nat := 2 ^ T.bits - 1

/-- The enumerator `MAX_SIZE = MAX_SIZE_BYTES / sizeof(value_type)`. -/
def MAX_SIZE (T : Target) : Nat := MAX_SIZE_BYTES T / T.sizeof_value

/-- The expression `sizeof(value_type) * count`, evaluated in `size_type`. -/
def bytes_for (T : Target) (count : Nat) : Nat := wrap T (T.sizeof_value * count)

/-- An object type has a size of at least one byte, and the size is a `size_t` value. -/
def Target.valid (T : Target) : Prop :=
  1 ≤ T.sizeof_value ∧ T.sizeof_value ≤ MAX_SIZE_BYTES T

instance (T : Target) : Decidable T.valid := by
  unfold Target.valid; infer_instance

/-! ## Exceptions, outcomes, the execution monad -/

/-- The exceptions thrown by the member functions. -/
inductive Exception where
  | length_error
  | bad_alloc
  | out_of_range
deriving DecidableEq, Repr

/-- Result of running a piece of code from a state: it returns `val` in state `st`,
or leaves by an exception with the state as it was at the throw, or its behaviour
is undefined. -/
inductive Outcome (σ β : Type) where
  | ok (val : β) (st : σ)
  | thrown (e : Exception) (st : σ)
  | undefined
deriving DecidableEq, Repr

/-- A computation over states of type `σ` with a result of type `β`. -/
def Exec (σ β : Type) : Type := σ → Outcome σ β

/-- Normal return. -/
def Exec.pure {σ β : Type} (b : β) : Exec σ β := fun s => .ok b s

/-- Sequencing: an exception or undefined behaviour of the first part ends the run. -/
def Exec.bind {σ β γ : Type} (x : Exec σ β) (f : β → Exec σ γ) : Exec σ γ := fun s =>
  match x s with
  | .ok b s1 => f b s1
  | .thrown e s1 => .thrown e s1
  | .undefined => .undefined

instance (σ : Type) : Monad (Exec σ) where
  pure := Exec.pure
  bind := Exec.bind

/-- The statement `throw e;`. -/
def raise {σ β : Type} (e : Exception) : Exec σ β := fun s => .thrown e s

/-- Executing an operation whose behaviour the language leaves undefined. -/
def undefined_behavior {σ β : Type} : Exec σ β := fun _ => .undefined

/-- A loop `for (i = start; <count more iterations>; i++) acc = body(i, acc)`: the
index runs upwards and `acc` stands for the local variables the body updates. -/
def for_loop {σ β : Type} (body : Nat → β → Exec σ β) : Nat → Nat → β → Exec σ β
  | _, 0, acc => Exec.pure acc
  | i, k + 1, acc => Exec.bind (body i acc) (fun acc1 => for_loop body (i + 1) k acc1)

/-! ## The system allocator -/

/-- The environment behind `malloc`/`realloc`: `grants k bytes` tells whether the
allocation request number `k` (counted from 0) for `bytes` bytes is satisfied;
`requests` records the byte counts requested so far, oldest first. -/
structure Allocator where
  grants : Nat → Nat → Bool
  requests : List Nat

/-- One request to the allocator: the answer and the allocator afterwards. -/
def Allocator.request (a : Allocator) (bytes : Nat) : Bool × Allocator :=
  (a.grants a.requests.length bytes, { grants := a.grants, requests := a.requests ++ [bytes] })

/-! ## The container -/

/-- The data members `heap_`, `size_`, `capacity_` with their default member
initialisers (`nullptr`, `0`, `0`). -/
structure myvector (α : Type) where
  heap_ : Option (List (Option α)) := none
  size_ : Nat := 0
  capacity_ : Nat := 0
deriving DecidableEq, Repr

/-- The state a member function runs in: the object `*this` and the allocator. -/
structure Machine (α : Type) where
  self : myvector α
  sys : Allocator

/-- Read the data members of `*this`. -/
def get_self {α : Type} : Exec (Machine α) (myvector α) := fun m => .ok m.self m

/-- Update data members of `*this`. -/
def modify_self {α : Type} (f : myvector α → myvector α) : Exec (Machine α) Unit :=
  fun m => .ok () { self := f m.self, sys := m.sys }

/-- The call `malloc(bytes)`: a null pointer if the request is refused, otherwise a
fresh block of raw storage with room for `bytes / sizeof(value_type)` elements. -/
def malloc {α : Type} (T : Target) (bytes : Nat) :
    Exec (Machine α) (Option (List (Option α))) := fun m =>
  let r := m.sys.request bytes
  .ok (if r.1 then some (List.replicate (bytes / T.sizeof_value) none) else none)
    { self := m.self, sys := r.2 }

/-- The call `realloc(ptr, bytes)`: a null pointer if the request is refused (the old
block stays as it is), otherwise a block of the new size that starts with the old
contents, cut or extended by raw storage; `realloc(nullptr, bytes)` acts as `malloc`. -/
def realloc {α : Type} (T : Target) (ptr : Option (List (Option α))) (bytes : Nat) :
    Exec (Machine α) (Option (List (Option α))) := fun m =>
  let r := m.sys.request bytes
  let old := ptr.getD []
  let n := bytes / T.sizeof_value
  .ok (if r.1 then some (old.take n ++ List.replicate (n - old.length) none) else none)
    { self := m.self, sys := r.2 }

/-- The call `free(ptr)`: the block is given back; nothing of the state modelled here
changes. -/
def free {α : Type} (_ptr : Option (List (Option α))) : Exec (Machine α) Unit :=
  Exec.pure ()

/-- Placement new `new(&p[i]) value_type(x)` on a block `p`: undefined outside of the
block (or through a null pointer). -/
def construct_at {σ α : Type} (p : Option (List (Option α))) (i : Nat) (x : α) :
    Exec σ (Option (List (Option α))) :=
  match p with
  | some blk => if i < blk.length then Exec.pure (some (blk.set i (some x))) else undefined_behavior
  | none => undefined_behavior

/-- Reading the element `p[i]`: undefined unless the slot holds a live element. -/
def read_at {σ α : Type} (p : Option (List (Option α))) (i : Nat) : Exec σ α :=
  match p with
  | some blk =>
    match blk.get? i with
    | some (some x) => Exec.pure x
    | _ => undefined_behavior
  | none => undefined_behavior

/-- The explicit destructor call `p[i].~value_type()`: the slot becomes raw storage;
undefined unless the slot holds a live element. -/
def destroy_at {σ α : Type} (p : Option (List (Option α))) (i : Nat) :
    Exec σ (Option (List (Option α))) :=
  match p with
  | some blk =>
    match blk.get? i with
    | some (some _) => Exec.pure (some (blk.set i none))
    | _ => undefined_behavior
  | none => undefined_behavior

/-- Placement new on a slot of the own block: `new(&heap_[i]) value_type(x)`. -/
def construct_own {α : Type} (i : Nat) (x : α) : Exec (Machine α) Unit := do
  let v ← get_self
  let p ← construct_at v.heap_ i x
  modify_self (fun w => { w with heap_ := p })

/-- Destructor call on a slot of the own block: `heap_[i].~value_type()`. -/
def destroy_own {α : Type} (i : Nat) : Exec (Machine α) Unit := do
  let v ← get_self
  let p ← destroy_at v.heap_ i
  modify_self (fun w => { w with heap_ := p })

/-- The loop `for (size_type i = from; i < size_; i++) heap_[i].~value_type();`. -/
def destroy_from {α : Type} (start : Nat) : Exec (Machine α) Unit := do
  let v ← get_self
  for_loop (fun i _ => destroy_own i) start (v.size_ - start) ()

/-! ## Private member functions -/

/-- `size_type length_check(size_type count) const`. -/
def length_check {α : Type} (T : Target) (count : Nat) : Exec (Machine α) Nat :=
  if count > MAX_SIZE T then raise .length_error else Exec.pure count

/-- `bool need_twice_capacity(void) const`. -/
def need_twice_capacity {α : Type} (T : Target) : Exec (Machine α) Bool := do
  let v ← get_self
  if v.size_ ≥ MAX_SIZE T then raise .length_error
  else pure (decide (wrap T (v.size_ + 1) > v.capacity_))

/-- `size_type twice_length(void) const`. -/
def twice_length {α : Type} (T : Target) : Exec (Machine α) Nat := do
  let v ← get_self
  if v.capacity_ > MAX_SIZE T / 2 then raise .length_error
  else pure (if v.capacity_ ≠ 0 then wrap T (v.capacity_ * 2) else 1)

/-- `pointer mymalloc(size_type count)`. -/
def mymalloc {α : Type} (T : Target) (count : Nat) : Exec (Machine α) (Option (List (Option α))) := do
  let p ← malloc T (bytes_for T count)
  if p.isNone then raise .bad_alloc else pure p

/-- `void reallocation(size_type new_cap, trivially_copyable_tag)`. -/
def reallocation_trivially_copyable {α : Type} (T : Target) (new_cap : Nat) :
    Exec (Machine α) Unit := do
  let v ← get_self
  let p ← realloc T v.heap_ (bytes_for T new_cap)
  if p.isNone then raise .bad_alloc
  else do
    modify_self (fun w => { w with heap_ := p })
    modify_self (fun w => { w with capacity_ := new_cap })

/-- The loop body shared by the two element-wise overloads of `reallocation`:
`new(&p[i]) value_type(std::move(heap_[i])); heap_[i].~value_type();` (the copy
overload passes `heap_[i]` itself; element values are the same in both). -/
def relocate_step {α : Type} (i : Nat) (p : Option (List (Option α))) :
    Exec (Machine α) (Option (List (Option α))) := do
  let v ← get_self
  let x ← read_at v.heap_ i
  let p1 ← construct_at p i x
  destroy_own i
  pure p1

/-- `void reallocation(size_type new_cap, move_constructible_tag)`. -/
def reallocation_move_constructible {α : Type} (T : Target) (new_cap : Nat) :
    Exec (Machine α) Unit := do
  let p ← mymalloc T new_cap
  let v ← get_self
  let p1 ← for_loop relocate_step 0 v.size_ p
  free v.heap_
  modify_self (fun w => { w with heap_ := p1 })
  modify_self (fun w => { w with capacity_ := new_cap })

/-- `void reallocation(size_type new_cap, copy_constructible_tag)`. -/
def reallocation_copy_constructible {α : Type} (T : Target) (new_cap : Nat) :
    Exec (Machine α) Unit := do
  let p ← mymalloc T new_cap
  let v ← get_self
  let p1 ← for_loop relocate_step 0 v.size_ p
  free v.heap_
  modify_self (fun w => { w with heap_ := p1 })
  modify_self (fun w => { w with capacity_ := new_cap })

/-- The call `reallocation(new_cap, realloc_switcher())`: overload resolution on the tag. -/
def reallocation {α : Type} (T : Target) (new_cap : Nat) : Exec (Machine α) Unit :=
  match T.realloc_switcher with
  | .trivially_copyable_tag => reallocation_trivially_copyable T new_cap
  | .move_constructible_tag => reallocation_move_constructible T new_cap
  | .copy_constructible_tag => reallocation_copy_constructible T new_cap

/-! ## Public member functions -/

/-- `size_type size(void) const noexcept`. -/
def size {α : Type} (v : myvector α) : Nat := v.size_

/-- `size_type capacity(void) const noexcept`. -/
def capacity {α : Type} (v : myvector α) : Nat := v.capacity_

/-- `size_type max_size(void) const noexcept`. -/
def max_size (T : Target) : Nat := MAX_SIZE T

/-- `void reserve(size_type new_cap)`. -/
def reserve {α : Type} (T : Target) (new_cap : Nat) : Exec (Machine α) Unit := do
  let v ← get_self
  if new_cap > v.capacity_ then
    let n ← length_check T new_cap
    reallocation T n
  else pure ()

/-- `void shrink_to_fit(void)`. -/
def shrink_to_fit {α : Type} (T : Target) : Exec (Machine α) Unit := do
  let v ← get_self
  if v.size_ < v.capacity_ then
    if v.size_ = 0 then do
      free v.heap_
      modify_self (fun w => { w with heap_ := none })
      modify_self (fun w => { w with capacity_ := 0 })
    else reallocation T v.size_
  else pure ()

/-- What a parameter of type `const value_type&` (or `value_type&&`) refers to: an
object that is not stored in the block of the container, given by its value, or the
element `(*this)[pos]`, that is the slot `pos` of the block `heap_` points to when the
call begins, as in `v.push_back(v[pos])`. -/
inductive const_reference (α : Type) where
  | object (value : α)
  | element (pos : Nat)
deriving DecidableEq, Repr

/-- Reading the object a parameter `const value_type& value` refers to, as the copy
construction `value_type(value)` does.  `released` tells whether `reallocation` has
returned since the call began: it passes the block `heap_` pointed to before to `free`
or to `realloc`, so that reading an element of that block is undefined afterwards.
Reading a slot whose element has been destroyed is undefined as well. -/
def read_value {α : Type} (released : Bool) : const_reference α → Exec (Machine α) α
  | .object value => Exec.pure value
  | .element pos =>
    if released then undefined_behavior
    else Exec.bind get_self (fun v => read_at v.heap_ pos)

/-- `void push_back(const value_type& value)` and `void push_back(value_type&& value)`:
the two overloads differ only in how the new element is constructed from `value`; both
read through the reference after `reallocation`. -/
def push_back {α : Type} (T : Target) (value : const_reference α) :
    Exec (Machine α) Unit := do
  let need ← need_twice_capacity T
  if need then do
    let n ← twice_length T
    reallocation T n
  else pure ()
  let v ← get_self
  let x ← read_value need value
  construct_own v.size_ x
  modify_self (fun w => { w with size_ := wrap T (w.size_ + 1) })

/-- `void resize(size_type count, const value_type& value)`: every new element is
copied from `value` after `reallocation`. -/
def resize_value {α : Type} (T : Target) (count : Nat) (value : const_reference α) :
    Exec (Machine α) Unit := do
  let v ← get_self
  if count < v.size_ then do
    destroy_from count
    modify_self (fun w => { w with size_ := count })
  else if count > v.size_ then do
    if count > v.capacity_ then do
      let n ← length_check T count
      reallocation T n
    else pure ()
    for_loop (fun i _ => Exec.bind (read_value (decide (count > v.capacity_)) value)
      (fun x => construct_own i x)) v.size_ (count - v.size_) ()
    modify_self (fun w => { w with size_ := count })
  else pure ()

/-- `void resize(size_type count)`: as the overload with a value, the new elements
being value-initialised (`value_type()`). -/
def resize {α : Type} [Inhabited α] (T : Target) (count : Nat) : Exec (Machine α) Unit := do
  let v ← get_self
  if count < v.size_ then do
    destroy_from count
    modify_self (fun w => { w with size_ := count })
  else if count > v.size_ then do
    if count > v.capacity_ then do
      let n ← length_check T count
      reallocation T n
    else pure ()
    for_loop (fun i _ => construct_own i (default : α)) v.size_ (count - v.size_) ()
    modify_self (fun w => { w with size_ := count })
  else pure ()

/-- `reference at(size_type pos)` / `const_reference at(size_type pos) const`: the
result is the element referred to. -/
def at_ {α : Type} (pos : Nat) : Exec (Machine α) α := do
  let v ← get_self
  if pos ≥ v.size_ then raise .out_of_range
  else read_at v.heap_ pos

/-- The loop `for (const auto& i: src) new(p++) value_type(i);` with `p` at
`heap_ + j`; `src` lists the values the source range yields, in order. -/
def construct_list {α : Type} : List α → Nat → Exec (Machine α) Unit
  | [], _ => Exec.pure ()
  | x :: rest, j => Exec.bind (construct_own j x) (fun _ => construct_list rest (j + 1))

/-- The part `// clear` of the assignment functions. -/
def clear_elements {α : Type} : Exec (Machine α) Unit := do
  destroy_from 0
  modify_self (fun w => { w with size_ := 0 })

/-- `void assign(size_type count, const value_type& value)`: every new element is
copied from `value` after the old elements have been destroyed and after
`reallocation`. -/
def assign {α : Type} (T : Target) (count : Nat) (value : const_reference α) :
    Exec (Machine α) Unit := do
  let new_size ← length_check T count
  clear_elements
  let v ← get_self
  if new_size > v.capacity_ then reallocation T new_size else pure ()
  for_loop (fun i _ => Exec.bind (read_value (decide (new_size > v.capacity_)) value)
    (fun x => construct_own i x)) 0 new_size ()
  modify_self (fun w => { w with size_ := new_size })

/-- `void assign(std::initializer_list<value_type> ilist)`. -/
def assign_ilist {α : Type} (T : Target) (ilist : List α) : Exec (Machine α) Unit := do
  let new_size ← length_check T ilist.length
  clear_elements
  let v ← get_self
  if new_size > v.capacity_ then reallocation T new_size else pure ()
  construct_list ilist 0
  modify_self (fun w => { w with size_ := new_size })

/-- `self_type& operator=(std::initializer_list<value_type> ilist)`. -/
def operator_assign_ilist {α : Type} (T : Target) (ilist : List α) : Exec (Machine α) Unit := do
  let new_size ← length_check T ilist.length
  clear_elements
  let v ← get_self
  if new_size > v.capacity_ then reallocation T new_size else pure ()
  construct_list ilist 0
  modify_self (fun w => { w with size_ := ilist.length })

/-- The two iterator categories `mydistance` is overloaded on. -/
inductive iterator_category where
  | random_access_iterator_tag
  | input_iterator_tag
deriving DecidableEq, Repr

/-- `size_type mydistance(InputIt first, InputIt last, std::input_iterator_tag) const`:
one `count++` per element of the range `src`. -/
def mydistance_input {α : Type} (T : Target) (src : List α) : Nat :=
  src.foldl (fun count _ => wrap T (count + 1)) 0

/-- `size_type mydistance(RandomIt first, RandomIt last, std::random_access_iterator_tag) const`:
`diff` is the value of `last - first` in `difference_type`; for a range `src` the test
`first <= last` holds. -/
def mydistance_random {α : Type} (T : Target) (src : List α) (diff : Int) : Nat :=
  if 0 ≤ diff then wrap T diff.toNat else mydistance_input T src

/-- The call `mydistance(first, last, iterator_type())` on the range `src`; for random
access iterators `last - first` is the length of the range. -/
def mydistance {α : Type} (T : Target) (cat : iterator_category) (src : List α) : Nat :=
  match cat with
  | .random_access_iterator_tag => mydistance_random T src (src.length : Int)
  | .input_iterator_tag => mydistance_input T src

/-- A range `[first, last)` of iterators that do not point into the container.
`values` lists what `*i` yields while an iterator `i` runs from `first` to `last` for
the first time.  `again` lists what the loop `for (InputIt i = first; i != last; ++i)`
finds when an earlier loop of this form has already advanced its own copy of `first` to
`last`: the same values for forward iterators and better (multi-pass guarantee); for a
`std::istream_iterator` only the value that `first` had extracted before, because the
stream is consumed and the next `++i` makes `i` the end iterator. -/
structure iterator_range (α : Type) where
  values : List α
  again : List α
deriving DecidableEq, Repr

/-- A range that yields the values `src` each time it is traversed: pointers, iterators
of containers, an array. -/
def multi_pass {α : Type} (src : List α) : iterator_range α := { values := src, again := src }

/-- What the copy loop `for (InputIt i = first; i != last; ++i) new(p++) value_type(*i);`
finds after the call `mydistance(first, last, iterator_type())`: the overload for random
access iterators has computed `last - first` and moved no iterator, the overload for
input iterators has advanced a copy of `first` to `last`. -/
def iterator_range.copy_pass {α : Type} (cat : iterator_category) (r : iterator_range α) :
    List α :=
  match cat with
  | .random_access_iterator_tag => r.values
  | .input_iterator_tag => r.again

/-- `template <class InputIt> void assign(InputIt first, InputIt last)` on a range that
is not part of the container itself: `mydistance` and the copy loop both start from
`first`. -/
def assign_range {α : Type} (T : Target) (cat : iterator_category) (r : iterator_range α) :
    Exec (Machine α) Unit := do
  let new_size ← length_check T (mydistance T cat r.values)
  clear_elements
  let v ← get_self
  if new_size > v.capacity_ then reallocation T new_size else pure ()
  construct_list (r.copy_pass cat) 0
  modify_self (fun w => { w with size_ := new_size })

/-- The loop `for (auto i = other.cbegin(); i != other.cend(); ++i) new(p++) value_type(*i);`
with `p` starting at `heap_`. -/
def copy_elements {α : Type} (other : myvector α) : Exec (Machine α) Unit :=
  for_loop (fun j _ => Exec.bind (read_at other.heap_ j) (fun x => construct_own j x))
    0 other.size_ ()

/-- The argument of the copy assignment: the object itself (`this == &other`) or
another object. -/
inductive Source (α : Type) where
  | this_object
  | another (other : myvector α)

/-- `self_type& operator=(const self_type& other)`. -/
def operator_assign_copy {α : Type} (T : Target) (src : Source α) : Exec (Machine α) Unit :=
  match src with
  | .this_object => Exec.pure ()
  | .another other => do
    clear_elements
    let v ← get_self
    if size other > v.capacity_ then reallocation T (size other) else pure ()
    copy_elements other
    modify_self (fun w => { w with size_ := size other })

/-- `myvector(size_type count, const value_type& value)`: runs on the object under
construction; when it throws, no object comes into existence. -/
def ctor_count_value {α : Type} (T : Target) (count : Nat) (value : α) :
    Exec (Machine α) Unit := do
  let h ← (if count ≠ 0 then Exec.bind (length_check T count) (fun n => mymalloc T n)
    else Exec.pure none)
  modify_self (fun _ => { heap_ := h, size_ := count, capacity_ := count })
  let v ← get_self
  for_loop (fun i _ => construct_own i value) 0 v.size_ ()

/-- `explicit myvector(size_type count)`. -/
def ctor_count {α : Type} [Inhabited α] (T : Target) (count : Nat) : Exec (Machine α) Unit := do
  let h ← (if count ≠ 0 then Exec.bind (length_check T count) (fun n => mymalloc T n)
    else Exec.pure none)
  modify_self (fun _ => { heap_ := h, size_ := count, capacity_ := count })
  let v ← get_self
  for_loop (fun i _ => construct_own i (default : α)) 0 v.size_ ()

/-- The state in which a constructor starts: the members hold their default member
initialisers and `sys` is the allocator at that moment. -/
def fresh {α : Type} (sys : Allocator) : Machine α := { self := {}, sys := sys }

/-! ## Observations and the class invariant -/

/-- The sequence of live elements at the positions `[0, size_)` of the block. -/
def elements {α : Type} (v : myvector α) : List α :=
  ((v.heap_.getD []).take v.size_).reduceOption

/-- The object that holds the elements `xs` in a block of `c` slots: no block at all
for `c = 0`, otherwise the live elements followed by raw slots. -/
def rep {α : Type} (xs : List α) (c : Nat) : myvector α :=
  { heap_ := if c = 0 then none else some (xs.map some ++ List.replicate (c - xs.length) none),
    size_ := xs.length,
    capacity_ := c }

/-- The class invariant: `size_ <= capacity_ <= MAX_SIZE`; `heap_` is null exactly when
`capacity_` is 0 and otherwise points to a block of `capacity_` slots, of which the
first `size_` hold live elements and the others are raw. -/
def WF {α : Type} (T : Target) (v : myvector α) : Prop :=
  v.size_ ≤ v.capacity_ ∧ v.capacity_ ≤ MAX_SIZE T ∧ v = rep (elements v) v.capacity_

instance {α : Type} [DecidableEq α] (T : Target) (v : myvector α) : Decidable (WF T v) := by
  unfold WF; infer_instance

/-- An allocator that satisfies every request. -/
def Allocator.generous (a : Allocator) : Prop := ∀ k bytes, a.grants k bytes = true

/-- The calls `push_back(x1); ...; push_back(xn);` in this order, the arguments being
objects outside the container with the values `x1, ..., xn`. -/
def push_back_all {α : Type} (T : Target) : List α → Exec (Machine α) Unit
  | [] => Exec.pure ()
  | x :: rest => Exec.bind (push_back T (.object x)) (fun _ => push_back_all T rest)

/-- The capacity `c` that the doubling policy gives to `n` elements appended one by one to
an empty container: 0 for none, otherwise the power of two with `n <= c < 2 * n`. -/
def doubled (n c : Nat) : Prop := (n = 0 ∧ c = 0) ∨ ∃ j, c = 2 ^ j ∧ n ≤ c ∧ c < 2 * n

/-- A 16-bit platform with elements of 16384 bytes, relocated by copy construction:
`MAX_SIZE` is 3. -/
def T16 : Target :=
  { bits := 16, sizeof_value := 16384, realloc_switcher := .copy_constructible_tag }

/-- A 64-bit platform with elements of one byte (`char`), relocated by `realloc`. -/
def T_char : Target :=
  { bits := 64, sizeof_value := 1, realloc_switcher := .trivially_copyable_tag }

/-- A 64-bit platform with elements of type `int` (4 bytes): trivially copyable, so
relocated by `realloc`. -/
def T_int : Target :=
  { bits := 64, sizeof_value := 4, realloc_switcher := .trivially_copyable_tag }

/-- A 64-bit platform with elements of type `std::string` (32 bytes): not trivially
copyable, so relocated by move construction into a fresh block. -/
def T_string : Target :=
  { bits := 64, sizeof_value := 32, realloc_switcher := .move_constructible_tag }

/-- A string value that does not fit the small buffer of a `std::string`. -/
def long_string : String := "a string of more than fifteen characters"

/-- The calls that may change the size of the block: `reserve`, the two `resize`
overloads, `push_back` and `shrink_to_fit`; a `value` is that of an object outside the
container, to which the parameter refers. -/
inductive capacity_call (α : Type) where
  | reserve (new_cap : Nat)
  | resize (count : Nat)
  | resize_value (count : Nat) (value : α)
  | push_back (value : α)
  | shrink_to_fit

/-- Running a call of `capacity_call`. -/
def capacity_call.run {α : Type} [Inhabited α] (T : Target) :
    capacity_call α → Exec (Machine α) Unit
  | .reserve new_cap => MyVector.reserve T new_cap
  | .resize count => MyVector.resize T count
  | .resize_value count value => MyVector.resize_value T count (.object value)
  | .push_back value => MyVector.push_back T (.object value)
  | .shrink_to_fit => MyVector.shrink_to_fit T

/-- The call reaches `reallocation` without a length error: a `reserve` or `resize`
beyond the capacity but within `max_size()`, a `push_back` on a full container whose
capacity can be doubled, a `shrink_to_fit` with elements and spare capacity. -/
def capacity_call.reallocates {α : Type} (T : Target) (v : myvector α) :
    capacity_call α → Prop
  | .reserve new_cap => capacity v < new_cap ∧ new_cap ≤ max_size T
  | .resize count => capacity v < count ∧ count ≤ max_size T
  | .resize_value count _ => capacity v < count ∧ count ≤ max_size T
  | .push_back _ => size v = capacity v ∧ capacity v ≤ max_size T / 2
  | .shrink_to_fit => 0 < size v ∧ size v < capacity v

/-- The assignment forms: copy assignment from another object, assignment of an
initializer list, `assign(count, value)`, `assign(first, last)`, `assign(ilist)`; a
`value` is that of an object outside the container, and a range is one that yields the
values `src` each time it is traversed. -/
inductive assign_call (α : Type) where
  | copy (other : myvector α)
  | ilist_operator (ilist : List α)
  | count_value (count : Nat) (value : α)
  | range (cat : iterator_category) (src : List α)
  | ilist (ilist : List α)

/-- Running a call of `assign_call`. -/
def assign_call.run {α : Type} (T : Target) : assign_call α → Exec (Machine α) Unit
  | .copy other => operator_assign_copy T (.another other)
  | .ilist_operator init => operator_assign_ilist T init
  | .count_value count value => assign T count (.object value)
  | .range cat src => assign_range T cat (multi_pass src)
  | .ilist init => assign_ilist T init

/-- The number of elements the call asks the container to hold. -/
def assign_call.new_size {α : Type} : assign_call α → Nat
  | .copy other => size other
  | .ilist_operator init => init.length
  | .count_value count _ => count
  | .range _ src => src.length
  | .ilist init => init.length

/-- What the call may assume of its argument: the other object is well formed; the
length of a range is a `size_type` value. -/
def assign_call.admissible {α : Type} (T : Target) : assign_call α → Prop
  | .copy other => WF T other
  | .range _ src => src.length ≤ MAX_SIZE_BYTES T
  | _ => True

/-- The type `pointer` (`value_type*`), which is also the type `iterator`: the block
pointed into (`none` for a pointer derived from the null pointer) and the offset of the
element in it. -/
structure pointer (α : Type) where
  base : Option (List (Option α))
  offset : Nat
deriving DecidableEq, Repr

/-- `iterator begin(void) noexcept` (and `cbegin`): `return heap_;`. -/
def begin {α : Type} (v : myvector α) : pointer α := { base := v.heap_, offset := 0 }

/-- `iterator end(void) noexcept` (and `cend`): `return heap_ + size_;`. -/
def end_ {α : Type} (v : myvector α) : pointer α := { base := v.heap_, offset := v.size_ }

/-- `myvector(const self_type& other)`: runs on the object under construction. -/
def ctor_copy {α : Type} (T : Target) (other : myvector α) : Exec (Machine α) Unit := do
  let h ← (if size other ≠ 0 then mymalloc T (size other) else Exec.pure none)
  modify_self (fun _ => { heap_ := h, size_ := size other, capacity_ := size other })
  copy_elements other

/-- The state for a member function that works on two objects: `*this`, the object
`other` that its parameter refers to, and the allocator. -/
structure Pair (α : Type) where
  self : myvector α
  other : myvector α
  sys : Allocator

/-- Code that works on `*this` only, run in a state with a second object. -/
def on_self {α β : Type} (x : Exec (Machine α) β) : Exec (Pair α) β := fun p =>
  match x { self := p.self, sys := p.sys } with
  | .ok b m => .ok b { self := m.self, other := p.other, sys := m.sys }
  | .thrown e m => .thrown e { self := m.self, other := p.other, sys := m.sys }
  | .undefined => .undefined

/-- A member function whose parameter `other` is a reference to const: it reads the
object referred to and works on `*this`. -/
def with_const_other {α β : Type} (f : myvector α → Exec (Machine α) β) : Exec (Pair α) β :=
  fun p => on_self (f p.other) p

/-- `std::swap(heap_, other.heap_);`. -/
def swap_heap_ {α : Type} : Exec (Pair α) Unit := fun p =>
  .ok () { self := { p.self with heap_ := p.other.heap_ },
           other := { p.other with heap_ := p.self.heap_ }, sys := p.sys }

/-- `std::swap(size_, other.size_);`. -/
def swap_size_ {α : Type} : Exec (Pair α) Unit := fun p =>
  .ok () { self := { p.self with size_ := p.other.size_ },
           other := { p.other with size_ := p.self.size_ }, sys := p.sys }

/-- `std::swap(capacity_, other.capacity_);`. -/
def swap_capacity_ {α : Type} : Exec (Pair α) Unit := fun p =>
  .ok () { self := { p.self with capacity_ := p.other.capacity_ },
           other := { p.other with capacity_ := p.self.capacity_ }, sys := p.sys }

/-- `myvector(self_type&& other) noexcept`: runs on the object under construction, whose
members hold their default member initialisers when the body starts. -/
def ctor_move {α : Type} : Exec (Pair α) Unit := do
  swap_heap_
  swap_size_
  swap_capacity_

/-- `self_type& operator=(self_type&& other) noexcept`; `same` is the value of
`this == &other`, and when it holds both components of the state stand for the one
object. -/
def operator_assign_move {α : Type} (same : Bool) : Exec (Pair α) Unit :=
  if same then Exec.pure ()
  else do
    on_self clear_elements
    swap_heap_
    swap_size_
    swap_capacity_

/-- The state in which a constructor with a parameter `other` starts. -/
def fresh_with {α : Type} (other : myvector α) (sys : Allocator) : Pair α :=
  { self := {}, other := other, sys := sys }

/-! ## The class over a store of addressed blocks

The embedding above gives every object its block as a value, so two objects cannot share
storage.  To state what one object does to the storage of another, the member functions
are embedded a second time, statement by statement as before, over a store that maps
addresses to blocks; `heap_` is then an address, and 0 is the null pointer. -/

namespace Mem

/-- The data members `heap_`, `size_`, `capacity_`, with `heap_` as an address. -/
structure object where
  heap_ : Nat := 0
  size_ : Nat := 0
  capacity_ : Nat := 0
deriving DecidableEq, Repr

/-- The state: the object `*this`; the object `other` that a parameter of type
`self_type&&` refers to; the live blocks by address; the highest address handed out so
far; for each allocator request, whether `realloc` answers it with a new address; the
allocator. -/
structure World (α : Type) where
  self : object
  other : object
  store : Nat → Option (List (Option α))
  top : Nat
  moves : Nat → Bool
  sys : Allocator

/-- The store with the entry of address `p` replaced. -/
def update {α : Type} (store : Nat → Option (List (Option α))) (p : Nat)
    (b : Option (List (Option α))) : Nat → Option (List (Option α)) :=
  fun q => if q = p then b else store q

/-- Read the data members of `*this`. -/
def get_self {α : Type} : Exec (World α) object := fun w => .ok w.self w

/-- Update data members of `*this`. -/
def modify_self {α : Type} (f : object → object) : Exec (World α) Unit :=
  fun w => .ok () { w with self := f w.self }

/-- The call `malloc(bytes)`: the null pointer if the request is refused, otherwise the
address of a new block of raw storage for `bytes / sizeof(value_type)` elements. -/
def malloc {α : Type} (T : Target) (bytes : Nat) : Exec (World α) Nat := fun w =>
  let r := w.sys.request bytes
  if r.1 then
    .ok (w.top + 1)
      { w with store := update w.store (w.top + 1)
                 (some (List.replicate (bytes / T.sizeof_value) none)),
               top := w.top + 1, sys := r.2 }
  else .ok 0 { w with sys := r.2 }

/-- The call `realloc(ptr, bytes)`: as `malloc` for a null `ptr`; otherwise `ptr` has to
be a live block, and the answer is the null pointer with the block untouched, or the
block resized in place, or a new block with the old contents while the old one is given
back. -/
def realloc {α : Type} (T : Target) (ptr bytes : Nat) : Exec (World α) Nat := fun w =>
  if ptr = 0 then malloc T bytes w
  else
    match w.store ptr with
    | none => .undefined
    | some old =>
      let r := w.sys.request bytes
      let n := bytes / T.sizeof_value
      let blk := old.take n ++ List.replicate (n - old.length) none
      if r.1 then
        if w.moves w.sys.requests.length then
          .ok (w.top + 1)
            { w with store := update (update w.store ptr none) (w.top + 1) (some blk),
                     top := w.top + 1, sys := r.2 }
        else .ok ptr { w with store := update w.store ptr (some blk), sys := r.2 }
      else .ok 0 { w with sys := r.2 }

/-- The call `free(ptr)`: nothing for the null pointer, otherwise the live block at
`ptr` is given back. -/
def free {α : Type} (ptr : Nat) : Exec (World α) Unit := fun w =>
  if ptr = 0 then .ok () w
  else
    match w.store ptr with
    | none => .undefined
    | some _ => .ok () { w with store := update w.store ptr none }

/-- Placement new `new(&p[i]) value_type(x)`. -/
def construct_at {α : Type} (p i : Nat) (x : α) : Exec (World α) Unit := fun w =>
  match w.store p with
  | some blk =>
    if i < blk.length then .ok () { w with store := update w.store p (some (blk.set i (some x))) }
    else .undefined
  | none => .undefined

/-- Reading the element `p[i]`. -/
def read_at {α : Type} (p i : Nat) : Exec (World α) α := fun w =>
  match w.store p with
  | some blk =>
    match blk.get? i with
    | some (some x) => .ok x w
    | _ => .undefined
  | none => .undefined

/-- The destructor call `p[i].~value_type()`. -/
def destroy_at {α : Type} (p i : Nat) : Exec (World α) Unit := fun w =>
  match w.store p with
  | some blk =>
    match blk.get? i with
    | some (some _) => .ok () { w with store := update w.store p (some (blk.set i none)) }
    | _ => .undefined
  | none => .undefined

/-- An assignment `p[i] = y` to a live element, as done through a reference or an
iterator that a member function returned. -/
def assign_at {α : Type} (p i : Nat) (y : α) : Exec (World α) Unit := fun w =>
  match w.store p with
  | some blk =>
    match blk.get? i with
    | some (some _) => .ok () { w with store := update w.store p (some (blk.set i (some y))) }
    | _ => .undefined
  | none => .undefined

/-- `new(&heap_[i]) value_type(x)`. -/
def construct_own {α : Type} (i : Nat) (x : α) : Exec (World α) Unit := do
  let v ← get_self
  construct_at v.heap_ i x

/-- `heap_[i].~value_type()`. -/
def destroy_own {α : Type} (i : Nat) : Exec (World α) Unit := do
  let v ← get_self
  destroy_at v.heap_ i

/-- The loop `for (size_type i = from; i < size_; i++) heap_[i].~value_type();`. -/
def destroy_from {α : Type} (start : Nat) : Exec (World α) Unit := do
  let v ← get_self
  for_loop (fun i _ => destroy_own i) start (v.size_ - start) ()

/-- `size_type length_check(size_type count) const`. -/
def length_check {α : Type} (T : Target) (count : Nat) : Exec (World α) Nat :=
  if count > MAX_SIZE T then raise .length_error else Exec.pure count

/-- `bool need_twice_capacity(void) const`. -/
def need_twice_capacity {α : Type} (T : Target) : Exec (World α) Bool := do
  let v ← get_self
  if v.size_ ≥ MAX_SIZE T then raise .length_error
  else pure (decide (wrap T (v.size_ + 1) > v.capacity_))

/-- `size_type twice_length(void) const`. -/
def twice_length {α : Type} (T : Target) : Exec (World α) Nat := do
  let v ← get_self
  if v.capacity_ > MAX_SIZE T / 2 then raise .length_error
  else pure (if v.capacity_ ≠ 0 then wrap T (v.capacity_ * 2) else 1)

/-- `pointer mymalloc(size_type count)`. -/
def mymalloc {α : Type} (T : Target) (count : Nat) : Exec (World α) Nat := do
  let p ← malloc T (bytes_for T count)
  if p = 0 then raise .bad_alloc else pure p

/-- `void reallocation(size_type new_cap, trivially_copyable_tag)`. -/
def reallocation_trivially_copyable {α : Type} (T : Target) (new_cap : Nat) :
    Exec (World α) Unit := do
  let v ← get_self
  let p ← realloc T v.heap_ (bytes_for T new_cap)
  if p = 0 then raise .bad_alloc
  else do
    if p ≠ v.heap_ then modify_self (fun w => { w with heap_ := p }) else pure ()
    modify_self (fun w => { w with capacity_ := new_cap })

/-- The loop body of the two element-wise overloads of `reallocation`:
`new(&p[i]) value_type(std::move(heap_[i])); heap_[i].~value_type();`. -/
def relocate_step {α : Type} (p i : Nat) : Exec (World α) Unit := do
  let v ← get_self
  let x ← (read_at v.heap_ i : Exec (World α) α)
  construct_at p i x
  destroy_own i

/-- `void reallocation(size_type new_cap, move_constructible_tag)`. -/
def reallocation_move_constructible {α : Type} (T : Target) (new_cap : Nat) :
    Exec (World α) Unit := do
  let p ← mymalloc T new_cap
  let v ← get_self
  for_loop (fun i _ => (relocate_step p i : Exec (World α) Unit)) 0 v.size_ ()
  let v1 ← get_self
  (free v1.heap_ : Exec (World α) Unit)
  modify_self (fun w => { w with heap_ := p })
  modify_self (fun w => { w with capacity_ := new_cap })

/-- `void reallocation(size_type new_cap, copy_constructible_tag)`. -/
def reallocation_copy_constructible {α : Type} (T : Target) (new_cap : Nat) :
    Exec (World α) Unit := do
  let p ← mymalloc T new_cap
  let v ← get_self
  for_loop (fun i _ => (relocate_step p i : Exec (World α) Unit)) 0 v.size_ ()
  let v1 ← get_self
  (free v1.heap_ : Exec (World α) Unit)
  modify_self (fun w => { w with heap_ := p })
  modify_self (fun w => { w with capacity_ := new_cap })

/-- The call `reallocation(new_cap, realloc_switcher())`. -/
def reallocation {α : Type} (T : Target) (new_cap : Nat) : Exec (World α) Unit :=
  match T.realloc_switcher with
  | .trivially_copyable_tag => reallocation_trivially_copyable T new_cap
  | .move_constructible_tag => reallocation_move_constructible T new_cap
  | .copy_constructible_tag => reallocation_copy_constructible T new_cap

end Mem

namespace Mem

/-- `void reserve(size_type new_cap)`. -/
def reserve {α : Type} (T : Target) (new_cap : Nat) : Exec (World α) Unit := do
  let v ← get_self
  if new_cap > v.capacity_ then
    let n ← length_check T new_cap
    reallocation T n
  else pure ()

/-- `void shrink_to_fit(void)`. -/
def shrink_to_fit {α : Type} (T : Target) : Exec (World α) Unit := do
  let v ← get_self
  if v.size_ < v.capacity_ then
    if v.size_ = 0 then do
      (free v.heap_ : Exec (World α) Unit)
      modify_self (fun w => { w with heap_ := 0 })
      modify_self (fun w => { w with capacity_ := 0 })
    else reallocation T v.size_
  else pure ()

/-- `void push_back(const value_type& value)` and `void push_back(value_type&& value)`,
for a parameter that refers to an object outside of the store, with the value `value`. -/
def push_back {α : Type} (T : Target) (value : α) : Exec (World α) Unit := do
  let need ← need_twice_capacity T
  if need then do
    let n ← twice_length T
    reallocation T n
  else pure ()
  let v ← get_self
  construct_own v.size_ value
  modify_self (fun w => { w with size_ := wrap T (w.size_ + 1) })

/-- `void resize(size_type count, const value_type& value)`, for a parameter that refers
to an object outside of the store, with the value `value`. -/
def resize_value {α : Type} (T : Target) (count : Nat) (value : α) : Exec (World α) Unit := do
  let v ← get_self
  if count < v.size_ then do
    destroy_from count
    modify_self (fun w => { w with size_ := count })
  else if count > v.size_ then do
    if count > v.capacity_ then do
      let n ← length_check T count
      reallocation T n
    else pure ()
    for_loop (fun i _ => (construct_own i value : Exec (World α) Unit)) v.size_
      (count - v.size_) ()
    modify_self (fun w => { w with size_ := count })
  else pure ()

/-- `void resize(size_type count)`. -/
def resize {α : Type} [Inhabited α] (T : Target) (count : Nat) : Exec (World α) Unit := do
  let v ← get_self
  if count < v.size_ then do
    destroy_from count
    modify_self (fun w => { w with size_ := count })
  else if count > v.size_ then do
    if count > v.capacity_ then do
      let n ← length_check T count
      reallocation T n
    else pure ()
    for_loop (fun i _ => (construct_own i (default : α) : Exec (World α) Unit)) v.size_
      (count - v.size_) ()
    modify_self (fun w => { w with size_ := count })
  else pure ()

/-- The loop `for (const auto& i: src) new(p++) value_type(i);` with `p` at `heap_ + j`. -/
def construct_list {α : Type} : List α → Nat → Exec (World α) Unit
  | [], _ => Exec.pure ()
  | x :: rest, j => Exec.bind (construct_own j x) (fun _ => construct_list rest (j + 1))

/-- The part `// clear` of the assignment functions. -/
def clear_elements {α : Type} : Exec (World α) Unit := do
  destroy_from 0
  modify_self (fun w => { w with size_ := 0 })

/-- `void assign(size_type count, const value_type& value)`, for a parameter that refers
to an object outside of the store, with the value `value`. -/
def assign {α : Type} (T : Target) (count : Nat) (value : α) : Exec (World α) Unit := do
  let new_size ← length_check T count
  clear_elements
  let v ← get_self
  if new_size > v.capacity_ then reallocation T new_size else pure ()
  for_loop (fun i _ => (construct_own i value : Exec (World α) Unit)) 0 new_size ()
  modify_self (fun w => { w with size_ := new_size })

/-- `void assign(std::initializer_list<value_type> ilist)`. -/
def assign_ilist {α : Type} (T : Target) (ilist : List α) : Exec (World α) Unit := do
  let new_size ← length_check T ilist.length
  clear_elements
  let v ← get_self
  if new_size > v.capacity_ then reallocation T new_size else pure ()
  construct_list ilist 0
  modify_self (fun w => { w with size_ := new_size })

/-- `self_type& operator=(std::initializer_list<value_type> ilist)`. -/
def operator_assign_ilist {α : Type} (T : Target) (ilist : List α) : Exec (World α) Unit := do
  let new_size ← length_check T ilist.length
  clear_elements
  let v ← get_self
  if new_size > v.capacity_ then reallocation T new_size else pure ()
  construct_list ilist 0
  modify_self (fun w => { w with size_ := ilist.length })

/-- `template <class InputIt> void assign(InputIt first, InputIt last)` on a range that
yields the values `src` each time it is traversed and lies outside of the store. -/
def assign_range {α : Type} (T : Target) (cat : iterator_category) (src : List α) :
    Exec (World α) Unit := do
  let new_size ← length_check T (mydistance T cat src)
  clear_elements
  let v ← get_self
  if new_size > v.capacity_ then reallocation T new_size else pure ()
  construct_list src 0
  modify_self (fun w => { w with size_ := new_size })

/-- The loop `for (auto i = other.cbegin(); i != other.cend(); ++i) new(p++) value_type(*i);`
with `p` starting at `heap_`; `other` is referred to by a reference to const. -/
def copy_elements {α : Type} (other : object) : Exec (World α) Unit :=
  for_loop (fun j _ => Exec.bind (read_at other.heap_ j : Exec (World α) α)
      (fun x => construct_own j x)) 0 other.size_ ()

/-- The argument of the copy assignment: the object itself or another object. -/
inductive Source where
  | this_object
  | another (other : object)

/-- `self_type& operator=(const self_type& other)`. -/
def operator_assign_copy {α : Type} (T : Target) (src : Source) : Exec (World α) Unit :=
  match src with
  | .this_object => Exec.pure ()
  | .another other => do
    clear_elements
    let v ← get_self
    if other.size_ > v.capacity_ then reallocation T other.size_ else pure ()
    copy_elements other
    modify_self (fun w => { w with size_ := other.size_ })

/-- `myvector(const self_type& other)`, run on the object under construction. -/
def ctor_copy {α : Type} (T : Target) (other : object) : Exec (World α) Unit := do
  let h ← (if other.size_ ≠ 0 then mymalloc T other.size_ else Exec.pure 0)
  modify_self (fun _ => { heap_ := h, size_ := other.size_, capacity_ := other.size_ })
  copy_elements other

/-- `std::swap(heap_, other.heap_);`. -/
def swap_heap_ {α : Type} : Exec (World α) Unit := fun w =>
  .ok () { w with self := { w.self with heap_ := w.other.heap_ },
                  other := { w.other with heap_ := w.self.heap_ } }

/-- `std::swap(size_, other.size_);`. -/
def swap_size_ {α : Type} : Exec (World α) Unit := fun w =>
  .ok () { w with self := { w.self with size_ := w.other.size_ },
                  other := { w.other with size_ := w.self.size_ } }

/-- `std::swap(capacity_, other.capacity_);`. -/
def swap_capacity_ {α : Type} : Exec (World α) Unit := fun w =>
  .ok () { w with self := { w.self with capacity_ := w.other.capacity_ },
                  other := { w.other with capacity_ := w.self.capacity_ } }

/-- `self_type& operator=(self_type&& other) noexcept`; `same` is the value of
`this == &other`. -/
def operator_assign_move {α : Type} (same : Bool) : Exec (World α) Unit :=
  if same then Exec.pure ()
  else do
    clear_elements
    swap_heap_
    swap_size_
    swap_capacity_

/-- `~myvector(void)`. -/
def destructor {α : Type} : Exec (World α) Unit := do
  destroy_from 0
  let v ← get_self
  (free v.heap_ : Exec (World α) Unit)
  modify_self (fun w => { w with heap_ := 0 })
  modify_self (fun w => { w with size_ := 0 })
  modify_self (fun w => { w with capacity_ := 0 })

/-- A reference to an element, or an iterator: the address of the block and the
offset of the element. -/
structure reference where
  base : Nat
  offset : Nat
deriving DecidableEq, Repr

/-- `reference at(size_type pos)`. -/
def at_ {α : Type} (pos : Nat) : Exec (World α) reference := do
  let v ← get_self
  if pos ≥ v.size_ then raise .out_of_range
  else pure { base := v.heap_, offset := pos }

/-- `reference operator[](size_type pos)`. -/
def index {α : Type} (pos : Nat) : Exec (World α) reference := do
  let v ← get_self
  pure { base := v.heap_, offset := pos }

/-- `reference front(void)`. -/
def front {α : Type} : Exec (World α) reference := do
  let v ← get_self
  pure { base := v.heap_, offset := 0 }

/-- `reference back(void)`. -/
def back {α : Type} (T : Target) : Exec (World α) reference := do
  let v ← get_self
  pure { base := v.heap_, offset := wrap T (v.size_ + 2 ^ T.bits - 1) }

/-- `pointer data(void) noexcept` and `iterator begin(void) noexcept`. -/
def data {α : Type} : Exec (World α) reference := do
  let v ← get_self
  pure { base := v.heap_, offset := 0 }

/-- `iterator end(void) noexcept`. -/
def end_ {α : Type} : Exec (World α) reference := do
  let v ← get_self
  pure { base := v.heap_, offset := v.size_ }

/-- The ways to obtain a reference or an iterator from the container; `shift` is what
the caller adds to an iterator before using it. -/
inductive access where
  | at_ (pos : Nat)
  | index (pos : Nat)
  | front
  | back
  | data (shift : Nat)
  | end_ (shift : Int)

/-- The reference that an `access` yields. -/
def access.get {α : Type} (T : Target) : access → Exec (World α) reference
  | .at_ pos => Mem.at_ pos
  | .index pos => Mem.index pos
  | .front => Mem.front
  | .back => Mem.back T
  | .data shift => Exec.bind Mem.data (fun r => Exec.pure { r with offset := r.offset + shift })
  | .end_ shift =>
    Exec.bind Mem.end_ (fun r => Exec.pure { r with offset := (r.offset + shift).toNat })

/-- The statement `r = y;` for a reference `r` obtained by the access `a`, for instance
`v[pos] = y;` or `*(v.begin() + k) = y;`. -/
def store_through {α : Type} (T : Target) (a : access) (y : α) : Exec (World α) Unit := do
  let r ← (access.get T a : Exec (World α) reference)
  assign_at r.base r.offset y

/-- The calls on an existing object that change it or its storage. -/
inductive call (α : Type) where
  | reserve (new_cap : Nat)
  | shrink_to_fit
  | push_back (value : α)
  | resize (count : Nat)
  | resize_value (count : Nat) (value : α)
  | assign (count : Nat) (value : α)
  | assign_ilist (init : List α)
  | assign_range (cat : iterator_category) (src : List α)
  | operator_assign_ilist (init : List α)
  | operator_assign_copy (src : Source)
  | operator_assign_move (same : Bool)
  | store_through (a : access) (value : α)
  | destructor

/-- Running a call. -/
def call.run {α : Type} [Inhabited α] (T : Target) : call α → Exec (World α) Unit
  | .reserve new_cap => Mem.reserve T new_cap
  | .shrink_to_fit => Mem.shrink_to_fit T
  | .push_back value => Mem.push_back T value
  | .resize count => Mem.resize T count
  | .resize_value count value => Mem.resize_value T count value
  | .assign count value => Mem.assign T count value
  | .assign_ilist init => Mem.assign_ilist T init
  | .assign_range cat src => Mem.assign_range T cat src
  | .operator_assign_ilist init => Mem.operator_assign_ilist T init
  | .operator_assign_copy src => Mem.operator_assign_copy T src
  | .operator_assign_move same => Mem.operator_assign_move same
  | .store_through a value => Mem.store_through T a value
  | .destructor => Mem.destructor

/-- The statement `try { x; } catch (...) { }`. -/
def caught {α : Type} (x : Exec (World α) Unit) : Exec (World α) Unit := fun w =>
  match x w with
  | .ok _ w1 => .ok () w1
  | .thrown _ w1 => .ok () w1
  | .undefined => .undefined

/-- A series of calls, one after the other, each with its exceptions caught. -/
def run_calls {α : Type} [Inhabited α] (T : Target) : List (call α) → Exec (World α) Unit
  | [] => Exec.pure ()
  | c :: rest => Exec.bind (caught (c.run T)) (fun _ => run_calls T rest)

/-- The block at the address `pa` is live and holds `blk`, and neither `*this` nor
`other` points to it. -/
def Sep {α : Type} (pa : Nat) (blk : List (Option α)) (w : World α) : Prop :=
  w.store pa = some blk ∧ 0 < pa ∧ pa ≤ w.top ∧ w.self.heap_ ≠ pa ∧ w.other.heap_ ≠ pa

/-- The element sequence of the object `v` as the store holds it. -/
def elements {α : Type} (store : Nat → Option (List (Option α))) (v : object) : List α :=
  if v.heap_ = 0 then [] else (((store v.heap_).getD []).take v.size_).reduceOption

end Mem

/-- The computation `x` keeps the assertion `P` on every path, whether it returns or
throws, and a value it returns satisfies `Q`. -/
def Keeps {σ β : Type} (P : σ → Prop) (x : Exec σ β) (Q : β → Prop) : Prop :=
  ∀ s, P s →
    match x s with
    | .ok b s1 => P s1 ∧ Q b
    | .thrown _ s1 => P s1
    | .undefined => True

/-- The state in which a run ends, if its behaviour is defined. -/
def Outcome.state {σ β : Type} : Outcome σ β → Option σ
  | .ok _ s => some s
  | .thrown _ s => some s
  | .undefined => none

/-- `template <class InputIt> myvector(InputIt first, InputIt last)`: runs on the object
under construction, whose members hold their default member initialisers when the body
starts; `mydistance` and the copy loop both start from `first`. -/
def ctor_range {α : Type} (T : Target) (cat : iterator_category) (r : iterator_range α) :
    Exec (Machine α) Unit := do
  let count := mydistance T cat r.values
  if count ≠ 0 then do
    let n ← length_check T count
    let h ← mymalloc T n
    modify_self (fun w => { w with heap_ := h })
    modify_self (fun w => { w with size_ := count })
    modify_self (fun w => { w with capacity_ := count })
    construct_list (r.copy_pass cat) 0
  else pure ()

/-- `myvector(std::initializer_list<value_type> init)`. -/
def ctor_ilist {α : Type} (T : Target) (init : List α) : Exec (Machine α) Unit := do
  let h ← (if init.length ≠ 0 then Exec.bind (length_check T init.length) (fun n => mymalloc T n)
    else Exec.pure none)
  modify_self (fun _ => { heap_ := h, size_ := init.length, capacity_ := init.length })
  construct_list init 0

/-- `~myvector(void)`. -/
def destructor {α : Type} : Exec (Machine α) Unit := do
  destroy_from 0
  let v ← get_self
  free v.heap_
  modify_self (fun w => { w with heap_ := none })
  modify_self (fun w => { w with size_ := 0 })
  modify_self (fun w => { w with capacity_ := 0 })

/-- The public member functions that may change an existing object: those of
`capacity_call`, those of `assign_call`, the copy assignment of the object to itself,
the move assignment from the object `other`, and the destructor. -/
inductive public_call (α : Type) where
  | capacity (call : capacity_call α)
  | assignment (call : assign_call α)
  | self_assignment
  | move_assignment (same : Bool)
  | destructor

/-- Running a call of `public_call` in a state with a second object. -/
def public_call.run {α : Type} [Inhabited α] (T : Target) : public_call α → Exec (Pair α) Unit
  | .capacity call => on_self (call.run T)
  | .assignment call => on_self (call.run T)
  | .self_assignment => on_self (operator_assign_copy T .this_object)
  | .move_assignment same => operator_assign_move same
  | .destructor => on_self MyVector.destructor

/-- What the call may assume of its argument. -/
def public_call.admissible {α : Type} (T : Target) : public_call α → Prop
  | .assignment call => call.admissible T
  | _ => True

/-- The constructors that build an object without changing another one: the default
constructor, the two with a size, the one from a range, the copy constructor and the one
from an initializer list; a range is one that yields the values `src` each time it is
traversed. -/
inductive ctor_call (α : Type) where
  | default_ctor
  | count_value (count : Nat) (value : α)
  | count (count : Nat)
  | range (cat : iterator_category) (src : List α)
  | copy (other : myvector α)
  | ilist (init : List α)

/-- Running a constructor on the object under construction; the default constructor
`myvector(void) noexcept = default;` leaves the default member initialisers. -/
def ctor_call.run {α : Type} [Inhabited α] (T : Target) : ctor_call α → Exec (Machine α) Unit
  | .default_ctor => Exec.pure ()
  | .count_value n value => ctor_count_value T n value
  | .count n => ctor_count T n
  | .range cat src => ctor_range T cat (multi_pass src)
  | .copy other => ctor_copy T other
  | .ilist init => ctor_ilist T init

/-- What a constructor may assume of its argument: the other object is well formed; the
length of a range is a `size_type` value. -/
def ctor_call.admissible {α : Type} (T : Target) : ctor_call α → Prop
  | .copy other => WF T other
  | .range _ src => src.length ≤ MAX_SIZE_BYTES T
  | _ => True

/-- The expression `r` used as a value, for a reference `r` obtained by the access `a`,
for instance `v[pos]` or `v.front()`. -/
def Mem.load {α : Type} (T : Target) (a : Mem.access) : Exec (Mem.World α) α := do
  let r ← (Mem.access.get T a : Exec (Mem.World α) Mem.reference)
  Mem.read_at r.base r.offset

/-- In the world `w` the object `*this` owns a live block of `capacity_` slots, of which
the first `size_` hold the elements `xs` and the others are raw. -/
def Mem.holds {α : Type} (w : Mem.World α) (xs : List α) : Prop :=
  w.self.size_ = xs.length ∧ xs.length ≤ w.self.capacity_ ∧ w.self.heap_ ≠ 0 ∧
  w.store w.self.heap_
    = some (xs.map some ++ List.replicate (w.self.capacity_ - xs.length) none)

/-- The first statement of both `push_back` overloads:
`if (need_twice_capacity()) { reallocation(twice_length(), realloc_switcher()); }`. -/
def push_back_grow {α : Type} (T : Target) : Exec (Machine α) Unit := do
  let need ← need_twice_capacity T
  if need then do
    let n ← twice_length T
    reallocation T n
  else pure ()

/-- The other statements of `push_back`: `new(&heap_[size_]) value_type(value); size_++;`,
for the value that the parameter yields. -/
def push_back_construct {α : Type} (T : Target) (value : α) : Exec (Machine α) Unit := do
  let v ← get_self
  construct_own v.size_ value
  modify_self (fun w => { w with size_ := wrap T (w.size_ + 1) })

/-- A platform with a `size_type` of 2 bits and elements of one byte, relocated by
`realloc`: `max_size()` is 3, the largest `size_type` value. -/
def T_tiny : Target := { bits := 2, sizeof_value := 1, realloc_switcher := .trivially_copyable_tag }

/-- The code `x`, started on the object `v` after the requests `reqs`, makes no request
to the allocator, however the allocator would answer. -/
def no_request {α : Type} (x : Exec (Machine α) Unit) (v : myvector α) (reqs : List Nat) :
    Prop :=
  ∀ g : Nat → Nat → Bool, ∃ m,
    (x ⟨v, ⟨g, reqs⟩⟩ = .ok () m ∨ ∃ e, x ⟨v, ⟨g, reqs⟩⟩ = .thrown e m) ∧ m.sys = ⟨g, reqs⟩

/-- The code `x`, started on the object `v` after the requests `reqs`, makes exactly one
request to the allocator, whatever the answer: it asks for the bytes of `n` elements,
`n <= MAX_SIZE`, and this number is the product `sizeof(value_type) * n` itself, which
fits `size_type`; if the request is granted, `x` returns and `n` is the new capacity. -/
def single_request {α : Type} (T : Target) (x : Exec (Machine α) Unit) (v : myvector α)
    (reqs : List Nat) (n : Nat) : Prop :=
  n ≤ MAX_SIZE T ∧ T.sizeof_value * n ≤ MAX_SIZE_BYTES T ∧
  ∀ g : Nat → Nat → Bool, ∃ m,
    (x ⟨v, ⟨g, reqs⟩⟩ = .ok () m ∨ ∃ e, x ⟨v, ⟨g, reqs⟩⟩ = .thrown e m) ∧
    m.sys = ⟨g, reqs ++ [T.sizeof_value * n]⟩ ∧
    (g reqs.length (T.sizeof_value * n) = true →
      x ⟨v, ⟨g, reqs⟩⟩ = .ok () m ∧ capacity m.self = n)

/-- Modelled from the spec: one step of a shift inside the block, as `insert` and `erase`
(both absent from src/) need it: the element of slot `i` is moved to the raw slot `j`,
by construction there and destruction here. -/
def move_slot {α : Type} (i j : Nat) : Exec (Machine α) Unit := do
  let v ← get_self
  let x ← read_at v.heap_ i
  construct_own j x
  destroy_own i

/-- Modelled from the spec: the shift of `insert` without reallocation, "shifts the tail
`[position, size)` rightward by `k` slots ... back-to-front"; `insert` is absent from
src/.  The `n` elements from slot `p` on are moved by `k` slots, the last one first. -/
def shift_right {α : Type} : Nat → Nat → Nat → Exec (Machine α) Unit
  | _, 0, _ => Exec.pure ()
  | p, n + 1, k => Exec.bind (move_slot (p + n) (p + n + k)) (fun _ => shift_right p n k)

/-- Modelled from the spec: construction of the new elements `vs` of `insert` (absent
from src/) into the slots from `j` on of the fresh block `b`. -/
def construct_into {σ α : Type} :
    List α → Nat → Option (List (Option α)) → Exec σ (Option (List (Option α)))
  | [], _, b => Exec.pure b
  | x :: rest, j, b => Exec.bind (construct_at b j x) (fun b1 => construct_into rest (j + 1) b1)

/-- Modelled from the spec: relocation of the suffix by `insert` (absent from src/) when
it reallocates: the element of slot `i` goes to slot `i + k` of the fresh block `b`. -/
def relocate_shifted {α : Type} (k i : Nat) (b : Option (List (Option α))) :
    Exec (Machine α) (Option (List (Option α))) := do
  let v ← get_self
  let x ← read_at v.heap_ i
  let b1 ← construct_at b (i + k) x
  destroy_own i
  pure b1

/-- Modelled from the spec: `insert(position, ...)`, absent from src/, for the position
`begin() + p` and the new elements `vs` (one value, `count` copies of a value, a range
or an initializer list).  No element: nothing happens.  Otherwise the new size is
length-checked; if it fits the capacity, the tail is shifted right back-to-front and the
new elements are constructed into the gap; if not, a fresh block is allocated, sized by
the growth policy and at least the new size, and receives the prefix, the new elements
and the suffix in this order, after which the old block is released.  The result is an
iterator to the first inserted element. -/
def insert_values {α : Type} (T : Target) (p : Nat) (vs : List α) :
    Exec (Machine α) (pointer α) := do
  let v ← get_self
  if p > v.size_ then undefined_behavior
  else if vs.length = 0 then pure { base := v.heap_, offset := p }
  else do
    let new_size ← length_check T (v.size_ + vs.length)
    if new_size ≤ v.capacity_ then do
      shift_right p (v.size_ - p) vs.length
      construct_list vs p
    else do
      let twice ← twice_length T
      let b ← mymalloc T (max twice new_size)
      let b1 ← for_loop relocate_step 0 p b
      let b2 ← construct_into vs p b1
      let b3 ← for_loop (relocate_shifted vs.length) p (v.size_ - p) b2
      free v.heap_
      modify_self (fun w => { w with heap_ := b3 })
      modify_self (fun w => { w with capacity_ := max twice new_size })
    modify_self (fun w => { w with size_ := new_size })
    let v1 ← get_self
    pure { base := v1.heap_, offset := p }

/-- Modelled from the spec: `insert(position, value)`, absent from src/. -/
def insert {α : Type} (T : Target) (p : Nat) (value : α) : Exec (Machine α) (pointer α) :=
  insert_values T p [value]

/-- Modelled from the spec: `insert(position, count, value)`, absent from src/. -/
def insert_count {α : Type} (T : Target) (p count : Nat) (value : α) :
    Exec (Machine α) (pointer α) :=
  insert_values T p (List.replicate count value)

/-- Modelled from the spec: `erase(first, last)`, absent from src/, for the range
`[begin() + first, begin() + last)`: "destroys the designated live element(s), then
shifts the remaining tail left by the gap width to close the hole ..., decrements `size`
by the erased count"; the capacity is not touched, and the result is an iterator at
`first`.  "Erasing an empty range `[first,first)` is a no-op returning an iterator equal
to `first`." -/
def erase_range {α : Type} (first last : Nat) : Exec (Machine α) (pointer α) := do
  let v ← get_self
  if first ≤ last ∧ last ≤ v.size_ then
    if first = last then pure { base := v.heap_, offset := first }
    else do
      for_loop (fun i _ => destroy_own i) first (last - first) ()
      for_loop (fun i _ => move_slot (i + (last - first)) i) first (v.size_ - last) ()
      modify_self (fun w => { w with size_ := w.size_ - (last - first) })
      let v1 ← get_self
      pure { base := v1.heap_, offset := first }
  else undefined_behavior

/-- Modelled from the spec: `erase(position)`, absent from src/, for the position
`begin() + pos` of an element. -/
def erase {α : Type} (pos : Nat) : Exec (Machine α) (pointer α) := do
  let v ← get_self
  if pos < v.size_ then erase_range pos (pos + 1) else undefined_behavior

/-! ## Concrete instantiations used to exercise the theorems -/

/-- A 64-bit platform, elements of 4 bytes that are relocated by move construction. -/
def T64 : Target := { bits := 64, sizeof_value := 4, realloc_switcher := .move_constructible_tag }

/-- An allocator that grants every request and has not been used yet. -/
def sys_yes : Allocator := { grants := fun _ _ => true, requests := [] }

/-- An allocator that refuses every request and has not been used yet. -/
def sys_no : Allocator := { grants := fun _ _ => false, requests := [] }

/-- A vector `a` of the elements 1, 2, 3 with its block at address 1. -/
def a123 : Mem.object := { heap_ := 1, size_ := 3, capacity_ := 3 }

/-- A world in which only the block of `a123` is live. -/
def world_a123 : Mem.World Nat :=
  { self := {}, other := {},
    store := fun p => if p = 1 then some [some 1, some 2, some 3] else none,
    top := 1, moves := fun _ => true, sys := sys_yes }

/-- A world in which `*this` is the vector `a123` and `other` is empty. -/
def world_self123 : Mem.World Nat :=
  { self := a123, other := {},
    store := fun p => if p = 1 then some [some 1, some 2, some 3] else none,
    top := 1, moves := fun _ => true, sys := sys_yes }

/-! ## Basic facts -/

section Basics

variable {α : Type}

theorem reduceOption_map_some (xs : List α) : (xs.map some).reduceOption = xs := by
  induction xs with
  | nil => rfl
  | cons x xs ih => simp [ih]

theorem elements_rep (xs : List α) (c : Nat) (h : xs.length ≤ c) : elements (rep xs c) = xs := by
  unfold elements rep
  by_cases hc : c = 0
  · subst hc
    have : xs = [] := List.length_eq_zero.mp (Nat.le_zero.mp h)
    subst this
    simp
  · simp only [hc, if_false, Option.getD_some]
    rw [List.take_left' (List.length_map xs some)]
    exact reduceOption_map_some xs

theorem WF_rep (T : Target) (xs : List α) (c : Nat) (h : xs.length ≤ c) (hc : c ≤ MAX_SIZE T) :
    WF T (rep xs c) := by
  refine ⟨h, hc, ?_⟩
  show rep xs c = rep (elements (rep xs c)) c
  rw [elements_rep xs c h]

theorem WF_iff (T : Target) (v : myvector α) :
    WF T v ↔ ∃ xs c, xs.length ≤ c ∧ c ≤ MAX_SIZE T ∧ v = rep xs c := by
  constructor
  · rintro ⟨h1, h2, h3⟩
    refine ⟨elements v, v.capacity_, ?_, h2, h3⟩
    have : v.size_ = (elements v).length := by
      conv_lhs => rw [h3]
      rfl
    omega
  · rintro ⟨xs, c, h1, h2, rfl⟩
    exact WF_rep T xs c h1 h2

theorem sizeof_mul_le (T : Target) (n : Nat) (hn : n ≤ MAX_SIZE T) :
    T.sizeof_value * n ≤ MAX_SIZE_BYTES T := by
  calc T.sizeof_value * n ≤ T.sizeof_value * (MAX_SIZE_BYTES T / T.sizeof_value) :=
        Nat.mul_le_mul_left _ hn
    _ ≤ MAX_SIZE_BYTES T := Nat.mul_div_le _ _

theorem bytes_for_eq (T : Target) (n : Nat) (hn : n ≤ MAX_SIZE T) :
    bytes_for T n = T.sizeof_value * n := by
  have h := sizeof_mul_le T n hn
  unfold bytes_for wrap
  apply Nat.mod_eq_of_lt
  unfold MAX_SIZE_BYTES at h
  have : 0 < 2 ^ T.bits := Nat.two_pow_pos _
  omega

theorem bytes_for_div (T : Target) (hT : T.valid) (n : Nat) (hn : n ≤ MAX_SIZE T) :
    bytes_for T n / T.sizeof_value = n := by
  rw [bytes_for_eq T n hn]
  exact Nat.mul_div_cancel_left n hT.1

theorem MAX_SIZE_le (T : Target) : MAX_SIZE T ≤ MAX_SIZE_BYTES T := Nat.div_le_self _ _

theorem MAX_SIZE_pos (T : Target) (hT : T.valid) : 1 ≤ MAX_SIZE T := by
  unfold MAX_SIZE
  exact (Nat.one_le_div_iff hT.1).mpr hT.2

theorem wrap_of_le (T : Target) (n : Nat) (hn : n ≤ MAX_SIZE_BYTES T) : wrap T n = n := by
  unfold wrap
  apply Nat.mod_eq_of_lt
  unfold MAX_SIZE_BYTES at hn
  have : 0 < 2 ^ T.bits := Nat.two_pow_pos _
  omega

end Basics

/-! ## Running the loops and the reallocation on a well-formed object -/

section Runs

variable {σ β γ α : Type}

theorem run_bind (x : Exec σ β) (f : β → Exec σ γ) (s : σ) :
    (x >>= f) s = Exec.bind x f s := rfl

theorem run_pure (b : β) (s : σ) : (pure b : Exec σ β) s = .ok b s := rfl

theorem exec_pure_bind (b : β) (f : β → Exec σ γ) : Exec.bind (Exec.pure b) f = f b := rfl

theorem read_value_object (released : Bool) (x : α) :
    read_value released (.object x) = Exec.pure x := rfl

theorem run_read_value_object (released : Bool) (x : α) (m : Machine α) :
    read_value released (.object x) m = .ok x m := rfl

theorem multi_pass_values (src : List α) : (multi_pass src).values = src := rfl

theorem multi_pass_copy_pass (cat : iterator_category) (src : List α) :
    (multi_pass src).copy_pass cat = src := by
  cases cat <;> rfl

theorem get?_append_cons (pre : List β) (a : β) (rest : List β) :
    (pre ++ a :: rest).get? pre.length = some a := by
  induction pre with
  | nil => rfl
  | cons p pre ih => exact ih

theorem set_append_cons (pre : List β) (a b : β) (rest : List β) :
    (pre ++ a :: rest).set pre.length b = pre ++ b :: rest := by
  induction pre with
  | nil => rfl
  | cons p pre ih => exact congrArg (List.cons p) ih

theorem destroy_own_run (pre : List (Option α)) (y : α) (rest : List (Option α)) (s c : Nat)
    (sys : Allocator) :
    destroy_own pre.length
        ⟨{ heap_ := some (pre ++ some y :: rest), size_ := s, capacity_ := c }, sys⟩
      = .ok () ⟨{ heap_ := some (pre ++ none :: rest), size_ := s, capacity_ := c }, sys⟩ := by
  simp only [destroy_own, run_bind, Exec.bind, get_self, destroy_at, modify_self, Exec.pure,
    get?_append_cons, set_append_cons]

theorem construct_own_run (pre : List (Option α)) (o : Option α) (x : α) (rest : List (Option α))
    (s c : Nat) (sys : Allocator) :
    construct_own pre.length x
        ⟨{ heap_ := some (pre ++ o :: rest), size_ := s, capacity_ := c }, sys⟩
      = .ok () ⟨{ heap_ := some (pre ++ some x :: rest), size_ := s, capacity_ := c }, sys⟩ := by
  have hlt : pre.length < (pre ++ o :: rest).length := by simp
  simp only [construct_own, run_bind, Exec.bind, get_self, construct_at, hlt, if_true,
    modify_self, Exec.pure, set_append_cons]

theorem destroy_loop_run (ys : List α) : ∀ (pre post : List (Option α)) (s c : Nat)
    (sys : Allocator),
    for_loop (fun i _ => destroy_own i) pre.length ys.length ()
        ⟨{ heap_ := some (pre ++ ys.map some ++ post), size_ := s, capacity_ := c }, sys⟩
      = .ok () ⟨{ heap_ := some (pre ++ List.replicate ys.length none ++ post),
                  size_ := s, capacity_ := c }, sys⟩ := by
  induction ys with
  | nil => intro pre post s c sys; simp [for_loop, Exec.pure]
  | cons y ys ih =>
    intro pre post s c sys
    have h := ih (pre ++ [none]) post s c sys
    simp only [List.length_append, List.length_singleton, List.append_assoc,
      List.singleton_append, List.cons_append, List.nil_append] at h
    simp only [List.length_cons, for_loop, List.map_cons, List.append_assoc, List.cons_append,
      Exec.bind, destroy_own_run, h, List.replicate_succ]

theorem construct_loop_run (x : α) (k : Nat) : ∀ (pre post : List (Option α)) (s c : Nat)
    (sys : Allocator),
    for_loop (fun i _ => construct_own i x) pre.length k ()
        ⟨{ heap_ := some (pre ++ List.replicate k none ++ post), size_ := s, capacity_ := c }, sys⟩
      = .ok () ⟨{ heap_ := some (pre ++ List.replicate k (some x) ++ post),
                  size_ := s, capacity_ := c }, sys⟩ := by
  induction k with
  | zero => intro pre post s c sys; simp [for_loop, Exec.pure]
  | succ k ih =>
    intro pre post s c sys
    have h := ih (pre ++ [some x]) post s c sys
    simp only [List.length_append, List.length_singleton, List.append_assoc,
      List.singleton_append, List.cons_append, List.nil_append] at h
    simp only [for_loop, List.append_assoc, List.cons_append,
      Exec.bind, construct_own_run, h, List.replicate_succ]

theorem construct_list_run (ys : List α) : ∀ (pre post : List (Option α)) (s c : Nat)
    (sys : Allocator),
    construct_list ys pre.length
        ⟨{ heap_ := some (pre ++ List.replicate ys.length none ++ post),
           size_ := s, capacity_ := c }, sys⟩
      = .ok () ⟨{ heap_ := some (pre ++ ys.map some ++ post), size_ := s, capacity_ := c }, sys⟩ := by
  induction ys with
  | nil => intro pre post s c sys; simp [construct_list, Exec.pure]
  | cons y ys ih =>
    intro pre post s c sys
    have h := ih (pre ++ [some y]) post s c sys
    simp only [List.length_append, List.length_singleton, List.append_assoc,
      List.singleton_append, List.cons_append, List.nil_append] at h
    simp only [List.length_cons, construct_list, List.map_cons, List.append_assoc,
      List.cons_append, Exec.bind, construct_own_run, h, List.replicate_succ]

theorem relocate_step_run (pre pre1 : List (Option α)) (hp : pre1.length = pre.length) (y : α)
    (rest rest1 : List (Option α)) (o : Option α) (s c : Nat) (sys : Allocator) :
    relocate_step pre.length (some (pre1 ++ o :: rest1))
        ⟨{ heap_ := some (pre ++ some y :: rest), size_ := s, capacity_ := c }, sys⟩
      = .ok (some (pre1 ++ some y :: rest1))
          ⟨{ heap_ := some (pre ++ none :: rest), size_ := s, capacity_ := c }, sys⟩ := by
  have hlt : pre.length < (pre1 ++ o :: rest1).length := by simp [hp]
  have hset := set_append_cons pre1 o (some y) rest1
  rw [hp] at hset
  simp only [relocate_step, run_bind, Exec.bind, get_self, read_at, get?_append_cons, Exec.pure,
    construct_at, hlt, if_true, hset, destroy_own_run, run_pure]

theorem relocate_loop_run (ys : List α) : ∀ (pre pre1 post post1 : List (Option α))
    (_ : pre1.length = pre.length) (s c : Nat) (sys : Allocator),
    for_loop relocate_step pre.length ys.length
        (some (pre1 ++ List.replicate ys.length none ++ post1))
        ⟨{ heap_ := some (pre ++ ys.map some ++ post), size_ := s, capacity_ := c }, sys⟩
      = .ok (some (pre1 ++ ys.map some ++ post1))
          ⟨{ heap_ := some (pre ++ List.replicate ys.length none ++ post),
             size_ := s, capacity_ := c }, sys⟩ := by
  induction ys with
  | nil => intro pre pre1 post post1 _ s c sys; simp [for_loop, Exec.pure]
  | cons y ys ih =>
    intro pre pre1 post post1 hp s c sys
    have h := ih (pre ++ [none]) (pre1 ++ [some y]) post post1 (by simp [hp]) s c sys
    simp only [List.length_append, List.length_singleton, List.append_assoc,
      List.singleton_append, List.cons_append, List.nil_append] at h
    simp only [List.length_cons, for_loop, List.map_cons, List.append_assoc, List.cons_append,
      Exec.bind, relocate_step_run _ _ hp, h, List.replicate_succ]

theorem copy_loop_run (ys : List α) : ∀ (blk pre pre1 post post1 : List (Option α))
    (_ : pre1.length = pre.length) (_ : blk = pre1 ++ ys.map some ++ post1)
    (s c : Nat) (sys : Allocator),
    for_loop (fun j _ => Exec.bind (read_at (some blk) j) (fun x => construct_own j x))
        pre.length ys.length ()
        ⟨{ heap_ := some (pre ++ List.replicate ys.length none ++ post),
           size_ := s, capacity_ := c }, sys⟩
      = .ok () ⟨{ heap_ := some (pre ++ ys.map some ++ post), size_ := s, capacity_ := c }, sys⟩ := by
  induction ys with
  | nil => intro blk pre pre1 post post1 _ _ s c sys; simp [for_loop, Exec.pure]
  | cons y ys ih =>
    intro blk pre pre1 post post1 hp hb s c sys
    have h := ih blk (pre ++ [some y]) (pre1 ++ [some y]) post post1 (by simp [hp])
      (by simp [hb]) s c sys
    have hr : (some blk).bind (fun b => b.get? pre.length) = some (some y) := by
      subst hb
      rw [← hp]
      simp only [List.map_cons, List.append_assoc, List.cons_append, Option.some_bind]
      exact get?_append_cons _ _ _
    simp only [Option.some_bind] at hr
    have h1 : (read_at (some blk) pre.length : Exec (Machine α) α) = Exec.pure y := by
      simp only [read_at, hr]
    simp only [List.length_append, List.length_singleton, List.append_assoc,
      List.singleton_append, List.cons_append, List.nil_append] at h
    simp only [List.length_cons, for_loop, List.map_cons, List.append_assoc, List.cons_append,
      Exec.bind, h1, Exec.pure, construct_own_run, h, List.replicate_succ]

theorem replicate_split (n k : Nat) (h : k ≤ n) (o : β) :
    List.replicate n o = List.replicate k o ++ List.replicate (n - k) o := by
  rw [List.append_replicate_replicate]
  congr 1
  omega

theorem reallocation_fail (T : Target) (new_cap : Nat) (v : myvector α) (sys : Allocator)
    (hg : sys.grants sys.requests.length (bytes_for T new_cap) = false) :
    reallocation T new_cap ⟨v, sys⟩
      = .thrown .bad_alloc ⟨v, (sys.request (bytes_for T new_cap)).2⟩ := by
  unfold reallocation
  cases T.realloc_switcher <;>
    simp [reallocation_trivially_copyable, reallocation_move_constructible,
      reallocation_copy_constructible, mymalloc, run_bind, Exec.bind, get_self, realloc, malloc,
      Allocator.request, hg, raise]

theorem realloc_block (xs : List α) (c n : Nat) (hxs : xs.length ≤ c) (hn : xs.length ≤ n) :
    List.take n ((rep xs c).heap_.getD []) ++
        List.replicate (n - ((rep xs c).heap_.getD []).length) none
      = xs.map some ++ List.replicate (n - xs.length) none := by
  unfold rep
  by_cases hc : c = 0
  · subst hc
    have : xs = [] := List.length_eq_zero.mp (Nat.le_zero.mp hxs)
    subst this
    simp
  · simp only [hc, if_false, Option.getD_some, List.length_append, List.length_map,
      List.length_replicate]
    rw [List.take_append_eq_append_take, List.take_of_length_le (by simp [hn]),
      List.take_replicate, List.append_assoc, List.append_replicate_replicate]
    congr 2
    simp only [List.length_map]
    omega

theorem relocate_all_run (xs : List α) (c n : Nat) (sys : Allocator)
    (hxs : xs.length ≤ c) (hn : xs.length ≤ n) :
    for_loop relocate_step 0 (rep xs c).size_ (some (List.replicate n none)) ⟨rep xs c, sys⟩
      = .ok (some (xs.map some ++ List.replicate (n - xs.length) none))
          ⟨{ heap_ := (rep [] c : myvector α).heap_, size_ := xs.length, capacity_ := c }, sys⟩ := by
  by_cases hc : c = 0
  · subst hc
    have : xs = [] := List.length_eq_zero.mp (Nat.le_zero.mp hxs)
    subst this
    simp [rep, for_loop, Exec.pure]
  · have h := relocate_loop_run xs [] [] (List.replicate (c - xs.length) none)
      (List.replicate (n - xs.length) none) rfl xs.length c sys
    simp only [List.nil_append, List.length_nil, ← replicate_split n xs.length hn,
      ← replicate_split c xs.length hxs] at h
    simp only [rep, hc, if_false, h, List.map_nil, List.length_nil, Nat.sub_zero, List.nil_append]

theorem reallocation_ok (T : Target) (hT : T.valid) (xs : List α) (c n : Nat) (sys : Allocator)
    (hxs : xs.length ≤ c) (hn : xs.length ≤ n) (hn1 : 1 ≤ n) (hmax : n ≤ MAX_SIZE T)
    (hg : sys.grants sys.requests.length (bytes_for T n) = true) :
    reallocation T n ⟨rep xs c, sys⟩ = .ok () ⟨rep xs n, (sys.request (bytes_for T n)).2⟩ := by
  have hdiv := bytes_for_div T hT n hmax
  have hn0 : n ≠ 0 := by omega
  unfold reallocation
  cases T.realloc_switcher
  · simp only [reallocation_trivially_copyable, run_bind, Exec.bind, get_self, realloc,
      Allocator.request, hg, if_true, hdiv, Option.isNone_some, modify_self, realloc_block xs c n hxs hn]
    simp [rep, hn0, run_bind, Exec.bind, modify_self]
  · simp only [reallocation_move_constructible, mymalloc, run_bind, Exec.bind, malloc,
      Allocator.request, hg, if_true, hdiv, Option.isNone_some, run_pure, get_self,
      Bool.false_eq_true, if_false, free, Exec.pure, modify_self]
    rw [relocate_all_run xs c n _ hxs hn]
    simp [rep, hn0]
  · simp only [reallocation_copy_constructible, mymalloc, run_bind, Exec.bind, malloc,
      Allocator.request, hg, if_true, hdiv, Option.isNone_some, run_pure, get_self,
      Bool.false_eq_true, if_false, free, Exec.pure, modify_self]
    rw [relocate_all_run xs c n _ hxs hn]
    simp [rep, hn0]

end Runs

/-! ## The member functions on a well-formed object -/

section Calls

variable {σ β γ α : Type}

theorem size_rep (xs : List α) (c : Nat) : (rep xs c).size_ = xs.length := rfl
theorem capacity_rep (xs : List α) (c : Nat) : (rep xs c).capacity_ = c := rfl

theorem reserve_run (T : Target) (hT : T.valid) (xs : List α) (c n : Nat) (sys : Allocator)
    (hxs : xs.length ≤ c) (hmax : n ≤ MAX_SIZE T)
    (hg : c < n → sys.grants sys.requests.length (bytes_for T n) = true) :
    reserve T n ⟨rep xs c, sys⟩ =
      if c < n then .ok () ⟨rep xs n, (sys.request (bytes_for T n)).2⟩
      else .ok () ⟨rep xs c, sys⟩ := by
  by_cases h : c < n
  · have hl : ¬ (n > MAX_SIZE T) := by omega
    simp only [reserve, run_bind, Exec.bind, get_self, capacity_rep, gt_iff_lt, h, if_true,
      length_check, hl, if_false, Exec.pure]
    exact reallocation_ok T hT xs c n sys hxs (by omega) (by omega) hmax (hg h)
  · simp only [reserve, run_bind, Exec.bind, get_self, capacity_rep, gt_iff_lt, h, if_false,
      run_pure]

theorem construct_end_run (xs : List α) (c s c1 : Nat) (x : α) (sys : Allocator)
    (h : xs.length < c) :
    construct_own xs.length x ⟨{ heap_ := (rep xs c).heap_, size_ := s, capacity_ := c1 }, sys⟩
      = .ok () ⟨{ heap_ := (rep (xs ++ [x]) c).heap_, size_ := s, capacity_ := c1 }, sys⟩ := by
  have hc : c ≠ 0 := by omega
  have h1 : c - xs.length = (c - (xs.length + 1)) + 1 := by omega
  have h2 := construct_own_run (xs.map some) none x (List.replicate (c - (xs.length + 1)) none)
    s c1 sys
  simp only [List.length_map] at h2
  simp only [rep, hc, if_false, h1, List.replicate_succ, h2, List.map_append, List.map_cons,
    List.map_nil, List.append_assoc, List.singleton_append, List.length_append,
    List.length_singleton, Nat.add_sub_cancel]

theorem construct_end_rep (xs : List α) (c : Nat) (x : α) (sys : Allocator)
    (h : xs.length < c) :
    construct_own xs.length x ⟨rep xs c, sys⟩
      = .ok () ⟨{ heap_ := (rep (xs ++ [x]) c).heap_, size_ := xs.length, capacity_ := c }, sys⟩ :=
  construct_end_run xs c xs.length c x sys h

theorem push_back_run (T : Target) (hT : T.valid) (xs : List α) (c : Nat) (sys : Allocator)
    (x : α) (hxs : xs.length ≤ c) (hc : c ≤ MAX_SIZE T) :
    push_back T (.object x) ⟨rep xs c, sys⟩ =
      if xs.length < c then .ok () ⟨rep (xs ++ [x]) c, sys⟩
      else if MAX_SIZE T / 2 < c then .thrown .length_error ⟨rep xs c, sys⟩
      else if sys.grants sys.requests.length (bytes_for T (max 1 (2 * c))) = true then
        .ok () ⟨rep (xs ++ [x]) (max 1 (2 * c)), (sys.request (bytes_for T (max 1 (2 * c)))).2⟩
      else .thrown .bad_alloc ⟨rep xs c, (sys.request (bytes_for T (max 1 (2 * c)))).2⟩ := by
  have hM := MAX_SIZE_pos T hT
  have hMB := MAX_SIZE_le T
  by_cases h : xs.length < c
  · have h1 : ¬ (xs.length ≥ MAX_SIZE T) := by omega
    have h2 : wrap T (xs.length + 1) = xs.length + 1 := wrap_of_le T _ (by omega)
    have h3 : ¬ (xs.length + 1 > c) := by omega
    have h4 := construct_end_rep xs c x sys h
    simp only [push_back, run_read_value_object, run_bind, Exec.bind, need_twice_capacity, get_self, size_rep, h1,
      if_false, run_pure, h2, capacity_rep, h3, decide_False, Bool.false_eq_true, h, if_true] 
    rw [h4]
    simp only [modify_self, h2]
    simp [rep]
  · have hxc : xs.length = c := by omega
    by_cases h5 : MAX_SIZE T / 2 < c
    · simp only [h, h5, if_false, if_true]
      by_cases h1 : xs.length ≥ MAX_SIZE T
      · simp only [push_back, run_read_value_object, run_bind, Exec.bind, need_twice_capacity, get_self, size_rep, h1,
          if_true, raise]
      · have h2 : wrap T (xs.length + 1) = xs.length + 1 := wrap_of_le T _ (by omega)
        have h3 : xs.length + 1 > c := by omega
        simp only [push_back, run_read_value_object, run_bind, Exec.bind, need_twice_capacity, get_self, size_rep, h1,
          if_false, run_pure, h2, capacity_rep, h3, decide_True, if_true, twice_length,
          gt_iff_lt, h5, raise]
    · have h1 : ¬ (xs.length ≥ MAX_SIZE T) := by omega
      have h2 : wrap T (xs.length + 1) = xs.length + 1 := wrap_of_le T _ (by omega)
      have h3 : xs.length + 1 > c := by omega
      have h6 : (if c ≠ 0 then wrap T (c * 2) else 1) = max 1 (2 * c) := by
        by_cases hc0 : c = 0
        · simp [hc0]
        · have : wrap T (c * 2) = c * 2 := wrap_of_le T _ (by omega)
          simp only [hc0, ne_eq, not_false_eq_true, if_true, this]
          omega
      have h7 : max 1 (2 * c) ≤ MAX_SIZE T := by omega
      have h8 : xs.length < max 1 (2 * c) := by omega
      simp only [h, h5, if_false]
      simp only [push_back, run_read_value_object, run_bind, Exec.bind, need_twice_capacity, get_self, size_rep, h1,
        if_false, run_pure, h2, capacity_rep, h3, decide_True, if_true, twice_length,
        gt_iff_lt, h5, h6]
      by_cases hg : sys.grants sys.requests.length (bytes_for T (max 1 (2 * c))) = true
      · rw [reallocation_ok T hT xs c _ sys hxs (by omega) (by omega) h7 hg]
        simp only [hg, if_true, size_rep, run_read_value_object]
        rw [construct_end_rep xs _ x _ h8]
        simp only [modify_self, h2]
        simp [rep]
      · rw [reallocation_fail T _ _ sys (by simpa using hg)]
        simp [hg]

theorem doubled_step_lt (n c : Nat) (h : doubled n c) (hlt : n < c) : doubled (n + 1) c := by
  rcases h with ⟨h1, h2⟩ | ⟨j, h1, h2, h3⟩
  · omega
  · exact Or.inr ⟨j, h1, by omega, by omega⟩

theorem doubled_step_full (n c : Nat) (h : doubled n c) (heq : n = c) :
    doubled (n + 1) (max 1 (2 * c)) := by
  rcases h with ⟨h1, h2⟩ | ⟨j, h1, h2, h3⟩
  · subst h1; subst h2
    exact Or.inr ⟨0, by simp, by simp, by simp⟩
  · have hp : 0 < 2 ^ j := Nat.two_pow_pos j
    have h4 : max 1 (2 * c) = 2 ^ (j + 1) := by
      rw [Nat.pow_succ]; omega
    exact Or.inr ⟨j + 1, h4, by omega, by omega⟩

theorem doubled_room (n c N k : Nat) (h : doubled n c) (heq : n = c) (hN : n < N)
    (hk : N ≤ 2 ^ k) : max 1 (2 * c) ≤ 2 ^ k := by
  have hp : 0 < 2 ^ k := Nat.two_pow_pos k
  rcases h with ⟨h1, h2⟩ | ⟨j, h1, h2, h3⟩
  · omega
  · have hlt : 2 ^ j < 2 ^ k := by omega
    have hjk : j < k := (Nat.pow_lt_pow_iff_right (by decide)).mp hlt
    have h5 : 2 ^ (j + 1) ≤ 2 ^ k := Nat.pow_le_pow_right (by decide) hjk
    rw [Nat.pow_succ] at h5
    have hpj : 0 < 2 ^ j := Nat.two_pow_pos j
    omega

theorem doubled_least (n c : Nat) (h : doubled n c) :
    (n = 0 → c = 0) ∧
    (0 < n → ∃ j, c = 2 ^ j ∧ n ≤ c ∧ ∀ i, n ≤ 2 ^ i → c ≤ 2 ^ i) := by
  rcases h with ⟨h1, h2⟩ | ⟨j, h1, h2, h3⟩
  · exact ⟨fun _ => h2, fun h => by omega⟩
  · refine ⟨fun h => by omega, fun _ => ⟨j, h1, h2, ?_⟩⟩
    intro i hi
    subst h1
    have hlt : 2 ^ j < 2 ^ (i + 1) := by rw [Nat.pow_succ]; omega
    have hji : j < i + 1 := (Nat.pow_lt_pow_iff_right (by decide)).mp hlt
    exact Nat.pow_le_pow_right (by decide) (by omega)

theorem push_back_all_result (T : Target) (hT : T.valid) (xs : List α) :
    ∀ (ys : List α) (c : Nat) (sys : Allocator) (m : Machine α),
      ys.length ≤ c → c ≤ MAX_SIZE T → doubled ys.length c →
      push_back_all T xs ⟨rep ys c, sys⟩ = .ok () m →
      ∃ c1, m.self = rep (ys ++ xs) c1 ∧ (ys ++ xs).length ≤ c1 ∧ c1 ≤ MAX_SIZE T ∧
        doubled (ys ++ xs).length c1 := by
  induction xs with
  | nil =>
    intro ys c sys m h1 h2 h3 hm
    simp only [push_back_all, Exec.pure] at hm
    injection hm with _ hm
    subst hm
    exact ⟨c, by simp, by simpa using h1, h2, by simpa using h3⟩
  | cons x xs ih =>
    intro ys c sys m h1 h2 h3 hm
    simp only [push_back_all, Exec.bind, push_back_run T hT ys c sys x h1 h2] at hm
    have hM := MAX_SIZE_pos T hT
    have hlen : (ys ++ [x]).length = ys.length + 1 := by simp
    by_cases h : ys.length < c
    · simp only [h, if_true] at hm
      obtain ⟨c1, e1, e2, e3, e4⟩ := ih (ys ++ [x]) c sys m (by omega) h2
        (by rw [hlen]; exact doubled_step_lt _ _ h3 h) hm
      exact ⟨c1, by simpa using e1, by simpa using e2, e3, by simpa using e4⟩
    · have hxc : ys.length = c := by omega
      simp only [h, if_false] at hm
      by_cases h5 : MAX_SIZE T / 2 < c
      · simp only [h5, if_true] at hm
        cases hm
      · simp only [h5, if_false] at hm
        by_cases hg : sys.grants sys.requests.length (bytes_for T (max 1 (2 * c))) = true
        · simp only [hg, if_true] at hm
          obtain ⟨c1, e1, e2, e3, e4⟩ := ih (ys ++ [x]) (max 1 (2 * c)) _ m (by omega)
            (by omega) (by rw [hlen]; exact doubled_step_full _ _ h3 hxc) hm
          exact ⟨c1, by simpa using e1, by simpa using e2, e3, by simpa using e4⟩
        · simp only [hg, if_false] at hm
          cases hm

theorem push_back_all_returns (T : Target) (hT : T.valid) (k : Nat) (hk : 2 ^ k ≤ MAX_SIZE T)
    (xs : List α) :
    ∀ (ys : List α) (c : Nat) (sys : Allocator),
      sys.generous → ys.length ≤ c → c ≤ MAX_SIZE T → doubled ys.length c →
      ys.length + xs.length ≤ 2 ^ k →
      ∃ m, push_back_all T xs ⟨rep ys c, sys⟩ = .ok () m := by
  induction xs with
  | nil =>
    intro ys c sys _ _ _ _ _
    exact ⟨_, rfl⟩
  | cons x xs ih =>
    intro ys c sys hgen h1 h2 h3 h4
    simp only [push_back_all, Exec.bind, push_back_run T hT ys c sys x h1 h2]
    have hM := MAX_SIZE_pos T hT
    have hlen : (ys ++ [x]).length = ys.length + 1 := by simp
    have h4' : (ys ++ [x]).length + xs.length ≤ 2 ^ k := by
      rw [hlen]; simp only [List.length_cons] at h4; omega
    by_cases h : ys.length < c
    · simp only [h, if_true]
      exact ih (ys ++ [x]) c sys hgen (by omega) h2
        (by rw [hlen]; exact doubled_step_lt _ _ h3 h) h4'
    · have hxc : ys.length = c := by omega
      have hroom := doubled_room ys.length c (ys.length + (x :: xs).length) k h3 hxc
        (by simp) h4
      have h5 : ¬ (MAX_SIZE T / 2 < c) := by omega
      simp only [h, h5, if_false, hgen _ _, if_true]
      exact ih (ys ++ [x]) (max 1 (2 * c)) _ (fun a b => hgen a b) (by omega) (by omega)
        (by rw [hlen]; exact doubled_step_full _ _ h3 hxc) h4'

theorem fresh_eq (sys : Allocator) : (fresh sys : Machine α) = ⟨rep [] 0, sys⟩ := rfl

theorem read_rep (xs : List α) (c pos : Nat) (sys : Machine α) (h : pos < xs.length)
    (hc : xs.length ≤ c) :
    read_at (rep xs c).heap_ pos sys = .ok (xs.get ⟨pos, h⟩) sys := by
  have hc0 : c ≠ 0 := by omega
  have hg : (xs.map some ++ List.replicate (c - xs.length) none).get? pos
      = some (some (xs.get ⟨pos, h⟩)) := by
    simp only [List.get?_eq_getElem?, List.get_eq_getElem]
    rw [List.getElem?_append_left (by simpa using h)]
    simp [h]
  simp only [rep, hc0, if_false, read_at, hg, Exec.pure]

theorem read_at_not_thrown (p : Option (List (Option α))) (i : Nat) (s s1 : σ) (e : Exception) :
    (read_at p i : Exec σ α) s ≠ .thrown e s1 := by
  unfold read_at
  cases p with
  | none => simp [undefined_behavior]
  | some blk =>
    simp only
    cases blk.get? i with
    | none => simp [undefined_behavior]
    | some o => cases o <;> simp [undefined_behavior, Exec.pure]

theorem at_run (xs : List α) (c pos : Nat) (sys : Allocator) (h : pos < xs.length)
    (hc : xs.length ≤ c) :
    at_ pos ⟨rep xs c, sys⟩ = .ok (xs.get ⟨pos, h⟩) ⟨rep xs c, sys⟩ := by
  have h1 : ¬ (pos ≥ xs.length) := by omega
  simp only [at_, run_bind, Exec.bind, get_self, size_rep, h1, if_false]
  exact read_rep xs c pos _ h hc

theorem destroy_from_run (xs : List α) (c k : Nat) (sys : Allocator) (hxs : xs.length ≤ c) :
    destroy_from k ⟨rep xs c, sys⟩
      = .ok () ⟨{ heap_ := (rep (xs.take k) c).heap_, size_ := xs.length, capacity_ := c }, sys⟩ := by
  by_cases hk : xs.length ≤ k
  · have h0 : xs.length - k = 0 := by omega
    simp only [destroy_from, run_bind, Exec.bind, get_self, size_rep, h0, for_loop, Exec.pure,
      List.take_of_length_le hk]
    rfl
  · have hc0 : c ≠ 0 := by omega
    have hk1 : k < xs.length := by omega
    have h := destroy_loop_run (xs.drop k) ((xs.take k).map some)
      (List.replicate (c - xs.length) none) xs.length c sys
    simp only [List.length_map, List.length_take, List.length_drop, Nat.min_eq_left (Nat.le_of_lt hk1),
      ← List.map_append, List.take_append_drop] at h
    simp only [destroy_from, run_bind, Exec.bind, get_self, size_rep]
    simp only [rep, hc0, if_false, h, List.length_take, Nat.min_eq_left (Nat.le_of_lt hk1),
      List.append_assoc, List.append_replicate_replicate]
    have : xs.length - k + (c - xs.length) = c - k := by omega
    rw [this]

theorem clear_elements_run (xs : List α) (c : Nat) (sys : Allocator) (hxs : xs.length ≤ c) :
    clear_elements ⟨rep xs c, sys⟩ = .ok () ⟨rep [] c, sys⟩ := by
  simp only [clear_elements, run_bind, Exec.bind, destroy_from_run xs c 0 sys hxs, modify_self,
    List.take_zero]
  rfl

theorem construct_fill_run (xs : List α) (c k : Nat) (x : α) (sys : Allocator)
    (hk : xs.length + k ≤ c) :
    for_loop (fun i _ => construct_own i x) xs.length k () ⟨rep xs c, sys⟩
      = .ok () ⟨{ heap_ := (rep (xs ++ List.replicate k x) c).heap_, size_ := xs.length,
                  capacity_ := c }, sys⟩ := by
  by_cases hk0 : k = 0
  · subst hk0
    simp only [for_loop, Exec.pure, List.replicate_zero, List.append_nil]
    rfl
  · have hc0 : c ≠ 0 := by omega
    have h := construct_loop_run x k (xs.map some) (List.replicate (c - (xs.length + k)) none)
      xs.length c sys
    simp only [List.length_map, List.append_assoc, List.append_replicate_replicate] at h
    have e : k + (c - (xs.length + k)) = c - xs.length := by omega
    rw [e] at h
    simp only [rep, hc0, if_false, h, List.map_append, List.map_replicate, List.length_append,
      List.length_replicate, List.append_assoc]

theorem construct_list_rep (ys : List α) (c : Nat) (sys : Allocator) (hk : ys.length ≤ c) :
    construct_list ys 0 ⟨rep [] c, sys⟩
      = .ok () ⟨{ heap_ := (rep ys c).heap_, size_ := 0, capacity_ := c }, sys⟩ := by
  by_cases hk0 : ys = []
  · subst hk0
    simp only [construct_list, Exec.pure]
    rfl
  · have hc0 : c ≠ 0 := by
      have : ys.length ≠ 0 := fun h => hk0 (List.length_eq_zero.mp h)
      omega
    have h := construct_list_run ys [] (List.replicate (c - ys.length) none) 0 c sys
    simp only [List.nil_append, List.length_nil, List.append_replicate_replicate] at h
    have e : ys.length + (c - ys.length) = c := by omega
    rw [e] at h
    simp only [rep, hc0, if_false, List.map_nil, List.length_nil, Nat.sub_zero, List.nil_append, h]

theorem copy_elements_rep (ys : List α) (c c2 : Nat) (sys : Allocator) (hk : ys.length ≤ c)
    (hk2 : ys.length ≤ c2) :
    copy_elements (rep ys c2) ⟨rep [] c, sys⟩
      = .ok () ⟨{ heap_ := (rep ys c).heap_, size_ := 0, capacity_ := c }, sys⟩ := by
  by_cases hk0 : ys = []
  · subst hk0
    simp only [copy_elements, size_rep, List.length_nil, for_loop, Exec.pure]
    rfl
  · have hl : ys.length ≠ 0 := fun h => hk0 (List.length_eq_zero.mp h)
    have hc0 : c ≠ 0 := by omega
    have hc2 : c2 ≠ 0 := by omega
    have h := copy_loop_run ys (ys.map some ++ List.replicate (c2 - ys.length) none) [] []
      (List.replicate (c - ys.length) none) (List.replicate (c2 - ys.length) none) rfl
      (by simp) 0 c sys
    simp only [List.nil_append, List.length_nil, List.append_replicate_replicate] at h
    have e : ys.length + (c - ys.length) = c := by omega
    rw [e] at h
    simp only [copy_elements, size_rep]
    simp only [rep, hc0, hc2, if_false, List.map_nil, List.length_nil, Nat.sub_zero,
      List.nil_append, h]

theorem set_size_rep (ys : List α) (c s n : Nat) (sys : Allocator) (hn : n = ys.length) :
    modify_self (fun w => { w with size_ := n })
        ⟨{ heap_ := (rep ys c).heap_, size_ := s, capacity_ := c }, sys⟩
      = .ok () ⟨rep ys c, sys⟩ := by
  subst hn
  rfl

theorem refused_of_not (b : Bool) (h : ¬ b = true) : b = false := by
  cases b
  · rfl
  · exact absurd rfl h

theorem assign_run (T : Target) (hT : T.valid) (xs : List α) (c : Nat) (sys : Allocator)
    (count : Nat) (x : α) (hxs : xs.length ≤ c) :
    assign T count (.object x) ⟨rep xs c, sys⟩ =
      if MAX_SIZE T < count then .thrown .length_error ⟨rep xs c, sys⟩
      else if c < count then
        if sys.grants sys.requests.length (bytes_for T count) = true then
          .ok () ⟨rep (List.replicate count x) count, (sys.request (bytes_for T count)).2⟩
        else .thrown .bad_alloc ⟨rep [] c, (sys.request (bytes_for T count)).2⟩
      else .ok () ⟨rep (List.replicate count x) c, sys⟩ := by
  by_cases h1 : MAX_SIZE T < count
  · have h1' : count > MAX_SIZE T := h1
    simp only [assign, run_bind, Exec.bind, length_check, h1', h1, if_true, raise]
  · have h1' : ¬ (count > MAX_SIZE T) := h1
    simp only [assign, read_value_object, exec_pure_bind]
    simp only [run_bind, Exec.bind, length_check, h1', h1, if_false, Exec.pure,
      clear_elements_run xs c sys hxs, get_self, capacity_rep, gt_iff_lt]
    by_cases h2 : c < count
    · simp only [h2, if_true]
      by_cases hg : sys.grants sys.requests.length (bytes_for T count) = true
      · have hf := construct_fill_run ([] : List α) count count x
          (sys.request (bytes_for T count)).2 (by show 0 + count ≤ count; omega)
        simp only [List.length_nil, List.nil_append] at hf
        simp only [hg, if_true, run_bind, Exec.bind,
          reallocation_ok T hT [] c count sys (Nat.zero_le _) (Nat.zero_le _) (by omega)
            (by omega) hg, hf]
        exact set_size_rep _ _ _ _ _ (by simp)
      · simp only [hg, if_false, run_bind, Exec.bind, Bool.false_eq_true,
          reallocation_fail T count _ sys (refused_of_not _ hg)]
    · have hf := construct_fill_run ([] : List α) c count x sys (by show 0 + count ≤ c; omega)
      simp only [List.length_nil, List.nil_append] at hf
      simp only [h2, if_false, run_pure, run_bind, Exec.bind, hf]
      exact set_size_rep _ _ _ _ _ (by simp)

theorem assign_list_tail (T : Target) (hT : T.valid) (ys : List α) (c : Nat) (sys : Allocator)
    (hys : ys.length ≤ MAX_SIZE T) :
    (do
      let v ← get_self
      if ys.length > v.capacity_ then reallocation T ys.length else pure ()
      construct_list ys 0
      modify_self (fun w => { w with size_ := ys.length }) : Exec (Machine α) Unit)
      ⟨rep [] c, sys⟩ =
      if c < ys.length then
        if sys.grants sys.requests.length (bytes_for T ys.length) = true then
          .ok () ⟨rep ys ys.length, (sys.request (bytes_for T ys.length)).2⟩
        else .thrown .bad_alloc ⟨rep [] c, (sys.request (bytes_for T ys.length)).2⟩
      else .ok () ⟨rep ys c, sys⟩ := by
  simp only [run_bind, Exec.bind, get_self, capacity_rep, gt_iff_lt]
  by_cases h2 : c < ys.length
  · simp only [h2, if_true]
    by_cases hg : sys.grants sys.requests.length (bytes_for T ys.length) = true
    · simp only [hg, if_true, run_bind, Exec.bind,
        reallocation_ok T hT [] c ys.length sys (Nat.zero_le _) (Nat.zero_le _) (by omega)
          hys hg, construct_list_rep ys ys.length _ (le_refl _)]
      exact set_size_rep _ _ _ _ _ rfl
    · simp only [hg, if_false, run_bind, Exec.bind, Bool.false_eq_true,
        reallocation_fail T ys.length _ sys (refused_of_not _ hg)]
  · simp only [h2, if_false, run_pure, run_bind, Exec.bind,
      construct_list_rep ys c sys (by omega)]
    exact set_size_rep _ _ _ _ _ rfl

theorem assign_ilist_run (T : Target) (hT : T.valid) (xs ys : List α) (c : Nat)
    (sys : Allocator) (hxs : xs.length ≤ c) :
    assign_ilist T ys ⟨rep xs c, sys⟩ =
      if MAX_SIZE T < ys.length then .thrown .length_error ⟨rep xs c, sys⟩
      else if c < ys.length then
        if sys.grants sys.requests.length (bytes_for T ys.length) = true then
          .ok () ⟨rep ys ys.length, (sys.request (bytes_for T ys.length)).2⟩
        else .thrown .bad_alloc ⟨rep [] c, (sys.request (bytes_for T ys.length)).2⟩
      else .ok () ⟨rep ys c, sys⟩ := by
  by_cases h1 : MAX_SIZE T < ys.length
  · have h1' : ys.length > MAX_SIZE T := h1
    simp only [assign_ilist, run_bind, Exec.bind, length_check, h1', h1, if_true, raise]
  · have h1' : ¬ (ys.length > MAX_SIZE T) := h1
    have ht := assign_list_tail T hT ys c sys (by omega)
    simp only [run_bind, Exec.bind] at ht
    simp only [assign_ilist, run_bind, Exec.bind, length_check, h1', h1, if_false, Exec.pure,
      clear_elements_run xs c sys hxs, ht]

theorem operator_assign_ilist_run (T : Target) (hT : T.valid) (xs ys : List α) (c : Nat)
    (sys : Allocator) (hxs : xs.length ≤ c) :
    operator_assign_ilist T ys ⟨rep xs c, sys⟩ =
      if MAX_SIZE T < ys.length then .thrown .length_error ⟨rep xs c, sys⟩
      else if c < ys.length then
        if sys.grants sys.requests.length (bytes_for T ys.length) = true then
          .ok () ⟨rep ys ys.length, (sys.request (bytes_for T ys.length)).2⟩
        else .thrown .bad_alloc ⟨rep [] c, (sys.request (bytes_for T ys.length)).2⟩
      else .ok () ⟨rep ys c, sys⟩ := by
  by_cases h1 : MAX_SIZE T < ys.length
  · have h1' : ys.length > MAX_SIZE T := h1
    simp only [operator_assign_ilist, run_bind, Exec.bind, length_check, h1', h1, if_true, raise]
  · have h1' : ¬ (ys.length > MAX_SIZE T) := h1
    have ht := assign_list_tail T hT ys c sys (by omega)
    simp only [run_bind, Exec.bind] at ht
    simp only [operator_assign_ilist, run_bind, Exec.bind, length_check, h1', h1, if_false,
      Exec.pure, clear_elements_run xs c sys hxs, ht]

theorem mydistance_input_eq (T : Target) (ys : List α) :
    ∀ a, ys.foldl (fun count _ => wrap T (count + 1)) (wrap T a) = wrap T (a + ys.length) := by
  induction ys with
  | nil => intro a; rfl
  | cons y ys ih =>
    intro a
    have h : wrap T (wrap T a + 1) = wrap T (a + 1) := by
      unfold wrap
      exact Nat.mod_add_mod _ _ _
    simp only [List.foldl_cons, List.length_cons, h, ih (a + 1)]
    congr 1
    omega

theorem mydistance_eq (T : Target) (cat : iterator_category) (ys : List α)
    (h : ys.length ≤ MAX_SIZE_BYTES T) : mydistance T cat ys = ys.length := by
  have hw := wrap_of_le T ys.length h
  have hi : mydistance_input T ys = ys.length := by
    have := mydistance_input_eq T ys 0
    simp only [Nat.zero_add, hw] at this
    unfold mydistance_input
    rw [← this]
    congr 1
  cases cat
  · simp only [mydistance, mydistance_random, Int.toNat_ofNat, hw, Int.natCast_nonneg, if_true]
  · exact hi

theorem assign_range_run (T : Target) (hT : T.valid) (cat : iterator_category)
    (xs ys : List α) (c : Nat) (sys : Allocator) (hxs : xs.length ≤ c)
    (hys : ys.length ≤ MAX_SIZE_BYTES T) :
    assign_range T cat (multi_pass ys) ⟨rep xs c, sys⟩ =
      if MAX_SIZE T < ys.length then .thrown .length_error ⟨rep xs c, sys⟩
      else if c < ys.length then
        if sys.grants sys.requests.length (bytes_for T ys.length) = true then
          .ok () ⟨rep ys ys.length, (sys.request (bytes_for T ys.length)).2⟩
        else .thrown .bad_alloc ⟨rep [] c, (sys.request (bytes_for T ys.length)).2⟩
      else .ok () ⟨rep ys c, sys⟩ := by
  by_cases h1 : MAX_SIZE T < ys.length
  · have h1' : ys.length > MAX_SIZE T := h1
    simp only [assign_range, multi_pass_values, multi_pass_copy_pass,
      mydistance_eq T cat ys hys, run_bind, Exec.bind, length_check, h1',
      h1, if_true, raise]
  · have h1' : ¬ (ys.length > MAX_SIZE T) := h1
    have ht := assign_list_tail T hT ys c sys (by omega)
    simp only [run_bind, Exec.bind] at ht
    simp only [assign_range, multi_pass_values, multi_pass_copy_pass,
      mydistance_eq T cat ys hys, run_bind, Exec.bind, length_check, h1',
      h1, if_false, Exec.pure, clear_elements_run xs c sys hxs, ht]

theorem operator_assign_copy_run (T : Target) (hT : T.valid) (xs ys : List α) (c c2 : Nat)
    (sys : Allocator) (hxs : xs.length ≤ c) (hys : ys.length ≤ c2) (hc2 : c2 ≤ MAX_SIZE T) :
    operator_assign_copy T (.another (rep ys c2)) ⟨rep xs c, sys⟩ =
      if c < ys.length then
        if sys.grants sys.requests.length (bytes_for T ys.length) = true then
          .ok () ⟨rep ys ys.length, (sys.request (bytes_for T ys.length)).2⟩
        else .thrown .bad_alloc ⟨rep [] c, (sys.request (bytes_for T ys.length)).2⟩
      else .ok () ⟨rep ys c, sys⟩ := by
  simp only [operator_assign_copy, run_bind, Exec.bind, clear_elements_run xs c sys hxs,
    get_self, capacity_rep, size, size_rep, gt_iff_lt]
  by_cases h2 : c < ys.length
  · simp only [h2, if_true]
    by_cases hg : sys.grants sys.requests.length (bytes_for T ys.length) = true
    · simp only [hg, if_true, run_bind, Exec.bind,
        reallocation_ok T hT [] c ys.length sys (Nat.zero_le _) (Nat.zero_le _) (by omega)
          (by omega) hg, copy_elements_rep ys ys.length c2 _ (le_refl _) hys]
      exact set_size_rep _ _ _ _ _ rfl
    · simp only [hg, if_false, run_bind, Exec.bind, Bool.false_eq_true,
        reallocation_fail T ys.length _ sys (refused_of_not _ hg)]
  · simp only [h2, if_false, run_pure, run_bind, Exec.bind,
      copy_elements_rep ys c c2 sys (by omega) hys]
    exact set_size_rep _ _ _ _ _ rfl

theorem resize_value_run (T : Target) (hT : T.valid) (xs : List α) (c : Nat) (sys : Allocator)
    (count : Nat) (x : α) (hxs : xs.length ≤ c) :
    resize_value T count (.object x) ⟨rep xs c, sys⟩ =
      if count < xs.length then .ok () ⟨rep (xs.take count) c, sys⟩
      else if count = xs.length then .ok () ⟨rep xs c, sys⟩
      else if count ≤ c then
        .ok () ⟨rep (xs ++ List.replicate (count - xs.length) x) c, sys⟩
      else if MAX_SIZE T < count then .thrown .length_error ⟨rep xs c, sys⟩
      else if sys.grants sys.requests.length (bytes_for T count) = true then
        .ok () ⟨rep (xs ++ List.replicate (count - xs.length) x) count,
          (sys.request (bytes_for T count)).2⟩
      else .thrown .bad_alloc ⟨rep xs c, (sys.request (bytes_for T count)).2⟩ := by
  by_cases h1 : count < xs.length
  · simp only [resize_value, run_bind, Exec.bind, get_self, size_rep, h1, if_true,
      destroy_from_run xs c count sys hxs]
    exact set_size_rep _ _ _ _ _ (by simp; omega)
  · by_cases h2 : count = xs.length
    · have h3 : ¬ (count > xs.length) := by omega
      simp only [resize_value, run_bind, Exec.bind, get_self, size_rep, h1, if_false, h2,
        gt_iff_lt, lt_irrefl, run_pure, if_true]
    · have h3 : count > xs.length := by omega
      have hlen : (xs ++ List.replicate (count - xs.length) x).length = count := by
        simp; omega
      simp only [resize_value, read_value_object, exec_pure_bind]
      simp only [run_bind, Exec.bind, get_self, size_rep, capacity_rep, h1, h2,
        h3, if_false, if_true]
      by_cases h4 : count ≤ c
      · have h4' : ¬ (count > c) := by omega
        simp only [h4, h4', if_true, if_false, run_pure, run_bind, Exec.bind,
          construct_fill_run xs c (count - xs.length) x sys (by omega)]
        exact set_size_rep _ _ _ _ _ hlen.symm
      · have h4' : count > c := by omega
        simp only [h4, h4', if_true, if_false, run_bind, Exec.bind, length_check]
        by_cases h5 : MAX_SIZE T < count
        · have h5' : count > MAX_SIZE T := h5
          simp only [h5, h5', if_true, raise]
        · have h5' : ¬ (count > MAX_SIZE T) := h5
          simp only [h5, h5', if_false, Exec.pure]
          by_cases hg : sys.grants sys.requests.length (bytes_for T count) = true
          · simp only [hg, if_true,
              reallocation_ok T hT xs c count sys hxs (by omega) (by omega) (by omega) hg,
              construct_fill_run xs count (count - xs.length) x _ (by omega)]
            exact set_size_rep _ _ _ _ _ hlen.symm
          · simp only [hg, if_false, Bool.false_eq_true,
              reallocation_fail T count _ sys (refused_of_not _ hg)]

theorem resize_eq_resize_value [Inhabited α] (T : Target) (count : Nat) :
    (resize T count : Exec (Machine α) Unit) = resize_value T count (.object default) := rfl

theorem shrink_to_fit_run (T : Target) (hT : T.valid) (xs : List α) (c : Nat) (sys : Allocator)
    (hxs : xs.length ≤ c) (hc : c ≤ MAX_SIZE T) :
    shrink_to_fit T ⟨rep xs c, sys⟩ =
      if xs.length < c then
        if xs.length = 0 then .ok () ⟨rep xs 0, sys⟩
        else if sys.grants sys.requests.length (bytes_for T xs.length) = true then
          .ok () ⟨rep xs xs.length, (sys.request (bytes_for T xs.length)).2⟩
        else .thrown .bad_alloc ⟨rep xs c, (sys.request (bytes_for T xs.length)).2⟩
      else .ok () ⟨rep xs c, sys⟩ := by
  by_cases h1 : xs.length < c
  · by_cases h2 : xs.length = 0
    · have hx : xs = [] := List.length_eq_zero.mp h2
      subst hx
      have h1' : 0 < c := h1
      simp only [shrink_to_fit, run_bind, Exec.bind, get_self, size_rep, capacity_rep, h1',
        if_true, List.length_nil, free, Exec.pure, modify_self]
      rfl
    · simp only [shrink_to_fit, run_bind, Exec.bind, get_self, size_rep, capacity_rep, h1, h2,
        if_true, if_false]
      by_cases hg : sys.grants sys.requests.length (bytes_for T xs.length) = true
      · simp only [hg, if_true,
          reallocation_ok T hT xs c xs.length sys hxs (le_refl _) (by omega) (by omega) hg]
      · simp only [hg, if_false, Bool.false_eq_true,
          reallocation_fail T xs.length _ sys (refused_of_not _ hg)]
  · simp only [shrink_to_fit, run_bind, Exec.bind, get_self, size_rep, capacity_rep, h1,
      if_false, run_pure]

theorem MAX_SIZE_lt_bytes (T : Target) (hT : T.valid) (h2 : 2 ≤ T.sizeof_value) :
    MAX_SIZE T < MAX_SIZE_BYTES T := by
  have h := hT.2
  exact Nat.div_lt_self (by omega) (by omega)

theorem length_error_of_gt (T : Target) (n : Nat) (m : Machine α) (h : MAX_SIZE T < n) :
    length_check T n m = .thrown .length_error m := by
  have h' : n > MAX_SIZE T := h
  simp only [length_check, h', if_true, raise]

theorem reserve_run_gen (T : Target) (hT : T.valid) (xs : List α) (c n : Nat) (sys : Allocator)
    (hxs : xs.length ≤ c) :
    reserve T n ⟨rep xs c, sys⟩ =
      if c < n then
        if MAX_SIZE T < n then .thrown .length_error ⟨rep xs c, sys⟩
        else if sys.grants sys.requests.length (bytes_for T n) = true then
          .ok () ⟨rep xs n, (sys.request (bytes_for T n)).2⟩
        else .thrown .bad_alloc ⟨rep xs c, (sys.request (bytes_for T n)).2⟩
      else .ok () ⟨rep xs c, sys⟩ := by
  by_cases h : c < n
  · by_cases h1 : MAX_SIZE T < n
    · simp only [reserve, run_bind, Exec.bind, get_self, capacity_rep, gt_iff_lt, h, if_true,
        length_error_of_gt T n _ h1, h1]
    · by_cases hg : sys.grants sys.requests.length (bytes_for T n) = true
      · rw [reserve_run T hT xs c n sys hxs (by omega) (fun _ => hg)]
        simp only [h, h1, hg, if_true, if_false]
      · have h1' : ¬ (n > MAX_SIZE T) := h1
        simp only [reserve, run_bind, Exec.bind, get_self, capacity_rep, gt_iff_lt, h, if_true,
          length_check, h1', h1, if_false, Exec.pure, hg, Bool.false_eq_true,
          reallocation_fail T n _ sys (refused_of_not _ hg)]
  · simp only [reserve, run_bind, Exec.bind, get_self, capacity_rep, gt_iff_lt, h, if_false,
      run_pure]

theorem assign_call_run (T : Target) (hT : T.valid) (xs : List α) (c : Nat) (sys : Allocator)
    (call : assign_call α) (hxs : xs.length ≤ c) (harg : call.admissible T) :
    ∃ ys : List α, ys.length = call.new_size ∧
      call.run T ⟨rep xs c, sys⟩ =
        if MAX_SIZE T < ys.length then .thrown .length_error ⟨rep xs c, sys⟩
        else if c < ys.length then
          if sys.grants sys.requests.length (bytes_for T ys.length) = true then
            .ok () ⟨rep ys ys.length, (sys.request (bytes_for T ys.length)).2⟩
          else .thrown .bad_alloc ⟨rep [] c, (sys.request (bytes_for T ys.length)).2⟩
        else .ok () ⟨rep ys c, sys⟩ := by
  cases call with
  | copy other =>
    obtain ⟨ys, c2, hys, hc2, rfl⟩ := (WF_iff T other).mp harg
    refine ⟨ys, rfl, ?_⟩
    have h : ¬ (MAX_SIZE T < ys.length) := by omega
    simp only [assign_call.run, h, if_false]
    exact operator_assign_copy_run T hT xs ys c c2 sys hxs hys hc2
  | ilist_operator ys => exact ⟨ys, rfl, operator_assign_ilist_run T hT xs ys c sys hxs⟩
  | count_value count x =>
    refine ⟨List.replicate count x, by simp [assign_call.new_size], ?_⟩
    simp only [assign_call.run, List.length_replicate]
    exact assign_run T hT xs c sys count x hxs
  | range cat ys => exact ⟨ys, rfl, assign_range_run T hT cat xs ys c sys hxs harg⟩
  | ilist ys => exact ⟨ys, rfl, assign_ilist_run T hT xs ys c sys hxs⟩

theorem take_append_replicate (xs : List α) (count : Nat) (x : α) :
    (xs ++ List.replicate (count - xs.length) x).take count
      = if count < xs.length then xs.take count
        else xs ++ List.replicate (count - xs.length) x := by
  by_cases h : count < xs.length
  · have h0 : count - xs.length = 0 := by omega
    simp only [h, if_true, h0, List.replicate_zero, List.append_nil]
  · simp only [h, if_false]
    apply List.take_of_length_le
    simp only [List.length_append, List.length_replicate]
    omega

theorem resize_value_ok (T : Target) (hT : T.valid) (xs : List α) (c : Nat) (sys : Allocator)
    (count : Nat) (x : α) (hxs : xs.length ≤ c) (hcount : count ≤ MAX_SIZE T)
    (hg : c < count → sys.grants sys.requests.length (bytes_for T count) = true) :
    resize_value T count (.object x) ⟨rep xs c, sys⟩ =
      .ok () ⟨rep ((xs ++ List.replicate (count - xs.length) x).take count)
          (if count ≤ c then c else count),
        if count ≤ c then sys else (sys.request (bytes_for T count)).2⟩ := by
  rw [resize_value_run T hT xs c sys count x hxs, take_append_replicate]
  by_cases h1 : count < xs.length
  · have h2 : count ≤ c := by omega
    simp only [h1, h2, if_true]
  · by_cases h2 : count = xs.length
    · have h3 : count ≤ c := by omega
      have h0 : count - xs.length = 0 := by omega
      simp only [h1, h2, h3, if_true, if_false, h0, List.replicate_zero, List.append_nil,
        lt_irrefl, hxs, Nat.sub_self]
    · by_cases h3 : count ≤ c
      · simp only [h1, h2, h3, if_true, if_false]
      · have h4 : ¬ (MAX_SIZE T < count) := by omega
        simp only [h1, h2, h3, h4, hg (by omega), if_true, if_false]

theorem length_take_append_replicate (xs : List α) (count : Nat) (x : α) :
    ((xs ++ List.replicate (count - xs.length) x).take count).length = count := by
  simp only [List.length_take, List.length_append, List.length_replicate]
  omega

theorem resize_value_spec (T : Target) (hT : T.valid) (v : myvector α) (sys : Allocator)
    (count : Nat) (x : α) (hWF : WF T v) (hcount : count ≤ max_size T)
    (hg : capacity v < count → sys.grants sys.requests.length (bytes_for T count) = true) :
    ∃ m, resize_value T count (.object x) ⟨v, sys⟩ = .ok () m ∧
      elements m.self = (elements v ++ List.replicate (count - size v) x).take count ∧
      size m.self = count ∧
      capacity m.self = (if count ≤ capacity v then capacity v else count) ∧
      WF T m.self := by
  obtain ⟨xs, c, hxs, hc, rfl⟩ := (WF_iff T v).mp hWF
  have hlen := length_take_append_replicate xs count x
  have hle : ((xs ++ List.replicate (count - xs.length) x).take count).length
      ≤ (if count ≤ c then c else count) := by
    rw [hlen]; split <;> omega
  have hcap : (if count ≤ c then c else count) ≤ MAX_SIZE T := by
    split
    · exact hc
    · exact hcount
  refine ⟨_, resize_value_ok T hT xs c sys count x hxs hcount hg, ?_, hlen, rfl,
    WF_rep T _ _ hle hcap⟩
  rw [elements_rep _ _ hxs]
  exact elements_rep _ _ hle

theorem copy_elements_fill (ys : List α) (c2 : Nat) (sys : Allocator) (hk2 : ys.length ≤ c2)
    (hne : ys.length ≠ 0) :
    copy_elements (rep ys c2)
        ⟨{ heap_ := some (List.replicate ys.length none), size_ := ys.length,
           capacity_ := ys.length }, sys⟩
      = .ok () ⟨rep ys ys.length, sys⟩ := by
  have hc2 : c2 ≠ 0 := by omega
  have h := copy_loop_run ys (ys.map some ++ List.replicate (c2 - ys.length) none) [] [] []
    (List.replicate (c2 - ys.length) none) rfl (by simp) ys.length ys.length sys
  simp only [List.nil_append, List.length_nil, List.append_nil] at h
  simp only [copy_elements, size_rep]
  simp only [rep, hc2, hne, if_false, h, Nat.sub_self, List.replicate_zero, List.append_nil]

theorem ctor_copy_run (T : Target) (hT : T.valid) (ys : List α) (c2 : Nat) (v0 : myvector α)
    (sys : Allocator) (hys : ys.length ≤ c2) (hc2 : c2 ≤ MAX_SIZE T) :
    ctor_copy T (rep ys c2) ⟨v0, sys⟩ =
      if ys.length = 0 then .ok () ⟨rep ys 0, sys⟩
      else if sys.grants sys.requests.length (bytes_for T ys.length) = true then
        .ok () ⟨rep ys ys.length, (sys.request (bytes_for T ys.length)).2⟩
      else .thrown .bad_alloc ⟨v0, (sys.request (bytes_for T ys.length)).2⟩ := by
  by_cases h0 : ys.length = 0
  · have hy : ys = [] := List.length_eq_zero.mp h0
    subst hy
    simp only [ctor_copy, size, size_rep, List.length_nil, ne_eq, not_true_eq_false, if_false,
      run_bind, Exec.bind, Exec.pure, modify_self, copy_elements, for_loop, if_true]
    rfl
  · have hdiv := bytes_for_div T hT ys.length (by omega)
    by_cases hg : sys.grants sys.requests.length (bytes_for T ys.length) = true
    · simp only [ctor_copy, size, size_rep, ne_eq, h0, not_false_eq_true, if_true, if_false,
        run_bind, Exec.bind, mymalloc, malloc, Allocator.request, hg, hdiv,
        Option.isNone_some, Bool.false_eq_true, run_pure, modify_self]
      exact copy_elements_fill ys c2 _ hys h0
    · simp only [ctor_copy, size, size_rep, ne_eq, h0, not_false_eq_true, if_true, if_false,
        run_bind, Exec.bind, mymalloc, malloc, Allocator.request, hg, Option.isNone_none,
        Bool.false_eq_true, raise]

theorem operator_assign_move_run (xs : List α) (c : Nat) (src : myvector α) (sys : Allocator)
    (hxs : xs.length ≤ c) :
    operator_assign_move false ⟨rep xs c, src, sys⟩ = .ok () ⟨src, rep [] c, sys⟩ := by
  simp only [operator_assign_move, Bool.false_eq_true, if_false, run_bind, Exec.bind, on_self,
    clear_elements_run xs c sys hxs, swap_heap_, swap_size_, swap_capacity_]

theorem ctor_move_run (src : myvector α) (sys : Allocator) :
    ctor_move (fresh_with src sys) = .ok () ⟨src, {}, sys⟩ := rfl

theorem keeps_pure {P : σ → Prop} {Q : β → Prop} {b : β} (h : Q b) :
    Keeps P (pure b : Exec σ β) Q := fun _ hs => ⟨hs, h⟩

theorem keeps_skip {P : σ → Prop} : Keeps P (pure () : Exec σ Unit) (fun _ => True) :=
  fun _ hs => ⟨hs, trivial⟩

theorem keeps_raise {P : σ → Prop} {Q : β → Prop} {e : Exception} :
    Keeps P (raise e : Exec σ β) Q := fun _ hs => hs

theorem keeps_bind {P : σ → Prop} {Q : β → Prop} {R : γ → Prop} {x : Exec σ β}
    {f : β → Exec σ γ} (hx : Keeps P x Q) (hf : ∀ b, Q b → Keeps P (f b) R) :
    Keeps P (x >>= f) R := by
  intro s hs
  have h1 := hx s hs
  show match Exec.bind x f s with
    | .ok b s1 => P s1 ∧ R b
    | .thrown _ s1 => P s1
    | .undefined => True
  unfold Exec.bind
  cases hxs : x s with
  | ok b s1 =>
    rw [hxs] at h1
    exact hf b h1.2 s1 h1.1
  | thrown e s1 =>
    rw [hxs] at h1
    exact h1
  | undefined => trivial

theorem keeps_weaken {P : σ → Prop} {Q R : β → Prop} {x : Exec σ β} (hx : Keeps P x Q)
    (h : ∀ b, Q b → R b) : Keeps P x R := by
  intro s hs
  have h1 := hx s hs
  cases hxs : x s with
  | ok b s1 =>
    rw [hxs] at h1
    exact ⟨h1.1, h _ h1.2⟩
  | thrown e s1 =>
    rw [hxs] at h1
    exact h1
  | undefined => trivial

theorem keeps_ite {P : σ → Prop} {Q : β → Prop} {c : Prop} [Decidable c] {x y : Exec σ β}
    (hx : Keeps P x Q) (hy : Keeps P y Q) : Keeps P (if c then x else y) Q := by
  split
  · exact hx
  · exact hy

theorem keeps_for_loop {P : σ → Prop} {Q : β → Prop} {body : Nat → β → Exec σ β}
    (hb : ∀ i acc, Q acc → Keeps P (body i acc) Q) :
    ∀ (n i : Nat) (init : β), Q init → Keeps P (for_loop body i n init) Q := by
  intro n
  induction n with
  | zero => intro i init h; exact keeps_pure h
  | succ n ih =>
    intro i init h
    exact keeps_bind (hb i init h) (fun acc hacc => ih (i + 1) acc hacc)

theorem update_other (store : Nat → Option (List (Option α))) (p q : Nat)
    (b : Option (List (Option α))) (h : q ≠ p) : Mem.update store p b q = store q := by
  simp only [Mem.update, h, if_false]

section Frame

variable (pa : Nat) (blk : List (Option α))

theorem keeps_get_self :
    Keeps (Mem.Sep pa blk) Mem.get_self (fun v => v.heap_ ≠ pa) :=
  fun _ hs => ⟨hs, hs.2.2.2.1⟩

theorem keeps_modify_self (f : Mem.object → Mem.object)
    (hf : ∀ v : Mem.object, v.heap_ ≠ pa → (f v).heap_ ≠ pa) :
    Keeps (Mem.Sep pa blk) (Mem.modify_self f) (fun _ => True) :=
  fun _ hs => ⟨⟨hs.1, hs.2.1, hs.2.2.1, hf _ hs.2.2.2.1, hs.2.2.2.2⟩, trivial⟩

theorem sep_of (w w1 : Mem.World α) (hs : Mem.Sep pa blk w)
    (hstore : w1.store pa = w.store pa) (htop : w.top ≤ w1.top) (hself : w1.self = w.self)
    (hother : w1.other = w.other) : Mem.Sep pa blk w1 := by
  obtain ⟨h1, h2, h3, h4, h5⟩ := hs
  exact ⟨by rw [hstore]; exact h1, h2, le_trans h3 htop, by rw [hself]; exact h4,
    by rw [hother]; exact h5⟩

theorem sep_update (w : Mem.World α) (p : Nat) (b : Option (List (Option α)))
    (hs : Mem.Sep pa blk w) (hp : p ≠ pa) :
    Mem.Sep pa blk { w with store := Mem.update w.store p b } :=
  sep_of pa blk w _ hs (update_other _ _ _ _ (Ne.symm hp)) (le_refl _) rfl rfl

theorem keeps_malloc (T : Target) (bytes : Nat) :
    Keeps (Mem.Sep pa blk) (Mem.malloc T bytes) (fun p => p ≠ pa) := by
  intro w hs
  have h3 : pa ≤ w.top := hs.2.2.1
  have h2 : 0 < pa := hs.2.1
  unfold Mem.malloc
  by_cases hg : (w.sys.request bytes).1 = true
  · simp only [hg, if_true]
    exact ⟨sep_of pa blk w _ hs (update_other _ _ _ _ (by omega)) (Nat.le_succ _) rfl rfl,
      by omega⟩
  · simp only [hg, if_false, Bool.false_eq_true]
    exact ⟨sep_of pa blk w _ hs rfl (le_refl _) rfl rfl, by omega⟩

theorem keeps_realloc (T : Target) (ptr bytes : Nat) (hp : ptr ≠ pa) :
    Keeps (Mem.Sep pa blk) (Mem.realloc T ptr bytes) (fun p => p ≠ pa) := by
  intro w hs
  have h3 : pa ≤ w.top := hs.2.2.1
  have h2 : 0 < pa := hs.2.1
  unfold Mem.realloc
  by_cases h0 : ptr = 0
  · simp only [h0, if_true]
    exact keeps_malloc pa blk T bytes w hs
  · simp only [h0, if_false]
    cases w.store ptr with
    | none => trivial
    | some old =>
      simp only
      by_cases hg : (w.sys.request bytes).1 = true
      · by_cases hm : w.moves w.sys.requests.length = true
        · simp only [hg, hm, if_true]
          refine ⟨sep_of pa blk w _ hs ?_ (Nat.le_succ _) rfl rfl, by omega⟩
          show Mem.update (Mem.update w.store ptr none) (w.top + 1) _ pa = w.store pa
          rw [update_other _ _ _ _ (by omega), update_other _ _ _ _ (Ne.symm hp)]
        · simp only [hg, hm, if_true, if_false, Bool.false_eq_true]
          exact ⟨sep_of pa blk w _ hs (update_other _ _ _ _ (Ne.symm hp)) (le_refl _) rfl rfl,
            hp⟩
      · simp only [hg, if_false, Bool.false_eq_true]
        exact ⟨sep_of pa blk w _ hs rfl (le_refl _) rfl rfl, by omega⟩

theorem keeps_free (ptr : Nat) (hp : ptr ≠ pa) :
    Keeps (Mem.Sep pa blk) (Mem.free ptr : Exec (Mem.World α) Unit) (fun _ => True) := by
  intro w hs
  unfold Mem.free
  by_cases h0 : ptr = 0
  · simp only [h0, if_true]
    exact ⟨hs, trivial⟩
  · simp only [h0, if_false]
    cases w.store ptr with
    | none => trivial
    | some old => exact ⟨sep_update pa blk w ptr _ hs hp, trivial⟩

theorem keeps_construct_at (p i : Nat) (x : α) (hp : p ≠ pa) :
    Keeps (Mem.Sep pa blk) (Mem.construct_at p i x) (fun _ => True) := by
  intro w hs
  unfold Mem.construct_at
  cases w.store p with
  | none => trivial
  | some b =>
    simp only
    by_cases hi : i < b.length
    · simp only [hi, if_true]
      exact ⟨sep_update pa blk w p _ hs hp, trivial⟩
    · simp only [hi, if_false]

theorem keeps_destroy_at (p i : Nat) (hp : p ≠ pa) :
    Keeps (Mem.Sep pa blk) (Mem.destroy_at p i : Exec (Mem.World α) Unit) (fun _ => True) := by
  intro w hs
  unfold Mem.destroy_at
  cases w.store p with
  | none => trivial
  | some b =>
    simp only
    cases b.get? i with
    | none => trivial
    | some o =>
      cases o with
      | none => trivial
      | some y => exact ⟨sep_update pa blk w p _ hs hp, trivial⟩

theorem keeps_assign_at (p i : Nat) (y : α) (hp : p ≠ pa) :
    Keeps (Mem.Sep pa blk) (Mem.assign_at p i y) (fun _ => True) := by
  intro w hs
  unfold Mem.assign_at
  cases w.store p with
  | none => trivial
  | some b =>
    simp only
    cases b.get? i with
    | none => trivial
    | some o =>
      cases o with
      | none => trivial
      | some z => exact ⟨sep_update pa blk w p _ hs hp, trivial⟩

theorem keeps_read_at (p i : Nat) :
    Keeps (Mem.Sep pa blk) (Mem.read_at p i : Exec (Mem.World α) α) (fun _ => True) := by
  intro w hs
  unfold Mem.read_at
  cases w.store p with
  | none => trivial
  | some b =>
    simp only
    cases b.get? i with
    | none => trivial
    | some o =>
      cases o with
      | none => trivial
      | some z => exact ⟨hs, trivial⟩

theorem keeps_swap_heap_ :
    Keeps (Mem.Sep pa blk) (Mem.swap_heap_ : Exec (Mem.World α) Unit) (fun _ => True) :=
  fun _ hs => ⟨⟨hs.1, hs.2.1, hs.2.2.1, hs.2.2.2.2, hs.2.2.2.1⟩, trivial⟩

theorem keeps_swap_size_ :
    Keeps (Mem.Sep pa blk) (Mem.swap_size_ : Exec (Mem.World α) Unit) (fun _ => True) :=
  fun _ hs => ⟨⟨hs.1, hs.2.1, hs.2.2.1, hs.2.2.2.1, hs.2.2.2.2⟩, trivial⟩

theorem keeps_swap_capacity_ :
    Keeps (Mem.Sep pa blk) (Mem.swap_capacity_ : Exec (Mem.World α) Unit) (fun _ => True) :=
  fun _ hs => ⟨⟨hs.1, hs.2.1, hs.2.2.1, hs.2.2.2.1, hs.2.2.2.2⟩, trivial⟩

theorem keeps_construct_own (i : Nat) (x : α) :
    Keeps (Mem.Sep pa blk) (Mem.construct_own i x) (fun _ => True) :=
  keeps_bind (keeps_get_self pa blk) (fun _ hv => keeps_construct_at pa blk _ i x hv)

theorem keeps_destroy_own (i : Nat) :
    Keeps (Mem.Sep pa blk) (Mem.destroy_own i : Exec (Mem.World α) Unit) (fun _ => True) :=
  keeps_bind (keeps_get_self pa blk) (fun _ hv => keeps_destroy_at pa blk _ i hv)

theorem keeps_destroy_from (start : Nat) :
    Keeps (Mem.Sep pa blk) (Mem.destroy_from start : Exec (Mem.World α) Unit)
      (fun _ => True) :=
  keeps_bind (keeps_get_self pa blk)
    (fun _ _ => keeps_for_loop (fun i _ _ => keeps_destroy_own pa blk i) _ _ _ trivial)

theorem keeps_length_check (T : Target) (n : Nat) :
    Keeps (Mem.Sep pa blk) (Mem.length_check T n) (fun _ => True) := by
  unfold Mem.length_check
  exact keeps_ite keeps_raise (keeps_pure trivial)

theorem keeps_need_twice_capacity (T : Target) :
    Keeps (Mem.Sep pa blk) (Mem.need_twice_capacity T : Exec (Mem.World α) Bool)
      (fun _ => True) :=
  keeps_bind (keeps_get_self pa blk) (fun _ _ => keeps_ite keeps_raise (keeps_pure trivial))

theorem keeps_twice_length (T : Target) :
    Keeps (Mem.Sep pa blk) (Mem.twice_length T : Exec (Mem.World α) Nat) (fun _ => True) :=
  keeps_bind (keeps_get_self pa blk) (fun _ _ => keeps_ite keeps_raise (keeps_pure trivial))

theorem keeps_mymalloc (T : Target) (count : Nat) :
    Keeps (Mem.Sep pa blk) (Mem.mymalloc T count) (fun p => p ≠ pa) :=
  keeps_bind (keeps_malloc pa blk T _) (fun _ hp => keeps_ite keeps_raise (keeps_pure hp))

theorem keeps_set_heap_ (p : Nat) (hp : p ≠ pa) :
    Keeps (Mem.Sep pa blk) (Mem.modify_self (fun w => { w with heap_ := p }))
      (fun _ => True) :=
  keeps_modify_self pa blk _ (fun _ _ => hp)

theorem keeps_set_size_ (f : Mem.object → Nat) :
    Keeps (Mem.Sep pa blk) (Mem.modify_self (fun w => { w with size_ := f w }))
      (fun _ => True) :=
  keeps_modify_self pa blk _ (fun _ h => h)

theorem keeps_set_capacity_ (n : Nat) :
    Keeps (Mem.Sep pa blk) (Mem.modify_self (fun w => { w with capacity_ := n }))
      (fun _ => True) :=
  keeps_modify_self pa blk _ (fun _ h => h)

theorem keeps_reallocation_trivially_copyable (T : Target) (new_cap : Nat) :
    Keeps (Mem.Sep pa blk) (Mem.reallocation_trivially_copyable T new_cap) (fun _ => True) :=
  keeps_bind (keeps_get_self pa blk) (fun _ hv =>
    keeps_bind (keeps_realloc pa blk T _ _ hv) (fun _ hp =>
      keeps_ite keeps_raise
        (keeps_ite
          (keeps_bind (keeps_set_heap_ pa blk _ hp) (fun _ _ => keeps_set_capacity_ pa blk _))
          (keeps_bind keeps_skip (fun _ _ => keeps_set_capacity_ pa blk _)))))

theorem keeps_relocate_step (p i : Nat) (hp : p ≠ pa) :
    Keeps (Mem.Sep pa blk) (Mem.relocate_step p i : Exec (Mem.World α) Unit)
      (fun _ => True) :=
  keeps_bind (keeps_get_self pa blk) (fun _ _ =>
    keeps_bind (keeps_read_at pa blk _ _) (fun _ _ =>
      keeps_bind (keeps_construct_at pa blk _ _ _ hp) (fun _ _ => keeps_destroy_own pa blk _)))

theorem keeps_reallocation_move_constructible (T : Target) (new_cap : Nat) :
    Keeps (Mem.Sep pa blk) (Mem.reallocation_move_constructible T new_cap) (fun _ => True) :=
  keeps_bind (keeps_mymalloc pa blk T _) (fun _ hp =>
    keeps_bind (keeps_get_self pa blk) (fun _ _ =>
      keeps_bind (keeps_for_loop (fun _ _ _ => keeps_relocate_step pa blk _ _ hp) _ _ _ trivial)
        (fun _ _ => keeps_bind (keeps_get_self pa blk) (fun _ hv =>
          keeps_bind (keeps_free pa blk _ hv) (fun _ _ =>
            keeps_bind (keeps_set_heap_ pa blk _ hp)
              (fun _ _ => keeps_set_capacity_ pa blk _))))))

theorem keeps_reallocation_copy_constructible (T : Target) (new_cap : Nat) :
    Keeps (Mem.Sep pa blk) (Mem.reallocation_copy_constructible T new_cap) (fun _ => True) :=
  keeps_bind (keeps_mymalloc pa blk T _) (fun _ hp =>
    keeps_bind (keeps_get_self pa blk) (fun _ _ =>
      keeps_bind (keeps_for_loop (fun _ _ _ => keeps_relocate_step pa blk _ _ hp) _ _ _ trivial)
        (fun _ _ => keeps_bind (keeps_get_self pa blk) (fun _ hv =>
          keeps_bind (keeps_free pa blk _ hv) (fun _ _ =>
            keeps_bind (keeps_set_heap_ pa blk _ hp)
              (fun _ _ => keeps_set_capacity_ pa blk _))))))

theorem keeps_reallocation (T : Target) (new_cap : Nat) :
    Keeps (Mem.Sep pa blk) (Mem.reallocation T new_cap) (fun _ => True) := by
  unfold Mem.reallocation
  cases T.realloc_switcher
  · exact keeps_reallocation_trivially_copyable pa blk T new_cap
  · exact keeps_reallocation_move_constructible pa blk T new_cap
  · exact keeps_reallocation_copy_constructible pa blk T new_cap

end Frame

section Frame2

variable (pa : Nat) (blk : List (Option α))

theorem keeps_set_heap_null :
    Keeps (Mem.Sep pa blk) (Mem.modify_self (fun w => { w with heap_ := 0 }))
      (fun _ => True) :=
  fun _ hs => ⟨⟨hs.1, hs.2.1, hs.2.2.1, Nat.ne_of_lt hs.2.1, hs.2.2.2.2⟩, trivial⟩

theorem keeps_reserve (T : Target) (new_cap : Nat) :
    Keeps (Mem.Sep pa blk) (Mem.reserve T new_cap) (fun _ => True) :=
  keeps_bind (keeps_get_self pa blk) (fun _ _ =>
    keeps_ite
      (keeps_bind (keeps_length_check pa blk T _) (fun _ _ => keeps_reallocation pa blk T _))
      keeps_skip)

theorem keeps_shrink_to_fit (T : Target) :
    Keeps (Mem.Sep pa blk) (Mem.shrink_to_fit T) (fun _ => True) :=
  keeps_bind (keeps_get_self pa blk) (fun _ hv =>
    keeps_ite
      (keeps_ite
        (keeps_bind (keeps_free pa blk _ hv) (fun _ _ =>
          keeps_bind (keeps_set_heap_null pa blk) (fun _ _ => keeps_set_capacity_ pa blk _)))
        (keeps_reallocation pa blk T _))
      keeps_skip)

theorem keeps_push_back (T : Target) (value : α) :
    Keeps (Mem.Sep pa blk) (Mem.push_back T value) (fun _ => True) := by
  have rest : ∀ y : Unit, Keeps (Mem.Sep pa blk)
      ((fun (_ : Unit) => (do
        let v ← Mem.get_self
        Mem.construct_own v.size_ value
        Mem.modify_self (fun w => { w with size_ := wrap T (w.size_ + 1) }) :
          Exec (Mem.World α) Unit)) y) (fun _ => True) :=
    fun _ => keeps_bind (keeps_get_self pa blk) (fun _ _ =>
      keeps_bind (keeps_construct_own pa blk _ _) (fun _ _ => keeps_set_size_ pa blk _))
  exact keeps_bind (keeps_need_twice_capacity pa blk T) (fun _ _ =>
    keeps_ite
      (keeps_bind (keeps_twice_length pa blk T) (fun _ _ =>
        keeps_bind (keeps_reallocation pa blk T _) (fun y _ => rest y)))
      (keeps_bind keeps_skip (fun y _ => rest y)))

theorem keeps_construct_fill (value : α) (i n : Nat) :
    Keeps (Mem.Sep pa blk)
      (for_loop (fun i _ => (Mem.construct_own i value : Exec (Mem.World α) Unit)) i n ())
      (fun _ => True) :=
  keeps_for_loop (fun _ _ _ => keeps_construct_own pa blk _ _) _ _ _ trivial

theorem keeps_resize_value (T : Target) (count : Nat) (value : α) :
    Keeps (Mem.Sep pa blk) (Mem.resize_value T count value) (fun _ => True) :=
  keeps_bind (keeps_get_self pa blk) (fun _ _ =>
    keeps_ite
      (keeps_bind (keeps_destroy_from pa blk _) (fun _ _ => keeps_set_size_ pa blk _))
      (keeps_ite
        (keeps_ite
          (keeps_bind (keeps_length_check pa blk T _) (fun _ _ =>
            keeps_bind (keeps_reallocation pa blk T _) (fun _ _ =>
              keeps_bind (keeps_construct_fill pa blk value _ _)
                (fun _ _ => keeps_set_size_ pa blk _))))
          (keeps_bind keeps_skip (fun _ _ =>
            keeps_bind (keeps_construct_fill pa blk value _ _)
              (fun _ _ => keeps_set_size_ pa blk _))))
        keeps_skip))

theorem keeps_resize [Inhabited α] (T : Target) (count : Nat) :
    Keeps (Mem.Sep pa blk) (Mem.resize T count : Exec (Mem.World α) Unit) (fun _ => True) :=
  keeps_resize_value pa blk T count default

theorem keeps_construct_list (src : List α) :
    ∀ j, Keeps (Mem.Sep pa blk) (Mem.construct_list src j) (fun _ => True) := by
  induction src with
  | nil => intro j; exact keeps_skip
  | cons x rest ih =>
    intro j
    exact keeps_bind (keeps_construct_own pa blk j x) (fun _ _ => ih (j + 1))

theorem keeps_clear_elements :
    Keeps (Mem.Sep pa blk) (Mem.clear_elements : Exec (Mem.World α) Unit) (fun _ => True) :=
  keeps_bind (keeps_destroy_from pa blk 0) (fun _ _ => keeps_set_size_ pa blk _)

theorem keeps_assign_tail (T : Target) (new_size n : Nat) (fill : Exec (Mem.World α) Unit)
    (hfill : Keeps (Mem.Sep pa blk) fill (fun _ => True)) :
    Keeps (Mem.Sep pa blk)
      (do
        Mem.clear_elements
        let v ← Mem.get_self
        if new_size > v.capacity_ then Mem.reallocation T new_size else pure ()
        fill
        Mem.modify_self (fun w => { w with size_ := n }) : Exec (Mem.World α) Unit)
      (fun _ => True) :=
  keeps_bind (keeps_clear_elements pa blk) (fun _ _ =>
    keeps_bind (keeps_get_self pa blk) (fun _ _ =>
      keeps_ite
        (keeps_bind (keeps_reallocation pa blk T _) (fun _ _ =>
          keeps_bind hfill (fun _ _ => keeps_set_size_ pa blk _)))
        (keeps_bind keeps_skip (fun _ _ =>
          keeps_bind hfill (fun _ _ => keeps_set_size_ pa blk _)))))

theorem keeps_assign (T : Target) (count : Nat) (value : α) :
    Keeps (Mem.Sep pa blk) (Mem.assign T count value) (fun _ => True) :=
  keeps_bind (keeps_length_check pa blk T _) (fun _ _ =>
    keeps_assign_tail pa blk T _ _ _ (keeps_construct_fill pa blk value _ _))

theorem keeps_assign_ilist (T : Target) (init : List α) :
    Keeps (Mem.Sep pa blk) (Mem.assign_ilist T init) (fun _ => True) :=
  keeps_bind (keeps_length_check pa blk T _) (fun _ _ =>
    keeps_assign_tail pa blk T _ _ _ (keeps_construct_list pa blk init 0))

theorem keeps_operator_assign_ilist (T : Target) (init : List α) :
    Keeps (Mem.Sep pa blk) (Mem.operator_assign_ilist T init) (fun _ => True) :=
  keeps_bind (keeps_length_check pa blk T _) (fun _ _ =>
    keeps_assign_tail pa blk T _ _ _ (keeps_construct_list pa blk init 0))

theorem keeps_assign_range (T : Target) (cat : iterator_category) (src : List α) :
    Keeps (Mem.Sep pa blk) (Mem.assign_range T cat src) (fun _ => True) :=
  keeps_bind (keeps_length_check pa blk T _) (fun _ _ =>
    keeps_assign_tail pa blk T _ _ _ (keeps_construct_list pa blk src 0))

theorem keeps_copy_elements (other : Mem.object) :
    Keeps (Mem.Sep pa blk) (Mem.copy_elements other : Exec (Mem.World α) Unit)
      (fun _ => True) :=
  keeps_for_loop (fun _ _ _ =>
    keeps_bind (keeps_read_at pa blk _ _) (fun _ _ => keeps_construct_own pa blk _ _))
    _ _ _ trivial

theorem keeps_operator_assign_copy (T : Target) (src : Mem.Source) :
    Keeps (Mem.Sep pa blk) (Mem.operator_assign_copy T src : Exec (Mem.World α) Unit)
      (fun _ => True) := by
  cases src with
  | this_object => exact keeps_skip
  | another other =>
    exact keeps_assign_tail pa blk T _ _ _ (keeps_copy_elements pa blk other)

theorem keeps_operator_assign_move (same : Bool) :
    Keeps (Mem.Sep pa blk) (Mem.operator_assign_move same : Exec (Mem.World α) Unit)
      (fun _ => True) :=
  keeps_ite keeps_skip
    (keeps_bind (keeps_clear_elements pa blk) (fun _ _ =>
      keeps_bind (keeps_swap_heap_ pa blk) (fun _ _ =>
        keeps_bind (keeps_swap_size_ pa blk) (fun _ _ => keeps_swap_capacity_ pa blk))))

theorem keeps_destructor :
    Keeps (Mem.Sep pa blk) (Mem.destructor : Exec (Mem.World α) Unit) (fun _ => True) :=
  keeps_bind (keeps_destroy_from pa blk 0) (fun _ _ =>
    keeps_bind (keeps_get_self pa blk) (fun _ hv =>
      keeps_bind (keeps_free pa blk _ hv) (fun _ _ =>
        keeps_bind (keeps_set_heap_null pa blk) (fun _ _ =>
          keeps_bind (keeps_set_size_ pa blk _) (fun _ _ => keeps_set_capacity_ pa blk _)))))

theorem keeps_access (T : Target) (a : Mem.access) :
    Keeps (Mem.Sep pa blk) (Mem.access.get T a : Exec (Mem.World α) Mem.reference)
      (fun r => r.base ≠ pa) := by
  cases a with
  | at_ pos =>
    exact keeps_bind (keeps_get_self pa blk) (fun _ hv => keeps_ite keeps_raise (keeps_pure hv))
  | index pos => exact keeps_bind (keeps_get_self pa blk) (fun _ hv => keeps_pure hv)
  | front => exact keeps_bind (keeps_get_self pa blk) (fun _ hv => keeps_pure hv)
  | back => exact keeps_bind (keeps_get_self pa blk) (fun _ hv => keeps_pure hv)
  | data shift =>
    exact keeps_bind (keeps_bind (keeps_get_self pa blk) (fun _ hv => keeps_pure hv))
      (fun _ hr => keeps_pure hr)
  | end_ shift =>
    exact keeps_bind (keeps_bind (keeps_get_self pa blk) (fun _ hv => keeps_pure hv))
      (fun _ hr => keeps_pure hr)

theorem keeps_store_through (T : Target) (a : Mem.access) (y : α) :
    Keeps (Mem.Sep pa blk) (Mem.store_through T a y) (fun _ => True) :=
  keeps_bind (keeps_access pa blk T a) (fun _ hr => keeps_assign_at pa blk _ _ y hr)

theorem keeps_call [Inhabited α] (T : Target) (c : Mem.call α) :
    Keeps (Mem.Sep pa blk) (c.run T) (fun _ => True) := by
  cases c with
  | reserve n => exact keeps_reserve pa blk T n
  | shrink_to_fit => exact keeps_shrink_to_fit pa blk T
  | push_back x => exact keeps_push_back pa blk T x
  | resize n => exact keeps_resize pa blk T n
  | resize_value n x => exact keeps_resize_value pa blk T n x
  | assign n x => exact keeps_assign pa blk T n x
  | assign_ilist l => exact keeps_assign_ilist pa blk T l
  | assign_range cat l => exact keeps_assign_range pa blk T cat l
  | operator_assign_ilist l => exact keeps_operator_assign_ilist pa blk T l
  | operator_assign_copy src => exact keeps_operator_assign_copy pa blk T src
  | operator_assign_move same => exact keeps_operator_assign_move pa blk same
  | store_through a y => exact keeps_store_through pa blk T a y
  | destructor => exact keeps_destructor pa blk

theorem keeps_caught (x : Exec (Mem.World α) Unit)
    (hx : Keeps (Mem.Sep pa blk) x (fun _ => True)) :
    Keeps (Mem.Sep pa blk) (Mem.caught x) (fun _ => True) := by
  intro w hs
  have h := hx w hs
  unfold Mem.caught
  cases hxw : x w with
  | ok b w1 => rw [hxw] at h; exact ⟨h.1, trivial⟩
  | thrown e w1 => rw [hxw] at h; exact ⟨h, trivial⟩
  | undefined => trivial

theorem keeps_run_calls [Inhabited α] (T : Target) (cs : List (Mem.call α)) :
    Keeps (Mem.Sep pa blk) (Mem.run_calls T cs) (fun _ => True) := by
  induction cs with
  | nil => exact keeps_skip
  | cons c rest ih =>
    exact keeps_bind (keeps_caught pa blk _ (keeps_call pa blk T c)) (fun _ _ => ih)

end Frame2

section Frame3

variable (pa : Nat) (blk : List (Option α))

theorem keeps_state {P : σ → Prop} {x : Exec σ β} {Q : β → Prop} (hx : Keeps P x Q)
    (s s1 : σ) (hs : P s) (h : (x s).state = some s1) : P s1 := by
  have hk := hx s hs
  cases hxs : x s with
  | ok b s2 =>
    rw [hxs] at hk h
    cases h
    exact hk.1
  | thrown e s2 =>
    rw [hxs] at hk h
    cases h
    exact hk
  | undefined =>
    rw [hxs] at h
    cases h

theorem ctor_copy_separates (T : Target) (a : Mem.object) (w : Mem.World α)
    (h1 : w.store pa = some blk) (h2 : 0 < pa) (h3 : pa ≤ w.top) (h5 : w.other.heap_ ≠ pa) :
    match Mem.ctor_copy T a w with
    | .ok _ w1 => Mem.Sep pa blk w1
    | .thrown _ w1 => w1.store pa = some blk
    | .undefined => True := by
  have fin : ∀ (h : Nat) (w0 : Mem.World α), h ≠ pa → w0.store pa = some blk → pa ≤ w0.top →
      w0.other.heap_ ≠ pa →
      match (Exec.bind (Mem.modify_self (fun _ =>
          { heap_ := h, size_ := a.size_, capacity_ := a.size_ }))
          (fun _ => Mem.copy_elements a) : Exec (Mem.World α) Unit) w0 with
      | .ok _ w1 => Mem.Sep pa blk w1
      | .thrown _ w1 => w1.store pa = some blk
      | .undefined => True := by
    intro h w0 hh hs ht ho
    have hsep : Mem.Sep pa blk
        { w0 with self := { heap_ := h, size_ := a.size_, capacity_ := a.size_ } } :=
      ⟨hs, h2, ht, hh, ho⟩
    have hk := keeps_copy_elements pa blk a _ hsep
    show match Mem.copy_elements a
        { w0 with self := { heap_ := h, size_ := a.size_, capacity_ := a.size_ } } with
      | .ok _ w1 => Mem.Sep pa blk w1
      | .thrown _ w1 => w1.store pa = some blk
      | .undefined => True
    cases hc : Mem.copy_elements a
        { w0 with self := { heap_ := h, size_ := a.size_, capacity_ := a.size_ } } with
    | ok b w1 => rw [hc] at hk; exact hk.1
    | thrown e w1 => rw [hc] at hk; exact hk.1
    | undefined => trivial
  by_cases hsz : a.size_ ≠ 0
  · by_cases hg : (w.sys.request (bytes_for T a.size_)).1 = true
    · have e : Mem.ctor_copy T a w =
          (Exec.bind (Mem.modify_self (fun _ =>
            { heap_ := w.top + 1, size_ := a.size_, capacity_ := a.size_ }))
            (fun _ => Mem.copy_elements a) : Exec (Mem.World α) Unit)
            { w with store := Mem.update w.store (w.top + 1)
                       (some (List.replicate (bytes_for T a.size_ / T.sizeof_value) none)),
                     top := w.top + 1, sys := (w.sys.request (bytes_for T a.size_)).2 } := by
        simp only [Mem.ctor_copy, Mem.mymalloc, Mem.malloc, bind, Exec.bind, hsz, hg, if_true,
          ne_eq, not_false_eq_true, Nat.succ_ne_zero, if_false, pure, Exec.pure]
      rw [e]
      exact fin _ _ (by omega)
        (by show Mem.update w.store (w.top + 1) _ pa = some blk
            rw [update_other _ _ _ _ (by omega)]; exact h1)
        (Nat.le_succ_of_le h3) h5
    · have e : Mem.ctor_copy T a w =
          .thrown .bad_alloc { w with sys := (w.sys.request (bytes_for T a.size_)).2 } := by
        simp only [Mem.ctor_copy, Mem.mymalloc, Mem.malloc, bind, Exec.bind, hsz, hg, if_true,
          ne_eq, not_false_eq_true, if_false, Bool.false_eq_true, raise]
      rw [e]
      exact h1
  · have e : Mem.ctor_copy T a w =
        (Exec.bind (Mem.modify_self (fun _ =>
          { heap_ := 0, size_ := a.size_, capacity_ := a.size_ }))
          (fun _ => Mem.copy_elements a) : Exec (Mem.World α) Unit) w := by
      simp only [Mem.ctor_copy, bind, Exec.bind, hsz, if_false, Exec.pure]
    rw [e]
    exact fin _ _ (by omega) h1 h3 h5

end Frame3

theorem rep_replicate_full (x : α) (count : Nat) (h0 : count ≠ 0) :
    rep (List.replicate count x) count
      = { heap_ := some (List.replicate count (some x)), size_ := count, capacity_ := count } := by
  simp only [rep, h0, if_false, List.length_replicate, Nat.sub_self, List.replicate_zero,
    List.append_nil, List.map_replicate]

theorem rep_full (ys : List α) (h0 : ys.length ≠ 0) :
    rep ys ys.length
      = { heap_ := some (ys.map some), size_ := ys.length, capacity_ := ys.length } := by
  simp only [rep, h0, if_false, Nat.sub_self, List.replicate_zero, List.append_nil]

theorem ctor_count_value_run (T : Target) (hT : T.valid) (count : Nat) (x : α)
    (v0 : myvector α) (sys : Allocator) :
    ctor_count_value T count x ⟨v0, sys⟩ =
      if count = 0 then .ok () ⟨rep [] 0, sys⟩
      else if MAX_SIZE T < count then .thrown .length_error ⟨v0, sys⟩
      else if sys.grants sys.requests.length (bytes_for T count) = true then
        .ok () ⟨rep (List.replicate count x) count, (sys.request (bytes_for T count)).2⟩
      else .thrown .bad_alloc ⟨v0, (sys.request (bytes_for T count)).2⟩ := by
  by_cases h0 : count = 0
  · subst h0
    simp only [ctor_count_value, ne_eq, not_true_eq_false, if_false, run_bind, Exec.bind,
      Exec.pure, modify_self, get_self, for_loop, if_true]
    rfl
  · by_cases h1 : MAX_SIZE T < count
    · simp only [ctor_count_value, ne_eq, h0, not_false_eq_true, if_true, if_false, run_bind,
        Exec.bind, length_error_of_gt T _ _ h1, h1]
    · have hdiv := bytes_for_div T hT count (Nat.le_of_not_lt h1)
      have hlc : ∀ m : Machine α, length_check T count m = .ok count m := by
        intro m
        simp only [length_check, gt_iff_lt, h1, if_false, Exec.pure]
      by_cases hg : sys.grants sys.requests.length (bytes_for T count) = true
      · have hl := construct_loop_run x count [] [] count count
          (sys.request (bytes_for T count)).2
        simp only [List.nil_append, List.length_nil, List.append_nil] at hl
        simp only [ctor_count_value, ne_eq, h0, not_false_eq_true, if_true, if_false,
          run_bind, Exec.bind, hlc, mymalloc, malloc, hg, hdiv, h1,
          Option.isNone_some, Bool.false_eq_true, run_pure, modify_self, get_self,
          Allocator.request, rep_replicate_full x count h0]
        exact hl
      · simp only [ctor_count_value, ne_eq, h0, not_false_eq_true, if_true, if_false,
          run_bind, Exec.bind, hlc, mymalloc, malloc, Allocator.request, hg, h1,
          Option.isNone_none, Bool.false_eq_true, raise]

theorem ctor_count_eq [Inhabited α] (T : Target) (count : Nat) :
    (ctor_count T count : Exec (Machine α) Unit) = ctor_count_value T count default := rfl

theorem ctor_ilist_run (T : Target) (hT : T.valid) (ys : List α)
    (v0 : myvector α) (sys : Allocator) :
    ctor_ilist T ys ⟨v0, sys⟩ =
      if ys.length = 0 then .ok () ⟨rep [] 0, sys⟩
      else if MAX_SIZE T < ys.length then .thrown .length_error ⟨v0, sys⟩
      else if sys.grants sys.requests.length (bytes_for T ys.length) = true then
        .ok () ⟨rep ys ys.length, (sys.request (bytes_for T ys.length)).2⟩
      else .thrown .bad_alloc ⟨v0, (sys.request (bytes_for T ys.length)).2⟩ := by
  by_cases h0 : ys.length = 0
  · have hy : ys = [] := List.length_eq_zero.mp h0
    subst hy
    simp only [ctor_ilist, List.length_nil, ne_eq, not_true_eq_false, if_false, run_bind,
      Exec.bind, Exec.pure, modify_self, construct_list, if_true]
    rfl
  · by_cases h1 : MAX_SIZE T < ys.length
    · simp only [ctor_ilist, ne_eq, h0, not_false_eq_true, if_true, if_false, run_bind,
        Exec.bind, length_error_of_gt T _ _ h1, h1]
    · have hdiv := bytes_for_div T hT ys.length (Nat.le_of_not_lt h1)
      have hlc : ∀ m : Machine α, length_check T ys.length m = .ok ys.length m := by
        intro m
        simp only [length_check, gt_iff_lt, h1, if_false, Exec.pure]
      by_cases hg : sys.grants sys.requests.length (bytes_for T ys.length) = true
      · have hl := construct_list_run ys [] [] ys.length ys.length
          (sys.request (bytes_for T ys.length)).2
        simp only [List.nil_append, List.length_nil, List.append_nil] at hl
        simp only [ctor_ilist, ne_eq, h0, not_false_eq_true, if_true, if_false,
          run_bind, Exec.bind, hlc, mymalloc, malloc, hg, hdiv, h1,
          Option.isNone_some, Bool.false_eq_true, run_pure, modify_self,
          Allocator.request, rep_full ys h0]
        exact hl
      · simp only [ctor_ilist, ne_eq, h0, not_false_eq_true, if_true, if_false,
          run_bind, Exec.bind, hlc, mymalloc, malloc, Allocator.request, hg, h1,
          Option.isNone_none, Bool.false_eq_true, raise]

theorem ctor_range_run (T : Target) (hT : T.valid) (cat : iterator_category) (ys : List α)
    (sys : Allocator) (hys : ys.length ≤ MAX_SIZE_BYTES T) :
    ctor_range T cat (multi_pass ys) (fresh sys) =
      if ys.length = 0 then .ok () ⟨rep [] 0, sys⟩
      else if MAX_SIZE T < ys.length then .thrown .length_error (fresh sys)
      else if sys.grants sys.requests.length (bytes_for T ys.length) = true then
        .ok () ⟨rep ys ys.length, (sys.request (bytes_for T ys.length)).2⟩
      else .thrown .bad_alloc ⟨{}, (sys.request (bytes_for T ys.length)).2⟩ := by
  have hd := mydistance_eq T cat ys hys
  by_cases h0 : ys.length = 0
  · simp only [ctor_range, multi_pass_values, multi_pass_copy_pass, hd, h0, ne_eq, not_true_eq_false, if_false, if_true]
    rfl
  · by_cases h1 : MAX_SIZE T < ys.length
    · simp only [ctor_range, multi_pass_values, multi_pass_copy_pass, hd, ne_eq, h0, not_false_eq_true, if_true, if_false, run_bind,
        Exec.bind, length_error_of_gt T _ _ h1, h1]
    · have hdiv := bytes_for_div T hT ys.length (Nat.le_of_not_lt h1)
      have hlc : ∀ m : Machine α, length_check T ys.length m = .ok ys.length m := by
        intro m
        simp only [length_check, gt_iff_lt, h1, if_false, Exec.pure]
      by_cases hg : sys.grants sys.requests.length (bytes_for T ys.length) = true
      · have hl := construct_list_run ys [] [] ys.length ys.length
          (sys.request (bytes_for T ys.length)).2
        simp only [List.nil_append, List.length_nil, List.append_nil] at hl
        simp only [ctor_range, multi_pass_values, multi_pass_copy_pass, hd, ne_eq, h0, not_false_eq_true, if_true, if_false,
          run_bind, Exec.bind, hlc, mymalloc, malloc, hg, hdiv, h1, fresh,
          Option.isNone_some, Bool.false_eq_true, run_pure, modify_self,
          Allocator.request, rep_full ys h0]
        exact hl
      · simp only [ctor_range, multi_pass_values, multi_pass_copy_pass, hd, ne_eq, h0, not_false_eq_true, if_true, if_false,
          run_bind, Exec.bind, hlc, mymalloc, malloc, Allocator.request, hg, h1, fresh,
          Option.isNone_none, Bool.false_eq_true, raise]

theorem destructor_run (xs : List α) (c : Nat) (sys : Allocator) (hxs : xs.length ≤ c) :
    destructor ⟨rep xs c, sys⟩ = .ok () ⟨rep [] 0, sys⟩ := by
  simp only [destructor, run_bind, Exec.bind, destroy_from_run xs c 0 sys hxs, get_self, free,
    Exec.pure, modify_self]
  rfl

section Invariants

theorem on_self_ok (x : Exec (Machine α) β) (v o : myvector α) (sys : Allocator) (b : β)
    (m : Machine α) (h : x ⟨v, sys⟩ = .ok b m) :
    on_self x ⟨v, o, sys⟩ = .ok b ⟨m.self, o, m.sys⟩ := by
  simp only [on_self, h]

theorem on_self_thrown (x : Exec (Machine α) β) (v o : myvector α) (sys : Allocator)
    (e : Exception) (m : Machine α) (h : x ⟨v, sys⟩ = .thrown e m) :
    on_self x ⟨v, o, sys⟩ = .thrown e ⟨m.self, o, m.sys⟩ := by
  simp only [on_self, h]

theorem WF_nil (T : Target) : WF T (rep ([] : List α) 0) :=
  WF_rep T [] 0 (le_refl _) (Nat.zero_le _)

theorem capacity_call_WF [Inhabited α] (T : Target) (hT : T.valid) (v : myvector α)
    (sys : Allocator) (call : capacity_call α) (hWF : WF T v) :
    ∃ m, (call.run T ⟨v, sys⟩ = .ok () m ∨ ∃ e, call.run T ⟨v, sys⟩ = .thrown e m) ∧
      WF T m.self := by
  obtain ⟨xs, c, hxs, hc, rfl⟩ := (WF_iff T v).mp hWF
  have hsame : WF T (rep xs c) := WF_rep T xs c hxs hc
  have hres : ∀ (count : Nat) (y : α), ∃ m,
      (resize_value T count (.object y) ⟨rep xs c, sys⟩ = .ok () m ∨
        ∃ e, resize_value T count (.object y) ⟨rep xs c, sys⟩ = .thrown e m) ∧ WF T m.self := by
    intro count y
    rw [resize_value_run T hT xs c sys count y hxs]
    split_ifs with h1 h2 h3 h4 h5
    · refine ⟨_, Or.inl rfl, WF_rep T _ _ ?_ hc⟩
      rw [List.length_take]
      omega
    · exact ⟨_, Or.inl rfl, hsame⟩
    · refine ⟨_, Or.inl rfl, WF_rep T _ _ ?_ hc⟩
      rw [List.length_append, List.length_replicate]
      omega
    · exact ⟨_, Or.inr ⟨_, rfl⟩, hsame⟩
    · refine ⟨_, Or.inl rfl, WF_rep T _ _ ?_ (Nat.le_of_not_lt h4)⟩
      rw [List.length_append, List.length_replicate]
      omega
    · exact ⟨_, Or.inr ⟨_, rfl⟩, hsame⟩
  cases call with
  | reserve n =>
    simp only [capacity_call.run]
    rw [reserve_run_gen T hT xs c n sys hxs]
    split_ifs with h1 h2 h3
    · exact ⟨_, Or.inr ⟨_, rfl⟩, hsame⟩
    · exact ⟨_, Or.inl rfl, WF_rep T _ _ (by omega) (Nat.le_of_not_lt h2)⟩
    · exact ⟨_, Or.inr ⟨_, rfl⟩, hsame⟩
    · exact ⟨_, Or.inl rfl, hsame⟩
  | resize n => exact hres n default
  | resize_value n y => exact hres n y
  | push_back y =>
    simp only [capacity_call.run]
    rw [push_back_run T hT xs c sys y hxs hc]
    have hpos := MAX_SIZE_pos T hT
    split_ifs with h1 h2 h3
    · refine ⟨_, Or.inl rfl, WF_rep T _ _ ?_ hc⟩
      rw [List.length_append, List.length_singleton]
      omega
    · exact ⟨_, Or.inr ⟨_, rfl⟩, hsame⟩
    · refine ⟨_, Or.inl rfl, WF_rep T _ _ ?_ ?_⟩
      · rw [List.length_append, List.length_singleton]
        omega
      · omega
    · exact ⟨_, Or.inr ⟨_, rfl⟩, hsame⟩
  | shrink_to_fit =>
    simp only [capacity_call.run]
    rw [shrink_to_fit_run T hT xs c sys hxs hc]
    split_ifs with h1 h2 h3
    · exact ⟨_, Or.inl rfl, WF_rep T _ _ (by omega) (Nat.zero_le _)⟩
    · exact ⟨_, Or.inl rfl, WF_rep T _ _ (le_refl _) (le_trans hxs hc)⟩
    · exact ⟨_, Or.inr ⟨_, rfl⟩, hsame⟩
    · exact ⟨_, Or.inl rfl, hsame⟩

theorem assign_call_WF (T : Target) (hT : T.valid) (v : myvector α) (sys : Allocator)
    (call : assign_call α) (hWF : WF T v) (harg : call.admissible T) :
    ∃ m, (call.run T ⟨v, sys⟩ = .ok () m ∨ ∃ e, call.run T ⟨v, sys⟩ = .thrown e m) ∧
      WF T m.self := by
  obtain ⟨xs, c, hxs, hc, rfl⟩ := (WF_iff T v).mp hWF
  obtain ⟨ys, _, hrun⟩ := assign_call_run T hT xs c sys call hxs harg
  rw [hrun]
  split_ifs with h1 h2 h3
  · exact ⟨_, Or.inr ⟨_, rfl⟩, WF_rep T xs c hxs hc⟩
  · exact ⟨_, Or.inl rfl, WF_rep T _ _ (le_refl _) (Nat.le_of_not_lt h1)⟩
  · exact ⟨_, Or.inr ⟨_, rfl⟩, WF_rep T [] c (Nat.zero_le _) hc⟩
  · exact ⟨_, Or.inl rfl, WF_rep T _ _ (Nat.le_of_not_lt h2) hc⟩

theorem public_call_WF [Inhabited α] (T : Target) (hT : T.valid) (p : Pair α)
    (call : public_call α) (hself : WF T p.self) (hother : WF T p.other)
    (harg : call.admissible T) :
    ∃ q, (call.run T p = .ok () q ∨ ∃ e, call.run T p = .thrown e q) ∧
      WF T q.self ∧ WF T q.other := by
  obtain ⟨v, o, sys⟩ := p
  have lift : ∀ x : Exec (Machine α) Unit,
      (∃ m, (x ⟨v, sys⟩ = .ok () m ∨ ∃ e, x ⟨v, sys⟩ = .thrown e m) ∧ WF T m.self) →
      ∃ q, (on_self x ⟨v, o, sys⟩ = .ok () q ∨ ∃ e, on_self x ⟨v, o, sys⟩ = .thrown e q) ∧
        WF T q.self ∧ WF T q.other := by
    rintro x ⟨m, hm | ⟨e, hm⟩, hw⟩
    · exact ⟨_, Or.inl (on_self_ok x v o sys () m hm), hw, hother⟩
    · exact ⟨_, Or.inr ⟨e, on_self_thrown x v o sys e m hm⟩, hw, hother⟩
  cases call with
  | capacity call => exact lift _ (capacity_call_WF T hT v sys call hself)
  | assignment call => exact lift _ (assign_call_WF T hT v sys call hself harg)
  | self_assignment => exact lift _ ⟨⟨v, sys⟩, Or.inl rfl, hself⟩
  | move_assignment same =>
    cases same with
    | true => exact ⟨_, Or.inl rfl, hself, hother⟩
    | false =>
      obtain ⟨xs, c, hxs, hc, hv⟩ := (WF_iff T v).mp hself
      have hv1 : v = rep xs c := hv
      subst hv1
      exact ⟨_, Or.inl (operator_assign_move_run xs c o sys hxs), hother,
        WF_rep T [] c (Nat.zero_le _) hc⟩
  | destructor =>
    obtain ⟨xs, c, hxs, hc, hv⟩ := (WF_iff T v).mp hself
    have hv1 : v = rep xs c := hv
    subst hv1
    exact lift _ ⟨_, Or.inl (destructor_run xs c sys hxs), WF_nil T⟩

theorem ctor_call_WF [Inhabited α] (T : Target) (hT : T.valid) (sys : Allocator)
    (call : ctor_call α) (harg : call.admissible T) :
    (∃ m, call.run T (fresh sys) = .ok () m ∧ WF T m.self) ∨
      ∃ e m, call.run T (fresh sys) = .thrown e m := by
  have hcv : ∀ (count : Nat) (x : α),
      (∃ m, ctor_count_value T count x (fresh sys) = .ok () m ∧ WF T m.self) ∨
        ∃ e m, ctor_count_value T count x (fresh sys) = .thrown e m := by
    intro count x
    rw [fresh, ctor_count_value_run T hT count x _ sys]
    split_ifs with h0 h1 h2
    · exact Or.inl ⟨_, rfl, WF_nil T⟩
    · exact Or.inr ⟨_, _, rfl⟩
    · exact Or.inl ⟨_, rfl, WF_rep T _ _ (by rw [List.length_replicate])
        (Nat.le_of_not_lt h1)⟩
    · exact Or.inr ⟨_, _, rfl⟩
  cases call with
  | default_ctor => exact Or.inl ⟨_, rfl, WF_nil T⟩
  | count_value count value => exact hcv count value
  | count count => exact hcv count default
  | range cat src =>
    simp only [ctor_call.run]
    rw [ctor_range_run T hT cat src sys harg]
    split_ifs with h0 h1 h2
    · exact Or.inl ⟨_, rfl, WF_nil T⟩
    · exact Or.inr ⟨_, _, rfl⟩
    · exact Or.inl ⟨_, rfl, WF_rep T _ _ (le_refl _) (Nat.le_of_not_lt h1)⟩
    · exact Or.inr ⟨_, _, rfl⟩
  | copy other =>
    obtain ⟨ys, c2, hys, hc2, ho⟩ := (WF_iff T other).mp harg
    subst ho
    simp only [ctor_call.run]
    rw [fresh, ctor_copy_run T hT ys c2 _ sys hys hc2]
    split_ifs with h0 h2
    · exact Or.inl ⟨_, rfl, WF_rep T _ _ (by omega) (Nat.zero_le _)⟩
    · exact Or.inl ⟨_, rfl, WF_rep T _ _ (le_refl _) (le_trans hys hc2)⟩
    · exact Or.inr ⟨_, _, rfl⟩
  | ilist init =>
    simp only [ctor_call.run]
    rw [fresh, ctor_ilist_run T hT init _ sys]
    split_ifs with h0 h1 h2
    · exact Or.inl ⟨_, rfl, WF_nil T⟩
    · exact Or.inr ⟨_, _, rfl⟩
    · exact Or.inl ⟨_, rfl, WF_rep T _ _ (le_refl _) (Nat.le_of_not_lt h1)⟩
    · exact Or.inr ⟨_, _, rfl⟩

theorem WF_heap (T : Target) (v : myvector α) (h : WF T v) :
    (v.heap_ ≠ none ↔ 0 < v.capacity_) := by
  obtain ⟨xs, c, _, _, rfl⟩ := (WF_iff T v).mp h
  by_cases h0 : c = 0
  · simp only [rep, h0, if_true, ne_eq, not_true_eq_false, lt_irrefl]
  · simp only [rep, h0, if_false, ne_eq, not_false_eq_true, true_iff, reduceCtorEq]
    omega

end Invariants

section Strategies

theorem reallocation_overloads_ok (T : Target) (hT : T.valid) (xs : List α) (c n : Nat)
    (sys : Allocator) (hxs : xs.length ≤ c) (hn : xs.length ≤ n) (hn1 : 1 ≤ n)
    (hmax : n ≤ MAX_SIZE T)
    (hg : sys.grants sys.requests.length (bytes_for T n) = true) :
    reallocation_trivially_copyable T n ⟨rep xs c, sys⟩
      = .ok () ⟨rep xs n, (sys.request (bytes_for T n)).2⟩ ∧
    reallocation_move_constructible T n ⟨rep xs c, sys⟩
      = .ok () ⟨rep xs n, (sys.request (bytes_for T n)).2⟩ ∧
    reallocation_copy_constructible T n ⟨rep xs c, sys⟩
      = .ok () ⟨rep xs n, (sys.request (bytes_for T n)).2⟩ := by
  have hdiv := bytes_for_div T hT n hmax
  have hn0 : n ≠ 0 := by omega
  refine ⟨?_, ?_, ?_⟩
  · simp only [reallocation_trivially_copyable, run_bind, Exec.bind, get_self, realloc,
      Allocator.request, hg, if_true, hdiv, Option.isNone_some, modify_self,
      realloc_block xs c n hxs hn]
    simp [rep, hn0, run_bind, Exec.bind, modify_self]
  · simp only [reallocation_move_constructible, mymalloc, run_bind, Exec.bind, malloc,
      Allocator.request, hg, if_true, hdiv, Option.isNone_some, run_pure, get_self,
      Bool.false_eq_true, if_false, free, Exec.pure, modify_self]
    rw [relocate_all_run xs c n _ hxs hn]
    simp [rep, hn0]
  · simp only [reallocation_copy_constructible, mymalloc, run_bind, Exec.bind, malloc,
      Allocator.request, hg, if_true, hdiv, Option.isNone_some, run_pure, get_self,
      Bool.false_eq_true, if_false, free, Exec.pure, modify_self]
    rw [relocate_all_run xs c n _ hxs hn]
    simp [rep, hn0]

theorem bytes_for_zero (T : Target) : bytes_for T 0 = 0 := by
  simp only [bytes_for, wrap, Nat.mul_zero, Nat.zero_mod]

theorem reallocation_overloads_zero (T : Target) (c : Nat) (sys : Allocator)
    (hg : sys.grants sys.requests.length (bytes_for T 0) = true) :
    reallocation_trivially_copyable T 0 ⟨rep ([] : List α) c, sys⟩
      = .ok () ⟨{ heap_ := some [], size_ := 0, capacity_ := 0 },
          (sys.request (bytes_for T 0)).2⟩ ∧
    reallocation_move_constructible T 0 ⟨rep ([] : List α) c, sys⟩
      = .ok () ⟨{ heap_ := some [], size_ := 0, capacity_ := 0 },
          (sys.request (bytes_for T 0)).2⟩ ∧
    reallocation_copy_constructible T 0 ⟨rep ([] : List α) c, sys⟩
      = .ok () ⟨{ heap_ := some [], size_ := 0, capacity_ := 0 },
          (sys.request (bytes_for T 0)).2⟩ := by
  rw [bytes_for_zero] at hg ⊢
  refine ⟨?_, ?_, ?_⟩
  · simp only [reallocation_trivially_copyable, run_bind, Exec.bind, get_self, realloc,
      bytes_for_zero, Allocator.request, hg, if_true, Nat.zero_div, List.take_zero,
      Nat.zero_sub, List.replicate_zero, List.append_nil, Option.isNone_some,
      Bool.false_eq_true, if_false, modify_self, rep, List.length_nil]
  · simp only [reallocation_move_constructible, mymalloc, run_bind, Exec.bind, malloc,
      bytes_for_zero, Allocator.request, hg, if_true, Nat.zero_div, List.replicate_zero,
      Option.isNone_some, run_pure, get_self, Bool.false_eq_true, if_false, free, Exec.pure,
      modify_self, rep, List.length_nil, for_loop]
  · simp only [reallocation_copy_constructible, mymalloc, run_bind, Exec.bind, malloc,
      bytes_for_zero, Allocator.request, hg, if_true, Nat.zero_div, List.replicate_zero,
      Option.isNone_some, run_pure, get_self, Bool.false_eq_true, if_false, free, Exec.pure,
      modify_self, rep, List.length_nil, for_loop]

theorem capacity_call_tag [Inhabited α] (T : Target) (hT : T.valid) (tag : realloc_tag)
    (v : myvector α) (sys : Allocator) (call : capacity_call α) (hWF : WF T v) :
    call.run { T with realloc_switcher := tag } ⟨v, sys⟩ = call.run T ⟨v, sys⟩ := by
  obtain ⟨xs, c, hxs, hc, rfl⟩ := (WF_iff T v).mp hWF
  have hT1 : Target.valid { T with realloc_switcher := tag } := hT
  have hres : ∀ (count : Nat) (y : α),
      resize_value { T with realloc_switcher := tag } count (.object y) ⟨rep xs c, sys⟩
        = resize_value T count (.object y) ⟨rep xs c, sys⟩ := by
    intro count y
    rw [resize_value_run _ hT1 xs c sys count y hxs, resize_value_run T hT xs c sys count y hxs]
    rfl
  cases call with
  | reserve n =>
    simp only [capacity_call.run]
    rw [reserve_run_gen _ hT1 xs c n sys hxs, reserve_run_gen T hT xs c n sys hxs]
    rfl
  | resize n => exact hres n default
  | resize_value n y => exact hres n y
  | push_back y =>
    simp only [capacity_call.run]
    rw [push_back_run _ hT1 xs c sys y hxs hc, push_back_run T hT xs c sys y hxs hc]
    rfl
  | shrink_to_fit =>
    simp only [capacity_call.run]
    rw [shrink_to_fit_run _ hT1 xs c sys hxs hc, shrink_to_fit_run T hT xs c sys hxs hc]
    rfl

theorem assign_call_tag (T : Target) (hT : T.valid) (tag : realloc_tag)
    (v : myvector α) (sys : Allocator) (call : assign_call α) (hWF : WF T v)
    (harg : call.admissible T) :
    call.run { T with realloc_switcher := tag } ⟨v, sys⟩ = call.run T ⟨v, sys⟩ := by
  obtain ⟨xs, c, hxs, hc, rfl⟩ := (WF_iff T v).mp hWF
  have hT1 : Target.valid { T with realloc_switcher := tag } := hT
  cases call with
  | copy other =>
    obtain ⟨ys, c2, hys, hc2, ho⟩ := (WF_iff T other).mp harg
    subst ho
    simp only [assign_call.run]
    rw [operator_assign_copy_run _ hT1 xs ys c c2 sys hxs hys hc2,
      operator_assign_copy_run T hT xs ys c c2 sys hxs hys hc2]
    rfl
  | ilist_operator init =>
    simp only [assign_call.run]
    rw [operator_assign_ilist_run _ hT1 xs init c sys hxs,
      operator_assign_ilist_run T hT xs init c sys hxs]
    rfl
  | count_value count value =>
    simp only [assign_call.run]
    rw [assign_run _ hT1 xs c sys count value hxs, assign_run T hT xs c sys count value hxs]
    rfl
  | range cat src =>
    have hsrc : src.length ≤ MAX_SIZE_BYTES T := harg
    simp only [assign_call.run]
    rw [assign_range_run _ hT1 cat xs src c sys hxs hsrc,
      assign_range_run T hT cat xs src c sys hxs hsrc]
    rfl
  | ilist init =>
    simp only [assign_call.run]
    rw [assign_ilist_run _ hT1 xs init c sys hxs, assign_ilist_run T hT xs init c sys hxs]
    rfl

theorem public_call_tag [Inhabited α] (T : Target) (hT : T.valid) (tag : realloc_tag)
    (p : Pair α) (call : public_call α) (hWF : WF T p.self) (harg : call.admissible T) :
    call.run { T with realloc_switcher := tag } p = call.run T p := by
  cases call with
  | capacity call =>
    simp only [public_call.run, on_self, capacity_call_tag T hT tag p.self p.sys call hWF]
  | assignment call =>
    simp only [public_call.run, on_self, assign_call_tag T hT tag p.self p.sys call hWF harg]
  | self_assignment => rfl
  | move_assignment same => rfl
  | destructor => rfl

end Strategies

section Access

theorem mem_elements_holds (w : Mem.World α) (xs : List α) (hw : Mem.holds w xs) :
    Mem.elements w.store w.self = xs := by
  obtain ⟨h1, _, h3, h4⟩ := hw
  simp only [Mem.elements, h3, if_false, h4, Option.getD_some, h1, List.take_left',
    List.length_map, reduceOption_map_some]

theorem mem_block_get (xs : List α) (n k : Nat) (hk : k < xs.length) :
    (xs.map some ++ List.replicate n none).get? k = some (some (xs.get ⟨k, hk⟩)) := by
  simp only [List.get?_eq_getElem?, List.get_eq_getElem]
  rw [List.getElem?_append_left (by simpa using hk)]
  simp [hk]

theorem mem_block_set (xs : List α) (n k : Nat) (y : α) (hk : k < xs.length) :
    (xs.map some ++ List.replicate n none).set k (some y)
      = (xs.set k y).map some ++ List.replicate n none := by
  rw [List.set_append_left _ _ (by simpa using hk), List.map_set]

theorem mem_load_at (T : Target) (w : Mem.World α) (xs : List α) (a : Mem.access) (k : Nat)
    (hw : Mem.holds w xs) (hk : k < xs.length)
    (ha : (Mem.access.get T a : Exec (Mem.World α) Mem.reference) w
      = .ok ⟨w.self.heap_, k⟩ w) :
    Mem.load T a w = .ok (xs.get ⟨k, hk⟩) w := by
  simp only [Mem.load, run_bind, Exec.bind, ha, Mem.read_at, hw.2.2.2,
    mem_block_get xs _ k hk]

theorem mem_store_at (T : Target) (w : Mem.World α) (xs : List α) (a : Mem.access) (k : Nat)
    (y : α) (hw : Mem.holds w xs) (hk : k < xs.length)
    (ha : (Mem.access.get T a : Exec (Mem.World α) Mem.reference) w
      = .ok ⟨w.self.heap_, k⟩ w) :
    Mem.store_through T a y w
      = .ok () { w with store := (Mem.update w.store w.self.heap_
          (some ((xs.set k y).map some
            ++ List.replicate (w.self.capacity_ - xs.length) none))) } := by
  simp only [Mem.store_through, run_bind, Exec.bind, ha, Mem.assign_at, hw.2.2.2,
    mem_block_get xs _ k hk, mem_block_set xs _ k y hk]

theorem wrap_pred (T : Target) (n : Nat) (h1 : 1 ≤ n) (hn : n ≤ MAX_SIZE_BYTES T) :
    wrap T (n + 2 ^ T.bits - 1) = n - 1 := by
  have hp : 0 < 2 ^ T.bits := Nat.two_pow_pos _
  have e : n + 2 ^ T.bits - 1 = (n - 1) + 2 ^ T.bits := by omega
  unfold wrap
  unfold MAX_SIZE_BYTES at hn
  rw [e, Nat.add_mod_right, Nat.mod_eq_of_lt (by omega)]

end Access

section Grow

theorem exec_bind_assoc {δ : Type} (x : Exec σ β) (f : β → Exec σ γ) (g : γ → Exec σ δ) :
    Exec.bind (Exec.bind x f) g = Exec.bind x (fun b => Exec.bind (f b) g) := by
  funext s
  unfold Exec.bind
  cases x s <;> rfl

theorem push_back_split (T : Target) (value : α) :
    push_back T (.object value)
      = Exec.bind (push_back_grow T) (fun _ => push_back_construct T value) := by
  simp only [push_back, push_back_grow, push_back_construct, bind, exec_bind_assoc]
  refine congrArg (Exec.bind (need_twice_capacity T)) ?_
  funext need
  cases need
  · simp only [Bool.false_eq_true, if_false, read_value_object, exec_pure_bind]
  · simp only [if_true, exec_bind_assoc, read_value_object, exec_pure_bind]

theorem push_back_grow_run (T : Target) (hT : T.valid) (xs : List α) (c : Nat)
    (sys : Allocator) (hxs : xs.length ≤ c) (hc : c ≤ MAX_SIZE T) :
    push_back_grow T ⟨rep xs c, sys⟩ =
      if xs.length < c then .ok () ⟨rep xs c, sys⟩
      else if MAX_SIZE T / 2 < c then .thrown .length_error ⟨rep xs c, sys⟩
      else if sys.grants sys.requests.length (bytes_for T (max 1 (2 * c))) = true then
        .ok () ⟨rep xs (max 1 (2 * c)), (sys.request (bytes_for T (max 1 (2 * c)))).2⟩
      else .thrown .bad_alloc ⟨rep xs c, (sys.request (bytes_for T (max 1 (2 * c)))).2⟩ := by
  have hM := MAX_SIZE_pos T hT
  have hMB := MAX_SIZE_le T
  by_cases h : xs.length < c
  · have h1 : ¬ (xs.length ≥ MAX_SIZE T) := by omega
    have h2 : wrap T (xs.length + 1) = xs.length + 1 := wrap_of_le T _ (by omega)
    have h3 : ¬ (xs.length + 1 > c) := by omega
    simp only [push_back_grow, run_bind, Exec.bind, need_twice_capacity, get_self, size_rep, h1,
      if_false, run_pure, h2, capacity_rep, h3, decide_False, Bool.false_eq_true, h, if_true]
  · have hxc : xs.length = c := by omega
    by_cases h5 : MAX_SIZE T / 2 < c
    · simp only [h, h5, if_false, if_true]
      by_cases h1 : xs.length ≥ MAX_SIZE T
      · simp only [push_back_grow, run_bind, Exec.bind, need_twice_capacity, get_self, size_rep,
          h1, if_true, raise]
      · have h2 : wrap T (xs.length + 1) = xs.length + 1 := wrap_of_le T _ (by omega)
        have h3 : xs.length + 1 > c := by omega
        simp only [push_back_grow, run_bind, Exec.bind, need_twice_capacity, get_self, size_rep,
          h1, if_false, run_pure, h2, capacity_rep, h3, decide_True, if_true, twice_length,
          gt_iff_lt, h5, raise]
    · have h1 : ¬ (xs.length ≥ MAX_SIZE T) := by omega
      have h2 : wrap T (xs.length + 1) = xs.length + 1 := wrap_of_le T _ (by omega)
      have h3 : xs.length + 1 > c := by omega
      have h6 : (if c ≠ 0 then wrap T (c * 2) else 1) = max 1 (2 * c) := by
        by_cases hc0 : c = 0
        · simp [hc0]
        · have : wrap T (c * 2) = c * 2 := wrap_of_le T _ (by omega)
          simp only [hc0, ne_eq, not_false_eq_true, if_true, this]
          omega
      have h7 : max 1 (2 * c) ≤ MAX_SIZE T := by omega
      simp only [h, h5, if_false]
      simp only [push_back_grow, run_bind, Exec.bind, need_twice_capacity, get_self, size_rep, h1,
        if_false, run_pure, h2, capacity_rep, h3, decide_True, if_true, twice_length,
        gt_iff_lt, h5, h6]
      by_cases hg : sys.grants sys.requests.length (bytes_for T (max 1 (2 * c))) = true
      · rw [reallocation_ok T hT xs c _ sys hxs (by omega) (by omega) h7 hg]
        simp only [hg, if_true]
      · rw [reallocation_fail T _ _ sys (by simpa using hg)]
        simp [hg]

theorem raw_slot_rep (xs : List α) (c : Nat) (h : xs.length < c) :
    ∃ blk, (rep xs c).heap_ = some blk ∧ blk.length = c ∧ blk.get? xs.length = some none := by
  have hc0 : c ≠ 0 := by omega
  refine ⟨xs.map some ++ List.replicate (c - xs.length) none, ?_, ?_, ?_⟩
  · simp only [rep, hc0, if_false]
  · rw [List.length_append, List.length_map, List.length_replicate]
    omega
  · have e : c - xs.length = (c - xs.length - 1) + 1 := by omega
    rw [e, List.replicate_succ]
    have := get?_append_cons (xs.map some) (none : Option α)
      (List.replicate (c - xs.length - 1) none)
    rw [List.length_map] at this
    exact this

theorem push_back_construct_run (T : Target) (xs : List α) (c : Nat) (sys : Allocator)
    (x : α) (h : xs.length < c) (hc : c ≤ MAX_SIZE T) :
    push_back_construct T x ⟨rep xs c, sys⟩ = .ok () ⟨rep (xs ++ [x]) c, sys⟩ := by
  have hMB := MAX_SIZE_le T
  have h2 : wrap T (xs.length + 1) = xs.length + 1 := wrap_of_le T _ (by omega)
  simp only [push_back_construct, run_bind, Exec.bind, get_self, size_rep,
    construct_end_rep xs c x sys h, modify_self, h2]
  simp [rep]

end Grow

section Requests

theorem single_request_of (T : Target) (x : Exec (Machine α) Unit) (v w : myvector α)
    (ys : List α) (reqs : List Nat) (n : Nat) (hn : n ≤ MAX_SIZE T)
    (h : ∀ g : Nat → Nat → Bool, x ⟨v, ⟨g, reqs⟩⟩ =
      if g reqs.length (bytes_for T n) = true then
        .ok () ⟨rep ys n, ⟨g, reqs ++ [bytes_for T n]⟩⟩
      else .thrown .bad_alloc ⟨w, ⟨g, reqs ++ [bytes_for T n]⟩⟩) :
    single_request T x v reqs n := by
  have hb := bytes_for_eq T n hn
  refine ⟨hn, sizeof_mul_le T n hn, ?_⟩
  intro g
  rw [h g, hb]
  by_cases hg : g reqs.length (T.sizeof_value * n) = true
  · simp only [hg, if_true]
    exact ⟨_, Or.inl rfl, rfl, fun _ => ⟨rfl, rfl⟩⟩
  · simp only [hg, if_false]
    exact ⟨_, Or.inr ⟨_, rfl⟩, rfl, fun h => Bool.noConfusion h⟩

theorem capacity_call_requests [Inhabited α] (T : Target) (hT : T.valid) (v : myvector α)
    (reqs : List Nat) (call : capacity_call α) (hWF : WF T v) :
    no_request (call.run T) v reqs ∨ ∃ n, single_request T (call.run T) v reqs n := by
  obtain ⟨xs, c, hxs, hc, rfl⟩ := (WF_iff T v).mp hWF
  have hres : ∀ (count : Nat) (y : α),
      no_request (resize_value T count (.object y)) (rep xs c) reqs ∨
        ∃ n, single_request T (resize_value T count (.object y)) (rep xs c) reqs n := by
    intro count y
    by_cases h1 : count < xs.length
    · refine Or.inl (fun g => ?_)
      rw [resize_value_run T hT xs c _ count y hxs]
      simp only [h1, if_true]
      exact ⟨_, Or.inl rfl, rfl⟩
    · by_cases h2 : count = xs.length
      · refine Or.inl (fun g => ?_)
        rw [resize_value_run T hT xs c _ count y hxs, if_neg h1, if_pos h2]
        exact ⟨_, Or.inl rfl, rfl⟩
      · by_cases h3 : count ≤ c
        · refine Or.inl (fun g => ?_)
          rw [resize_value_run T hT xs c _ count y hxs]
          simp only [h1, h2, h3, if_true, if_false]
          exact ⟨_, Or.inl rfl, rfl⟩
        · by_cases h4 : MAX_SIZE T < count
          · refine Or.inl (fun g => ?_)
            rw [resize_value_run T hT xs c _ count y hxs]
            simp only [h1, h2, h3, h4, if_true, if_false]
            exact ⟨_, Or.inr ⟨_, rfl⟩, rfl⟩
          · refine Or.inr ⟨count, single_request_of T _ _ (rep xs c)
              (xs ++ List.replicate (count - xs.length) y) reqs count
              (Nat.le_of_not_lt h4) (fun g => ?_)⟩
            rw [resize_value_run T hT xs c _ count y hxs]
            simp only [h1, h2, h3, h4, if_false, Allocator.request]
  cases call with
  | reserve n =>
    simp only [capacity_call.run]
    by_cases h1 : c < n
    · by_cases h2 : MAX_SIZE T < n
      · refine Or.inl (fun g => ?_)
        rw [reserve_run_gen T hT xs c n _ hxs]
        simp only [h1, h2, if_true]
        exact ⟨_, Or.inr ⟨_, rfl⟩, rfl⟩
      · refine Or.inr ⟨n, single_request_of T _ _ (rep xs c) xs reqs n
          (Nat.le_of_not_lt h2) (fun g => ?_)⟩
        rw [reserve_run_gen T hT xs c n _ hxs]
        simp only [h1, h2, if_true, if_false, Allocator.request]
    · refine Or.inl (fun g => ?_)
      rw [reserve_run_gen T hT xs c n _ hxs]
      simp only [h1, if_false]
      exact ⟨_, Or.inl rfl, rfl⟩
  | resize n => exact hres n default
  | resize_value n y => exact hres n y
  | push_back y =>
    simp only [capacity_call.run]
    have hpos := MAX_SIZE_pos T hT
    by_cases h1 : xs.length < c
    · refine Or.inl (fun g => ?_)
      rw [push_back_run T hT xs c _ y hxs hc]
      simp only [h1, if_true]
      exact ⟨_, Or.inl rfl, rfl⟩
    · by_cases h2 : MAX_SIZE T / 2 < c
      · refine Or.inl (fun g => ?_)
        rw [push_back_run T hT xs c _ y hxs hc]
        simp only [h1, h2, if_true, if_false]
        exact ⟨_, Or.inr ⟨_, rfl⟩, rfl⟩
      · refine Or.inr ⟨max 1 (2 * c), single_request_of T _ _ (rep xs c) (xs ++ [y]) reqs _
          (by omega) (fun g => ?_)⟩
        rw [push_back_run T hT xs c _ y hxs hc]
        simp only [h1, h2, if_false, Allocator.request]
  | shrink_to_fit =>
    simp only [capacity_call.run]
    by_cases h1 : xs.length < c
    · by_cases h2 : xs.length = 0
      · refine Or.inl (fun g => ?_)
        rw [shrink_to_fit_run T hT xs c _ hxs hc, if_pos h1, if_pos h2]
        exact ⟨_, Or.inl rfl, rfl⟩
      · refine Or.inr ⟨xs.length, single_request_of T _ _ (rep xs c) xs reqs _
          (le_trans hxs hc) (fun g => ?_)⟩
        rw [shrink_to_fit_run T hT xs c _ hxs hc]
        simp only [h1, h2, if_true, if_false, Allocator.request]
    · refine Or.inl (fun g => ?_)
      rw [shrink_to_fit_run T hT xs c _ hxs hc]
      simp only [h1, if_false]
      exact ⟨_, Or.inl rfl, rfl⟩

theorem assign_call_requests (T : Target) (hT : T.valid) (v : myvector α)
    (reqs : List Nat) (call : assign_call α) (hWF : WF T v) (harg : call.admissible T) :
    no_request (call.run T) v reqs ∨ ∃ n, single_request T (call.run T) v reqs n := by
  obtain ⟨xs, c, hxs, hc, rfl⟩ := (WF_iff T v).mp hWF
  have key : ∀ ys : List α,
      (∀ g : Nat → Nat → Bool, call.run T ⟨rep xs c, ⟨g, reqs⟩⟩ =
        if MAX_SIZE T < ys.length then .thrown .length_error ⟨rep xs c, ⟨g, reqs⟩⟩
        else if c < ys.length then
          if g reqs.length (bytes_for T ys.length) = true then
            .ok () ⟨rep ys ys.length, ⟨g, reqs ++ [bytes_for T ys.length]⟩⟩
          else .thrown .bad_alloc ⟨rep [] c, ⟨g, reqs ++ [bytes_for T ys.length]⟩⟩
        else .ok () ⟨rep ys c, ⟨g, reqs⟩⟩) →
      no_request (call.run T) (rep xs c) reqs ∨
        ∃ n, single_request T (call.run T) (rep xs c) reqs n := by
    intro ys h
    by_cases h1 : MAX_SIZE T < ys.length
    · refine Or.inl (fun g => ?_)
      rw [h g]
      simp only [h1, if_true]
      exact ⟨_, Or.inr ⟨_, rfl⟩, rfl⟩
    · by_cases h2 : c < ys.length
      · refine Or.inr ⟨ys.length, single_request_of T _ _ (rep [] c) ys reqs _
          (Nat.le_of_not_lt h1) (fun g => ?_)⟩
        rw [h g]
        simp only [h1, h2, if_true, if_false]
      · refine Or.inl (fun g => ?_)
        rw [h g]
        simp only [h1, h2, if_false]
        exact ⟨_, Or.inl rfl, rfl⟩
  cases call with
  | copy other =>
    obtain ⟨ys, c2, hys, hc2, ho⟩ := (WF_iff T other).mp harg
    subst ho
    refine key ys (fun g => ?_)
    simp only [assign_call.run]
    rw [operator_assign_copy_run T hT xs ys c c2 _ hxs hys hc2]
    have h1 : ¬ (MAX_SIZE T < ys.length) := Nat.not_lt.mpr (le_trans hys hc2)
    simp only [h1, if_false, Allocator.request]
  | ilist_operator init =>
    refine key init (fun g => ?_)
    simp only [assign_call.run]
    rw [operator_assign_ilist_run T hT xs init c _ hxs]
    simp only [Allocator.request]
  | count_value count value =>
    refine key (List.replicate count value) (fun g => ?_)
    simp only [assign_call.run]
    rw [assign_run T hT xs c _ count value hxs]
    simp only [Allocator.request, List.length_replicate]
  | range cat src =>
    have hsrc : src.length ≤ MAX_SIZE_BYTES T := harg
    refine key src (fun g => ?_)
    simp only [assign_call.run]
    rw [assign_range_run T hT cat xs src c _ hxs hsrc]
    simp only [Allocator.request]
  | ilist init =>
    refine key init (fun g => ?_)
    simp only [assign_call.run]
    rw [assign_ilist_run T hT xs init c _ hxs]
    simp only [Allocator.request]

theorem ctor_call_requests [Inhabited α] (T : Target) (hT : T.valid) (reqs : List Nat)
    (call : ctor_call α) (harg : call.admissible T) :
    no_request (call.run T) {} reqs ∨ ∃ n, single_request T (call.run T) {} reqs n := by
  have key : ∀ (x : Exec (Machine α) Unit) (ys : List α) (w1 w2 : myvector α),
      (∀ g : Nat → Nat → Bool, x ⟨{}, ⟨g, reqs⟩⟩ =
        if ys.length = 0 then .ok () ⟨rep [] 0, ⟨g, reqs⟩⟩
        else if MAX_SIZE T < ys.length then .thrown .length_error ⟨w1, ⟨g, reqs⟩⟩
        else if g reqs.length (bytes_for T ys.length) = true then
          .ok () ⟨rep ys ys.length, ⟨g, reqs ++ [bytes_for T ys.length]⟩⟩
        else .thrown .bad_alloc ⟨w2, ⟨g, reqs ++ [bytes_for T ys.length]⟩⟩) →
      no_request x {} reqs ∨ ∃ n, single_request T x {} reqs n := by
    intro x ys w1 w2 h
    by_cases h0 : ys.length = 0
    · refine Or.inl (fun g => ?_)
      rw [h g]
      simp only [h0, if_true]
      exact ⟨_, Or.inl rfl, rfl⟩
    · by_cases h1 : MAX_SIZE T < ys.length
      · refine Or.inl (fun g => ?_)
        rw [h g]
        simp only [h0, h1, if_true, if_false]
        exact ⟨_, Or.inr ⟨_, rfl⟩, rfl⟩
      · refine Or.inr ⟨ys.length, single_request_of T _ _ w2 ys reqs _
          (Nat.le_of_not_lt h1) (fun g => ?_)⟩
        rw [h g]
        simp only [h0, h1, if_false]
  have hcv : ∀ (count : Nat) (y : α),
      no_request (ctor_count_value T count y) {} reqs ∨
        ∃ n, single_request T (ctor_count_value T count y) {} reqs n := by
    intro count y
    refine key _ (List.replicate count y) {} {} (fun g => ?_)
    rw [ctor_count_value_run T hT count y _ _]
    simp only [Allocator.request, List.length_replicate]
  cases call with
  | default_ctor =>
    exact Or.inl (fun g => ⟨_, Or.inl rfl, rfl⟩)
  | count_value count value => exact hcv count value
  | count count => exact hcv count default
  | range cat src =>
    have hsrc : src.length ≤ MAX_SIZE_BYTES T := harg
    refine key _ src {} {} (fun g => ?_)
    have e := ctor_range_run T hT cat src ⟨g, reqs⟩ hsrc
    simp only [fresh, Allocator.request] at e
    exact e
  | copy other =>
    obtain ⟨ys, c2, hys, hc2, ho⟩ := (WF_iff T other).mp harg
    subst ho
    refine key _ ys {} {} (fun g => ?_)
    simp only [ctor_call.run]
    rw [ctor_copy_run T hT ys c2 _ _ hys hc2]
    have h1 : ¬ (MAX_SIZE T < ys.length) := Nat.not_lt.mpr (le_trans hys hc2)
    by_cases h0 : ys.length = 0
    · have hy : ys = [] := List.length_eq_zero.mp h0
      subst hy
      simp only [List.length_nil, if_true]
    · simp only [h0, h1, if_false, Allocator.request]
  | ilist init =>
    refine key _ init {} {} (fun g => ?_)
    simp only [ctor_call.run]
    rw [ctor_ilist_run T hT init _ _]
    simp only [Allocator.request]

end Requests

section Shifts

theorem move_slot_up (pre : List (Option α)) (x : α) (mid : List (Option α)) (o : Option α)
    (rest : List (Option α)) (s c : Nat) (sys : Allocator) :
    move_slot pre.length (pre.length + 1 + mid.length)
        ⟨{ heap_ := some (pre ++ some x :: (mid ++ o :: rest)), size_ := s, capacity_ := c },
          sys⟩
      = .ok () ⟨{ heap_ := some (pre ++ none :: (mid ++ some x :: rest)), size_ := s,
                  capacity_ := c }, sys⟩ := by
  have hj : pre.length + 1 + mid.length = (pre ++ some x :: mid).length := by
    rw [List.length_append, List.length_cons]; omega
  have e1 : pre ++ some x :: (mid ++ o :: rest) = (pre ++ some x :: mid) ++ o :: rest := by
    simp only [List.append_assoc, List.cons_append]
  have e2 : (pre ++ some x :: mid) ++ some x :: rest
      = pre ++ some x :: (mid ++ some x :: rest) := by
    simp only [List.append_assoc, List.cons_append]
  have h1 := construct_own_run (pre ++ some x :: mid) o x rest s c sys
  rw [← hj, ← e1, e2] at h1
  simp only [move_slot, run_bind, Exec.bind, get_self, read_at, get?_append_cons, Exec.pure,
    h1, destroy_own_run]

theorem move_slot_down (pre : List (Option α)) (o : Option α) (mid : List (Option α)) (x : α)
    (rest : List (Option α)) (s c : Nat) (sys : Allocator) :
    move_slot (pre.length + 1 + mid.length) pre.length
        ⟨{ heap_ := some (pre ++ o :: (mid ++ some x :: rest)), size_ := s, capacity_ := c },
          sys⟩
      = .ok () ⟨{ heap_ := some (pre ++ some x :: (mid ++ none :: rest)), size_ := s,
                  capacity_ := c }, sys⟩ := by
  have hj : pre.length + 1 + mid.length = (pre ++ o :: mid).length := by
    rw [List.length_append, List.length_cons]; omega
  have hj2 : pre.length + 1 + mid.length = (pre ++ some x :: mid).length := by
    rw [List.length_append, List.length_cons]; omega
  have e1 : pre ++ o :: (mid ++ some x :: rest) = (pre ++ o :: mid) ++ some x :: rest := by
    simp only [List.append_assoc, List.cons_append]
  have e3 : pre ++ some x :: (mid ++ some x :: rest)
      = (pre ++ some x :: mid) ++ some x :: rest := by
    simp only [List.append_assoc, List.cons_append]
  have e4 : (pre ++ some x :: mid) ++ none :: rest
      = pre ++ some x :: (mid ++ none :: rest) := by
    simp only [List.append_assoc, List.cons_append]
  have hg : (pre ++ o :: (mid ++ some x :: rest)).get? (pre.length + 1 + mid.length)
      = some (some x) := by
    rw [e1, hj]; exact get?_append_cons _ _ _
  have h2 := destroy_own_run (pre ++ some x :: mid) x rest s c sys
  rw [← hj2, ← e3, e4] at h2
  simp only [move_slot, run_bind, Exec.bind, get_self, read_at, hg, Exec.pure,
    construct_own_run, h2]

theorem shift_right_run (k : Nat) (hk : 1 ≤ k) (t : List α) :
    ∀ (pre post : List (Option α)) (s c : Nat) (sys : Allocator),
    shift_right pre.length t.length k
        ⟨{ heap_ := some (pre ++ (t.map some ++ (List.replicate k none ++ post))),
           size_ := s, capacity_ := c }, sys⟩
      = .ok () ⟨{ heap_ := some (pre ++ (List.replicate k none ++ (t.map some ++ post))),
                  size_ := s, capacity_ := c }, sys⟩ := by
  induction t using List.reverseRecOn with
  | nil =>
    intro pre post s c sys
    simp only [List.length_nil, shift_right, Exec.pure, List.map_nil, List.nil_append]
  | append_singleton t x ih =>
    intro pre post s c sys
    obtain ⟨k1, rfl⟩ : ∃ k1, k = k1 + 1 := ⟨k - 1, by omega⟩
    have hrep : List.replicate (k1 + 1) (none : Option α)
        = List.replicate k1 none ++ [none] := by
      rw [← List.replicate_succ']
    have hrep2 : (none : Option α) :: List.replicate k1 none = List.replicate (k1 + 1) none :=
      (List.replicate_succ _ _).symm
    have hm := move_slot_up (pre ++ t.map some) x (List.replicate k1 none) none post s c sys
    have hi : (pre ++ t.map some).length + 1 + (List.replicate k1 (none : Option α)).length
        = pre.length + t.length + (k1 + 1) := by
      rw [List.length_append, List.length_map, List.length_replicate]; omega
    have hi0 : (pre ++ t.map some).length = pre.length + t.length := by
      rw [List.length_append, List.length_map]
    rw [hi, hi0] at hm
    have e1 : pre ++ ((t ++ [x]).map some ++ (List.replicate (k1 + 1) none ++ post))
        = (pre ++ t.map some) ++ some x :: (List.replicate k1 none ++ none :: post) := by
      rw [hrep]
      simp only [List.map_append, List.map_cons, List.map_nil, List.append_assoc,
        List.cons_append, List.nil_append]
    have e2 : (pre ++ t.map some) ++ none :: (List.replicate k1 none ++ some x :: post)
        = pre ++ (t.map some ++ (List.replicate (k1 + 1) none ++ some x :: post)) := by
      rw [← hrep2]
      simp only [List.append_assoc, List.cons_append]
    have e3 : pre ++ (List.replicate (k1 + 1) none ++ (t.map some ++ some x :: post))
        = pre ++ (List.replicate (k1 + 1) none ++ ((t ++ [x]).map some ++ post)) := by
      simp only [List.map_append, List.map_cons, List.map_nil, List.append_assoc,
        List.cons_append, List.nil_append]
    have hl : (t ++ [x]).length = t.length + 1 := by
      rw [List.length_append, List.length_singleton]
    rw [hl, e1]
    simp only [shift_right, Exec.bind, hm]
    rw [e2, ih pre (some x :: post) s c sys, e3]

theorem shift_left_run (g : Nat) (hg : 1 ≤ g) (t : List α) :
    ∀ (pre post : List (Option α)) (s c : Nat) (sys : Allocator),
    for_loop (fun i _ => move_slot (i + g) i) pre.length t.length ()
        ⟨{ heap_ := some (pre ++ (List.replicate g none ++ (t.map some ++ post))),
           size_ := s, capacity_ := c }, sys⟩
      = .ok () ⟨{ heap_ := some (pre ++ (t.map some ++ (List.replicate g none ++ post))),
                  size_ := s, capacity_ := c }, sys⟩ := by
  induction t with
  | nil =>
    intro pre post s c sys
    simp only [List.length_nil, for_loop, Exec.pure, List.map_nil, List.nil_append]
  | cons x t ih =>
    intro pre post s c sys
    obtain ⟨g1, rfl⟩ : ∃ g1, g = g1 + 1 := ⟨g - 1, by omega⟩
    have hrep : List.replicate (g1 + 1) (none : Option α)
        = List.replicate g1 none ++ [none] := by
      rw [← List.replicate_succ']
    have hm := move_slot_down pre none (List.replicate g1 none) x (t.map some ++ post) s c sys
    have hi : pre.length + 1 + (List.replicate g1 (none : Option α)).length
        = pre.length + (g1 + 1) := by
      rw [List.length_replicate]; omega
    rw [hi] at hm
    have e1 : pre ++ (List.replicate (g1 + 1) none ++ ((x :: t).map some ++ post))
        = pre ++ none :: (List.replicate g1 none ++ some x :: (t.map some ++ post)) := by
      simp only [List.replicate_succ, List.map_cons, List.cons_append]
    have e2 : pre ++ some x :: (List.replicate g1 none ++ none :: (t.map some ++ post))
        = (pre ++ [some x]) ++ (List.replicate (g1 + 1) none ++ (t.map some ++ post)) := by
      rw [hrep]
      simp only [List.append_assoc, List.cons_append, List.nil_append]
    have e3 : (pre ++ [some x]) ++ (t.map some ++ (List.replicate (g1 + 1) none ++ post))
        = pre ++ ((x :: t).map some ++ (List.replicate (g1 + 1) none ++ post)) := by
      simp only [List.map_cons, List.append_assoc, List.cons_append, List.nil_append]
    have hl : (pre ++ [some x]).length = pre.length + 1 := by
      rw [List.length_append, List.length_singleton]
    have h := ih (pre ++ [some x]) post s c sys
    rw [hl] at h
    rw [e1]
    simp only [List.length_cons, for_loop, Exec.bind, hm]
    rw [e2, h, e3]

end Shifts

section InsertRuns

theorem construct_into_run (ys : List α) : ∀ (pre post : List (Option α)) (s : σ),
    (construct_into ys pre.length (some (pre ++ (List.replicate ys.length none ++ post)))
        : Exec σ (Option (List (Option α)))) s
      = .ok (some (pre ++ (ys.map some ++ post))) s := by
  induction ys with
  | nil =>
    intro pre post s
    simp only [construct_into, Exec.pure, List.length_nil, List.replicate_zero, List.map_nil]
  | cons y ys ih =>
    intro pre post s
    have hlt : pre.length < (pre ++ (none :: (List.replicate ys.length none ++ post))).length := by
      rw [List.length_append, List.length_cons]; omega
    have h := ih (pre ++ [some y]) post s
    have hl : (pre ++ [some y]).length = pre.length + 1 := by
      rw [List.length_append, List.length_singleton]
    rw [hl] at h
    have e1 : (pre ++ [some y]) ++ (List.replicate ys.length none ++ post)
        = pre ++ some y :: (List.replicate ys.length none ++ post) := by
      simp only [List.append_assoc, List.cons_append, List.nil_append]
    have e2 : (pre ++ [some y]) ++ (ys.map some ++ post)
        = pre ++ ((y :: ys).map some ++ post) := by
      simp only [List.map_cons, List.append_assoc, List.cons_append, List.nil_append]
    rw [e1, e2] at h
    simp only [List.length_cons, List.replicate_succ, List.cons_append, construct_into,
      Exec.bind, construct_at, hlt, if_true, Exec.pure, set_append_cons, h]

theorem relocate_shifted_run (k : Nat) (pre pre1 : List (Option α))
    (hp : pre1.length = pre.length + k) (y : α) (rest rest1 : List (Option α)) (o : Option α)
    (s c : Nat) (sys : Allocator) :
    relocate_shifted k pre.length (some (pre1 ++ o :: rest1))
        ⟨{ heap_ := some (pre ++ some y :: rest), size_ := s, capacity_ := c }, sys⟩
      = .ok (some (pre1 ++ some y :: rest1))
          ⟨{ heap_ := some (pre ++ none :: rest), size_ := s, capacity_ := c }, sys⟩ := by
  have hlt : pre.length + k < (pre1 ++ o :: rest1).length := by
    rw [List.length_append, List.length_cons]; omega
  have hset := set_append_cons pre1 o (some y) rest1
  rw [hp] at hset
  simp only [relocate_shifted, run_bind, Exec.bind, get_self, read_at, get?_append_cons,
    Exec.pure, construct_at, hlt, if_true, hset, destroy_own_run, run_pure]

theorem relocate_shifted_loop_run (k : Nat) (ys : List α) :
    ∀ (pre pre1 post post1 : List (Option α)) (_ : pre1.length = pre.length + k) (s c : Nat)
      (sys : Allocator),
    for_loop (relocate_shifted k) pre.length ys.length
        (some (pre1 ++ (List.replicate ys.length none ++ post1)))
        ⟨{ heap_ := some (pre ++ (ys.map some ++ post)), size_ := s, capacity_ := c }, sys⟩
      = .ok (some (pre1 ++ (ys.map some ++ post1)))
          ⟨{ heap_ := some (pre ++ (List.replicate ys.length none ++ post)),
             size_ := s, capacity_ := c }, sys⟩ := by
  induction ys with
  | nil =>
    intro pre pre1 post post1 _ s c sys
    simp only [List.length_nil, for_loop, Exec.pure, List.replicate_zero, List.map_nil]
  | cons y ys ih =>
    intro pre pre1 post post1 hp s c sys
    have hl : (pre ++ [none]).length = pre.length + 1 := by
      rw [List.length_append, List.length_singleton]
    have hl1 : (pre1 ++ [some y]).length = (pre ++ [(none : Option α)]).length + k := by
      rw [List.length_append, List.length_singleton, hl, hp]; omega
    have h := ih (pre ++ [none]) (pre1 ++ [some y]) post post1 hl1 s c sys
    rw [hl] at h
    simp only [List.append_assoc, List.singleton_append] at h
    simp only [List.length_cons, for_loop, List.map_cons, List.cons_append, Exec.bind,
      List.replicate_succ, relocate_shifted_run k _ _ hp, h]

theorem replicate_two (n p q : Nat) (o : β) (h : p + q ≤ n) :
    List.replicate n o
      = List.replicate p o ++ (List.replicate q o ++ List.replicate (n - (p + q)) o) := by
  obtain ⟨d, rfl⟩ : ∃ d, n = p + q + d := ⟨n - (p + q), by omega⟩
  rw [Nat.add_sub_cancel_left, List.replicate_add, List.replicate_add, List.append_assoc]

theorem replicate_three (n p q r : Nat) (o : β) (h : p + q + r ≤ n) :
    List.replicate n o
      = List.replicate p o ++ (List.replicate q o
          ++ (List.replicate r o ++ List.replicate (n - (p + q + r)) o)) := by
  obtain ⟨d, rfl⟩ : ∃ d, n = p + q + r + d := ⟨n - (p + q + r), by omega⟩
  rw [Nat.add_sub_cancel_left, List.replicate_add, List.replicate_add, List.replicate_add,
    List.append_assoc, List.append_assoc]

theorem rep_some (xs : List α) (c : Nat) (hc : c ≠ 0) :
    rep xs c = { heap_ := some (xs.map some ++ List.replicate (c - xs.length) none),
                 size_ := xs.length, capacity_ := c } := by
  simp only [rep, hc, if_false]

theorem insert_values_run (T : Target) (hT : T.valid) (a z vs : List α) (c : Nat)
    (sys : Allocator) (hk : 1 ≤ vs.length) (hxs : (a ++ z).length ≤ c)
    (hc : c ≤ MAX_SIZE T) :
    insert_values T a.length vs ⟨rep (a ++ z) c, sys⟩ =
      if MAX_SIZE T < (a ++ z).length + vs.length then
        .thrown .length_error ⟨rep (a ++ z) c, sys⟩
      else if (a ++ z).length + vs.length ≤ c then
        .ok { base := (rep (a ++ vs ++ z) c).heap_, offset := a.length }
          ⟨rep (a ++ vs ++ z) c, sys⟩
      else if MAX_SIZE T / 2 < c then .thrown .length_error ⟨rep (a ++ z) c, sys⟩
      else if sys.grants sys.requests.length
          (bytes_for T (max (max 1 (2 * c)) ((a ++ z).length + vs.length))) = true then
        .ok { base := (rep (a ++ vs ++ z)
                (max (max 1 (2 * c)) ((a ++ z).length + vs.length))).heap_,
              offset := a.length }
          ⟨rep (a ++ vs ++ z) (max (max 1 (2 * c)) ((a ++ z).length + vs.length)),
            (sys.request
              (bytes_for T (max (max 1 (2 * c)) ((a ++ z).length + vs.length)))).2⟩
      else .thrown .bad_alloc ⟨rep (a ++ z) c,
        (sys.request (bytes_for T (max (max 1 (2 * c)) ((a ++ z).length + vs.length)))).2⟩ := by
  have hM := MAX_SIZE_pos T hT
  have hMB := MAX_SIZE_le T
  have haz : (a ++ z).length = a.length + z.length := List.length_append _ _
  have hlen : (a ++ vs ++ z).length = (a ++ z).length + vs.length := by
    simp only [List.length_append]; omega
  have hp : ¬ (a.length > (a ++ z).length) := by omega
  have hk0 : ¬ (vs.length = 0) := by omega
  have hzl : (a ++ z).length - a.length = z.length := by omega
  by_cases h1 : MAX_SIZE T < (a ++ z).length + vs.length
  · simp only [h1, if_true]
    simp only [insert_values, run_bind, Exec.bind, get_self, size_rep, hp, hk0, if_false,
      length_check, gt_iff_lt, h1, if_true, raise]
  · simp only [h1, if_false]
    by_cases h2 : (a ++ z).length + vs.length ≤ c
    · have hc0 : c ≠ 0 := by omega
      have hB0 : (a ++ z).map some ++ List.replicate (c - (a ++ z).length) none
          = a.map some ++ (z.map some ++ (List.replicate vs.length none
              ++ List.replicate (c - (a ++ z).length - vs.length) none)) := by
        rw [← replicate_split (c - (a ++ z).length) vs.length (by omega)]
        simp only [List.map_append, List.append_assoc]
      have hB2 : a.map some ++ (vs.map some ++ (z.map some
            ++ List.replicate (c - (a ++ z).length - vs.length) none))
          = (a ++ vs ++ z).map some
              ++ List.replicate (c - (a ++ vs ++ z).length) none := by
        rw [hlen, Nat.sub_add_eq]
        simp only [List.map_append, List.append_assoc]
      have e1 := shift_right_run vs.length hk z (a.map some)
        (List.replicate (c - (a ++ z).length - vs.length) none) (a ++ z).length c sys
      rw [List.length_map] at e1
      have e2 := construct_list_run vs (a.map some)
        (z.map some ++ List.replicate (c - (a ++ z).length - vs.length) none)
        (a ++ z).length c sys
      rw [List.length_map] at e2
      simp only [List.append_assoc] at e2
      simp only [h2, if_true]
      rw [rep_some _ _ hc0, rep_some _ _ hc0, hB0, ← hB2, hlen]
      simp only [insert_values, run_bind, Exec.bind, get_self, hp, hk0, if_false,
        length_check, gt_iff_lt, h1, Exec.pure, h2, if_true, hzl, e1, e2, modify_self,
        run_pure]
    · simp only [h2, if_false]
      by_cases h3 : MAX_SIZE T / 2 < c
      · simp only [h3, if_true]
        simp only [insert_values, run_bind, Exec.bind, get_self, size_rep, capacity_rep, hp,
          hk0, if_false, length_check, gt_iff_lt, h1, Exec.pure, h2, twice_length, h3,
          if_true, raise]
      · simp only [h3, if_false]
        have h6 : (if c ≠ 0 then wrap T (c * 2) else 1) = max 1 (2 * c) := by
          by_cases hc0 : c = 0
          · simp [hc0]
          · have : wrap T (c * 2) = c * 2 := wrap_of_le T _ (by omega)
            simp only [hc0, ne_eq, not_false_eq_true, if_true, this]
            omega
        have hN : max (max 1 (2 * c)) ((a ++ z).length + vs.length) ≤ MAX_SIZE T := by omega
        have hN1 : (a ++ z).length + vs.length
            ≤ max (max 1 (2 * c)) ((a ++ z).length + vs.length) := Nat.le_max_right _ _
        obtain ⟨n, hnd⟩ : ∃ n, max (max 1 (2 * c)) ((a ++ z).length + vs.length) = n :=
          ⟨_, rfl⟩
        rw [hnd] at hN hN1 ⊢
        have hn0 : n ≠ 0 := by omega
        have hdiv := bytes_for_div T hT n hN
        by_cases hg : sys.grants sys.requests.length (bytes_for T n) = true
        · simp only [hg, if_true]
          have hfin : a.map some ++ (vs.map some ++ (z.map some
                ++ List.replicate (n - (a ++ z).length - vs.length) none))
              = (a ++ vs ++ z).map some
                  ++ List.replicate (n - (a ++ vs ++ z).length) none := by
            rw [hlen, Nat.sub_add_eq]
            simp only [List.map_append, List.append_assoc]
          have e2 := construct_into_run (σ := Machine α) vs (a.map some)
            (List.replicate z.length none
              ++ List.replicate (n - (a ++ z).length - vs.length) none)
          rw [List.length_map] at e2
          by_cases hc0 : c = 0
          · subst hc0
            have ha : a = [] := by
              apply List.length_eq_zero.mp
              omega
            have hz : z = [] := by
              apply List.length_eq_zero.mp
              omega
            subst ha
            subst hz
            have hL0 : List.replicate n (none : Option α)
                = List.replicate vs.length none ++ List.replicate (n - vs.length) none :=
              replicate_split n vs.length (by simpa using hN1) none
            have h1z : ¬ (MAX_SIZE T < vs.length) := by simpa using h1
            simp only [List.length_nil, List.replicate_zero, List.nil_append, List.map_nil,
              List.append_nil, Nat.sub_zero, Nat.zero_add, Nat.mul_zero] at e2 hnd ⊢
            have hn1 : max 1 vs.length = n := by
              rw [← hnd]
              simp
            rw [rep_some _ _ hn0]
            simp only [insert_values, run_bind, Exec.bind, get_self, rep, if_true,
              List.length_nil, Nat.zero_add, gt_iff_lt, lt_irrefl, hk0, if_false,
              length_check, h1z, Exec.pure, twice_length, Nat.zero_le, not_lt_zero',
              ne_eq, not_true_eq_false, hn1, mymalloc, malloc,
              Allocator.request, hg, hdiv, Option.isNone_some, Bool.false_eq_true, run_pure,
              for_loop, hL0, e2, free, modify_self, Nat.le_zero, Nat.sub_self]
          · have hB0 : (a ++ z).map some ++ List.replicate (c - (a ++ z).length) none
                = a.map some ++ (z.map some ++ List.replicate (c - (a ++ z).length) none) := by
              simp only [List.map_append, List.append_assoc]
            have hL0 : List.replicate n (none : Option α)
                = List.replicate a.length none ++ (List.replicate vs.length none
                    ++ (List.replicate z.length none
                      ++ List.replicate (n - (a ++ z).length - vs.length) none)) := by
              have e : n - (a ++ z).length - vs.length
                  = n - (a.length + vs.length + z.length) := by omega
              rw [e]
              exact replicate_three n _ _ _ none (by omega)
            have e1 := relocate_loop_run a [] []
              (z.map some ++ List.replicate (c - (a ++ z).length) none)
              (List.replicate vs.length none ++ (List.replicate z.length none
                ++ List.replicate (n - (a ++ z).length - vs.length) none)) rfl
              (a ++ z).length c
              { grants := sys.grants, requests := sys.requests ++ [bytes_for T n] }
            simp only [List.nil_append, List.length_nil] at e1
            have hp3 : (a.map some ++ vs.map some).length
                = (List.replicate a.length (none : Option α)).length + vs.length := by
              simp only [List.length_append, List.length_map, List.length_replicate]
            have e3 := relocate_shifted_loop_run vs.length z (List.replicate a.length none)
              (a.map some ++ vs.map some) (List.replicate (c - (a ++ z).length) none)
              (List.replicate (n - (a ++ z).length - vs.length) none) hp3 (a ++ z).length c
              { grants := sys.grants, requests := sys.requests ++ [bytes_for T n] }
            rw [List.length_replicate] at e3
            simp only [List.append_assoc] at e3
            rw [rep_some (a ++ z) c hc0, rep_some (a ++ vs ++ z) n hn0, hB0, ← hfin, hlen]
            simp only [insert_values, run_bind, Exec.bind, get_self, hp, hk0, if_false,
              length_check, gt_iff_lt, h1, Exec.pure, h2, twice_length, h3, h6, hnd,
              mymalloc, malloc, Allocator.request, hg, hdiv, Option.isNone_some,
              Bool.false_eq_true, run_pure, if_true, hzl, hL0, e1, e2, e3, free, modify_self]
        · simp only [hg, if_false]
          simp only [insert_values, run_bind, Exec.bind, get_self, size_rep, capacity_rep, hp,
            hk0, if_false, length_check, gt_iff_lt, h1, Exec.pure, h2, twice_length, h3, h6,
            hnd, mymalloc, malloc, Allocator.request, hg, Option.isNone_none, if_true, raise,
            Bool.false_eq_true, run_pure]

theorem insert_run (T : Target) (hT : T.valid) (xs : List α) (c : Nat) (sys : Allocator)
    (p : Nat) (x : α) (hp : p ≤ xs.length) (hxs : xs.length ≤ c) (hc : c ≤ MAX_SIZE T) :
    insert T p x ⟨rep xs c, sys⟩ =
      if MAX_SIZE T < xs.length + 1 then .thrown .length_error ⟨rep xs c, sys⟩
      else if xs.length + 1 ≤ c then
        .ok { base := (rep (xs.take p ++ [x] ++ xs.drop p) c).heap_, offset := p }
          ⟨rep (xs.take p ++ [x] ++ xs.drop p) c, sys⟩
      else if MAX_SIZE T / 2 < c then .thrown .length_error ⟨rep xs c, sys⟩
      else if sys.grants sys.requests.length
          (bytes_for T (max (max 1 (2 * c)) (xs.length + 1))) = true then
        .ok { base := (rep (xs.take p ++ [x] ++ xs.drop p)
                (max (max 1 (2 * c)) (xs.length + 1))).heap_, offset := p }
          ⟨rep (xs.take p ++ [x] ++ xs.drop p) (max (max 1 (2 * c)) (xs.length + 1)),
            (sys.request (bytes_for T (max (max 1 (2 * c)) (xs.length + 1)))).2⟩
      else .thrown .bad_alloc ⟨rep xs c,
        (sys.request (bytes_for T (max (max 1 (2 * c)) (xs.length + 1)))).2⟩ := by
  have hsplit : xs.take p ++ xs.drop p = xs := List.take_append_drop p xs
  have hpl : (xs.take p).length = p := by rw [List.length_take]; omega
  have h := insert_values_run T hT (xs.take p) (xs.drop p) [x] c sys (le_refl _)
    (by rw [hsplit]; exact hxs) hc
  rw [hsplit, hpl, List.length_singleton] at h
  exact h

theorem erase_range_run (a g z : List α) (c : Nat) (sys : Allocator)
    (hxs : (a ++ g ++ z).length ≤ c) :
    erase_range a.length (a.length + g.length) ⟨rep (a ++ g ++ z) c, sys⟩
      = .ok { base := (rep (a ++ z) c).heap_, offset := a.length } ⟨rep (a ++ z) c, sys⟩ := by
  have hlen : (a ++ g ++ z).length = a.length + g.length + z.length := by
    simp only [List.length_append]
  have haz : (a ++ z).length = a.length + z.length := List.length_append _ _
  have hle : a.length ≤ a.length + g.length
      ∧ a.length + g.length ≤ (a ++ g ++ z).length := by
    rw [hlen]; omega
  by_cases hg : g.length = 0
  · have hnil : g = [] := List.length_eq_zero.mp hg
    subst hnil
    have h0 : a.length ≤ (a ++ z).length := by omega
    simp only [erase_range, run_bind, Exec.bind, get_self, rep, List.append_nil,
      List.length_nil, Nat.add_zero, le_refl, true_and, h0, if_true, Exec.pure, run_pure]
  · have hc0 : c ≠ 0 := by omega
    have hne : ¬ (a.length = a.length + g.length) := by omega
    have hd1 : a.length + g.length - a.length = g.length := by omega
    obtain ⟨L, hL⟩ : ∃ L, (a ++ g ++ z).length = L := ⟨_, rfl⟩
    rw [hL] at hlen hle hxs
    have hd2 : L - (a.length + g.length) = z.length := by omega
    have hd3 : L - g.length = (a ++ z).length := by omega
    have e1 := destroy_loop_run g (a.map some)
      (z.map some ++ List.replicate (c - L) none) L c sys
    rw [List.length_map] at e1
    simp only [List.append_assoc] at e1
    have e2 := shift_left_run g.length (by omega) z (a.map some)
      (List.replicate (c - L) none) L c sys
    rw [List.length_map] at e2
    have hB0 : (a ++ g ++ z).map some ++ List.replicate (c - L) none
        = a.map some ++ (g.map some ++ (z.map some ++ List.replicate (c - L) none)) := by
      simp only [List.map_append, List.append_assoc]
    have hB2 : a.map some ++ (z.map some
          ++ (List.replicate g.length none ++ List.replicate (c - L) none))
        = (a ++ z).map some ++ List.replicate (c - (a ++ z).length) none := by
      have e : c - (a ++ z).length = g.length + (c - L) := by omega
      rw [e, List.replicate_add]
      simp only [List.map_append, List.append_assoc]
    rw [rep_some _ _ hc0, rep_some (a ++ z) c hc0, hL, hB0, ← hB2]
    simp only [erase_range, run_bind, Exec.bind, get_self, hle, and_self, if_true, hne,
      if_false, hd1, hd2, hd3, e1, e2, modify_self, Exec.pure, run_pure]

theorem erase_run (a z : List α) (x : α) (c : Nat) (sys : Allocator)
    (hxs : (a ++ [x] ++ z).length ≤ c) :
    erase a.length ⟨rep (a ++ [x] ++ z) c, sys⟩
      = .ok { base := (rep (a ++ z) c).heap_, offset := a.length } ⟨rep (a ++ z) c, sys⟩ := by
  have hlen : (a ++ [x] ++ z).length = a.length + 1 + z.length := by
    simp only [List.length_append, List.length_singleton]
  have hlt : a.length < (a ++ [x] ++ z).length := by omega
  have h := erase_range_run a [x] z c sys hxs
  rw [List.length_singleton] at h
  have hs : (rep (a ++ [x] ++ z) c).size_ = (a ++ [x] ++ z).length := rfl
  simp only [erase, run_bind, Exec.bind, get_self, hs, hlt, if_true, h]

theorem split_three (xs : List α) (first last : Nat) (h1 : first ≤ last)
    (h2 : last ≤ xs.length) :
    xs.take first ++ (xs.drop first).take (last - first) ++ xs.drop last = xs
      ∧ (xs.take first).length = first
      ∧ ((xs.drop first).take (last - first)).length = last - first := by
  refine ⟨?_, ?_, ?_⟩
  · have e : xs.drop last = (xs.drop first).drop (last - first) := by
      rw [List.drop_drop]; congr 1; omega
    rw [e, List.append_assoc, List.take_append_drop, List.take_append_drop]
  · rw [List.length_take]; omega
  · rw [List.length_take, List.length_drop]; omega

theorem insert_ok (T : Target) (hT : T.valid) (xs : List α) (c : Nat) (sys : Allocator)
    (p : Nat) (x : α) (hp : p ≤ xs.length) (hxs : xs.length ≤ c) (hc : c ≤ MAX_SIZE T) :
    ∀ r m1, insert T p x ⟨rep xs c, sys⟩ = .ok r m1 →
      ∃ c1 s1, xs.length + 1 ≤ c1 ∧ c1 ≤ MAX_SIZE T ∧ c ≤ c1 ∧
        r = { base := (rep (xs.take p ++ [x] ++ xs.drop p) c1).heap_, offset := p } ∧
        m1 = ⟨rep (xs.take p ++ [x] ++ xs.drop p) c1, s1⟩ := by
  intro r m1 h
  have hM := MAX_SIZE_pos T hT
  rw [insert_run T hT xs c sys p x hp hxs hc] at h
  split_ifs at h with h1 h2 h3 h4
  · cases h
    exact ⟨c, sys, h2, hc, le_refl _, rfl, rfl⟩
  · cases h
    refine ⟨_, _, le_max_right _ _, ?_, ?_, rfl, rfl⟩
    · exact max_le (max_le hM (by omega)) (by omega)
    · exact le_trans (le_trans (by omega) (le_max_right 1 (2 * c))) (le_max_left _ _)

theorem insert_returns (T : Target) (hT : T.valid) (xs : List α) (c : Nat) (sys : Allocator)
    (p : Nat) (x : α) (hp : p ≤ xs.length) (hxs : xs.length ≤ c) (hc : c ≤ MAX_SIZE T)
    (h : xs.length < c ∨ (xs.length < MAX_SIZE T ∧ c ≤ MAX_SIZE T / 2 ∧
      sys.grants sys.requests.length
        (bytes_for T (max (max 1 (2 * c)) (xs.length + 1))) = true)) :
    ∃ r m1, insert T p x ⟨rep xs c, sys⟩ = .ok r m1 := by
  rw [insert_run T hT xs c sys p x hp hxs hc]
  rcases h with h | ⟨h1, h2, h3⟩
  · rw [if_neg (by omega), if_pos (by omega)]
    exact ⟨_, _, rfl⟩
  · rw [if_neg (by omega)]
    by_cases h4 : xs.length + 1 ≤ c
    · rw [if_pos h4]
      exact ⟨_, _, rfl⟩
    · rw [if_neg h4, if_neg (by omega), if_pos h3]
      exact ⟨_, _, rfl⟩

theorem insert_length (xs : List α) (p : Nat) (x : α) :
    (xs.take p ++ [x] ++ xs.drop p).length = xs.length + 1 := by
  have h := congrArg List.length (List.take_append_drop p xs)
  rw [List.length_append] at h
  rw [List.length_append, List.length_append, List.length_singleton]
  omega

end InsertRuns

end Calls

/-! ## Theorems on the claims -/

section Claims

variable {α : Type}

/-! ### C1: reserve -/

/-- C1: from every well-formed state and for every `n <= max_size()`, if the allocator
grants the request that `reserve(n)` may issue, the call returns normally, leaves
`size()` and the element sequence unchanged, and the capacity afterwards is `n` when
`n` exceeds the old capacity and the old capacity otherwise; so it is at least `n` and
never below the old capacity. -/
theorem reserve_keeps_contents (T : Target) (hT : T.valid) (v : myvector α) (sys : Allocator)
    (n : Nat) (hWF : WF T v) (hn : n ≤ max_size T)
    (hg : capacity v < n → sys.grants sys.requests.length (bytes_for T n) = true) :
    ∃ m, reserve T n ⟨v, sys⟩ = .ok () m ∧
      size m.self = size v ∧ elements m.self = elements v ∧
      capacity m.self = (if capacity v < n then n else capacity v) ∧
      n ≤ capacity m.self ∧ capacity v ≤ capacity m.self ∧ WF T m.self := by
  obtain ⟨xs, c, hxs, hc, rfl⟩ := (WF_iff T v).mp hWF
  rw [reserve_run T hT xs c n sys hxs hn hg]
  by_cases h : c < n
  · have hxn : xs.length ≤ n := by omega
    simp only [h, if_true, capacity, size, capacity_rep, size_rep]
    exact ⟨_, rfl, rfl, by rw [elements_rep _ _ hxs, elements_rep _ _ hxn], rfl, le_refl _,
      Nat.le_of_lt h, WF_rep T xs n hxn hn⟩
  · simp only [h, if_false, capacity, size, capacity_rep, size_rep]
    exact ⟨_, rfl, rfl, rfl, rfl, Nat.le_of_not_lt h, le_refl _, WF_rep T xs c hxs hc⟩

theorem reserve_keeps_contents_witness :
    ∃ m, reserve T64 10 ⟨rep [1, 2, 3] 4, sys_yes⟩ = .ok () m ∧
      size m.self = size (rep [1, 2, 3] 4) ∧ elements m.self = elements (rep [1, 2, 3] 4) ∧
      capacity m.self = (if capacity (rep [1, 2, 3] 4) < 10 then 10 else capacity (rep [1, 2, 3] 4)) ∧
      10 ≤ capacity m.self ∧ capacity (rep [1, 2, 3] 4) ≤ capacity m.self ∧ WF T64 m.self :=
  reserve_keeps_contents T64 (by decide) (rep [1, 2, 3] 4) sys_yes 10 (by decide) (by decide)
    (fun _ => rfl)

/-! ### C2: push_back: contents -/

/-- Pushing objects outside the container, with the values `xs`, one after the other onto
a default-constructed container.
If the allocator grants every request and some power of two lies between the number of
pushes and `max_size()`, all calls return normally; and whenever all calls return
normally, the size is the number of pushes, the element sequence is `xs` in push order,
and `at(i)` yields the value of push number `i + 1`. -/
theorem push_back_sequence (T : Target) (hT : T.valid) (sys : Allocator) (xs : List α) :
    ((sys.generous ∧ ∃ k, xs.length ≤ 2 ^ k ∧ 2 ^ k ≤ max_size T) →
      ∃ m, push_back_all T xs (fresh sys) = .ok () m) ∧
    ∀ m, push_back_all T xs (fresh sys) = .ok () m →
      size m.self = xs.length ∧ elements m.self = xs ∧
      ∀ i (h : i < xs.length), at_ i m = .ok (xs.get ⟨i, h⟩) m := by
  constructor
  · rintro ⟨hgen, k, hk1, hk2⟩
    exact push_back_all_returns T hT k hk2 xs [] 0 sys hgen (le_refl _) (Nat.zero_le _)
      (Or.inl ⟨rfl, rfl⟩) (by simpa using hk1)
  · intro m hm
    obtain ⟨c1, e1, e2, _, _⟩ := push_back_all_result T hT xs [] 0 sys m (le_refl _)
      (Nat.zero_le _) (Or.inl ⟨rfl, rfl⟩) hm
    simp only [List.nil_append] at e1 e2
    obtain ⟨v, s⟩ := m
    simp only at e1
    subst e1
    exact ⟨rfl, elements_rep xs c1 e2, fun i h => at_run xs c1 i s h e2⟩

theorem push_back_sequence_witness :
    ∃ m, push_back_all T64 [10, 20, 30] (fresh sys_yes) = .ok () m ∧
      size m.self = 3 ∧ elements m.self = [10, 20, 30] ∧ at_ 1 m = .ok 20 m := by
  obtain ⟨h1, h2⟩ := push_back_sequence T64 (by decide) sys_yes [10, 20, 30]
  obtain ⟨m, hm⟩ := h1 ⟨fun _ _ => rfl, 2, by decide, by decide⟩
  obtain ⟨e1, e2, e3⟩ := h2 m hm
  exact ⟨m, hm, e1, e2, e3 1 (by decide)⟩

/-- C2: the calls `v.push_back(s); v.push_back("two"); v.push_back(v[0]);` on a
default-constructed `myvector<std::string>`, and `v.push_back(1); v.push_back(2);
v.push_back(v[0]);` on a default-constructed `myvector<int>`.  The third call finds the
container full; `reallocation` moves the elements to a fresh block and frees the old one
(for `int` it passes the old block to `realloc`), and only then the new element is copied
from `value`, which refers to the element `v[0]` of the old block: the behaviour is
undefined, and the element sequence of the pushes, `[s, "two", s]` or `[1, 2, 1]`, is not
produced.  Pushing the same values from objects outside the container gives size 3 and
the elements `[1, 2, 1]`. -/
theorem push_back_sequence_own_element :
    Exec.bind (push_back T_string (.object long_string)) (fun _ =>
        Exec.bind (push_back T_string (.object "two")) (fun _ =>
          push_back T_string (.element 0))) (fresh sys_yes)
      = (.undefined : Outcome (Machine String) Unit) ∧
    Exec.bind (push_back T_int (.object 1)) (fun _ =>
        Exec.bind (push_back T_int (.object 2)) (fun _ => push_back T_int (.element 0)))
        (fresh sys_yes)
      = (.undefined : Outcome (Machine Nat) Unit) ∧
    ∃ m, push_back_all T_int [1, 2, 1] (fresh sys_yes) = .ok () m ∧
      size m.self = 3 ∧ elements m.self = [1, 2, 1] := by
  have a1 : push_back T_int (.object 1) (fresh sys_yes : Machine Nat)
      = .ok () ⟨rep [1] 1, { grants := sys_yes.grants, requests := [4] }⟩ := rfl
  have a2 : push_back T_int (.object 2)
        (⟨rep [1] 1, { grants := sys_yes.grants, requests := [4] }⟩ : Machine Nat)
      = .ok () ⟨rep [1, 2] 2, { grants := sys_yes.grants, requests := [4, 8] }⟩ := rfl
  have a3 : push_back T_int (.element 0)
        (⟨rep [1, 2] 2, { grants := sys_yes.grants, requests := [4, 8] }⟩ : Machine Nat)
      = .undefined := rfl
  have a4 : push_back T_int (.object 1)
        (⟨rep [1, 2] 2, { grants := sys_yes.grants, requests := [4, 8] }⟩ : Machine Nat)
      = .ok () ⟨rep [1, 2, 1] 4, { grants := sys_yes.grants, requests := [4, 8, 16] }⟩ := rfl
  have b1 : push_back T_string (.object long_string) (fresh sys_yes : Machine String)
      = .ok () ⟨rep [long_string] 1, { grants := sys_yes.grants, requests := [32] }⟩ := rfl
  have b2 : push_back T_string (.object "two")
        (⟨rep [long_string] 1, { grants := sys_yes.grants, requests := [32] }⟩ :
          Machine String)
      = .ok () ⟨rep [long_string, "two"] 2,
          { grants := sys_yes.grants, requests := [32, 64] }⟩ := rfl
  have b3 : push_back T_string (.element 0)
        (⟨rep [long_string, "two"] 2,
          { grants := sys_yes.grants, requests := [32, 64] }⟩ : Machine String)
      = .undefined := rfl
  refine ⟨?_, ?_, ⟨rep [1, 2, 1] 4, { grants := sys_yes.grants, requests := [4, 8, 16] }⟩,
    ?_, rfl, rfl⟩
  · simp only [Exec.bind, b1, b2, b3]
  · simp only [Exec.bind, a1, a2, a3]
  · simp only [push_back_all, Exec.bind, a1, a2, a4, Exec.pure]

/-! ### C3: push_back: capacity growth -/

/-- C3: the capacity after `n` calls of `push_back` on a default-constructed container.
If the allocator grants every request and some power of two lies between `n` and
`max_size()`, all calls return normally; and whenever they all return normally, the
capacity is 0 for `n = 0` and otherwise the least power of two that is at least `n`; for
`n = 0, 1, 2, 3, 4` it is `0, 1, 2, 4, 4`. -/
theorem push_back_capacity (T : Target) (hT : T.valid) (sys : Allocator) (xs : List α) :
    ((sys.generous ∧ ∃ k, xs.length ≤ 2 ^ k ∧ 2 ^ k ≤ max_size T) →
      ∃ m, push_back_all T xs (fresh sys) = .ok () m) ∧
    ∀ m, push_back_all T xs (fresh sys) = .ok () m →
      (xs.length = 0 → capacity m.self = 0) ∧
      (0 < xs.length → ∃ j, capacity m.self = 2 ^ j ∧ xs.length ≤ capacity m.self ∧
        ∀ i, xs.length ≤ 2 ^ i → capacity m.self ≤ 2 ^ i) ∧
      (xs.length ≤ 4 → capacity m.self = [0, 1, 2, 4, 4].getD xs.length 0) := by
  constructor
  · rintro ⟨hgen, k, hk1, hk2⟩
    exact push_back_all_returns T hT k hk2 xs [] 0 sys hgen (le_refl _) (Nat.zero_le _)
      (Or.inl ⟨rfl, rfl⟩) (by simpa using hk1)
  · intro m hm
    obtain ⟨c1, e1, e2, _, e4⟩ := push_back_all_result T hT xs [] 0 sys m (le_refl _)
      (Nat.zero_le _) (Or.inl ⟨rfl, rfl⟩) hm
    simp only [List.nil_append] at e1 e2 e4
    have hc : capacity m.self = c1 := by rw [e1]; rfl
    rw [hc]
    obtain ⟨l1, l2⟩ := doubled_least _ _ e4
    refine ⟨l1, l2, ?_⟩
    intro h4
    rcases e4 with ⟨h1, h2⟩ | ⟨j, h1, h2, h3⟩
    · rw [h1, h2]; rfl
    · have hj : j < 3 := by
        by_contra hj
        have : 2 ^ 3 ≤ 2 ^ j := Nat.pow_le_pow_right (by decide) (by omega)
        omega
      interval_cases j <;> simp only [pow_zero, pow_one, Nat.reducePow] at h1 <;> subst h1 <;>
        interval_cases hxl : xs.length <;> first | rfl | omega

theorem push_back_capacity_witness :
    ∃ m, push_back_all T64 [10, 20, 30] (fresh sys_yes) = .ok () m ∧ capacity m.self = 4 := by
  obtain ⟨h1, h2⟩ := push_back_capacity T64 (by decide) sys_yes [10, 20, 30]
  obtain ⟨m, hm⟩ := h1 ⟨fun _ _ => rfl, 2, by decide, by decide⟩
  exact ⟨m, hm, (h2 m hm).2.2 (by decide)⟩

/-! ### C4: push_back: one call -/

/-- For an argument `x` that is an object outside the container: from a well-formed
state, `push_back(x)` returns normally when there is spare
capacity, and also when the container is full, doubling stays within `max_size()` and
the allocator grants the request.  Whenever it returns normally, the element sequence is
the old one with `x` appended, the size has grown by one, the capacity is unchanged if
the old size was below the old capacity and is `max(1, 2 * old capacity)` if they were
equal, and the invariant holds again. -/
theorem push_back_appends (T : Target) (hT : T.valid) (v : myvector α) (sys : Allocator) (x : α)
    (hWF : WF T v) :
    ((size v < capacity v ∨ (capacity v ≤ max_size T / 2 ∧
        sys.grants sys.requests.length (bytes_for T (max 1 (2 * capacity v))) = true)) →
      ∃ m, push_back T (.object x) ⟨v, sys⟩ = .ok () m) ∧
    ∀ m, push_back T (.object x) ⟨v, sys⟩ = .ok () m →
      elements m.self = elements v ++ [x] ∧ size m.self = size v + 1 ∧
      (size v < capacity v → capacity m.self = capacity v) ∧
      (size v = capacity v → capacity m.self = max 1 (2 * capacity v)) ∧
      WF T m.self := by
  obtain ⟨xs, c, hxs, hc, rfl⟩ := (WF_iff T v).mp hWF
  have hM := MAX_SIZE_pos T hT
  rw [push_back_run T hT xs c sys x hxs hc, elements_rep xs c hxs]
  simp only [size, capacity, max_size, size_rep, capacity_rep]
  by_cases h : xs.length < c
  · simp only [h, if_true]
    refine ⟨fun _ => ⟨_, rfl⟩, ?_⟩
    intro m hm
    injection hm with _ hm
    subst hm
    have hl : (xs ++ [x]).length ≤ c := by simp; omega
    exact ⟨elements_rep _ _ hl, by simp [rep], fun _ => rfl, fun h1 => absurd h1 (by omega),
      WF_rep T _ _ hl hc⟩
  · have hxc : xs.length = c := by omega
    simp only [h, if_false, false_or]
    by_cases h5 : MAX_SIZE T / 2 < c
    · simp only [h5, if_true]
      refine ⟨fun h6 => absurd h6.1 (by omega), ?_⟩
      intro m hm
      cases hm
    · simp only [h5, if_false]
      by_cases hg : sys.grants sys.requests.length (bytes_for T (max 1 (2 * c))) = true
      · simp only [hg, if_true]
        refine ⟨fun _ => ⟨_, rfl⟩, ?_⟩
        intro m hm
        injection hm with _ hm
        subst hm
        have hl : (xs ++ [x]).length ≤ max 1 (2 * c) := by
          simp only [List.length_append, List.length_singleton]; omega
        exact ⟨elements_rep _ _ hl, by simp [rep], fun h1 => h1.elim, fun _ => rfl,
          WF_rep T _ _ hl (by omega)⟩
      · simp only [hg, if_false]
        refine ⟨fun h6 => absurd h6.2 (by simp), ?_⟩
        intro m hm
        cases hm

theorem push_back_appends_witness :
    ∃ m, push_back T64 (.object 3) ⟨rep [1, 2] 2, sys_yes⟩ = .ok () m ∧
      elements m.self = [1, 2, 3] ∧ size m.self = 3 ∧ capacity m.self = 4 := by
  obtain ⟨h1, h2⟩ := push_back_appends T64 (by decide) (rep [1, 2] 2) sys_yes 3 (by decide)
  obtain ⟨m, hm⟩ := h1 (Or.inr ⟨by decide, rfl⟩)
  obtain ⟨e1, e2, _, e4, _⟩ := h2 m hm
  exact ⟨m, hm, e1, e2, e4 rfl⟩

/-- C4: the call `v.push_back(v[0])` on a `myvector<std::string>` with the elements
`[s, "two"]` and capacity 2, and on a `myvector<int>` with the elements `[1, 2]` and
capacity 2.  The container is full; `reallocation` moves the elements to a fresh block
and frees the old one (for `int` it passes the old block to `realloc`), and only then
`new(&heap_[size_]) value_type(value)` reads `value`, which refers to the element `v[0]`
of the old block: the behaviour is undefined, and the old sequence with the argument
appended is not produced.  With an object of the same value outside the container the
call gives `[s, "two", s]` and capacity 4, and so does `v.push_back(v[0])` when the
capacity is 3 and nothing is reallocated (then with capacity 3). -/
theorem push_back_own_element :
    push_back T_string (.element 0) ⟨rep [long_string, "two"] 2, sys_yes⟩
      = (.undefined : Outcome (Machine String) Unit) ∧
    push_back T_int (.element 0) ⟨rep [1, 2] 2, sys_yes⟩
      = (.undefined : Outcome (Machine Nat) Unit) ∧
    (∃ m, push_back T_string (.object long_string) ⟨rep [long_string, "two"] 2, sys_yes⟩
        = .ok () m ∧
      elements m.self = [long_string, "two", long_string] ∧ capacity m.self = 4) ∧
    (∃ m, push_back T_string (.element 0) ⟨rep [long_string, "two"] 3, sys_yes⟩ = .ok () m ∧
      elements m.self = [long_string, "two", long_string] ∧ capacity m.self = 3) :=
  ⟨rfl, rfl, ⟨_, rfl, rfl, rfl⟩, ⟨_, rfl, rfl, rfl⟩⟩

/-! ### C5: push_back: length error -/

/-- C5: on a well-formed object `push_back` throws `std::length_error` exactly when
`size() == capacity()` and `capacity() > max_size() / 2`; the object and the allocator
are then exactly as before the call.  This happens although one more element would fit:
if `max_size() >= 3`, a full container with `max_size() / 2 + 1` elements has
`size() + 1 <= max_size()` and `push_back` throws `std::length_error` on it.  The
argument is an object outside the container; it is not read before the throw. -/
theorem push_back_length_error (T : Target) (hT : T.valid) (v : myvector α) (sys : Allocator)
    (x : α) (hWF : WF T v) :
    ((∃ m, push_back T (.object x) ⟨v, sys⟩ = .thrown .length_error m) ↔
      (size v = capacity v ∧ max_size T / 2 < capacity v)) ∧
    (size v = capacity v → max_size T / 2 < capacity v →
      push_back T (.object x) ⟨v, sys⟩ = .thrown .length_error ⟨v, sys⟩) ∧
    (3 ≤ max_size T →
      let w := rep (List.replicate (max_size T / 2 + 1) x) (max_size T / 2 + 1)
      WF T w ∧ size w + 1 ≤ max_size T ∧
        push_back T (.object x) ⟨w, sys⟩ = .thrown .length_error ⟨w, sys⟩) := by
  have key : ∀ (xs : List α) (c : Nat), xs.length ≤ c → c ≤ MAX_SIZE T →
      xs.length = c → MAX_SIZE T / 2 < c →
      push_back T (.object x) ⟨rep xs c, sys⟩ = .thrown .length_error ⟨rep xs c, sys⟩ := by
    intro xs c hxs hc h1 h2
    have h : ¬ (xs.length < c) := by omega
    rw [push_back_run T hT xs c sys x hxs hc]
    simp only [h, if_false, h2, if_true]
  refine ⟨?_, ?_, ?_⟩
  · obtain ⟨xs, c, hxs, hc, rfl⟩ := (WF_iff T v).mp hWF
    constructor
    · rintro ⟨m, hm⟩
      rw [push_back_run T hT xs c sys x hxs hc] at hm
      simp only [size, capacity, max_size, size_rep, capacity_rep]
      by_cases h : xs.length < c
      · simp only [h, if_true] at hm
        cases hm
      · by_cases h5 : MAX_SIZE T / 2 < c
        · exact ⟨by omega, h5⟩
        · simp only [h, h5, if_false] at hm
          split at hm <;> cases hm
    · rintro ⟨h1, h2⟩
      exact ⟨_, key xs c hxs hc h1 h2⟩
  · obtain ⟨xs, c, hxs, hc, rfl⟩ := (WF_iff T v).mp hWF
    intro h1 h2
    exact key xs c hxs hc h1 h2
  · intro h3
    have hl : (List.replicate (max_size T / 2 + 1) x).length = max_size T / 2 + 1 := by simp
    have hle : max_size T / 2 + 1 ≤ MAX_SIZE T := by
      show MAX_SIZE T / 2 + 1 ≤ MAX_SIZE T
      have : 3 ≤ MAX_SIZE T := h3
      omega
    refine ⟨WF_rep T _ _ (by rw [hl]) hle, ?_, key _ _ (by rw [hl]) hle hl ?_⟩
    · show (List.replicate (max_size T / 2 + 1) x).length + 1 ≤ max_size T
      rw [hl]
      have : 3 ≤ MAX_SIZE T := h3
      show MAX_SIZE T / 2 + 1 + 1 ≤ MAX_SIZE T
      omega
    · show MAX_SIZE T / 2 < MAX_SIZE T / 2 + 1
      omega

theorem push_back_length_error_witness :
    WF T16 (rep [7, 8] 2) ∧ size (rep [7, 8] 2) + 1 ≤ max_size T16 ∧
      push_back T16 (.object 9) ⟨rep [7, 8] 2, sys_yes⟩ = .thrown .length_error ⟨rep [7, 8] 2, sys_yes⟩ :=
  ⟨by decide, by decide,
   (push_back_length_error T16 (by decide) (rep [7, 8] 2) sys_yes 9 (by decide)).2.1
     (by decide) (by decide)⟩

/-! ### C6: at -/

/-- C6: `at(pos)` throws `std::out_of_range` exactly when `pos >= size()`, and then the
state is untouched; on a well-formed object and for `pos < size()` it returns, without
throwing, the element stored at position `pos`.  In particular `at(size())` throws, and
so does `at(0)` on an empty container. -/
theorem at_checks_bounds (T : Target) (v : myvector α) (sys : Allocator) (pos : Nat) :
    ((∃ m, at_ pos ⟨v, sys⟩ = .thrown .out_of_range m) ↔ size v ≤ pos) ∧
    (size v ≤ pos → at_ pos ⟨v, sys⟩ = .thrown .out_of_range ⟨v, sys⟩) ∧
    (WF T v → pos < size v →
      ∃ x, (elements v).get? pos = some x ∧ at_ pos ⟨v, sys⟩ = .ok x ⟨v, sys⟩) ∧
    at_ (size v) ⟨v, sys⟩ = .thrown .out_of_range ⟨v, sys⟩ ∧
    (size v = 0 → at_ 0 ⟨v, sys⟩ = .thrown .out_of_range ⟨v, sys⟩) := by
  have hthrow : ∀ p, size v ≤ p → at_ p ⟨v, sys⟩ = .thrown .out_of_range ⟨v, sys⟩ := by
    intro p hp
    have hp1 : p ≥ v.size_ := hp
    simp only [at_, run_bind, Exec.bind, get_self, hp1, if_true, raise]
  refine ⟨⟨?_, fun h => ⟨_, hthrow pos h⟩⟩, hthrow pos, ?_, hthrow _ (le_refl _), ?_⟩
  · rintro ⟨m, hm⟩
    by_contra hlt
    have h1 : ¬ (pos ≥ v.size_) := hlt
    simp only [at_, run_bind, Exec.bind, get_self, h1, if_false] at hm
    exact read_at_not_thrown _ _ _ _ _ hm
  · intro hWF hlt
    obtain ⟨xs, c, hxs, hc, rfl⟩ := (WF_iff T v).mp hWF
    have h : pos < xs.length := hlt
    refine ⟨xs.get ⟨pos, h⟩, ?_, at_run xs c pos sys h hxs⟩
    rw [elements_rep xs c hxs]
    simp [List.get?_eq_getElem?, h]
  · intro h0
    exact hthrow 0 (by omega)

theorem at_checks_bounds_witness :
    ((∃ m, at_ 3 ⟨rep [10, 20, 30] 4, sys_yes⟩ = .thrown .out_of_range m)
        ↔ size (rep [10, 20, 30] 4) ≤ 3) ∧
    (∃ x, (elements (rep [10, 20, 30] 4)).get? 1 = some x ∧
      at_ 1 ⟨rep [10, 20, 30] 4, sys_yes⟩ = .ok x ⟨rep [10, 20, 30] 4, sys_yes⟩) :=
  ⟨(at_checks_bounds T64 (rep [10, 20, 30] 4) sys_yes 3).1,
   (at_checks_bounds T64 (rep [10, 20, 30] 4) sys_yes 1).2.2.1 (by decide) (by decide)⟩

/-! ### C7: the largest count -/

/-- C7 (amended): for an element type of at least two bytes, a count equal to the largest
`size_type` value makes both sized constructors and both `resize` overloads on an empty
container throw `std::length_error`; the allocator is not called and the object is
untouched. -/
theorem max_count_length_error [Inhabited α] (T : Target) (hT : T.valid)
    (h2 : 2 ≤ T.sizeof_value) (sys : Allocator) (x : α) :
    ctor_count_value T (MAX_SIZE_BYTES T) x (fresh sys) = .thrown .length_error (fresh sys) ∧
    ctor_count T (MAX_SIZE_BYTES T) (fresh sys : Machine α)
      = .thrown .length_error (fresh sys) ∧
    ∀ v : myvector α, WF T v → size v = 0 →
      resize T (MAX_SIZE_BYTES T) ⟨v, sys⟩ = .thrown .length_error ⟨v, sys⟩ ∧
      resize_value T (MAX_SIZE_BYTES T) (.object x) ⟨v, sys⟩ = .thrown .length_error ⟨v, sys⟩ := by
  have hlt := MAX_SIZE_lt_bytes T hT h2
  have hne : MAX_SIZE_BYTES T ≠ 0 := by omega
  refine ⟨?_, ?_, ?_⟩
  · simp only [ctor_count_value, run_bind, Exec.bind, hne, ne_eq, not_false_eq_true, if_true,
      length_error_of_gt T _ _ hlt]
  · simp only [ctor_count, run_bind, Exec.bind, hne, ne_eq, not_false_eq_true, if_true,
      length_error_of_gt T _ _ hlt]
  · intro v hWF h0
    obtain ⟨xs, c, hxs, hc, rfl⟩ := (WF_iff T v).mp hWF
    have hx : xs.length = 0 := h0
    have key : ∀ y : α, resize_value T (MAX_SIZE_BYTES T) (.object y) ⟨rep xs c, sys⟩
        = .thrown .length_error ⟨rep xs c, sys⟩ := by
      intro y
      rw [resize_value_run T hT xs c sys _ y hxs]
      have e1 : ¬ (MAX_SIZE_BYTES T < xs.length) := by omega
      have e2 : ¬ (MAX_SIZE_BYTES T = xs.length) := by omega
      have e3 : ¬ (MAX_SIZE_BYTES T ≤ c) := by omega
      simp only [e1, e2, e3, hlt, if_false, if_true]
    exact ⟨key default, key x⟩

theorem max_count_length_error_witness :
    ctor_count_value T64 (MAX_SIZE_BYTES T64) (7 : Nat) (fresh sys_yes)
      = .thrown .length_error (fresh sys_yes) ∧
    resize T64 (MAX_SIZE_BYTES T64) (⟨rep ([] : List Nat) 0, sys_yes⟩ : Machine Nat)
      = .thrown .length_error ⟨rep [] 0, sys_yes⟩ :=
  ⟨(max_count_length_error T64 (by decide) (by decide) sys_yes (7 : Nat)).1,
   ((max_count_length_error T64 (by decide) (by decide) sys_yes (7 : Nat)).2.2
      (rep [] 0) (by decide) rfl).1⟩

/-- C7 as stated fails for elements of one byte: there `max_size()` is the largest
`size_type` value itself, so the count passes `length_check`, `malloc` is called with
`2^64 - 1` bytes, and (the request being refused) `std::bad_alloc` is thrown, from the
constructor as well as from `resize` on an empty container. -/
theorem max_count_char_allocates :
    T_char.valid ∧ MAX_SIZE_BYTES T_char = 2 ^ 64 - 1 ∧
    ctor_count_value T_char (MAX_SIZE_BYTES T_char) (7 : Nat) (fresh sys_no)
      = .thrown .bad_alloc ⟨{}, { grants := sys_no.grants, requests := [2 ^ 64 - 1] }⟩ ∧
    ctor_count_value T_char (MAX_SIZE_BYTES T_char) (7 : Nat) (fresh sys_no)
      ≠ .thrown .length_error (fresh sys_no) ∧
    resize_value T_char (MAX_SIZE_BYTES T_char) (.object (7 : Nat)) (fresh sys_no)
      = .thrown .bad_alloc ⟨{}, { grants := sys_no.grants, requests := [2 ^ 64 - 1] }⟩ ∧
    resize_value T_char (MAX_SIZE_BYTES T_char) (.object (7 : Nat)) (fresh sys_no)
      ≠ .thrown .length_error (fresh sys_no) := by
  have e1 : ctor_count_value T_char (MAX_SIZE_BYTES T_char) (7 : Nat) (fresh sys_no)
      = .thrown .bad_alloc ⟨{}, { grants := sys_no.grants, requests := [2 ^ 64 - 1] }⟩ := by
    rfl
  have e2 : resize_value T_char (MAX_SIZE_BYTES T_char) (.object (7 : Nat)) (fresh sys_no)
      = .thrown .bad_alloc ⟨{}, { grants := sys_no.grants, requests := [2 ^ 64 - 1] }⟩ := by
    rfl
  refine ⟨by decide, by decide, e1, ?_, e2, ?_⟩
  · rw [e1]; intro h; cases h
  · rw [e2]; intro h; cases h

/-! ### C8: counts beyond max_size() -/

/-- C8: on a well-formed object and for a count above `max_size()`, `reserve(count)`,
`resize(count)`, `resize(count, value)`, `assign(count, value)`, and `assign` from an
initializer list or from a range of that length (the length being a `size_type` value)
all throw `std::length_error`; object and allocator are exactly as before the call, so no
allocation was attempted and no element destroyed.  The value is an object outside the
container, and the range is one that can be traversed more than once. -/
theorem length_error_keeps_state [Inhabited α] (T : Target) (hT : T.valid) (v : myvector α)
    (sys : Allocator) (count : Nat) (x : α) (src : List α) (cat : iterator_category)
    (hWF : WF T v) (hcount : max_size T < count) (hsrc : src.length = count) :
    reserve T count ⟨v, sys⟩ = .thrown .length_error ⟨v, sys⟩ ∧
    resize T count ⟨v, sys⟩ = .thrown .length_error ⟨v, sys⟩ ∧
    resize_value T count (.object x) ⟨v, sys⟩ = .thrown .length_error ⟨v, sys⟩ ∧
    assign T count (.object x) ⟨v, sys⟩ = .thrown .length_error ⟨v, sys⟩ ∧
    assign_ilist T src ⟨v, sys⟩ = .thrown .length_error ⟨v, sys⟩ ∧
    (count ≤ MAX_SIZE_BYTES T →
      assign_range T cat (multi_pass src) ⟨v, sys⟩ = .thrown .length_error ⟨v, sys⟩) := by
  obtain ⟨xs, c, hxs, hc, rfl⟩ := (WF_iff T v).mp hWF
  have hgt : MAX_SIZE T < count := hcount
  have e1 : c < count := by omega
  have e2 : ¬ (count < xs.length) := by omega
  have e3 : ¬ (count = xs.length) := by omega
  have e4 : ¬ (count ≤ c) := by omega
  have key : ∀ y : α, resize_value T count (.object y) ⟨rep xs c, sys⟩
      = .thrown .length_error ⟨rep xs c, sys⟩ := by
    intro y
    rw [resize_value_run T hT xs c sys _ y hxs]
    simp only [e2, e3, e4, hgt, if_false, if_true]
  refine ⟨?_, key default, key x, ?_, ?_, ?_⟩
  · rw [reserve_run_gen T hT xs c count sys hxs]
    simp only [e1, hgt, if_true]
  · rw [assign_run T hT xs c sys count x hxs]
    simp only [hgt, if_true]
  · rw [assign_ilist_run T hT xs src c sys hxs]
    simp only [hsrc, hgt, if_true]
  · intro hb
    rw [assign_range_run T hT cat xs src c sys hxs (by omega)]
    simp only [hsrc, hgt, if_true]

theorem length_error_keeps_state_witness :
    WF T16 (rep [7, 8] 2) ∧ max_size T16 < 4 ∧
    reserve T16 4 ⟨rep [7, 8] 2, sys_yes⟩ = .thrown .length_error ⟨rep [7, 8] 2, sys_yes⟩ ∧
    assign_ilist T16 [1, 2, 3, 4] ⟨rep [7, 8] 2, sys_yes⟩
      = .thrown .length_error ⟨rep [7, 8] 2, sys_yes⟩ :=
  ⟨by decide, by decide,
   (length_error_keeps_state T16 (by decide) (rep [7, 8] 2) sys_yes 4 0 [1, 2, 3, 4]
      .input_iterator_tag (by decide) (by decide) rfl).1,
   (length_error_keeps_state T16 (by decide) (rep [7, 8] 2) sys_yes 4 0 [1, 2, 3, 4]
      .input_iterator_tag (by decide) (by decide) rfl).2.2.2.2.1⟩

/-! ### C9: allocation failure in reserve, resize, push_back, shrink_to_fit -/

/-- C9: strong exception safety of `reserve`, `resize`, `push_back` and `shrink_to_fit`
under each of the three relocation strategies.  Whenever such a call on a well-formed
object ends with `std::bad_alloc`, the data members are exactly as before the call, hence
so are size, capacity and elements.  And the case occurs: when the call has to reallocate
and the allocator refuses the next request, the call ends with `std::bad_alloc`. -/
theorem bad_alloc_keeps_state [Inhabited α] (T : Target) (hT : T.valid) (v : myvector α)
    (sys : Allocator) (call : capacity_call α) (hWF : WF T v) :
    (∀ m, call.run T ⟨v, sys⟩ = .thrown .bad_alloc m →
      m.self = v ∧ size m.self = size v ∧ capacity m.self = capacity v ∧
        elements m.self = elements v) ∧
    (call.reallocates T v → (∀ bytes, sys.grants sys.requests.length bytes = false) →
      ∃ m, call.run T ⟨v, sys⟩ = .thrown .bad_alloc m) := by
  obtain ⟨xs, c, hxs, hc, rfl⟩ := (WF_iff T v).mp hWF
  have hres : ∀ (count : Nat) (y : α),
      (∀ m, resize_value T count (.object y) ⟨rep xs c, sys⟩ = .thrown .bad_alloc m →
        m.self = rep xs c ∧ size m.self = size (rep xs c) ∧
          capacity m.self = capacity (rep xs c) ∧ elements m.self = elements (rep xs c)) ∧
      ((capacity (rep xs c) < count ∧ count ≤ max_size T) →
        (∀ bytes, sys.grants sys.requests.length bytes = false) →
        ∃ m, resize_value T count (.object y) ⟨rep xs c, sys⟩ = .thrown .bad_alloc m) := by
    intro count y
    rw [resize_value_run T hT xs c sys count y hxs]
    constructor
    · intro m hm
      split_ifs at hm <;> first | (cases hm; exact ⟨rfl, rfl, rfl, rfl⟩) | cases hm
    · rintro ⟨h1, h2⟩ hno
      have h1' : c < count := h1
      have h2' : count ≤ MAX_SIZE T := h2
      have e2 : ¬ (count < xs.length) := by omega
      have e3 : ¬ (count = xs.length) := by omega
      have e4 : ¬ (count ≤ c) := by omega
      have e5 : ¬ (MAX_SIZE T < count) := by omega
      simp only [e2, e3, e4, e5, hno, if_false, Bool.false_eq_true]
      exact ⟨_, rfl⟩
  cases call with
  | reserve n =>
    simp only [capacity_call.run, capacity_call.reallocates]
    rw [reserve_run_gen T hT xs c n sys hxs]
    constructor
    · intro m hm
      split_ifs at hm <;> first | (cases hm; exact ⟨rfl, rfl, rfl, rfl⟩) | cases hm
    · rintro ⟨h1, h2⟩ hno
      have h1' : c < n := h1
      have e5 : ¬ (MAX_SIZE T < n) := Nat.not_lt.mpr h2
      simp only [h1', e5, hno, if_true, if_false, Bool.false_eq_true]
      exact ⟨_, rfl⟩
  | resize n => exact hres n default
  | resize_value n y => exact hres n y
  | push_back y =>
    simp only [capacity_call.run, capacity_call.reallocates]
    rw [push_back_run T hT xs c sys y hxs hc]
    constructor
    · intro m hm
      split_ifs at hm <;> first | (cases hm; exact ⟨rfl, rfl, rfl, rfl⟩) | cases hm
    · rintro ⟨h1, h2⟩ hno
      have h1' : xs.length = c := h1
      have h2' : c ≤ MAX_SIZE T / 2 := h2
      have e1 : ¬ (xs.length < c) := by omega
      have e2 : ¬ (MAX_SIZE T / 2 < c) := by omega
      simp only [e1, e2, hno, if_false, Bool.false_eq_true]
      exact ⟨_, rfl⟩
  | shrink_to_fit =>
    simp only [capacity_call.run, capacity_call.reallocates]
    rw [shrink_to_fit_run T hT xs c sys hxs hc]
    constructor
    · intro m hm
      split_ifs at hm
      cases hm
      exact ⟨rfl, rfl, rfl, rfl⟩
    · rintro ⟨h1, h2⟩ hno
      have h1' : 0 < xs.length := h1
      have h2' : xs.length < c := h2
      have e1 : ¬ (xs.length = 0) := by omega
      simp only [h2', e1, hno, if_true, if_false, Bool.false_eq_true]
      exact ⟨_, rfl⟩

theorem bad_alloc_keeps_state_witness :
    ∃ m, push_back T64 (.object 3) ⟨rep [1, 2] 2, sys_no⟩ = .thrown .bad_alloc m ∧
      m.self = rep [1, 2] 2 ∧ size m.self = 2 ∧ capacity m.self = 2 ∧
      elements m.self = [1, 2] := by
  obtain ⟨h1, h2⟩ := bad_alloc_keeps_state T64 (by decide) (rep [1, 2] 2) sys_no
    (.push_back 3) (by decide)
  obtain ⟨m, hm⟩ := h2 ⟨rfl, by decide⟩ (fun _ => rfl)
  obtain ⟨e1, e2, e3, e4⟩ := h1 m hm
  exact ⟨m, hm, e1, e2, e3, e4⟩

/-! ### C10: allocation failure in the assignments -/

/-- C10 (amended): copy assignment, initializer-list assignment and the `assign` overloads
give the basic guarantee only.  Whenever such a call on a well-formed object ends with
`std::bad_alloc`, the new size exceeded the capacity, the capacity and the block are
kept, the object is well formed, but its former elements have been destroyed: the size
is 0.  And the case occurs: a new size above the capacity and within `max_size()` with an
allocator that refuses the next request ends with `std::bad_alloc`. -/
theorem assign_bad_alloc_state (T : Target) (hT : T.valid) (v : myvector α) (sys : Allocator)
    (call : assign_call α) (hWF : WF T v) (harg : call.admissible T) :
    (∀ m, call.run T ⟨v, sys⟩ = .thrown .bad_alloc m →
      capacity v < call.new_size ∧ m.self = rep [] (capacity v) ∧ size m.self = 0 ∧
        capacity m.self = capacity v ∧ elements m.self = [] ∧ WF T m.self) ∧
    (capacity v < call.new_size → call.new_size ≤ max_size T →
      (∀ bytes, sys.grants sys.requests.length bytes = false) →
      ∃ m, call.run T ⟨v, sys⟩ = .thrown .bad_alloc m) := by
  obtain ⟨xs, c, hxs, hc, rfl⟩ := (WF_iff T v).mp hWF
  obtain ⟨ys, hys, hrun⟩ := assign_call_run T hT xs c sys call hxs harg
  rw [hrun, ← hys]
  constructor
  · intro m hm
    by_cases h1 : MAX_SIZE T < ys.length
    · simp only [h1, if_true] at hm
      cases hm
    · by_cases h2 : c < ys.length
      · by_cases hg : sys.grants sys.requests.length (bytes_for T ys.length) = true
        · simp only [h1, h2, hg, if_true, if_false] at hm
          cases hm
        · simp only [h1, h2, hg, if_true, if_false] at hm
          cases hm
          exact ⟨h2, rfl, rfl, rfl, elements_rep [] c (Nat.zero_le _),
            WF_rep T [] c (Nat.zero_le _) hc⟩
      · simp only [h1, h2, if_false] at hm
        cases hm
  · intro h1 h2 hno
    have h1' : c < ys.length := h1
    have h2' : ¬ (MAX_SIZE T < ys.length) := Nat.not_lt.mpr h2
    simp only [h1', h2', hno, if_true, if_false, Bool.false_eq_true]
    exact ⟨_, rfl⟩

theorem assign_bad_alloc_state_witness :
    ∃ m, assign T64 5 (.object 9) ⟨rep [1, 2, 3] 3, sys_no⟩ = .thrown .bad_alloc m ∧
      m.self = rep [] 3 ∧ size m.self = 0 ∧ capacity m.self = 3 ∧ elements m.self = [] := by
  obtain ⟨h1, h2⟩ := assign_bad_alloc_state T64 (by decide) (rep [1, 2, 3] 3) sys_no
    (.count_value 5 9) (by decide) trivial
  obtain ⟨m, hm⟩ := h2 (by decide) (by decide) (fun _ => rfl)
  obtain ⟨_, e1, e2, e3, e4, _⟩ := h1 m hm
  exact ⟨m, hm, e1, e2, e3, e4⟩

/-- C10 as stated fails: on the container `{1, 2, 3}` of capacity 3, each of the five
assignment forms with a new size of 5 and a refusing allocator ends with
`std::bad_alloc`, and afterwards the size is 0 instead of 3. -/
theorem assign_bad_alloc_loses_elements :
    size (rep [1, 2, 3] 3) = 3 ∧ elements (rep [1, 2, 3] 3) = [1, 2, 3] ∧
    ∀ call ∈ [assign_call.copy (rep [5, 6, 7, 8, 9] 5), .ilist_operator [5, 6, 7, 8, 9],
        .count_value 5 9, .range .input_iterator_tag [5, 6, 7, 8, 9],
        .ilist [5, 6, 7, 8, 9]],
      ∃ m, call.run T64 ⟨rep [1, 2, 3] 3, sys_no⟩ = .thrown .bad_alloc m ∧
        size m.self = 0 ∧ elements m.self = [] ∧ m.self ≠ rep [1, 2, 3] 3 := by
  refine ⟨rfl, rfl, ?_⟩
  intro call hcall
  simp only [List.mem_cons, List.mem_singleton, List.not_mem_nil, or_false] at hcall
  rcases hcall with h | h | h | h | h <;> subst h <;>
    exact ⟨_, rfl, rfl, rfl, by decide⟩

/-! ### C11: resize -/

/-- For an argument `value` that is an object outside the container: on a well-formed
object with elements `xs` and capacity `c`, for `count <= max_size()` and with the
request granted if one is made, `resize(count, value)` returns normally; the elements
are then `take(count, xs ++ replicate(count - |xs|, value))`,
the size is `count`, and the capacity is `c` if `count <= c` and `count` otherwise.
`resize(count)` does the same with the value-initialised element for `value`. -/
theorem resize_result [Inhabited α] (T : Target) (hT : T.valid) (v : myvector α)
    (sys : Allocator) (count : Nat) (value : α) (hWF : WF T v) (hcount : count ≤ max_size T)
    (hg : capacity v < count → sys.grants sys.requests.length (bytes_for T count) = true) :
    (∃ m, resize_value T count (.object value) ⟨v, sys⟩ = .ok () m ∧
      elements m.self = (elements v ++ List.replicate (count - size v) value).take count ∧
      size m.self = count ∧
      capacity m.self = (if count ≤ capacity v then capacity v else count) ∧
      WF T m.self) ∧
    (∃ m, resize T count ⟨v, sys⟩ = .ok () m ∧
      elements m.self = (elements v ++ List.replicate (count - size v) default).take count ∧
      size m.self = count ∧
      capacity m.self = (if count ≤ capacity v then capacity v else count) ∧
      WF T m.self) :=
  ⟨resize_value_spec T hT v sys count value hWF hcount hg,
   resize_value_spec T hT v sys count default hWF hcount hg⟩

theorem resize_result_witness :
    (∃ m, resize_value T64 5 (.object 9) ⟨rep [1, 2, 3] 4, sys_yes⟩ = .ok () m ∧
      elements m.self = [1, 2, 3, 9, 9] ∧ size m.self = 5 ∧ capacity m.self = 5) ∧
    (∃ m, resize T64 0 ⟨rep [1, 2, 3] 4, sys_yes⟩ = .ok () m ∧
      elements m.self = [] ∧ size m.self = 0 ∧ capacity m.self = 4) := by
  obtain ⟨⟨m, h1, h2, h3, h4, _⟩, _⟩ :=
    resize_result T64 (by decide) (rep [1, 2, 3] 4) sys_yes 5 9 (by decide) (by decide)
      (fun _ => rfl)
  obtain ⟨_, ⟨n, g1, g2, g3, g4, _⟩⟩ :=
    resize_result T64 (by decide) (rep [1, 2, 3] 4) sys_yes 0 9 (by decide) (by decide)
      (fun _ => rfl)
  exact ⟨⟨m, h1, h2, h3, h4⟩, ⟨n, g1, g2, g3, g4⟩⟩

/-- C11: the call `v.resize(5, v[0])` on a `myvector<std::string>` with the elements
`[s, "two", "three"]` and capacity 3, and on a `myvector<int>` with the elements
`[1, 2, 3]` and capacity 3.  The count exceeds the capacity, so `reallocation` runs first
and releases the old block (by `free` after moving the strings, by `realloc` for `int`);
the new elements are then copied from `value`, which refers to the element `v[0]` of the
old block: the behaviour is undefined, and the sequence
`take(5, xs ++ replicate(2, value))` is not produced.  With an object of the same value
outside the container the call gives `[s, "two", "three", s, s]` and capacity 5, and so
does `v.resize(5, v[0])` when the capacity is already 5. -/
theorem resize_own_element :
    resize_value T_string 5 (.element 0) ⟨rep [long_string, "two", "three"] 3, sys_yes⟩
      = (.undefined : Outcome (Machine String) Unit) ∧
    resize_value T_int 5 (.element 0) ⟨rep [1, 2, 3] 3, sys_yes⟩
      = (.undefined : Outcome (Machine Nat) Unit) ∧
    (∃ m, resize_value T_string 5 (.object long_string)
        ⟨rep [long_string, "two", "three"] 3, sys_yes⟩ = .ok () m ∧
      elements m.self = [long_string, "two", "three", long_string, long_string] ∧
      capacity m.self = 5) ∧
    (∃ m, resize_value T_string 5 (.element 0)
        ⟨rep [long_string, "two", "three"] 5, sys_yes⟩ = .ok () m ∧
      elements m.self = [long_string, "two", "three", long_string, long_string] ∧
      capacity m.self = 5) :=
  ⟨rfl, rfl, ⟨_, rfl, rfl, rfl⟩, ⟨_, rfl, rfl, rfl⟩⟩

/-! ### C12: resize twice -/

/-- C12: on a well-formed object and for `j <= k <= max_size()`, with the request of
`resize(k)` granted if one is made, `resize(k)` and then `resize(j)` both return
normally; afterwards the size is `j`, the elements are the first `j` elements as they
were right after `resize(k)`, and at every index below `min(j, original size)` the
element is the original one. -/
theorem resize_then_resize [Inhabited α] (T : Target) (hT : T.valid) (v : myvector α)
    (sys : Allocator) (j k : Nat) (hWF : WF T v) (hjk : j ≤ k) (hk : k ≤ max_size T)
    (hg : capacity v < k → sys.grants sys.requests.length (bytes_for T k) = true) :
    ∃ m1 m2, resize T k ⟨v, sys⟩ = .ok () m1 ∧ resize T j m1 = .ok () m2 ∧
      size m2.self = j ∧
      elements m2.self = (elements m1.self).take j ∧
      (∀ i, i < j → (elements m2.self).get? i = (elements m1.self).get? i) ∧
      (∀ i, i < min j (size v) → (elements m2.self).get? i = (elements v).get? i) := by
  obtain ⟨m1, h1, e1, s1, c1, w1⟩ := resize_value_spec T hT v sys k default hWF hk hg
  have hjc : j ≤ capacity m1.self := by rw [c1]; split <;> omega
  obtain ⟨m2, h2, e2, s2, _, _⟩ := resize_value_spec T hT m1.self m1.sys j default w1
    (le_trans hjk hk) (fun h => absurd h (by omega))
  have h0 : j - size m1.self = 0 := by rw [s1]; omega
  rw [h0, List.replicate_zero, List.append_nil] at e2
  refine ⟨m1, m2, h1, h2, s2, e2, ?_, ?_⟩
  · intro i hi
    rw [e2]
    simp only [List.get?_eq_getElem?]
    exact List.getElem?_take_of_lt hi
  · intro i hi
    have hij : i < j := by omega
    have hik : i < k := by omega
    have hiv : i < (elements v).length := by
      obtain ⟨xs, c, hxs, _, rfl⟩ := (WF_iff T v).mp hWF
      rw [elements_rep _ _ hxs]
      have : i < size (rep xs c) := by omega
      exact this
    rw [e2, e1]
    simp only [List.get?_eq_getElem?]
    rw [List.getElem?_take_of_lt hij, List.getElem?_take_of_lt hik]
    exact List.getElem?_append_left hiv

theorem resize_then_resize_witness :
    ∃ m1 m2, resize T64 5 (⟨rep [1, 2, 3] 4, sys_yes⟩ : Machine Nat) = .ok () m1 ∧
      resize T64 2 m1 = .ok () m2 ∧ size m2.self = 2 ∧ elements m2.self = [1, 2] := by
  obtain ⟨m1, m2, h1, h2, h3, h4, _, _⟩ :=
    resize_then_resize T64 (by decide) (rep [1, 2, 3] 4) sys_yes 2 5 (by decide) (by decide)
      (by decide) (fun _ => rfl)
  refine ⟨m1, m2, h1, h2, h3, ?_⟩
  rw [h4]
  have : m1 = ⟨rep [1, 2, 3, 0, 0] 5, (sys_yes.request (bytes_for T64 5)).2⟩ := by
    have h5 : resize T64 5 (⟨rep [1, 2, 3] 4, sys_yes⟩ : Machine Nat)
        = .ok () ⟨rep [1, 2, 3, 0, 0] 5, (sys_yes.request (bytes_for T64 5)).2⟩ := rfl
    rw [h5] at h1
    injection h1 with _ h1
    exact h1.symm
  rw [this]
  rfl

/-! ### C13: copy constructor -/

/-- C13: the copy constructor on a well-formed source (passed by reference to const, so
it is an object the run reads and cannot change).  It returns normally when the source is
empty or the allocator grants the request; whenever it returns normally, the new object
has the element sequence and the size of the source, its capacity is the size of the
source, and the source is as before.  For an empty source nothing is allocated: no request
reaches the allocator, `heap_` is null, the capacity is 0 and `begin() == end()`. -/
theorem copy_constructor_result (T : Target) (hT : T.valid) (src : myvector α)
    (sys : Allocator) (hWF : WF T src) :
    ((0 < size src → sys.grants sys.requests.length (bytes_for T (size src)) = true) →
      ∃ p, with_const_other (ctor_copy T) (fresh_with src sys) = .ok () p) ∧
    ∀ p, with_const_other (ctor_copy T) (fresh_with src sys) = .ok () p →
      elements p.self = elements src ∧ size p.self = size src ∧
      capacity p.self = size src ∧ WF T p.self ∧ p.other = src ∧
      (size src = 0 → p.sys.requests = sys.requests ∧ p.self.heap_ = none ∧
        capacity p.self = 0 ∧ begin p.self = end_ p.self) := by
  obtain ⟨ys, c2, hys, hc2, rfl⟩ := (WF_iff T src).mp hWF
  simp only [with_const_other, on_self, fresh_with, ctor_copy_run T hT ys c2 _ sys hys hc2,
    size, capacity, size_rep, elements_rep ys c2 hys]
  by_cases h0 : ys.length = 0
  · have hy : ys = [] := List.length_eq_zero.mp h0
    subst hy
    simp only [List.length_nil, if_true]
    refine ⟨fun _ => ⟨_, rfl⟩, ?_⟩
    intro p hp
    cases hp
    exact ⟨elements_rep [] 0 (le_refl _), rfl, rfl, WF_rep T [] 0 (le_refl _) (Nat.zero_le _),
      rfl, fun _ => ⟨rfl, rfl, rfl, rfl⟩⟩
  · by_cases hg : sys.grants sys.requests.length (bytes_for T ys.length) = true
    · simp only [h0, hg, if_true, if_false]
      refine ⟨fun _ => ⟨_, rfl⟩, ?_⟩
      intro p hp
      cases hp
      exact ⟨elements_rep ys _ (le_refl _), rfl, rfl,
        WF_rep T ys _ (le_refl _) (by omega), rfl, fun h => h.elim⟩
    · simp only [h0, hg, if_false, Bool.false_eq_true]
      refine ⟨fun h => absurd (h (by omega)) (by simp), ?_⟩
      intro p hp
      cases hp

theorem copy_constructor_result_witness :
    (∃ p, with_const_other (ctor_copy T64) (fresh_with (rep [1, 2, 3] 8) sys_yes) = .ok () p ∧
      elements p.self = [1, 2, 3] ∧ size p.self = 3 ∧ capacity p.self = 3 ∧
      p.other = rep [1, 2, 3] 8) ∧
    (∃ p, with_const_other (ctor_copy T64) (fresh_with (rep ([] : List Nat) 8) sys_yes)
        = .ok () p ∧
      p.sys.requests = [] ∧ capacity p.self = 0 ∧ begin p.self = end_ p.self) := by
  obtain ⟨h1, h2⟩ := copy_constructor_result T64 (by decide) (rep [1, 2, 3] 8) sys_yes
    (by decide)
  obtain ⟨p, hp⟩ := h1 (fun _ => rfl)
  obtain ⟨e1, e2, e3, _, e5, _⟩ := h2 p hp
  obtain ⟨g1, g2⟩ := copy_constructor_result T64 (by decide) (rep ([] : List Nat) 8) sys_yes
    (by decide)
  obtain ⟨q, hq⟩ := g1 (fun h => absurd h (by decide))
  obtain ⟨_, _, _, _, _, f6⟩ := g2 q hq
  obtain ⟨f1, _, f3, f4⟩ := f6 rfl
  exact ⟨⟨p, hp, e1, e2, e3, e5⟩, ⟨q, hq, f1, f3, f4⟩⟩

/-! ### C15: move constructor -/

/-- C15: for every source, the move constructor returns normally; the new object has
exactly the former data members of the source, hence its element sequence, size and
capacity, and the source is left with the default members: `size() == 0`,
`capacity() == 0`, a null `heap_`, and `begin() == end()`. -/
theorem move_constructor_result (src : myvector α) (sys : Allocator) :
    ∃ p, ctor_move (fresh_with src sys) = .ok () p ∧
      p.self = src ∧ elements p.self = elements src ∧ size p.self = size src ∧
      capacity p.self = capacity src ∧
      size p.other = 0 ∧ capacity p.other = 0 ∧ p.other.heap_ = none ∧
      begin p.other = end_ p.other ∧ p.sys = sys :=
  ⟨_, ctor_move_run src sys, rfl, rfl, rfl, rfl, rfl, rfl, rfl, rfl, rfl⟩

/-! ### C16: copy assignment -/

/-- C16: copy assignment `v = src` between two distinct well-formed objects (`src` is
passed by reference to const).  It returns normally when `src.size()` fits the capacity
of `v` or the allocator grants the request; whenever it returns normally, `v` has the
element sequence and the size of `src`, `src` is as before, and the capacity of `v` is
`max(old capacity, src.size())`: not below the old one, and independent of the capacity
of `src`. -/
theorem copy_assignment_result (T : Target) (hT : T.valid) (v src : myvector α)
    (sys : Allocator) (hWF : WF T v) (hsrc : WF T src) :
    ((capacity v < size src →
        sys.grants sys.requests.length (bytes_for T (size src)) = true) →
      ∃ p, with_const_other (fun o => operator_assign_copy T (.another o)) ⟨v, src, sys⟩
        = .ok () p) ∧
    ∀ p, with_const_other (fun o => operator_assign_copy T (.another o)) ⟨v, src, sys⟩
        = .ok () p →
      elements p.self = elements src ∧ size p.self = size src ∧ p.other = src ∧
      capacity p.self = max (capacity v) (size src) ∧ capacity v ≤ capacity p.self ∧
      WF T p.self := by
  obtain ⟨xs, c, hxs, hc, rfl⟩ := (WF_iff T v).mp hWF
  obtain ⟨ys, c2, hys, hc2, rfl⟩ := (WF_iff T src).mp hsrc
  simp only [with_const_other, on_self,
    operator_assign_copy_run T hT xs ys c c2 sys hxs hys hc2,
    size, capacity, size_rep, capacity_rep, elements_rep ys c2 hys]
  by_cases h2 : c < ys.length
  · by_cases hg : sys.grants sys.requests.length (bytes_for T ys.length) = true
    · simp only [h2, hg, if_true]
      refine ⟨fun _ => ⟨_, rfl⟩, ?_⟩
      intro p hp
      cases hp
      exact ⟨elements_rep ys _ (le_refl _), rfl, rfl, (Nat.max_eq_right (Nat.le_of_lt h2)).symm,
        Nat.le_of_lt h2, WF_rep T ys _ (le_refl _) (by omega)⟩
    · simp only [h2, hg, if_true, if_false, Bool.false_eq_true]
      refine ⟨fun h => absurd (h trivial) (by simp), ?_⟩
      intro p hp
      cases hp
  · simp only [h2, if_false]
    refine ⟨fun _ => ⟨_, rfl⟩, ?_⟩
    intro p hp
    cases hp
    exact ⟨elements_rep ys _ (by omega), rfl, rfl, (Nat.max_eq_left (Nat.le_of_not_lt h2)).symm,
      le_refl _, WF_rep T ys _ (by omega) hc⟩

theorem copy_assignment_result_witness :
    ∃ p, with_const_other (fun o => operator_assign_copy T64 (.another o))
        ⟨rep [1, 2, 3] 3, rep ([] : List Nat) 100, sys_yes⟩ = .ok () p ∧
      elements p.self = [] ∧ size p.self = 0 ∧ capacity p.self = 3 ∧
      p.other = rep [] 100 := by
  obtain ⟨h1, h2⟩ := copy_assignment_result T64 (by decide) (rep [1, 2, 3] 3)
    (rep ([] : List Nat) 100) sys_yes (by decide) (by decide)
  obtain ⟨p, hp⟩ := h1 (fun _ => rfl)
  obtain ⟨e1, e2, e3, e4, _, _⟩ := h2 p hp
  exact ⟨p, hp, e1, e2, e4, e3⟩

/-! ### C17: move assignment, the destination -/

/-- C17: move assignment `v = std::move(src)` between two distinct objects, `v` well
formed: it returns normally and `v` then has exactly the former data members of `src`,
hence its element sequence, size and capacity, whatever `v` held before. -/
theorem move_assignment_destination (T : Target) (v src : myvector α) (sys : Allocator)
    (hWF : WF T v) :
    ∃ p, operator_assign_move false ⟨v, src, sys⟩ = .ok () p ∧
      p.self = src ∧ elements p.self = elements src ∧ size p.self = size src ∧
      capacity p.self = capacity src := by
  obtain ⟨xs, c, hxs, _, rfl⟩ := (WF_iff T v).mp hWF
  exact ⟨_, operator_assign_move_run xs c src sys hxs, rfl, rfl, rfl, rfl⟩

theorem move_assignment_destination_witness :
    (∃ p, operator_assign_move false ⟨rep [1, 2, 3] 3, rep ([] : List Nat) 0, sys_yes⟩
        = .ok () p ∧ size p.self = 0 ∧ capacity p.self = 0) ∧
    (∃ p, operator_assign_move false ⟨rep [1, 2, 3] 3, rep ([] : List Nat) 100, sys_yes⟩
        = .ok () p ∧ size p.self = 0 ∧ capacity p.self = 100) := by
  obtain ⟨p, h1, _, _, h3, h4⟩ := move_assignment_destination T64 (rep [1, 2, 3] 3)
    (rep ([] : List Nat) 0) sys_yes (by decide)
  obtain ⟨q, g1, _, _, g3, g4⟩ := move_assignment_destination T64 (rep [1, 2, 3] 3)
    (rep ([] : List Nat) 100) sys_yes (by decide)
  exact ⟨⟨p, h1, h3, h4⟩, ⟨q, g1, g3, g4⟩⟩

/-! ### C18: move assignment, the source -/

/-- C18 (amended): after the move assignment `v = std::move(src)` between two distinct
objects, `v` well formed, the source has size 0 and has taken over the former capacity
and block of `v`, now without live elements; it is well formed, and it has capacity 0
and no block exactly when the capacity of `v` was 0. -/
theorem move_assignment_source (T : Target) (v src : myvector α) (sys : Allocator)
    (hWF : WF T v) :
    ∃ p, operator_assign_move false ⟨v, src, sys⟩ = .ok () p ∧
      size p.other = 0 ∧ elements p.other = [] ∧ capacity p.other = capacity v ∧
      p.other = rep [] (capacity v) ∧ WF T p.other ∧
      ((capacity p.other = 0 ∧ p.other.heap_ = none) ↔ capacity v = 0) := by
  obtain ⟨xs, c, hxs, hc, rfl⟩ := (WF_iff T v).mp hWF
  refine ⟨_, operator_assign_move_run xs c src sys hxs, rfl,
    elements_rep [] c (Nat.zero_le _), rfl, rfl, WF_rep T [] c (Nat.zero_le _) hc, ?_⟩
  show (c = 0 ∧ (rep ([] : List α) c).heap_ = none) ↔ c = 0
  constructor
  · exact fun h => h.1
  · intro h
    subst h
    exact ⟨rfl, rfl⟩

theorem move_assignment_source_witness :
    ∃ p, operator_assign_move false ⟨rep [1, 2, 3] 3, rep [4] 1, sys_yes⟩ = .ok () p ∧
      size p.other = 0 ∧ capacity p.other = 3 ∧ p.other = rep [] 3 := by
  obtain ⟨p, h1, h2, _, h4, h5, _, _⟩ := move_assignment_source T64 (rep [1, 2, 3] 3)
    (rep [4] 1) sys_yes (by decide)
  exact ⟨p, h1, h2, h4, h5⟩

/-- C18 as stated fails: moving `{4}` into the container `{1, 2, 3}` of capacity 3 leaves
the source with size 0 but with capacity 3 and a block of three raw slots, not with
capacity 0 and no block. -/
theorem move_assignment_source_keeps_block :
    ∃ p, operator_assign_move false ⟨rep [1, 2, 3] 3, rep [4] 1, sys_yes⟩ = .ok () p ∧
      size p.other = 0 ∧ capacity p.other = 3 ∧ capacity p.other ≠ 0 ∧
      p.other.heap_ = some [none, none, none] ∧ p.other.heap_ ≠ none :=
  ⟨_, rfl, rfl, rfl, by decide, rfl, by decide⟩

/-! ### C19: self-assignment -/

/-- C19: copy assignment `v = v` and move assignment `v = std::move(v)` return normally
and leave the data members, hence element sequence, size and capacity, and the
allocator exactly as they were. -/
theorem self_assignment_noop (T : Target) (v : myvector α) (sys : Allocator) :
    (∃ m, operator_assign_copy T .this_object ⟨v, sys⟩ = .ok () m ∧ m.self = v ∧
      elements m.self = elements v ∧ size m.self = size v ∧ capacity m.self = capacity v ∧
      m.sys = sys) ∧
    (∃ p, operator_assign_move true ⟨v, v, sys⟩ = .ok () p ∧ p.self = v ∧ p.other = v ∧
      elements p.self = elements v ∧ size p.self = size v ∧ capacity p.self = capacity v ∧
      p.sys = sys) :=
  ⟨⟨_, rfl, rfl, rfl, rfl, rfl, rfl⟩, ⟨_, rfl, rfl, rfl, rfl, rfl, rfl, rfl⟩⟩

/-! ### C20: assign(count, value) -/

/-- For an argument `value` that is an object outside the container: on a well-formed
object of capacity `c`, for `count <= max_size()` and with the
request granted if one is made, `assign(count, value)` returns normally; the container
then holds exactly `count` elements, all equal to `value`, its size is `count` and its
capacity is `max(c, count)`.  In particular `assign(0, value)` empties the container and
keeps the capacity. -/
theorem assign_fill_result (T : Target) (hT : T.valid) (v : myvector α) (sys : Allocator)
    (count : Nat) (value : α) (hWF : WF T v) (hcount : count ≤ max_size T)
    (hg : capacity v < count → sys.grants sys.requests.length (bytes_for T count) = true) :
    ∃ m, assign T count (.object value) ⟨v, sys⟩ = .ok () m ∧
      elements m.self = List.replicate count value ∧ size m.self = count ∧
      (∀ y ∈ elements m.self, y = value) ∧
      capacity m.self = max (capacity v) count ∧ WF T m.self ∧
      (count = 0 → elements m.self = [] ∧ size m.self = 0 ∧
        capacity m.self = capacity v) := by
  obtain ⟨xs, c, hxs, hc, rfl⟩ := (WF_iff T v).mp hWF
  have h1 : ¬ (MAX_SIZE T < count) := Nat.not_lt.mpr hcount
  have hl : (List.replicate count value).length = count := List.length_replicate _ _
  rw [assign_run T hT xs c sys count value hxs]
  simp only [capacity, size, capacity_rep] at hg ⊢
  by_cases h2 : c < count
  · have hle : (List.replicate count value).length ≤ count := by rw [hl]
    have he := elements_rep (List.replicate count value) count hle
    simp only [h1, h2, hg h2, if_true, if_false]
    refine ⟨_, rfl, he, hl, ?_, (Nat.max_eq_right (Nat.le_of_lt h2)).symm,
      WF_rep T _ _ hle hcount, fun h0 => absurd h0 (by omega)⟩
    intro y hy
    rw [he] at hy
    exact List.eq_of_mem_replicate hy
  · have hle : (List.replicate count value).length ≤ c := by rw [hl]; omega
    have he := elements_rep (List.replicate count value) c hle
    simp only [h1, h2, if_false]
    refine ⟨_, rfl, he, hl, ?_, (Nat.max_eq_left (Nat.le_of_not_lt h2)).symm,
      WF_rep T _ _ hle hc, ?_⟩
    · intro y hy
      rw [he] at hy
      exact List.eq_of_mem_replicate hy
    · intro h0
      subst h0
      exact ⟨he, rfl, rfl⟩

theorem assign_fill_result_witness :
    (∃ m, assign T64 5 (.object 9) ⟨rep [1, 2, 3] 3, sys_yes⟩ = .ok () m ∧
      elements m.self = [9, 9, 9, 9, 9] ∧ size m.self = 5 ∧ capacity m.self = 5) ∧
    (∃ m, assign T64 0 (.object 9) ⟨rep [1, 2, 3] 3, sys_yes⟩ = .ok () m ∧
      elements m.self = [] ∧ size m.self = 0 ∧ capacity m.self = 3) := by
  obtain ⟨m, h1, h2, h3, _, h5, _, _⟩ :=
    assign_fill_result T64 (by decide) (rep [1, 2, 3] 3) sys_yes 5 9 (by decide) (by decide)
      (fun _ => rfl)
  obtain ⟨n, g1, g2, g3, _, g5, _, _⟩ :=
    assign_fill_result T64 (by decide) (rep [1, 2, 3] 3) sys_yes 0 9 (by decide) (by decide)
      (fun _ => rfl)
  exact ⟨⟨m, h1, h2, h3, h5⟩, ⟨n, g1, g2, g3, g5⟩⟩

/-- C20: the call `v.assign(5, v[0])` on a `myvector<std::string>` with the elements
`[s, "two", "three"]` and capacity 3, and on a `myvector<int>` with the elements
`[1, 2, 3]` and capacity 3.  The function first destroys all elements, `v[0]` among them,
then `reallocation` releases the old block, and only then the new elements are copied
from `value`, which still refers to the former `v[0]`: the behaviour is undefined, and
the five copies of the value are not produced.  `v.assign(2, v[0])` reallocates nothing
and still copies from the destroyed element, which is undefined as well.  With an object
of the same value outside the container `assign(5, value)` gives five copies, size 5 and
capacity 5. -/
theorem assign_own_element :
    assign T_string 5 (.element 0) ⟨rep [long_string, "two", "three"] 3, sys_yes⟩
      = (.undefined : Outcome (Machine String) Unit) ∧
    assign T_string 2 (.element 0) ⟨rep [long_string, "two", "three"] 3, sys_yes⟩
      = (.undefined : Outcome (Machine String) Unit) ∧
    assign T_int 5 (.element 0) ⟨rep [1, 2, 3] 3, sys_yes⟩
      = (.undefined : Outcome (Machine Nat) Unit) ∧
    (∃ m, assign T_string 5 (.object long_string)
        ⟨rep [long_string, "two", "three"] 3, sys_yes⟩ = .ok () m ∧
      elements m.self = List.replicate 5 long_string ∧ size m.self = 5 ∧
      capacity m.self = 5) :=
  ⟨rfl, rfl, rfl, ⟨_, rfl, rfl, rfl, rfl⟩⟩

/-! ### C14: a copy does not share storage with its original -/

/-- C14: let the block of a vector `a` be live at the address `a.heap_` and hold `blk`,
and let no other object that takes part point to it.  Make `*this` a copy of `a`, by the
copy constructor or, for an existing `*this`, by the copy assignment, and then run any
series of calls on `*this`: writes through `operator[]`, `at`, `front`, `back`, `data`
or an iterator, `push_back`, `resize`, `reserve`, `shrink_to_fit`, the assignments, the
destructor.  In whatever state the run ends, by return or by exception, the block of `a`
still holds `blk`, so that the elements of `a` are the same as before; the data members
`size_` and `capacity_` of `a` are not in reach of a call on `*this`. -/
theorem deep_copy_isolation [Inhabited α] (T : Target) (a : Mem.object)
    (blk : List (Option α)) (w : Mem.World α) (cs : List (Mem.call α))
    (hblk : w.store a.heap_ = some blk) (hnull : 0 < a.heap_) (htop : a.heap_ ≤ w.top)
    (hother : w.other.heap_ ≠ a.heap_) :
    (∀ w1, (Exec.bind (Mem.ctor_copy T a) (fun _ => Mem.run_calls T cs) w).state = some w1 →
      w1.store a.heap_ = some blk ∧ Mem.elements w1.store a = Mem.elements w.store a) ∧
    (w.self.heap_ ≠ a.heap_ →
      ∀ w1, (Exec.bind (Mem.operator_assign_copy T (.another a))
          (fun _ => Mem.run_calls T cs) w).state = some w1 →
        w1.store a.heap_ = some blk ∧ Mem.elements w1.store a = Mem.elements w.store a) := by
  have el : ∀ w1 : Mem.World α, w1.store a.heap_ = some blk →
      w1.store a.heap_ = some blk ∧ Mem.elements w1.store a = Mem.elements w.store a := by
    intro w1 h1
    refine ⟨h1, ?_⟩
    unfold Mem.elements
    rw [h1, hblk]
  constructor
  · intro w1 h
    apply el
    have hc := ctor_copy_separates a.heap_ blk T a w hblk hnull htop hother
    unfold Exec.bind at h
    cases hcc : Mem.ctor_copy T a w with
    | ok u w2 =>
      rw [hcc] at hc h
      exact (keeps_state (keeps_run_calls a.heap_ blk T cs) w2 w1 hc h).1
    | thrown e w2 =>
      rw [hcc] at hc h
      cases h
      exact hc
    | undefined =>
      rw [hcc] at h
      cases h
  · intro hself w1 h
    apply el
    exact (keeps_state
      (keeps_bind (keeps_operator_assign_copy a.heap_ blk T (.another a))
        (fun _ _ => keeps_run_calls a.heap_ blk T cs))
      w w1 ⟨hblk, hnull, htop, hself, hother⟩ h).1

theorem deep_copy_isolation_witness :
    ((Exec.bind (Mem.ctor_copy T64 a123)
        (fun _ => Mem.run_calls T64 [.store_through (.index 0) 99, .push_back 7])
        world_a123).state.map
      (fun w1 => (Mem.elements w1.store w1.self, Mem.elements w1.store a123))
      = some ([99, 2, 3, 7], [1, 2, 3])) ∧
    ((Exec.bind (Mem.operator_assign_copy T64 (.another a123))
        (fun _ => Mem.run_calls T64 [.store_through (.index 0) 99, .push_back 7])
        world_a123).state.map
      (fun w1 => (Mem.elements w1.store w1.self, Mem.elements w1.store a123))
      = some ([99, 2, 3, 7], [1, 2, 3])) ∧
    (∀ w1, (Exec.bind (Mem.ctor_copy T64 a123)
        (fun _ => Mem.run_calls T64 [.store_through (.index 0) 99, .push_back 7])
        world_a123).state = some w1 →
      w1.store a123.heap_ = some [some 1, some 2, some 3] ∧
        Mem.elements w1.store a123 = Mem.elements world_a123.store a123) ∧
    (world_a123.self.heap_ ≠ a123.heap_ →
      ∀ w1, (Exec.bind (Mem.operator_assign_copy T64 (.another a123))
          (fun _ => Mem.run_calls T64 [.store_through (.index 0) 99, .push_back 7])
          world_a123).state = some w1 →
        w1.store a123.heap_ = some [some 1, some 2, some 3] ∧
          Mem.elements w1.store a123 = Mem.elements world_a123.store a123) :=
  ⟨by decide!, by decide!,
    deep_copy_isolation T64 a123 [some 1, some 2, some 3] world_a123
      [.store_through (.index 0) 99, .push_back 7] rfl (by decide) (by decide) (by decide)⟩

/-! ### C21: assignment of a range or an initializer list -/

/-- Let `v` be a well-formed object of capacity `c` and `s` a sequence outside of `v`,
given as a range `[first, last)` of either iterator category that can be traversed more
than once, or as an initializer list.  Each of `assign(first, last)`, `assign(ilist)`
and `operator=(ilist)` returns
normally when `|s| <= max_size()` and the request it makes for `|s| > c` is granted; and
whenever one of them returns, the container holds exactly the elements `s` in their
order, its size is `|s|` and its capacity is `max(c, |s|)`. -/
theorem assign_sequence_result (T : Target) (hT : T.valid) (v : myvector α) (sys : Allocator)
    (cat : iterator_category) (s : List α) (hWF : WF T v)
    (hlen : s.length ≤ MAX_SIZE_BYTES T) :
    ∀ f ∈ [assign_range T cat (multi_pass s), assign_ilist T s, operator_assign_ilist T s],
      (s.length ≤ max_size T →
        (capacity v < s.length →
          sys.grants sys.requests.length (bytes_for T s.length) = true) →
        ∃ m, f ⟨v, sys⟩ = .ok () m) ∧
      ∀ m, f ⟨v, sys⟩ = .ok () m →
        elements m.self = s ∧ size m.self = s.length ∧
        capacity m.self = max (capacity v) s.length ∧ WF T m.self := by
  obtain ⟨xs, c, hxs, hc, rfl⟩ := (WF_iff T v).mp hWF
  have key : ∀ f : Exec (Machine α) Unit,
      f ⟨rep xs c, sys⟩ =
        (if MAX_SIZE T < s.length then .thrown .length_error ⟨rep xs c, sys⟩
        else if c < s.length then
          if sys.grants sys.requests.length (bytes_for T s.length) = true then
            .ok () ⟨rep s s.length, (sys.request (bytes_for T s.length)).2⟩
          else .thrown .bad_alloc ⟨rep [] c, (sys.request (bytes_for T s.length)).2⟩
        else .ok () ⟨rep s c, sys⟩) →
      (s.length ≤ max_size T →
        (capacity (rep xs c) < s.length →
          sys.grants sys.requests.length (bytes_for T s.length) = true) →
        ∃ m, f ⟨rep xs c, sys⟩ = .ok () m) ∧
      ∀ m, f ⟨rep xs c, sys⟩ = .ok () m →
        elements m.self = s ∧ size m.self = s.length ∧
        capacity m.self = max (capacity (rep xs c)) s.length ∧ WF T m.self := by
    intro f hf
    rw [hf]
    simp only [capacity, size, capacity_rep]
    by_cases h1 : MAX_SIZE T < s.length
    · simp only [h1, if_true]
      exact ⟨fun h => absurd h (Nat.not_le.mpr h1), fun m h => by cases h⟩
    · by_cases h2 : c < s.length
      · by_cases h3 : sys.grants sys.requests.length (bytes_for T s.length) = true
        · simp only [h1, h2, h3, if_true, if_false]
          refine ⟨fun _ _ => ⟨_, rfl⟩, ?_⟩
          intro m hm
          cases hm
          exact ⟨elements_rep s s.length (le_refl _), rfl,
            (Nat.max_eq_right (Nat.le_of_lt h2)).symm,
            WF_rep T s s.length (le_refl _) (Nat.le_of_not_lt h1)⟩
        · simp only [h1, h2, h3, if_true, if_false]
          exact ⟨fun _ hg => Bool.noConfusion (hg trivial), fun m h => by cases h⟩
      · simp only [h1, h2, if_false]
        refine ⟨fun _ _ => ⟨_, rfl⟩, ?_⟩
        intro m hm
        cases hm
        exact ⟨elements_rep s c (Nat.le_of_not_lt h2), rfl,
          (Nat.max_eq_left (Nat.le_of_not_lt h2)).symm,
          WF_rep T s c (Nat.le_of_not_lt h2) hc⟩
  intro f hf
  simp only [List.mem_cons, List.mem_singleton, List.not_mem_nil, or_false] at hf
  rcases hf with rfl | rfl | rfl
  · exact key _ (assign_range_run T hT cat xs s c sys hxs hlen)
  · exact key _ (assign_ilist_run T hT xs s c sys hxs)
  · exact key _ (operator_assign_ilist_run T hT xs s c sys hxs)

theorem assign_sequence_result_witness :
    (∃ m, assign_range T64 .input_iterator_tag (multi_pass [4, 5, 6, 7, 8])
        ⟨rep [1, 2, 3] 3, sys_yes⟩ = .ok () m ∧
      elements m.self = [4, 5, 6, 7, 8] ∧ size m.self = 5 ∧ capacity m.self = 5) ∧
    (∃ m, operator_assign_ilist T64 [4] ⟨rep [1, 2, 3] 3, sys_yes⟩ = .ok () m ∧
      elements m.self = [4] ∧ size m.self = 1 ∧ capacity m.self = 3) := by
  have h1 := assign_sequence_result T64 (by decide) (rep [1, 2, 3] 3) sys_yes
    .input_iterator_tag [4, 5, 6, 7, 8] (by decide) (by decide) _
    (List.mem_cons_self _ _)
  have h2 := assign_sequence_result T64 (by decide) (rep [1, 2, 3] 3) sys_yes
    .input_iterator_tag [4] (by decide) (by decide) _
    (List.mem_cons_of_mem _ (List.mem_cons_of_mem _ (List.mem_cons_self _ _)))
  obtain ⟨m, hm⟩ := h1.1 (by decide) (fun _ => rfl)
  obtain ⟨n, hn⟩ := h2.1 (by decide) (fun _ => rfl)
  obtain ⟨a1, a2, a3, _⟩ := h1.2 m hm
  obtain ⟨b1, b2, b3, _⟩ := h2.2 n hn
  exact ⟨⟨m, hm, a1, a2, a3⟩, ⟨n, hn, b1, b2, b3⟩⟩

/-- C21: the call `v.assign(first, last)` on a `myvector<int>` with the elements
`[1, 2, 3]`, where `first` is a `std::istream_iterator<int>` on a stream that holds
`4 5 6 7 8` and `last` is the end-of-stream iterator.  `mydistance` advances a copy of
`first` to the end and counts 5, which consumes the stream; the copy loop then starts from
`first` again and finds only the value 4 that `first` had extracted.  The call returns
with size 5 and capacity 5, but only the slot 0 holds an element: the slots 1 to 4 are
raw, reading `v.at(1)` is undefined, and the object is not well formed.  The source
sequence `[4, 5, 6, 7, 8]` is not what the container holds.  On a range that can be
traversed twice the same call gives `[4, 5, 6, 7, 8]`. -/
theorem assign_range_single_pass :
    ∃ m, assign_range T_int .input_iterator_tag
        { values := [4, 5, 6, 7, 8], again := [4] } ⟨rep [1, 2, 3] 3, sys_yes⟩ = .ok () m ∧
      size m.self = 5 ∧ capacity m.self = 5 ∧
      m.self.heap_ = some [some 4, none, none, none, none] ∧
      elements m.self = [4] ∧ elements m.self ≠ [4, 5, 6, 7, 8] ∧
      at_ 1 m = .undefined ∧ ¬ WF T_int m.self ∧
      ∃ m2, assign_range T_int .input_iterator_tag (multi_pass [4, 5, 6, 7, 8])
          ⟨rep [1, 2, 3] 3, sys_yes⟩ = .ok () m2 ∧
        elements m2.self = [4, 5, 6, 7, 8] :=
  ⟨_, rfl, rfl, rfl, rfl, rfl, by decide, rfl, by decide, _, rfl, rfl⟩

/-! ### C22: shrink_to_fit -/

/-- C22: on a well-formed object, with the request granted if one is made (it is made
for `0 < size() < capacity()` only), `shrink_to_fit()` returns normally; afterwards the
capacity equals the size, the elements and the size are as before, and the object is
well formed.  For an empty container the block is released without a call to the
allocator: `heap_` is null, the capacity is 0 and `begin() == end()`.  If the size
equals the capacity beforehand, neither the object nor the allocator changes.  A second
call in the resulting state changes nothing. -/
theorem shrink_to_fit_result (T : Target) (hT : T.valid) (v : myvector α) (sys : Allocator)
    (hWF : WF T v)
    (hg : 0 < size v → size v < capacity v →
      sys.grants sys.requests.length (bytes_for T (size v)) = true) :
    ∃ m, shrink_to_fit T ⟨v, sys⟩ = .ok () m ∧
      capacity m.self = size m.self ∧
      elements m.self = elements v ∧ size m.self = size v ∧ WF T m.self ∧
      (size v = 0 → m.self.heap_ = none ∧ capacity m.self = 0 ∧
        begin m.self = end_ m.self ∧ m.sys = sys) ∧
      (size v = capacity v → m = ⟨v, sys⟩) ∧
      shrink_to_fit T m = .ok () m := by
  obtain ⟨xs, c, hxs, hc, rfl⟩ := (WF_iff T v).mp hWF
  simp only [size, capacity, size_rep, capacity_rep] at hg
  have hlen : xs.length ≤ MAX_SIZE T := le_trans hxs hc
  have again : ∀ sys1 : Allocator,
      shrink_to_fit T ⟨rep xs xs.length, sys1⟩ = .ok () ⟨rep xs xs.length, sys1⟩ := by
    intro sys1
    rw [shrink_to_fit_run T hT xs xs.length sys1 (le_refl _) hlen]
    simp only [lt_irrefl, if_false]
  rw [shrink_to_fit_run T hT xs c sys hxs hc]
  by_cases h1 : xs.length < c
  · by_cases h0 : xs.length = 0
    · have hnil : xs = [] := List.length_eq_zero.mp h0
      subst hnil
      have h1z : 0 < c := h1
      simp only [List.length_nil, h1z, eq_self_iff_true, if_true]
      refine ⟨_, rfl, rfl, ?_, rfl, WF_rep T [] 0 (le_refl _) (Nat.zero_le _), ?_, ?_, ?_⟩
      · rw [elements_rep [] 0 (le_refl _), elements_rep [] c (Nat.zero_le _)]
      · intro _
        exact ⟨rfl, rfl, rfl, rfl⟩
      · intro h
        exact absurd h (Nat.ne_of_lt h1)
      · exact again sys
    · have hpos : 0 < xs.length := Nat.pos_of_ne_zero h0
      simp only [h1, h0, hg hpos h1, if_true, if_false]
      refine ⟨_, rfl, rfl, ?_, rfl, WF_rep T xs xs.length (le_refl _) hlen, ?_, ?_, ?_⟩
      · rw [elements_rep xs xs.length (le_refl _), elements_rep xs c hxs]
      · intro h
        exact absurd h h0
      · intro h
        exact absurd h (Nat.ne_of_lt h1)
      · exact again _
  · have heq : xs.length = c := Nat.le_antisymm hxs (Nat.le_of_not_lt h1)
    subst heq
    simp only [lt_irrefl, if_false]
    refine ⟨_, rfl, rfl, rfl, rfl, WF_rep T xs xs.length (le_refl _) hlen, ?_, ?_, ?_⟩
    · intro h0
      have hnil : xs = [] := List.length_eq_zero.mp h0
      subst hnil
      exact ⟨rfl, rfl, rfl, rfl⟩
    · intro _
      rfl
    · exact again sys

theorem shrink_to_fit_result_witness :
    (∃ m, shrink_to_fit T64 ⟨rep [1, 2, 3] 8, sys_yes⟩ = .ok () m ∧
      capacity m.self = 3 ∧ elements m.self = [1, 2, 3] ∧ size m.self = 3 ∧
      shrink_to_fit T64 m = .ok () m) ∧
    (∃ m, shrink_to_fit T64 ⟨rep ([] : List Nat) 8, sys_no⟩ = .ok () m ∧
      m.self.heap_ = none ∧ capacity m.self = 0 ∧ m.sys = sys_no) := by
  obtain ⟨m, h1, h2, h3, h4, _, _, _, h8⟩ :=
    shrink_to_fit_result T64 (by decide) (rep [1, 2, 3] 8) sys_yes (by decide) (fun _ _ => rfl)
  obtain ⟨n, g1, _, _, _, _, g6, _, _⟩ :=
    shrink_to_fit_result T64 (by decide) (rep ([] : List Nat) 8) sys_no (by decide)
      (fun h => absurd h (by decide))
  obtain ⟨k1, k2, _, k4⟩ := g6 rfl
  refine ⟨⟨m, h1, ?_, ?_, h4, h8⟩, ⟨n, g1, k1, k2, k4⟩⟩
  · rw [h2, h4]; rfl
  · rw [h3]; rfl

/-! ### C23: the constructors with a size -/

/-- C23: for `count <= max_size()` and with the request granted (one is made for
`count != 0` only), `myvector(count, value)` and `myvector(count)` return normally; the
new object has size and capacity `count`, holds `count` elements that all equal `value`
(respectively the value-initialised `value_type()`), and is well formed.  For
`count == 0` the allocator is not called, `heap_` is null, the capacity is 0 and
`begin() == end()`. -/
theorem sized_constructor_result [Inhabited α] (T : Target) (hT : T.valid) (sys : Allocator)
    (count : Nat) (value : α) (hcount : count ≤ max_size T)
    (hg : count ≠ 0 → sys.grants sys.requests.length (bytes_for T count) = true) :
    ∀ p ∈ [(ctor_count_value T count value, value), (ctor_count T count, default)],
      ∃ m, p.1 (fresh sys) = .ok () m ∧
        size m.self = count ∧ capacity m.self = count ∧
        elements m.self = List.replicate count p.2 ∧
        (∀ y ∈ elements m.self, y = p.2) ∧ WF T m.self ∧
        (count = 0 → m.self.heap_ = none ∧ capacity m.self = 0 ∧
          begin m.self = end_ m.self ∧ m.sys = sys) := by
  have key : ∀ x : α, ∃ m, ctor_count_value T count x (fresh sys) = .ok () m ∧
      size m.self = count ∧ capacity m.self = count ∧
      elements m.self = List.replicate count x ∧
      (∀ y ∈ elements m.self, y = x) ∧ WF T m.self ∧
      (count = 0 → m.self.heap_ = none ∧ capacity m.self = 0 ∧
        begin m.self = end_ m.self ∧ m.sys = sys) := by
    intro x
    have h1 : ¬ (MAX_SIZE T < count) := Nat.not_lt.mpr hcount
    have hl : (List.replicate count x).length = count := List.length_replicate _ _
    have hle : (List.replicate count x).length ≤ count := by rw [hl]
    have he := elements_rep (List.replicate count x) count hle
    rw [fresh, ctor_count_value_run T hT count x _ sys]
    by_cases h0 : count = 0
    · subst h0
      simp only [if_true]
      refine ⟨_, rfl, rfl, rfl, he, ?_, WF_rep T [] 0 (le_refl _) (Nat.zero_le _), ?_⟩
      · intro y hy
        rw [show elements (rep ([] : List α) 0) = [] from he] at hy
        cases hy
      · intro _
        exact ⟨rfl, rfl, rfl, rfl⟩
    · simp only [h0, h1, hg h0, if_true, if_false]
      refine ⟨_, rfl, hl, rfl, he, ?_, WF_rep T _ _ hle hcount, fun h => h.elim⟩
      intro y hy
      rw [he] at hy
      exact List.eq_of_mem_replicate hy
  intro p hp
  simp only [List.mem_cons, List.mem_singleton, List.not_mem_nil, or_false] at hp
  rcases hp with rfl | rfl
  · exact key value
  · exact key default

theorem sized_constructor_result_witness :
    (∃ m, ctor_count_value T64 3 (7 : Nat) (fresh sys_yes) = .ok () m ∧
      size m.self = 3 ∧ capacity m.self = 3 ∧ elements m.self = [7, 7, 7]) ∧
    (∃ m, ctor_count T64 0 (fresh sys_no : Machine Nat) = .ok () m ∧
      m.self.heap_ = none ∧ capacity m.self = 0 ∧ begin m.self = end_ m.self) := by
  obtain ⟨m, h1, h2, h3, h4, _⟩ :=
    sized_constructor_result T64 (by decide) sys_yes 3 (7 : Nat) (by decide) (fun _ => rfl) _
      (List.mem_cons_self _ _)
  obtain ⟨n, g1, _, _, _, _, _, g7⟩ :=
    sized_constructor_result T64 (by decide) sys_no 0 (7 : Nat) (by decide)
      (fun h => absurd rfl h) _ (List.mem_cons_of_mem _ (List.mem_cons_self _ _))
  obtain ⟨k1, k2, k3, _⟩ := g7 rfl
  exact ⟨⟨m, h1, h2, h3, h4⟩, ⟨n, g1, k1, k2, k3⟩⟩

/-! ### C24: the constructors from a range and from an initializer list -/

/-- Let `s` be a sequence given as a range `[first, last)` of either iterator category
that can be traversed more than once, or as an initializer list.
`myvector(first, last)` and `myvector(init)` return
normally when `|s| <= max_size()` and the request is granted (one is made for a non-empty
`s` only); and whenever one of them returns, the new object holds exactly the elements
`s` in their order, its size and its capacity are `|s|`, and it is well formed.  From an
empty `s` the object has size 0 and capacity 0, and the allocator is not called. -/
theorem sequence_constructor_result (T : Target) (hT : T.valid) (sys : Allocator)
    (cat : iterator_category) (s : List α) (hlen : s.length ≤ MAX_SIZE_BYTES T) :
    ∀ f ∈ [ctor_range T cat (multi_pass s), ctor_ilist T s],
      (s.length ≤ max_size T →
        (s.length ≠ 0 → sys.grants sys.requests.length (bytes_for T s.length) = true) →
        ∃ m, f (fresh sys) = .ok () m) ∧
      ∀ m, f (fresh sys) = .ok () m →
        elements m.self = s ∧ size m.self = s.length ∧ capacity m.self = s.length ∧
        WF T m.self ∧
        (s = [] → size m.self = 0 ∧ capacity m.self = 0 ∧ m.self.heap_ = none ∧
          m.sys = sys) := by
  have key : ∀ (f : Exec (Machine α) Unit) (e : Exception) (m1 m2 : Machine α),
      f (fresh sys) =
        (if s.length = 0 then .ok () ⟨rep [] 0, sys⟩
        else if MAX_SIZE T < s.length then .thrown .length_error m1
        else if sys.grants sys.requests.length (bytes_for T s.length) = true then
          .ok () ⟨rep s s.length, (sys.request (bytes_for T s.length)).2⟩
        else .thrown e m2) →
      (s.length ≤ max_size T →
        (s.length ≠ 0 → sys.grants sys.requests.length (bytes_for T s.length) = true) →
        ∃ m, f (fresh sys) = .ok () m) ∧
      ∀ m, f (fresh sys) = .ok () m →
        elements m.self = s ∧ size m.self = s.length ∧ capacity m.self = s.length ∧
        WF T m.self ∧
        (s = [] → size m.self = 0 ∧ capacity m.self = 0 ∧ m.self.heap_ = none ∧
          m.sys = sys) := by
    intro f e m1 m2 hf
    rw [hf]
    by_cases h0 : s.length = 0
    · have hs : s = [] := List.length_eq_zero.mp h0
      subst hs
      simp only [List.length_nil, if_true]
      refine ⟨fun _ _ => ⟨_, rfl⟩, ?_⟩
      intro m hm
      cases hm
      exact ⟨elements_rep [] 0 (le_refl _), rfl, rfl,
        WF_rep T [] 0 (le_refl _) (Nat.zero_le _), fun _ => ⟨rfl, rfl, rfl, rfl⟩⟩
    · have hne : s ≠ [] := fun h => h0 (by rw [h]; rfl)
      by_cases h1 : MAX_SIZE T < s.length
      · simp only [h0, h1, if_true, if_false]
        exact ⟨fun h => absurd h (Nat.not_le.mpr h1), fun m h => by cases h⟩
      · by_cases h3 : sys.grants sys.requests.length (bytes_for T s.length) = true
        · simp only [h0, h1, h3, if_true, if_false]
          refine ⟨fun _ _ => ⟨_, rfl⟩, ?_⟩
          intro m hm
          cases hm
          exact ⟨elements_rep s s.length (le_refl _), rfl, rfl,
            WF_rep T s s.length (le_refl _) (Nat.le_of_not_lt h1), fun h => absurd h hne⟩
        · simp only [h0, h1, h3, if_true, if_false]
          refine ⟨fun _ hg => ?_, fun m h => by cases h⟩
          exact absurd (hg h0) (fun h => Bool.noConfusion h)
  intro f hf
  simp only [List.mem_cons, List.mem_singleton, List.not_mem_nil, or_false] at hf
  rcases hf with rfl | rfl
  · exact key _ _ _ _ (ctor_range_run T hT cat s sys hlen)
  · exact key _ _ _ _ (ctor_ilist_run T hT s _ sys)

theorem sequence_constructor_result_witness :
    (∃ m, ctor_range T64 .input_iterator_tag (multi_pass [4, 5, 6]) (fresh sys_yes)
        = .ok () m ∧
      elements m.self = [4, 5, 6] ∧ size m.self = 3 ∧ capacity m.self = 3) ∧
    (∃ m, ctor_ilist T64 ([] : List Nat) (fresh sys_no) = .ok () m ∧
      size m.self = 0 ∧ capacity m.self = 0) := by
  have h1 := sequence_constructor_result T64 (by decide) sys_yes .input_iterator_tag
    [4, 5, 6] (by decide) _ (List.mem_cons_self _ _)
  have h2 := sequence_constructor_result T64 (by decide) sys_no .input_iterator_tag
    ([] : List Nat) (by decide) _ (List.mem_cons_of_mem _ (List.mem_cons_self _ _))
  obtain ⟨m, hm⟩ := h1.1 (by decide) (fun _ => rfl)
  obtain ⟨n, hn⟩ := h2.1 (by decide) (fun h => absurd rfl h)
  obtain ⟨a1, a2, a3, _⟩ := h1.2 m hm
  obtain ⟨_, _, _, _, b5⟩ := h2.2 n hn
  exact ⟨⟨m, hm, a1, a2, a3⟩, ⟨n, hn, (b5 rfl).1, (b5 rfl).2.1⟩⟩

/-- C24: the construction `myvector<int> v(first, last)`, where `first` is a
`std::istream_iterator<int>` on a stream that holds `4 5 6` and `last` is the
end-of-stream iterator.  `mydistance` advances a copy of `first` to the end and counts 3,
which consumes the stream; the copy loop then starts from `first` again and finds only
the value 4 that `first` had extracted.  The constructor returns with size 3 and
capacity 3, but only the slot 0 holds an element: the slots 1 and 2 are raw, reading
`v.at(1)` is undefined, and the object is not well formed.  The source sequence
`[4, 5, 6]` is not what the container holds.  On a range that can be traversed twice the
same constructor gives `[4, 5, 6]`. -/
theorem ctor_range_single_pass :
    ∃ m, ctor_range T_int .input_iterator_tag { values := [4, 5, 6], again := [4] }
        (fresh sys_yes) = .ok () m ∧
      size m.self = 3 ∧ capacity m.self = 3 ∧
      m.self.heap_ = some [some 4, none, none] ∧
      elements m.self = [4] ∧ elements m.self ≠ [4, 5, 6] ∧
      at_ 1 m = .undefined ∧ ¬ WF T_int m.self ∧
      ∃ m2, ctor_range T_int .input_iterator_tag (multi_pass [4, 5, 6]) (fresh sys_yes)
          = .ok () m2 ∧
        elements m2.self = [4, 5, 6] :=
  ⟨_, rfl, rfl, rfl, rfl, rfl, by decide, rfl, by decide, _, rfl, rfl⟩

/-! ### C25: invariant C, size <= capacity -/

/-- C25: `size() <= capacity()` is established by every constructor and kept by every
public operation.  Each constructor (default, with a size, from a range, copy, from an
initializer list), run on admissible arguments, either throws, and then no object exists,
or returns an object with `size_ <= capacity_`; the move constructor leaves both the new
object and its source so.  Every public operation on a well-formed object (`reserve`,
`shrink_to_fit`, `push_back`, both `resize`, the three `assign`, copy assignment also to
itself, assignment of an initializer list, move assignment, the destructor) returns or
throws, never with undefined behaviour, and in either case `size_ <= capacity_` holds
for the object and for the other operand, both of which are again well formed. -/
theorem invariant_size_le_capacity [Inhabited α] (T : Target) (hT : T.valid) (sys : Allocator) :
    (∀ call : ctor_call α, call.admissible T →
      (∃ m, call.run T (fresh sys) = .ok () m ∧ size m.self ≤ capacity m.self ∧ WF T m.self) ∨
        ∃ e m, call.run T (fresh sys) = .thrown e m) ∧
    (∀ src : myvector α, WF T src →
      ∃ q, ctor_move (fresh_with src sys) = .ok () q ∧
        size q.self ≤ capacity q.self ∧ size q.other ≤ capacity q.other ∧
        WF T q.self ∧ WF T q.other) ∧
    (∀ (p : Pair α) (call : public_call α), WF T p.self → WF T p.other →
      call.admissible T →
      ∃ q, (call.run T p = .ok () q ∨ ∃ e, call.run T p = .thrown e q) ∧
        size q.self ≤ capacity q.self ∧ size q.other ≤ capacity q.other ∧
        WF T q.self ∧ WF T q.other) := by
  have inv : ∀ v : myvector α, WF T v → size v ≤ capacity v := fun _ h => h.1
  refine ⟨?_, ?_, ?_⟩
  · intro call harg
    rcases ctor_call_WF T hT sys call harg with ⟨m, hm, hw⟩ | h
    · exact Or.inl ⟨m, hm, inv _ hw, hw⟩
    · exact Or.inr h
  · intro src hsrc
    exact ⟨_, ctor_move_run src sys, inv _ hsrc, inv _ (WF_nil T), hsrc, WF_nil T⟩
  · intro p call hself hother harg
    obtain ⟨q, hq, h1, h2⟩ := public_call_WF T hT p call hself hother harg
    exact ⟨q, hq, inv _ h1, inv _ h2, h1, h2⟩

theorem invariant_size_le_capacity_witness :
    (∃ q, public_call.run T64 (.capacity (.push_back 3)) ⟨rep [1, 2] 2, rep [] 0, sys_no⟩
        = .thrown .bad_alloc q ∧ size q.self ≤ capacity q.self) ∧
    (∃ q, public_call.run T64 (.move_assignment false) ⟨rep [1, 2] 2, rep [7] 4, sys_yes⟩
        = .ok () q ∧ size q.self ≤ capacity q.self ∧ size q.other ≤ capacity q.other) := by
  obtain ⟨q, hq, h1, _⟩ := (invariant_size_le_capacity T64 (by decide) sys_no).2.2
    ⟨rep [1, 2] 2, rep [] 0, sys_no⟩ (.capacity (.push_back 3)) (by decide) (by decide) trivial
  obtain ⟨r, hr, g1, g2, _⟩ := (invariant_size_le_capacity T64 (by decide) sys_yes).2.2
    ⟨rep [1, 2] 2, rep [7] 4, sys_yes⟩ (.move_assignment false) (by decide) (by decide)
    trivial
  have e1 : public_call.run T64 (.capacity (.push_back 3))
      (⟨rep [1, 2] 2, rep [] 0, sys_no⟩ : Pair Nat)
      = .thrown .bad_alloc ⟨rep [1, 2] 2, rep [] 0,
          { grants := sys_no.grants, requests := [16] }⟩ := rfl
  have e2 : public_call.run T64 (.move_assignment false)
      (⟨rep [1, 2] 2, rep [7] 4, sys_yes⟩ : Pair Nat)
      = .ok () ⟨rep [7] 4, rep [] 2, sys_yes⟩ := rfl
  refine ⟨⟨_, e1, ?_⟩, ⟨_, e2, ?_, ?_⟩⟩
  · rcases hq with hq | ⟨e, hq⟩
    · rw [e1] at hq; cases hq
    · rw [e1] at hq; cases hq; exact h1
  · rcases hr with hr | ⟨e, hr⟩
    · rw [e2] at hr; cases hr; exact g1
    · rw [e2] at hr; cases hr
  · rcases hr with hr | ⟨e, hr⟩
    · rw [e2] at hr; cases hr; exact g2
    · rw [e2] at hr; cases hr

/-! ### C26: invariant B, the block and the capacity -/

/-- C26: `heap_` is non-null exactly when `capacity_ > 0`; this is established by every
constructor and kept by every public operation.  Each constructor, run on admissible
arguments, either throws, and then no object exists, or returns an object with the
property; the move constructor leaves both the new object and its source with it.  Every
public operation on a well-formed object, among them `shrink_to_fit`, the move
assignment and the destructor, returns or throws, never with undefined behaviour, and in
either case, so also after a failed operation, the property holds for the object and for
the other operand, both of which are again well formed. -/
theorem invariant_heap_iff_capacity [Inhabited α] (T : Target) (hT : T.valid) (sys : Allocator) :
    (∀ call : ctor_call α, call.admissible T →
      (∃ m, call.run T (fresh sys) = .ok () m ∧ (m.self.heap_ ≠ none ↔ 0 < capacity m.self) ∧ WF T m.self) ∨
        ∃ e m, call.run T (fresh sys) = .thrown e m) ∧
    (∀ src : myvector α, WF T src →
      ∃ q, ctor_move (fresh_with src sys) = .ok () q ∧
        (q.self.heap_ ≠ none ↔ 0 < capacity q.self) ∧ (q.other.heap_ ≠ none ↔ 0 < capacity q.other) ∧
        WF T q.self ∧ WF T q.other) ∧
    (∀ (p : Pair α) (call : public_call α), WF T p.self → WF T p.other →
      call.admissible T →
      ∃ q, (call.run T p = .ok () q ∨ ∃ e, call.run T p = .thrown e q) ∧
        (q.self.heap_ ≠ none ↔ 0 < capacity q.self) ∧ (q.other.heap_ ≠ none ↔ 0 < capacity q.other) ∧
        WF T q.self ∧ WF T q.other) := by
  have inv : ∀ v : myvector α, WF T v → (v.heap_ ≠ none ↔ 0 < capacity v) := fun v h => WF_heap T v h
  refine ⟨?_, ?_, ?_⟩
  · intro call harg
    rcases ctor_call_WF T hT sys call harg with ⟨m, hm, hw⟩ | h
    · exact Or.inl ⟨m, hm, inv _ hw, hw⟩
    · exact Or.inr h
  · intro src hsrc
    exact ⟨_, ctor_move_run src sys, inv _ hsrc, inv _ (WF_nil T), hsrc, WF_nil T⟩
  · intro p call hself hother harg
    obtain ⟨q, hq, h1, h2⟩ := public_call_WF T hT p call hself hother harg
    exact ⟨q, hq, inv _ h1, inv _ h2, h1, h2⟩

theorem invariant_heap_iff_capacity_witness :
    (∃ q, public_call.run T64 (.capacity .shrink_to_fit) ⟨rep ([] : List Nat) 2, rep [] 0, sys_no⟩
        = .ok () q ∧ q.self.heap_ = none ∧ capacity q.self = 0 ∧
        (q.self.heap_ ≠ none ↔ 0 < capacity q.self)) ∧
    (∃ q, public_call.run T64 .destructor ⟨rep [1, 2] 2, rep [7] 4, sys_yes⟩
        = .ok () q ∧ (q.self.heap_ ≠ none ↔ 0 < capacity q.self) ∧
        (q.other.heap_ ≠ none ↔ 0 < capacity q.other)) := by
  obtain ⟨q, hq, h1, _⟩ := (invariant_heap_iff_capacity T64 (by decide) sys_no).2.2
    ⟨rep ([] : List Nat) 2, rep [] 0, sys_no⟩ (.capacity .shrink_to_fit) (by decide)
    (by decide) trivial
  obtain ⟨r, hr, g1, g2, _⟩ := (invariant_heap_iff_capacity T64 (by decide) sys_yes).2.2
    ⟨rep [1, 2] 2, rep [7] 4, sys_yes⟩ .destructor (by decide) (by decide) trivial
  have e1 : public_call.run T64 (.capacity .shrink_to_fit)
      (⟨rep ([] : List Nat) 2, rep [] 0, sys_no⟩ : Pair Nat)
      = .ok () ⟨rep [] 0, rep [] 0, sys_no⟩ := rfl
  have e2 : public_call.run T64 .destructor
      (⟨rep [1, 2] 2, rep [7] 4, sys_yes⟩ : Pair Nat)
      = .ok () ⟨rep [] 0, rep [7] 4, sys_yes⟩ := rfl
  refine ⟨⟨_, e1, rfl, rfl, ?_⟩, ⟨_, e2, ?_, ?_⟩⟩
  · rcases hq with hq | ⟨e, hq⟩
    · rw [e1] at hq; cases hq; exact h1
    · rw [e1] at hq; cases hq
  · rcases hr with hr | ⟨e, hr⟩
    · rw [e2] at hr; cases hr; exact g1
    · rw [e2] at hr; cases hr
  · rcases hr with hr | ⟨e, hr⟩
    · rw [e2] at hr; cases hr; exact g2
    · rw [e2] at hr; cases hr

/-! ### C27: capacity <= max_size() -/

/-- C27: `capacity() <= max_size()`, where `max_size()` is the largest `size_type` value
divided by `sizeof(value_type)`, is established by every constructor and kept by every
public operation.  Each constructor, run on admissible arguments, either throws, and then
no object exists, or returns an object with the property; the move constructor leaves
both the new object and its source with it.  Every public operation on a well-formed
object returns or throws, never with undefined behaviour, and in either case the
property holds for the object and for the other operand, both of which are again well
formed.  This covers the operations that set a capacity without a call of
`length_check`: the copy constructor and the copy assignment (the new capacity is the
size of a well-formed source), `shrink_to_fit` (the size), and the doubling in
`push_back` (guarded by `twice_length`). -/
theorem invariant_capacity_le_max_size [Inhabited α] (T : Target) (hT : T.valid) (sys : Allocator) :
    (∀ call : ctor_call α, call.admissible T →
      (∃ m, call.run T (fresh sys) = .ok () m ∧ capacity m.self ≤ max_size T ∧ WF T m.self) ∨
        ∃ e m, call.run T (fresh sys) = .thrown e m) ∧
    (∀ src : myvector α, WF T src →
      ∃ q, ctor_move (fresh_with src sys) = .ok () q ∧
        capacity q.self ≤ max_size T ∧ capacity q.other ≤ max_size T ∧
        WF T q.self ∧ WF T q.other) ∧
    (∀ (p : Pair α) (call : public_call α), WF T p.self → WF T p.other →
      call.admissible T →
      ∃ q, (call.run T p = .ok () q ∨ ∃ e, call.run T p = .thrown e q) ∧
        capacity q.self ≤ max_size T ∧ capacity q.other ≤ max_size T ∧
        WF T q.self ∧ WF T q.other) := by
  have inv : ∀ v : myvector α, WF T v → capacity v ≤ max_size T := fun _ h => h.2.1
  refine ⟨?_, ?_, ?_⟩
  · intro call harg
    rcases ctor_call_WF T hT sys call harg with ⟨m, hm, hw⟩ | h
    · exact Or.inl ⟨m, hm, inv _ hw, hw⟩
    · exact Or.inr h
  · intro src hsrc
    exact ⟨_, ctor_move_run src sys, inv _ hsrc, inv _ (WF_nil T), hsrc, WF_nil T⟩
  · intro p call hself hother harg
    obtain ⟨q, hq, h1, h2⟩ := public_call_WF T hT p call hself hother harg
    exact ⟨q, hq, inv _ h1, inv _ h2, h1, h2⟩

theorem invariant_capacity_le_max_size_witness :
    max_size T16 = 3 ∧
    (∃ q, public_call.run T16 (.capacity (.push_back 9)) ⟨rep [7, 8] 2, rep [] 0, sys_yes⟩
        = .thrown .length_error q ∧ capacity q.self ≤ max_size T16) ∧
    (∃ m, ctor_call.run T16 (.copy (rep [7, 8] 3)) (fresh sys_yes) = .ok () m ∧
        capacity m.self = 2 ∧ capacity m.self ≤ max_size T16) := by
  obtain ⟨q, hq, h1, _⟩ := (invariant_capacity_le_max_size T16 (by decide) sys_yes).2.2
    ⟨rep [7, 8] 2, rep [] 0, sys_yes⟩ (.capacity (.push_back 9)) (by decide) (by decide)
    trivial
  have hc := (invariant_capacity_le_max_size T16 (by decide) sys_yes).1
    (.copy (rep [7, 8] 3)) (show WF T16 (rep [7, 8] 3) by decide)
  have e1 : public_call.run T16 (.capacity (.push_back 9))
      (⟨rep [7, 8] 2, rep [] 0, sys_yes⟩ : Pair Nat)
      = .thrown .length_error ⟨rep [7, 8] 2, rep [] 0, sys_yes⟩ := rfl
  have e2 : ctor_call.run T16 (.copy (rep [7, 8] 3)) (fresh sys_yes : Machine Nat)
      = .ok () ⟨rep [7, 8] 2, { grants := sys_yes.grants, requests := [32768] }⟩ := rfl
  refine ⟨rfl, ⟨_, e1, ?_⟩, ⟨_, e2, rfl, ?_⟩⟩
  · rcases hq with hq | ⟨e, hq⟩
    · rw [e1] at hq; cases hq
    · rw [e1] at hq; cases hq; exact h1
  · rcases hc with ⟨m, hm, h2, _⟩ | ⟨e, m, hm⟩
    · rw [e2] at hm; cases hm; exact h2
    · rw [e2] at hm; cases hm

/-! ### C28: the three relocation strategies -/

/-- C28: the three overloads of `reallocation` (`realloc` for trivially copyable types,
element-wise move, element-wise copy) have the same result.  On a well-formed object,
for `size() <= new_cap <= max_size()` and with the request granted, each of them returns
normally, all three in the same state: the elements and the size are as before, in the
same order, and the capacity is `new_cap`.  The bound `new_cap <= max_size()` is what
every caller has checked; accordingly every public operation on a well-formed object,
whatever its arguments and whatever the allocator answers, ends in the same way, with the
same object and the same allocator requests, under each of the three strategies. -/
theorem relocation_strategies_agree [Inhabited α] (T : Target) (hT : T.valid)
    (v : myvector α) (sys : Allocator) (hWF : WF T v) :
    (∀ new_cap, size v ≤ new_cap → new_cap ≤ max_size T →
      sys.grants sys.requests.length (bytes_for T new_cap) = true →
      ∃ m, reallocation_trivially_copyable T new_cap ⟨v, sys⟩ = .ok () m ∧
        reallocation_move_constructible T new_cap ⟨v, sys⟩ = .ok () m ∧
        reallocation_copy_constructible T new_cap ⟨v, sys⟩ = .ok () m ∧
        elements m.self = elements v ∧ size m.self = size v ∧
        capacity m.self = new_cap) ∧
    (∀ (tag : realloc_tag) (other : myvector α) (call : public_call α),
      call.admissible T →
      call.run { T with realloc_switcher := tag } ⟨v, other, sys⟩
        = call.run T ⟨v, other, sys⟩) := by
  constructor
  · intro n hsize hmax hg
    obtain ⟨xs, c, hxs, hc, rfl⟩ := (WF_iff T v).mp hWF
    have hn : xs.length ≤ n := hsize
    by_cases hn0 : n = 0
    · subst hn0
      have hnil : xs = [] := List.length_eq_zero.mp (Nat.le_zero.mp hn)
      subst hnil
      obtain ⟨h1, h2, h3⟩ := reallocation_overloads_zero (α := α) T c sys hg
      refine ⟨_, h1, h2, h3, ?_, rfl, rfl⟩
      rw [elements_rep [] c (Nat.zero_le _)]
      rfl
    · obtain ⟨h1, h2, h3⟩ := reallocation_overloads_ok T hT xs c n sys hxs hn
        (Nat.pos_of_ne_zero hn0) hmax hg
      refine ⟨_, h1, h2, h3, ?_, rfl, rfl⟩
      rw [elements_rep xs n hn, elements_rep xs c hxs]
  · intro tag other call harg
    exact public_call_tag T hT tag ⟨v, other, sys⟩ call hWF harg

theorem relocation_strategies_agree_witness :
    (∃ m, reallocation_trivially_copyable T64 5 ⟨rep [1, 2, 3] 3, sys_yes⟩ = .ok () m ∧
      reallocation_move_constructible T64 5 ⟨rep [1, 2, 3] 3, sys_yes⟩ = .ok () m ∧
      reallocation_copy_constructible T64 5 ⟨rep [1, 2, 3] 3, sys_yes⟩ = .ok () m ∧
      elements m.self = [1, 2, 3] ∧ size m.self = 3 ∧ capacity m.self = 5) ∧
    public_call.run { T64 with realloc_switcher := .trivially_copyable_tag }
        (.capacity (.reserve 5)) ⟨rep [1, 2, 3] 3, rep [] 0, sys_yes⟩
      = public_call.run T64 (.capacity (.reserve 5)) ⟨rep [1, 2, 3] 3, rep [] 0, sys_yes⟩ := by
  have h := relocation_strategies_agree T64 (by decide) (rep [1, 2, 3] 3) sys_yes (by decide)
  obtain ⟨m, h1, h2, h3, h4, h5, h6⟩ := h.1 5 (by decide) (by decide) rfl
  exact ⟨⟨m, h1, h2, h3, h4, h5, h6⟩,
    h.2 .trivially_copyable_tag (rep [] 0) (.capacity (.reserve 5)) trivial⟩

/-! ### C29: operator[], at, front, back -/

/-- C29: let `*this` hold the elements `xs` in its block and let `i < size()`.  Then
`operator[](i)` and `at(i)` return the same reference, to the slot `i` of the block, and
its value is the element `xs[i]`; `front()` refers to the slot 0 and `back()` to the
slot `size() - 1`, with the values `xs[0]` and `xs[size() - 1]`.  None of these calls
changes the state.  A write of `y` through the reference returned by any of the four
leaves the data members of the object, so its size and its capacity, as they are, and
likewise the other object, the allocator and every other block; in the block of the
object it replaces the element at that one index by `y`, all other elements being as
before. -/
theorem accessors_result (T : Target) (w : Mem.World α) (xs : List α) (i : Nat) (y : α)
    (hw : Mem.holds w xs) (hfit : xs.length ≤ MAX_SIZE_BYTES T) (hi : i < xs.length) :
    (Mem.index i w = Mem.at_ i w) ∧
    ∀ a ∈ [(Mem.access.index i, i), (Mem.access.at_ i, i), (Mem.access.front, 0),
        (Mem.access.back, xs.length - 1)],
      (Mem.access.get T a.1 : Exec (Mem.World α) Mem.reference) w
        = .ok ⟨w.self.heap_, a.2⟩ w ∧
      (∃ x, xs.get? a.2 = some x ∧ Mem.load T a.1 w = .ok x w) ∧
      ∃ w1, Mem.store_through T a.1 y w = .ok () w1 ∧
        w1.self = w.self ∧ w1.other = w.other ∧ w1.sys = w.sys ∧
        (∀ p, p ≠ w.self.heap_ → w1.store p = w.store p) ∧
        Mem.holds w1 (xs.set a.2 y) ∧
        Mem.elements w1.store w1.self = (Mem.elements w.store w.self).set a.2 y ∧
        (xs.set a.2 y).get? a.2 = some y ∧
        ∀ j, j ≠ a.2 → (xs.set a.2 y).get? j = xs.get? j := by
  have hsize : w.self.size_ = xs.length := hw.1
  have hidx : (Mem.index i : Exec (Mem.World α) Mem.reference) w
      = .ok ⟨w.self.heap_, i⟩ w := rfl
  have hat : (Mem.at_ i : Exec (Mem.World α) Mem.reference) w
      = .ok ⟨w.self.heap_, i⟩ w := by
    have hlt : ¬ (i ≥ w.self.size_) := by rw [hsize]; omega
    simp only [Mem.at_, run_bind, Exec.bind, Mem.get_self, hlt, if_false, run_pure]
  have hfront : (Mem.front : Exec (Mem.World α) Mem.reference) w
      = .ok ⟨w.self.heap_, 0⟩ w := rfl
  have hback : (Mem.back T : Exec (Mem.World α) Mem.reference) w
      = .ok ⟨w.self.heap_, xs.length - 1⟩ w := by
    simp only [Mem.back, run_bind, Exec.bind, Mem.get_self, run_pure, hsize,
      wrap_pred T xs.length (by omega) hfit]
  have key : ∀ (a : Mem.access) (k : Nat), k < xs.length →
      (Mem.access.get T a : Exec (Mem.World α) Mem.reference) w = .ok ⟨w.self.heap_, k⟩ w →
      (Mem.access.get T a : Exec (Mem.World α) Mem.reference) w
        = .ok ⟨w.self.heap_, k⟩ w ∧
      (∃ x, xs.get? k = some x ∧ Mem.load T a w = .ok x w) ∧
      ∃ w1, Mem.store_through T a y w = .ok () w1 ∧
        w1.self = w.self ∧ w1.other = w.other ∧ w1.sys = w.sys ∧
        (∀ p, p ≠ w.self.heap_ → w1.store p = w.store p) ∧
        Mem.holds w1 (xs.set k y) ∧
        Mem.elements w1.store w1.self = (Mem.elements w.store w.self).set k y ∧
        (xs.set k y).get? k = some y ∧
        ∀ j, j ≠ k → (xs.set k y).get? j = xs.get? j := by
    intro a k hk ha
    have hholds : Mem.holds
        ({ w with store := (Mem.update w.store w.self.heap_
            (some ((xs.set k y).map some
              ++ List.replicate (w.self.capacity_ - xs.length) none))) } : Mem.World α)
        (xs.set k y) := by
      refine ⟨?_, ?_, hw.2.2.1, ?_⟩
      · rw [List.length_set]; exact hw.1
      · rw [List.length_set]; exact hw.2.1
      · show Mem.update w.store w.self.heap_ _ w.self.heap_ = _
        simp only [Mem.update, if_true, List.length_set]
    refine ⟨ha, ⟨_, List.get?_eq_get hk, mem_load_at T w xs a k hw hk ha⟩,
      ⟨_, mem_store_at T w xs a k y hw hk ha, rfl, rfl, rfl, ?_, hholds, ?_, ?_, ?_⟩⟩
    · intro p hp
      exact update_other _ _ _ _ hp
    · rw [mem_elements_holds _ _ hholds, mem_elements_holds w xs hw]
    · simp only [List.get?_eq_getElem?, List.getElem?_set_self hk]
    · intro j hj
      simp only [List.get?_eq_getElem?, List.getElem?_set_ne (Ne.symm hj)]
  refine ⟨by rw [hidx, hat], ?_⟩
  intro a ha
  simp only [List.mem_cons, List.mem_singleton, List.not_mem_nil, or_false] at ha
  rcases ha with rfl | rfl | rfl | rfl
  · exact key _ _ hi hidx
  · exact key _ _ hi hat
  · exact key _ _ (by omega) hfront
  · exact key _ _ (by omega) hback

theorem accessors_result_witness :
    Mem.holds world_self123 [1, 2, 3] ∧
    (Mem.load T64 (.index 1) world_self123).state.map (fun _ => ()) = some () ∧
    (∃ w1, Mem.store_through T64 .back 99 world_self123 = .ok () w1 ∧
      w1.self = a123 ∧ Mem.elements w1.store w1.self = [1, 2, 99]) ∧
    (∃ x, [1, 2, 3].get? 1 = some x ∧ Mem.load T64 (.at_ 1) world_self123 = .ok x world_self123) := by
  have hw : Mem.holds world_self123 [1, 2, 3] := ⟨rfl, by decide, by decide, rfl⟩
  have h := accessors_result T64 world_self123 [1, 2, 3] 1 99 hw (by decide) (by decide)
  obtain ⟨_, _, w1, h1, h2, _, _, _, _, h7, _⟩ :=
    h.2 (Mem.access.back, 2) (by simp)
  obtain ⟨_, hx, _⟩ := h.2 (Mem.access.at_ 1, 1) (by simp)
  refine ⟨hw, by decide!, ⟨w1, h1, h2, ?_⟩, hx⟩
  rw [h7, mem_elements_holds _ _ hw]
  rfl

/-! ### C30: max_size -/

/-- C30: `max_size()` is the largest `size_type` value divided, as integers, by
`sizeof(value_type)`; it is the same for a `char`, an `int` and a `double` vector as the
test expects.  Equivalently, a count is at most `max_size()` exactly when that many
elements take no more bytes than the largest `size_type` value.  The function reads no
data member, so its value does not depend on the state of the object: here it is a
function of the instantiation only. -/
theorem max_size_value (T : Target) (hT : T.valid) :
    max_size T = (2 ^ T.bits - 1) / T.sizeof_value ∧
    (∀ n, n ≤ max_size T ↔ T.sizeof_value * n ≤ 2 ^ T.bits - 1) ∧
    (T.bits = 64 → T.sizeof_value = 1 → max_size T = 18446744073709551615) ∧
    (T.bits = 64 → T.sizeof_value = 4 → max_size T = 4611686018427387903) ∧
    (T.bits = 64 → T.sizeof_value = 8 → max_size T = 2305843009213693951) := by
  have hpos : 0 < T.sizeof_value := hT.1
  refine ⟨rfl, ?_, ?_, ?_, ?_⟩
  · intro n
    simp only [max_size, MAX_SIZE, MAX_SIZE_BYTES]
    rw [Nat.le_div_iff_mul_le hpos, Nat.mul_comm]
  · intro hb hs
    simp only [max_size, MAX_SIZE, MAX_SIZE_BYTES, hb, hs]
    norm_num
  · intro hb hs
    simp only [max_size, MAX_SIZE, MAX_SIZE_BYTES, hb, hs]
    norm_num
  · intro hb hs
    simp only [max_size, MAX_SIZE, MAX_SIZE_BYTES, hb, hs]
    norm_num

theorem max_size_value_witness :
    max_size T64 = 4611686018427387903 ∧ max_size T_char = 18446744073709551615 ∧
    max_size T16 = 3 ∧ (3 ≤ max_size T16 ↔ 16384 * 3 ≤ 2 ^ 16 - 1) :=
  ⟨(max_size_value T64 (by decide)).2.2.2.1 rfl rfl,
   (max_size_value T_char (by decide)).2.2.1 rfl rfl,
   (max_size_value T16 (by decide)).1,
   (max_size_value T16 (by decide)).2.1 3⟩

/-! ### C31: the destructor -/

/-- C31: on a well-formed object the body of the destructor returns normally, and at
its end the data members are those of an empty container without a block: `size()` is 0,
`capacity()` is 0, `heap_` is null and `begin() == end()`.  The allocator receives no
request. -/
theorem destructor_result (T : Target) (v : myvector α) (sys : Allocator) (hWF : WF T v) :
    ∃ m, destructor ⟨v, sys⟩ = .ok () m ∧
      size m.self = 0 ∧ capacity m.self = 0 ∧ m.self.heap_ = none ∧
      begin m.self = end_ m.self ∧ elements m.self = [] ∧ m.self = {} ∧ m.sys = sys := by
  obtain ⟨xs, c, hxs, _, rfl⟩ := (WF_iff T v).mp hWF
  exact ⟨_, destructor_run xs c sys hxs, rfl, rfl, rfl, rfl, rfl, rfl, rfl⟩

theorem destructor_result_witness :
    ∃ m, destructor ⟨rep [1, 2, 3] 5, sys_no⟩ = .ok () m ∧
      size m.self = 0 ∧ capacity m.self = 0 ∧ m.self.heap_ = none ∧
      begin m.self = end_ m.self := by
  obtain ⟨m, h1, h2, h3, h4, h5, _⟩ :=
    destructor_result T64 (rep [1, 2, 3] 5) sys_no (by decide)
  exact ⟨m, h1, h2, h3, h4, h5⟩

/-! ### C36: the capacity does not decrease -/

/-- C36: on a well-formed object, `reserve`, both `resize`, `push_back`, the three
`assign`, the copy assignment (from another object or from the object itself) and the
assignment of an initializer list return or throw, and in either case the capacity
afterwards is at least the capacity before the call.  The remaining operations can lower
it: `shrink_to_fit`, the move assignment and the destructor do so on a container with
one element and capacity 4. -/
theorem capacity_monotone [Inhabited α] (T : Target) (hT : T.valid) (v : myvector α)
    (sys : Allocator) (hWF : WF T v) :
    (∀ call : capacity_call α, call ≠ .shrink_to_fit →
      ∃ m, (call.run T ⟨v, sys⟩ = .ok () m ∨ ∃ e, call.run T ⟨v, sys⟩ = .thrown e m) ∧
        capacity v ≤ capacity m.self) ∧
    (∀ call : assign_call α, call.admissible T →
      ∃ m, (call.run T ⟨v, sys⟩ = .ok () m ∨ ∃ e, call.run T ⟨v, sys⟩ = .thrown e m) ∧
        capacity v ≤ capacity m.self) ∧
    operator_assign_copy T .this_object ⟨v, sys⟩ = .ok () ⟨v, sys⟩ ∧
    (∃ m, shrink_to_fit T64 ⟨rep [1] 4, sys_yes⟩ = .ok () m ∧
      capacity m.self < capacity (rep [1] 4)) ∧
    (∃ p, operator_assign_move false ⟨rep [1] 4, rep [2] 1, sys_yes⟩ = .ok () p ∧
      capacity p.self < capacity (rep [1] 4)) ∧
    (∃ m, destructor ⟨rep [1] 4, sys_yes⟩ = .ok () m ∧
      capacity m.self < capacity (rep [1] 4)) := by
  obtain ⟨xs, c, hxs, hc, rfl⟩ := (WF_iff T v).mp hWF
  have hres : ∀ (count : Nat) (y : α), ∃ m,
      (resize_value T count (.object y) ⟨rep xs c, sys⟩ = .ok () m ∨
        ∃ e, resize_value T count (.object y) ⟨rep xs c, sys⟩ = .thrown e m) ∧
      capacity (rep xs c) ≤ capacity m.self := by
    intro count y
    rw [resize_value_run T hT xs c sys count y hxs]
    split_ifs with h1 h2 h3 h4 h5
    · exact ⟨_, Or.inl rfl, le_refl _⟩
    · exact ⟨_, Or.inl rfl, le_refl _⟩
    · exact ⟨_, Or.inl rfl, le_refl _⟩
    · exact ⟨_, Or.inr ⟨_, rfl⟩, le_refl _⟩
    · exact ⟨_, Or.inl rfl, Nat.le_of_lt (Nat.lt_of_not_le h3)⟩
    · exact ⟨_, Or.inr ⟨_, rfl⟩, le_refl _⟩
  refine ⟨?_, ?_, rfl, ⟨⟨rep [1] 1, _⟩, rfl, by decide⟩,
    ⟨⟨rep [2] 1, rep [] 4, sys_yes⟩, rfl, by decide⟩, ⟨⟨rep [] 0, sys_yes⟩, rfl, by decide⟩⟩
  · intro call hne
    cases call with
    | reserve n =>
      simp only [capacity_call.run]
      rw [reserve_run_gen T hT xs c n sys hxs]
      split_ifs with h1 h2 h3
      · exact ⟨_, Or.inr ⟨_, rfl⟩, le_refl _⟩
      · exact ⟨_, Or.inl rfl, Nat.le_of_lt h1⟩
      · exact ⟨_, Or.inr ⟨_, rfl⟩, le_refl _⟩
      · exact ⟨_, Or.inl rfl, le_refl _⟩
    | resize n => exact hres n default
    | resize_value n y => exact hres n y
    | push_back y =>
      simp only [capacity_call.run]
      rw [push_back_run T hT xs c sys y hxs hc]
      split_ifs with h1 h2 h3
      · exact ⟨_, Or.inl rfl, le_refl _⟩
      · exact ⟨_, Or.inr ⟨_, rfl⟩, le_refl _⟩
      · refine ⟨_, Or.inl rfl, ?_⟩
        show c ≤ max 1 (2 * c)
        omega
      · exact ⟨_, Or.inr ⟨_, rfl⟩, le_refl _⟩
    | shrink_to_fit => exact absurd rfl hne
  · intro call harg
    obtain ⟨ys, _, hrun⟩ := assign_call_run T hT xs c sys call hxs harg
    rw [hrun]
    split_ifs with h1 h2 h3
    · exact ⟨_, Or.inr ⟨_, rfl⟩, le_refl _⟩
    · exact ⟨_, Or.inl rfl, Nat.le_of_lt h2⟩
    · exact ⟨_, Or.inr ⟨_, rfl⟩, le_refl _⟩
    · exact ⟨_, Or.inl rfl, le_refl _⟩

theorem capacity_monotone_witness :
    (∃ m, assign T64 1 (.object 9) ⟨rep [1, 2, 3] 4, sys_yes⟩ = .ok () m ∧ 4 ≤ capacity m.self) ∧
    (∃ m, shrink_to_fit T64 ⟨rep [1] 4, sys_yes⟩ = .ok () m ∧ capacity m.self < 4) ∧
    (∃ p, operator_assign_move false ⟨rep [1] 4, rep [2] 1, sys_yes⟩ = .ok () p ∧
      capacity p.self < 4) ∧
    (∃ m, destructor ⟨rep [1] 4, sys_yes⟩ = .ok () m ∧ capacity m.self < 4) := by
  obtain ⟨m, hm, hcap⟩ := (capacity_monotone T64 (by decide) (rep [1, 2, 3] 4) sys_yes
    (by decide)).2.1 (.count_value 1 9) trivial
  have e : assign T64 1 (.object 9) (⟨rep [1, 2, 3] 4, sys_yes⟩ : Machine Nat)
      = .ok () ⟨rep [9] 4, sys_yes⟩ := rfl
  refine ⟨⟨_, e, ?_⟩, ⟨⟨rep [1] 1, _⟩, rfl, by decide⟩,
    ⟨⟨rep [2] 1, rep [] 4, sys_yes⟩, rfl, by decide⟩,
    ⟨⟨rep [] 0, sys_yes⟩, rfl, by decide⟩⟩
  rcases hm with hm | ⟨e1, hm⟩
  · have hm1 : assign T64 1 (.object 9) (⟨rep [1, 2, 3] 4, sys_yes⟩ : Machine Nat) = .ok () m := hm
    rw [e] at hm1
    cases hm1
    exact hcap
  · have hm1 : assign T64 1 (.object 9) (⟨rep [1, 2, 3] 4, sys_yes⟩ : Machine Nat) = .thrown e1 m := hm
    rw [e] at hm1
    cases hm1

/-! ### C37: reserve after reserve -/

/-- C37: on a well-formed object, for `a, b <= max_size()` and an allocator that grants
every request, `reserve(a); reserve(b);` returns normally and leaves the object with the
same data members, hence the same elements, size and capacity, as the single call
`reserve(max(a, b))`: the elements and the size are those before, and the capacity is
the largest of the old capacity, `a` and `b`.  In particular the order of the two calls
does not matter, and a repeated `reserve(a)` changes nothing the first has not done. -/
theorem reserve_composes (T : Target) (hT : T.valid) (v : myvector α) (sys : Allocator)
    (a b : Nat) (hWF : WF T v) (ha : a ≤ max_size T) (hb : b ≤ max_size T)
    (hgen : sys.generous) :
    ∃ m_ab m_ba m_max m_aa m_a,
      Exec.bind (reserve T a) (fun _ => reserve T b) ⟨v, sys⟩ = .ok () m_ab ∧
      Exec.bind (reserve T b) (fun _ => reserve T a) ⟨v, sys⟩ = .ok () m_ba ∧
      reserve T (max a b) ⟨v, sys⟩ = .ok () m_max ∧
      Exec.bind (reserve T a) (fun _ => reserve T a) ⟨v, sys⟩ = .ok () m_aa ∧
      reserve T a ⟨v, sys⟩ = .ok () m_a ∧
      m_ab.self = m_max.self ∧ m_ba.self = m_ab.self ∧ m_aa.self = m_a.self ∧
      elements m_ab.self = elements v ∧ size m_ab.self = size v ∧
      capacity m_ab.self = max (capacity v) (max a b) := by
  obtain ⟨xs, c, hxs, hc, rfl⟩ := (WF_iff T v).mp hWF
  have one : ∀ (n c0 : Nat) (s : Allocator), s.generous → xs.length ≤ c0 → n ≤ MAX_SIZE T →
      ∃ s1 : Allocator, s1.generous ∧
        reserve T n ⟨rep xs c0, s⟩ = .ok () ⟨rep xs (max c0 n), s1⟩ := by
    intro n c0 s hs hx hn
    rw [reserve_run T hT xs c0 n s hx hn (fun _ => hs _ _)]
    by_cases h : c0 < n
    · simp only [h, if_true]
      exact ⟨(s.request (bytes_for T n)).2, fun k bytes => hs k bytes,
        by rw [Nat.max_eq_right (Nat.le_of_lt h)]⟩
    · simp only [h, if_false]
      exact ⟨s, hs, by rw [Nat.max_eq_left (Nat.le_of_not_lt h)]⟩
  have two : ∀ n k : Nat, n ≤ MAX_SIZE T → k ≤ MAX_SIZE T →
      ∃ s2 : Allocator,
        Exec.bind (reserve T n) (fun _ => reserve T k) ⟨rep xs c, sys⟩
          = .ok () ⟨rep xs (max (max c n) k), s2⟩ := by
    intro n k hn hk
    obtain ⟨s1, hs1, e1⟩ := one n c sys hgen hxs hn
    obtain ⟨s2, _, e2⟩ := one k (max c n) s1 hs1 (le_trans hxs (Nat.le_max_left _ _)) hk
    exact ⟨s2, by simp only [Exec.bind, e1, e2]⟩
  obtain ⟨s_ab, e_ab⟩ := two a b ha hb
  obtain ⟨s_ba, e_ba⟩ := two b a hb ha
  obtain ⟨s_aa, e_aa⟩ := two a a ha ha
  obtain ⟨s_max, _, e_max⟩ := one (max a b) c sys hgen hxs (Nat.max_le.mpr ⟨ha, hb⟩)
  obtain ⟨s_a, _, e_a⟩ := one a c sys hgen hxs ha
  have hle : xs.length ≤ max (max c a) b :=
    le_trans hxs (le_trans (Nat.le_max_left _ _) (Nat.le_max_left _ _))
  refine ⟨_, _, _, _, _, e_ab, e_ba, e_max, e_aa, e_a, ?_, ?_, ?_, ?_, rfl, ?_⟩
  · show rep xs (max (max c a) b) = rep xs (max c (max a b))
    rw [Nat.max_assoc]
  · show rep xs (max (max c b) a) = rep xs (max (max c a) b)
    rw [Nat.max_assoc, Nat.max_comm b a, ← Nat.max_assoc]
  · show rep xs (max (max c a) a) = rep xs (max c a)
    rw [Nat.max_assoc, Nat.max_self]
  · rw [elements_rep xs _ hle, elements_rep xs c hxs]
  · show max (max c a) b = max c (max a b)
    rw [Nat.max_assoc]

theorem reserve_composes_witness :
    ∃ m_ab m_max,
      Exec.bind (reserve T64 5) (fun _ => reserve T64 2) ⟨rep [1, 2, 3] 3, sys_yes⟩
        = .ok () m_ab ∧
      reserve T64 (max 5 2) ⟨rep [1, 2, 3] 3, sys_yes⟩ = .ok () m_max ∧
      m_ab.self = m_max.self ∧ elements m_ab.self = [1, 2, 3] ∧ capacity m_ab.self = 5 := by
  obtain ⟨m_ab, _, m_max, _, _, h1, _, h3, _, _, h6, _, _, h9, _, h11⟩ :=
    reserve_composes T64 (by decide) (rep [1, 2, 3] 3) sys_yes 5 2 (by decide) (by decide)
      (by decide) (fun _ _ => rfl)
  exact ⟨m_ab, m_max, h1, h3, h6, h9, h11⟩

/-! ### C38: push_back, then resize to the old size -/

/-- C38: let `v` be well formed with the elements `xs` and size `n`.  When `push_back(x)`
returns, the following `resize(n)` (with or without a value) returns as well, without a
request to the allocator, and the container again holds exactly the elements `xs` with
size `n`; the capacity is the one `push_back` left, which is at least the capacity at
the start.  The arguments `x` and the value of `resize` are objects outside the
container. -/
theorem push_back_resize_round_trip [Inhabited α] (T : Target) (hT : T.valid)
    (v : myvector α) (sys : Allocator) (x y : α) (hWF : WF T v) :
    ∀ m1, push_back T (.object x) ⟨v, sys⟩ = .ok () m1 →
      ∃ m2, resize T (size v) m1 = .ok () m2 ∧
        resize_value T (size v) (.object y) m1 = .ok () m2 ∧
        elements m2.self = elements v ∧ size m2.self = size v ∧
        capacity m2.self = capacity m1.self ∧ capacity v ≤ capacity m2.self ∧
        m2.sys = m1.sys := by
  obtain ⟨xs, c, hxs, hc, rfl⟩ := (WF_iff T v).mp hWF
  have back : ∀ (c1 : Nat) (s : Allocator), xs.length + 1 ≤ c1 → c ≤ c1 →
      ∃ m2, resize T (size (rep xs c)) ⟨rep (xs ++ [x]) c1, s⟩ = .ok () m2 ∧
        resize_value T (size (rep xs c)) (.object y) ⟨rep (xs ++ [x]) c1, s⟩ = .ok () m2 ∧
        elements m2.self = elements (rep xs c) ∧ size m2.self = size (rep xs c) ∧
        capacity m2.self = capacity (rep (xs ++ [x]) c1) ∧
        capacity (rep xs c) ≤ capacity m2.self ∧ m2.sys = s := by
    intro c1 s h1 h2
    have hl : (xs ++ [x]).length = xs.length + 1 := by
      rw [List.length_append, List.length_singleton]
    have hlt : xs.length < (xs ++ [x]).length := by omega
    have key : ∀ z : α, resize_value T xs.length (.object z) ⟨rep (xs ++ [x]) c1, s⟩
        = .ok () ⟨rep xs c1, s⟩ := by
      intro z
      rw [resize_value_run T hT (xs ++ [x]) c1 s xs.length z (by omega)]
      simp only [hlt, if_true, List.take_left']
    refine ⟨_, key default, key y, ?_, rfl, rfl, h2, rfl⟩
    rw [elements_rep xs c1 (by omega), elements_rep xs c hxs]
  intro m1 hm1
  rw [push_back_run T hT xs c sys x hxs hc] at hm1
  split_ifs at hm1 with h1 h2 h3
  · cases hm1
    exact back c sys h1 (le_refl _)
  · cases hm1
    exact back _ _ (by omega) (by omega)

theorem push_back_resize_round_trip_witness :
    ∃ m1 m2, push_back T64 (.object 4) ⟨rep [1, 2, 3] 3, sys_yes⟩ = .ok () m1 ∧
      resize T64 3 m1 = .ok () m2 ∧ elements m2.self = [1, 2, 3] ∧ size m2.self = 3 ∧
      capacity m2.self = 6 := by
  have e : push_back T64 (.object 4) (⟨rep [1, 2, 3] 3, sys_yes⟩ : Machine Nat)
      = .ok () ⟨rep [1, 2, 3, 4] 6, { grants := sys_yes.grants, requests := [24] }⟩ := rfl
  obtain ⟨m2, h1, _, h3, h4, h5, _⟩ :=
    push_back_resize_round_trip T64 (by decide) (rep [1, 2, 3] 3) sys_yes 4 0 (by decide) _ e
  exact ⟨_, m2, e, h1, h3, h4, h5⟩

/-! ### C39: the source after a move assignment -/

/-- C39: after the move assignment `v = std::move(src)` between two distinct objects,
`v` well formed with capacity `c`, and whatever `src` held: the source has size 0 and
capacity exactly `c`; its block is the former block of `v` with all `c` slots raw, and
no block at all for `c = 0`.  So `size_ <= capacity_` holds for the source, its `heap_`
is null exactly when its capacity is 0, and it has the members of a default-constructed
object only if `c` was 0. -/
theorem move_assignment_source_state (T : Target) (v src : myvector α) (sys : Allocator)
    (hWF : WF T v) :
    ∃ p, operator_assign_move false ⟨v, src, sys⟩ = .ok () p ∧
      size p.other = 0 ∧ capacity p.other = capacity v ∧
      p.other.heap_ = (if capacity v = 0 then none
        else some (List.replicate (capacity v) none)) ∧
      size p.other ≤ capacity p.other ∧
      (p.other.heap_ ≠ none ↔ 0 < capacity p.other) ∧
      (p.other = {} ↔ capacity v = 0) ∧ p.sys = sys := by
  obtain ⟨xs, c, hxs, hc, rfl⟩ := (WF_iff T v).mp hWF
  have hw : WF T (rep ([] : List α) c) := WF_rep T [] c (Nat.zero_le _) hc
  refine ⟨_, operator_assign_move_run xs c src sys hxs, rfl, rfl, ?_, Nat.zero_le _,
    WF_heap T _ hw, ?_, rfl⟩
  · show (rep ([] : List α) c).heap_ = _
    simp only [rep, List.map_nil, List.nil_append, List.length_nil, Nat.sub_zero,
      capacity]
  · show rep ([] : List α) c = {} ↔ c = 0
    constructor
    · intro h
      have h1 : (rep ([] : List α) c).capacity_ = 0 := by rw [h]
      exact h1
    · intro h
      subst h
      rfl

theorem move_assignment_source_state_witness :
    ∃ p, operator_assign_move false ⟨rep [1, 2] 4, rep [7, 8, 9] 3, sys_yes⟩ = .ok () p ∧
      size p.other = 0 ∧ capacity p.other = 4 ∧
      p.other.heap_ = some [none, none, none, none] ∧ p.other ≠ {} := by
  obtain ⟨p, h1, h2, h3, h4, _, _, h7, _⟩ :=
    move_assignment_source_state T64 (rep [1, 2] 4) (rep [7, 8, 9] 3) sys_yes (by decide)
  refine ⟨p, h1, h2, h3, ?_, ?_⟩
  · rw [h4]; rfl
  · intro h
    exact absurd (h7.mp h) (by decide)

/-! ### C35: the slot that push_back writes -/

/-- C35: `push_back` consists of the statement that makes room and the two that
construct the element and count it.  On a well-formed object, whenever the first
returns, so that control reaches the placement new at index `size_`, the object is well
formed with the elements as before and `size_ < capacity_`; the slot `size_` lies in the
block and is raw, and the construction returns normally.  The first statement itself
returns or throws, it has no undefined behaviour.  Whenever `need_twice_capacity`
returns, `size_ + 1` has not wrapped: it is not 0 and equals the mathematical sum, also
for elements of one byte where `max_size()` is the largest `size_type` value, because
`size_ >= MAX_SIZE` has thrown before; and its answer is true exactly for a full
container. -/
theorem push_back_slot_in_block (T : Target) (hT : T.valid) (v : myvector α)
    (sys : Allocator) (value : α) (hWF : WF T v) :
    push_back T (.object value)
      = Exec.bind (push_back_grow T) (fun _ => push_back_construct T value) ∧
    (∀ m, push_back_grow T ⟨v, sys⟩ = .ok () m →
      m.self.size_ < m.self.capacity_ ∧
      (∃ blk, m.self.heap_ = some blk ∧ blk.length = m.self.capacity_ ∧
        blk.get? m.self.size_ = some none) ∧
      WF T m.self ∧ elements m.self = elements v ∧ size m.self = size v ∧
      ∃ m2, push_back_construct T value m = .ok () m2 ∧
        elements m2.self = elements v ++ [value]) ∧
    ((∃ m, push_back_grow T ⟨v, sys⟩ = .ok () m) ∨
      ∃ e m, push_back_grow T ⟨v, sys⟩ = .thrown e m) ∧
    (∀ b m, need_twice_capacity T ⟨v, sys⟩ = .ok b m →
      wrap T (size v + 1) = size v + 1 ∧ wrap T (size v + 1) ≠ 0 ∧
      size v < max_size T ∧ (b = true ↔ size v = capacity v)) := by
  obtain ⟨xs, c, hxs, hc, rfl⟩ := (WF_iff T v).mp hWF
  have hMB := MAX_SIZE_le T
  have hM := MAX_SIZE_pos T hT
  have reach : ∀ (c1 : Nat) (s : Allocator), xs.length < c1 → c1 ≤ MAX_SIZE T →
      (rep xs c1).size_ < (rep xs c1).capacity_ ∧
      (∃ blk, (rep xs c1).heap_ = some blk ∧ blk.length = (rep xs c1).capacity_ ∧
        blk.get? (rep xs c1).size_ = some none) ∧
      WF T (rep xs c1) ∧ elements (rep xs c1) = elements (rep xs c) ∧
      size (rep xs c1) = size (rep xs c) ∧
      ∃ m2, push_back_construct T value ⟨rep xs c1, s⟩ = .ok () m2 ∧
        elements m2.self = elements (rep xs c) ++ [value] := by
    intro c1 s h1 h2
    refine ⟨h1, raw_slot_rep xs c1 h1, WF_rep T xs c1 (Nat.le_of_lt h1) h2, ?_, rfl,
      _, push_back_construct_run T xs c1 s value h1 h2, ?_⟩
    · rw [elements_rep xs c1 (Nat.le_of_lt h1), elements_rep xs c hxs]
    · rw [elements_rep xs c hxs]
      exact elements_rep (xs ++ [value]) c1
        (by rw [List.length_append, List.length_singleton]; omega)
  refine ⟨push_back_split T value, ?_, ?_, ?_⟩
  · intro m hm
    rw [push_back_grow_run T hT xs c sys hxs hc] at hm
    split_ifs at hm with h1 h2 h3
    · cases hm
      exact reach c sys h1 hc
    · cases hm
      exact reach _ _ (by omega) (by omega)
  · rw [push_back_grow_run T hT xs c sys hxs hc]
    split_ifs with h1 h2 h3
    · exact Or.inl ⟨_, rfl⟩
    · exact Or.inr ⟨_, _, rfl⟩
    · exact Or.inl ⟨_, rfl⟩
    · exact Or.inr ⟨_, _, rfl⟩
  · intro b m hb
    simp only [need_twice_capacity, run_bind, Exec.bind, get_self, size_rep, capacity_rep]
      at hb
    by_cases h1 : xs.length ≥ MAX_SIZE T
    · simp only [h1, if_true, raise] at hb
      cases hb
    · have h2 : wrap T (xs.length + 1) = xs.length + 1 := wrap_of_le T _ (by omega)
      simp only [h1, if_false, run_pure, h2] at hb
      cases hb
      refine ⟨h2, ?_, Nat.lt_of_not_le h1, ?_⟩
      · show wrap T (xs.length + 1) ≠ 0
        rw [h2]
        omega
      · show decide (xs.length + 1 > c) = true ↔ xs.length = c
        rw [decide_eq_true_iff]
        constructor
        · intro h; omega
        · intro h; omega

theorem push_back_slot_in_block_witness :
    (∃ m, push_back_grow T64 ⟨rep [1, 2] 2, sys_yes⟩ = .ok () m ∧
      m.self.size_ = 2 ∧ m.self.capacity_ = 4 ∧ m.self.size_ < m.self.capacity_) ∧
    max_size T_tiny = 3 ∧ MAX_SIZE_BYTES T_tiny = 3 ∧
    push_back T_tiny (.object 9) ⟨rep [1, 2, 3] 3, sys_yes⟩
      = .thrown .length_error ⟨rep [1, 2, 3] 3, sys_yes⟩ ∧
    (∃ m, push_back_grow T_tiny ⟨rep [1, 2] 3, sys_yes⟩ = .ok () m ∧
      m.self.size_ < m.self.capacity_) := by
  have h := push_back_slot_in_block T64 (by decide) (rep [1, 2] 2) sys_yes 9 (by decide)
  have g := push_back_slot_in_block T_tiny (by decide) (rep [1, 2] 3) sys_yes 9 (by decide)
  have e1 : push_back_grow T64 (⟨rep [1, 2] 2, sys_yes⟩ : Machine Nat)
      = .ok () ⟨rep [1, 2] 4, { grants := sys_yes.grants, requests := [16] }⟩ := rfl
  have e2 : push_back_grow T_tiny (⟨rep [1, 2] 3, sys_yes⟩ : Machine Nat)
      = .ok () ⟨rep [1, 2] 3, sys_yes⟩ := rfl
  exact ⟨⟨_, e1, rfl, rfl, (h.2.1 _ e1).1⟩, rfl, rfl, rfl, ⟨_, e2, (g.2.1 _ e2).1⟩⟩

/-! ### C34: no byte count wraps -/

/-- C34: the byte counts handed to `malloc` and `realloc` never wrap.  Every constructor
on admissible arguments and every operation on a well-formed object that can reach
`mymalloc` or `reallocation` makes either no request at all or exactly one, whatever the
allocator answers; that request is for `n <= max_size()` elements, its byte count is the
product `sizeof(value_type) * n` itself and fits `size_type`, and when it is granted the
call returns with capacity `n`.  For the counts that reach the allocator without
`length_check`: the size of a well-formed object (the copy constructor passes
`other.size()`, `shrink_to_fit` passes `size_`) is at most `max_size()`; `length_check`
returns its argument only if that is at most `max_size()`; and when `twice_length`
returns, `capacity_ * 2` has not wrapped and the result `max(1, 2 * capacity_)` is at
most `max_size()`. -/
theorem no_size_wrap [Inhabited α] (T : Target) (hT : T.valid) (v : myvector α)
    (reqs : List Nat) (hWF : WF T v) :
    (∀ call : ctor_call α, call.admissible T →
      no_request (call.run T) {} reqs ∨ ∃ n, single_request T (call.run T) {} reqs n) ∧
    (∀ call : capacity_call α,
      no_request (call.run T) v reqs ∨ ∃ n, single_request T (call.run T) v reqs n) ∧
    (∀ call : assign_call α, call.admissible T →
      no_request (call.run T) v reqs ∨ ∃ n, single_request T (call.run T) v reqs n) ∧
    (size v ≤ max_size T ∧ bytes_for T (size v) = T.sizeof_value * size v ∧
      T.sizeof_value * size v ≤ MAX_SIZE_BYTES T) ∧
    (∀ (count n : Nat) (m m1 : Machine α), length_check T count m = .ok n m1 →
      n = count ∧ n ≤ max_size T ∧ bytes_for T n = T.sizeof_value * n) ∧
    (∀ (sys : Allocator) (n : Nat) (m : Machine α), twice_length T ⟨v, sys⟩ = .ok n m →
      capacity v * 2 ≤ MAX_SIZE_BYTES T ∧ wrap T (capacity v * 2) = capacity v * 2 ∧
      n = max 1 (2 * capacity v) ∧ n ≤ max_size T ∧
      bytes_for T n = T.sizeof_value * n) := by
  have hMB := MAX_SIZE_le T
  have hM := MAX_SIZE_pos T hT
  refine ⟨fun call harg => ctor_call_requests T hT reqs call harg,
    fun call => capacity_call_requests T hT v reqs call hWF,
    fun call harg => assign_call_requests T hT v reqs call hWF harg, ?_, ?_, ?_⟩
  · have hs : size v ≤ MAX_SIZE T := le_trans hWF.1 hWF.2.1
    exact ⟨hs, bytes_for_eq T _ hs, sizeof_mul_le T _ hs⟩
  · intro count n m m1 h
    by_cases h1 : count > MAX_SIZE T
    · simp only [length_check, h1, if_true, raise] at h
      cases h
    · simp only [length_check, h1, if_false, Exec.pure] at h
      cases h
      exact ⟨rfl, Nat.le_of_not_lt h1, bytes_for_eq T _ (Nat.le_of_not_lt h1)⟩
  · intro sys n m h
    have hc : v.capacity_ ≤ MAX_SIZE T := hWF.2.1
    simp only [twice_length, run_bind, Exec.bind, get_self] at h
    by_cases h1 : v.capacity_ > MAX_SIZE T / 2
    · simp only [h1, if_true, raise] at h
      cases h
    · have h2 : v.capacity_ * 2 ≤ MAX_SIZE_BYTES T := by omega
      have h3 : wrap T (v.capacity_ * 2) = v.capacity_ * 2 := wrap_of_le T _ h2
      simp only [h1, if_false, run_pure, h3] at h
      cases h
      have h4 : (if v.capacity_ ≠ 0 then v.capacity_ * 2 else 1) = max 1 (2 * v.capacity_) := by
        by_cases hc0 : v.capacity_ = 0
        · simp [hc0]
        · simp only [hc0, ne_eq, not_false_eq_true, if_true]
          omega
      have h5 : max 1 (2 * v.capacity_) ≤ MAX_SIZE T := by omega
      refine ⟨h2, h3, h4, ?_, ?_⟩
      · show (if v.capacity_ ≠ 0 then v.capacity_ * 2 else 1) ≤ MAX_SIZE T
        rw [h4]
        exact h5
      · show bytes_for T (if v.capacity_ ≠ 0 then v.capacity_ * 2 else 1) = _
        rw [h4]
        exact bytes_for_eq T _ h5

theorem no_size_wrap_witness :
    max_size T16 = 3 ∧ MAX_SIZE_BYTES T16 = 65535 ∧
    reserve T16 3 ⟨rep [7, 8] 2, sys_yes⟩
      = .ok () ⟨rep [7, 8] 3, { grants := sys_yes.grants, requests := [16384 * 3] }⟩ ∧
    single_request T16 (reserve T16 3) (rep [7, 8] 2) [] 3 ∧
    (∀ (n : Nat) (m : Machine Nat), twice_length T16 ⟨rep [7] 1, sys_yes⟩ = .ok n m →
      n = 2) := by
  have h := no_size_wrap T16 (by decide) (rep [7, 8] 2) [] (by decide)
  have g := no_size_wrap T16 (by decide) (rep [7] 1) [] (by decide)
  have e : reserve T16 3 (⟨rep [7, 8] 2, sys_yes⟩ : Machine Nat)
      = .ok () ⟨rep [7, 8] 3, { grants := sys_yes.grants, requests := [16384 * 3] }⟩ := rfl
  refine ⟨rfl, rfl, e, ?_, fun n m hn => (g.2.2.2.2.2 sys_yes n m hn).2.2.1⟩
  rcases h.2.1 (.reserve 3) with h0 | ⟨n, hn⟩
  · obtain ⟨m, hm, hsys⟩ := h0 sys_yes.grants
    have hm1 : (reserve T16 3 (⟨rep [7, 8] 2, sys_yes⟩ : Machine Nat) = .ok () m ∨
        ∃ e1, reserve T16 3 (⟨rep [7, 8] 2, sys_yes⟩ : Machine Nat) = .thrown e1 m) := hm
    rw [e] at hm1
    rcases hm1 with hm1 | ⟨e1, hm1⟩
    · cases hm1
      have hreq := congrArg Allocator.requests hsys
      exact absurd hreq (by decide)
    · cases hm1
  · obtain ⟨hn1, hn2, hn3⟩ := hn
    obtain ⟨m, hm, hsys, _⟩ := hn3 sys_yes.grants
    have hm1 : (reserve T16 3 (⟨rep [7, 8] 2, sys_yes⟩ : Machine Nat) = .ok () m ∨
        ∃ e1, reserve T16 3 (⟨rep [7, 8] 2, sys_yes⟩ : Machine Nat) = .thrown e1 m) := hm
    rw [e] at hm1
    rcases hm1 with hm1 | ⟨e1, hm1⟩
    · cases hm1
      have hreq := congrArg Allocator.requests hsys
      have hn4 : [16384 * 3] = [] ++ [T16.sizeof_value * n] := hreq
      have hn5 : n = 3 := by
        simp only [List.nil_append, List.cons.injEq, and_true] at hn4
        have : T16.sizeof_value = 16384 := rfl
        rw [this] at hn4
        omega
      subst hn5
      exact ⟨hn1, hn2, hn3⟩
    · cases hm1

/-! ### C32: insert at a position -/

/-- C32: let `v` be well formed with the elements `xs`, and `p <= size()`.  Whenever
`insert(begin() + p, x)` returns, the container holds `xs[0..p) ++ [x] ++ xs[p..size)`,
its size is one more than before, it is well formed, and the iterator returned is
`begin() + p` of the container as it is now, the position of the new element.  The call
does return when the size is below the capacity, and also when the size is below
`max_size()`, the capacity is at most `max_size() / 2` and the allocator grants the
block.  An insertion of zero elements (a count of 0, an empty range or list) returns the
iterator `begin() + p` and changes neither the container nor the allocator. -/
theorem insert_result (T : Target) (hT : T.valid) (v : myvector α) (sys : Allocator)
    (p : Nat) (x : α) (hWF : WF T v) (hp : p ≤ size v) :
    (∀ r m1, insert T p x ⟨v, sys⟩ = .ok r m1 →
      elements m1.self = (elements v).take p ++ [x] ++ (elements v).drop p ∧
      size m1.self = size v + 1 ∧ WF T m1.self ∧
      r = { base := (begin m1.self).base, offset := (begin m1.self).offset + p }) ∧
    (size v < capacity v ∨ (size v < MAX_SIZE T ∧ capacity v ≤ MAX_SIZE T / 2 ∧
        sys.grants sys.requests.length
          (bytes_for T (max (max 1 (2 * capacity v)) (size v + 1))) = true) →
      ∃ r m1, insert T p x ⟨v, sys⟩ = .ok r m1) ∧
    insert_count T p 0 x ⟨v, sys⟩
      = .ok { base := (begin v).base, offset := (begin v).offset + p } ⟨v, sys⟩ ∧
    insert_values T p [] ⟨v, sys⟩
      = .ok { base := (begin v).base, offset := (begin v).offset + p } ⟨v, sys⟩ := by
  obtain ⟨xs, c, hxs, hc, rfl⟩ := (WF_iff T v).mp hWF
  have hsz : size (rep xs c) = xs.length := rfl
  have hcap : capacity (rep xs c) = c := rfl
  rw [hsz] at hp
  have hnp : ¬ (p > (rep xs c).size_) := not_lt.mpr hp
  have hzero : insert_values T p [] ⟨rep xs c, sys⟩
      = .ok { base := (begin (rep xs c)).base, offset := (begin (rep xs c)).offset + p }
          ⟨rep xs c, sys⟩ := by
    simp only [insert_values, run_bind, Exec.bind, get_self, hnp, if_false, List.length_nil,
      if_true, run_pure, Exec.pure, begin, Nat.zero_add]
  refine ⟨?_, ?_, ?_, hzero⟩
  · intro r m1 h
    obtain ⟨c1, s1, h1, h2, _, rfl, rfl⟩ := insert_ok T hT xs c sys p x hp hxs hc r m1 h
    have hl := insert_length xs p x
    refine ⟨?_, ?_, WF_rep T _ c1 (by omega) h2, ?_⟩
    · rw [elements_rep _ c1 (by omega), elements_rep xs c hxs]
    · rw [hsz]; exact hl
    · simp only [begin, Nat.zero_add]
  · rw [hsz, hcap]
    exact insert_returns T hT xs c sys p x hp hxs hc
  · simp only [insert_count, List.replicate_zero]
    exact hzero

theorem insert_result_witness :
    ∃ r m1, insert T64 1 9 ⟨rep [1, 2, 3] 3, sys_yes⟩ = .ok r m1 ∧
      elements m1.self = [1, 9, 2, 3] ∧ size m1.self = 4 ∧ r.offset = 1 ∧
      r.base = m1.self.heap_ ∧
      insert_count T64 1 0 9 ⟨rep [1, 2, 3] 3, sys_yes⟩
        = .ok { base := (rep [1, 2, 3] 3).heap_, offset := 1 } ⟨rep [1, 2, 3] 3, sys_yes⟩ := by
  have e : insert T64 1 9 (⟨rep [1, 2, 3] 3, sys_yes⟩ : Machine Nat)
      = .ok { base := (rep [1, 9, 2, 3] 6).heap_, offset := 1 }
          ⟨rep [1, 9, 2, 3] 6, { grants := sys_yes.grants, requests := [24] }⟩ := rfl
  obtain ⟨h1, _, h3, _⟩ :=
    insert_result T64 (by decide) (rep [1, 2, 3] 3) sys_yes 1 9 (by decide) (by decide)
  obtain ⟨g1, g2, _, g4⟩ := h1 _ _ e
  exact ⟨_, _, e, g1, g2, congrArg pointer.offset g4, congrArg pointer.base g4, h3⟩

/-! ### C33: insert, then erase at the same position -/

/-- C33: let `v` be well formed and `p <= size()`.  Whenever `insert(begin() + p, x)`
returns, `erase` at the iterator it returned returns as well, without a request to the
allocator, and the container again holds the elements and has the size it had before the
insertion; the capacity is the one the insertion left, which is at least the capacity at
the start.  The insertion does return when the size is below the capacity.  `erase`
never changes the capacity: for every range `[first, last)` within the elements, and
for every position of an element, the call returns, the capacity is what it was, and
the elements are those outside the range. -/
theorem insert_erase_round_trip (T : Target) (hT : T.valid) (v : myvector α)
    (sys : Allocator) (p : Nat) (x : α) (hWF : WF T v) (hp : p ≤ size v) :
    (∀ r m1, insert T p x ⟨v, sys⟩ = .ok r m1 →
      ∃ r2 m2, erase r.offset m1 = .ok r2 m2 ∧
        elements m2.self = elements v ∧ size m2.self = size v ∧
        capacity m2.self = capacity m1.self ∧ capacity v ≤ capacity m2.self ∧
        m2.sys = m1.sys) ∧
    (size v < capacity v → ∃ r m1, insert T p x ⟨v, sys⟩ = .ok r m1) ∧
    (∀ first last, first ≤ last → last ≤ size v →
      ∃ r m, erase_range first last ⟨v, sys⟩ = .ok r m ∧
        capacity m.self = capacity v ∧
        elements m.self = (elements v).take first ++ (elements v).drop last ∧
        r = { base := (begin m.self).base, offset := (begin m.self).offset + first }) ∧
    (∀ pos, pos < size v →
      ∃ r m, erase pos ⟨v, sys⟩ = .ok r m ∧ capacity m.self = capacity v ∧
        elements m.self = (elements v).take pos ++ (elements v).drop (pos + 1)) := by
  obtain ⟨xs, c, hxs, hc, rfl⟩ := (WF_iff T v).mp hWF
  have hsz : size (rep xs c) = xs.length := rfl
  have hcap : capacity (rep xs c) = c := rfl
  have hel : elements (rep xs c) = xs := elements_rep xs c hxs
  rw [hsz] at hp
  have range : ∀ first last, first ≤ last → last ≤ xs.length →
      erase_range first last ⟨rep xs c, sys⟩
        = .ok { base := (rep (xs.take first ++ xs.drop last) c).heap_, offset := first }
            ⟨rep (xs.take first ++ xs.drop last) c, sys⟩
        ∧ (xs.take first ++ xs.drop last).length ≤ c := by
    intro first last h1 h2
    obtain ⟨e1, e2, e3⟩ := split_three xs first last h1 h2
    have h := erase_range_run (xs.take first) ((xs.drop first).take (last - first))
      (xs.drop last) c sys (by rw [e1]; exact hxs)
    have e4 : first + (last - first) = last := by omega
    rw [e1, e2, e3, e4] at h
    refine ⟨h, ?_⟩
    have hl := congrArg List.length e1
    simp only [List.length_append] at hl ⊢
    omega
  refine ⟨?_, ?_, ?_, ?_⟩
  · intro r m1 h
    obtain ⟨c1, s1, h1, h2, h3, rfl, rfl⟩ := insert_ok T hT xs c sys p x hp hxs hc r m1 h
    have hl := insert_length xs p x
    have hpl : (xs.take p).length = p := by rw [List.length_take]; omega
    have he := erase_run (xs.take p) (xs.drop p) x c1 s1 (by omega)
    rw [hpl, List.take_append_drop] at he
    refine ⟨_, _, he, ?_, rfl, rfl, h3, rfl⟩
    rw [elements_rep xs c1 (by omega), hel]
  · intro h
    rw [hsz, hcap] at h
    exact insert_returns T hT xs c sys p x hp hxs hc (Or.inl h)
  · intro first last h1 h2
    rw [hsz] at h2
    obtain ⟨h, hl⟩ := range first last h1 h2
    refine ⟨_, _, h, rfl, ?_, ?_⟩
    · rw [elements_rep _ c hl, hel]
    · simp only [begin, Nat.zero_add]
  · intro pos h1
    rw [hsz] at h1
    obtain ⟨h, hl⟩ := range pos (pos + 1) (by omega) (by omega)
    have hs : (rep xs c).size_ = xs.length := rfl
    have he : erase pos ⟨rep xs c, sys⟩
        = .ok { base := (rep (xs.take pos ++ xs.drop (pos + 1)) c).heap_, offset := pos }
            ⟨rep (xs.take pos ++ xs.drop (pos + 1)) c, sys⟩ := by
      simp only [erase, run_bind, Exec.bind, get_self, hs, h1, if_true, h]
    refine ⟨_, _, he, rfl, ?_⟩
    rw [elements_rep _ c hl, hel]

theorem insert_erase_round_trip_witness :
    ∃ r m1 r2 m2, insert T64 1 9 ⟨rep [1, 2, 3] 3, sys_yes⟩ = .ok r m1 ∧
      erase r.offset m1 = .ok r2 m2 ∧ elements m2.self = [1, 2, 3] ∧ size m2.self = 3 ∧
      capacity m2.self = 6 ∧ capacity (rep [1, 2, 3] 3) = 3 := by
  have e : insert T64 1 9 (⟨rep [1, 2, 3] 3, sys_yes⟩ : Machine Nat)
      = .ok { base := (rep [1, 9, 2, 3] 6).heap_, offset := 1 }
          ⟨rep [1, 9, 2, 3] 6, { grants := sys_yes.grants, requests := [24] }⟩ := rfl
  obtain ⟨h1, _⟩ :=
    insert_erase_round_trip T64 (by decide) (rep [1, 2, 3] 3) sys_yes 1 9 (by decide)
      (by decide)
  obtain ⟨r2, m2, g1, g2, g3, g4, _⟩ := h1 _ _ e
  exact ⟨_, _, r2, m2, e, g1, g2, g3, g4, rfl⟩

end Claims

end MyVector
